import Mathlib

/-!
# The frame-resource ring of the TreeBillboards demo

A shallow embedding of `Week7-2-TreeBillboardsApp.cpp`: the circular array of
frame resources, the fence handshake between `Update` (producer) and the
command queue (consumer), and the start-up code that sizes the ring.

Conventions.
* `int` fields are `Int`, and `%` on them is C++ truncated remainder (`Int.tmod`).
* The `UINT64` fence counters are `Nat`: they grow by one per frame, so the
  64-bit range is never left in a run that can be executed.
* A function returns `none` where the C++ code dereferences a null pointer or
  indexes outside a vector, and where a blocking wait can never be released.
* In the part on the ring, floating-point payloads (matrices, colours) are not
  represented; an upload is recorded by the buffer and element it goes to.
* In the parts on the wave field, `float` values are rationals.  The arithmetic
  on the `static float t_base` of `UpdateWaves` is single precision: the result
  of `TotalTime() - t_base` and of `t_base += 0.25f` is rounded to the nearest
  binary32 value (`roundF32`).  All other arithmetic on them is exact.
-/

namespace TreeBillboards

/-! ## Data model -/

/-- Ring depth: `const int gNumFrameResources = 3;`. -/
def gNumFrameResources : Int := 3

/-- Modelled from the spec: the material record (declared in `Common/d3dUtil.h`,
which is outside the sources).  Only the fields this file reads or writes are
kept; the dirty countdown starts at the ring depth (spec §9). -/
structure Material where
  Name : String
  MatCBIndex : Int
  DiffuseSrvHeapIndex : Int
  NumFramesDirty : Int := gNumFrameResources
  deriving DecidableEq, Repr

/-- The `RenderItem` struct of the source file.  `Mat` is the key of the material
the pointer refers to (`none` for a null pointer); `Geo` and `DrawArg` name the
geometry and the submesh the draw parameters were read from. -/
structure RenderItem where
  NumFramesDirty : Int := gNumFrameResources
  ObjCBIndex : Nat := 4294967295
  Mat : Option String := none
  Geo : String := ""
  DrawArg : String := ""
  deriving DecidableEq, Repr

/-- Modelled from the spec: one ring slot (`FrameResource.h` is outside the
sources).  Per spec §3 a slot owns a pass-constant buffer, per-object and
per-material constant buffers and a per-vertex buffer, whose capacities are the
constructor arguments, and carries a completion marker `Fence` that is 0 until
the slot is first retired. -/
structure FrameResource where
  passCount : Nat
  objectCount : Nat
  materialCount : Nat
  waveVertCount : Nat
  Fence : Nat := 0
  deriving DecidableEq, Repr

/-- Modelled from the spec: the wave grid (`Waves.h` is outside the sources); only
its dimensions matter here, with `vertexCount() = m*n` (spec §4.1). -/
structure Waves where
  mNumRows : Nat
  mNumCols : Nat
  deriving DecidableEq, Repr

/-- Vertex count of the wave grid: `m*n`. -/
def Waves.VertexCount (w : Waves) : Nat := w.mNumRows * w.mNumCols

/-- Work submitted to the command queue, in submission order. -/
inductive Command where
  | execute (slot : Nat)
  | signal (value : Nat)
  deriving DecidableEq, Repr

/-- The four upload buffers of a slot. -/
inductive Region where
  | objectCB
  | materialCB
  | passCB
  | wavesVB
  deriving DecidableEq, Repr

/-- What the producer thread does, in program order.  A `write` carries the slot
it goes to together with that slot's `Fence` and the fence's completed value at
the moment of the write. -/
inductive Event where
  | wait (value : Nat)
  | write (region : Region) (element : Int) (slot : Nat) (fence : Nat) (completed : Nat)
  | resetAlloc (slot : Nat)
  | execute (slot : Nat)
  | retire (slot : Nat) (value : Nat)
  | signal (value : Nat)
  deriving DecidableEq, Repr

/-- The application state.  `mCurrFrameResource` is the index of the slot the
pointer refers to (`none` for `nullptr`); `mFence` is the value
`mFence->GetCompletedValue()` returns; `mCommandQueue` holds the commands the
consumer has not executed yet; `trace` is the producer's history.  Device
objects, geometry, textures, shaders, render layers and the camera are not
represented. -/
structure App where
  mFrameResources : List FrameResource := []
  mCurrFrameResource : Option Nat := none
  mCurrFrameResourceIndex : Int := 0
  mAllRitems : List RenderItem := []
  mMaterials : List (String × Option Material) := []
  mWaves : Option Waves := none
  mCurrentFence : Nat := 0
  mFence : Nat := 0
  mCommandQueue : List Command := []
  trace : List Event := []
  deriving DecidableEq, Repr

/-! ## The consumer -/

/-- Modelled from the spec: the consumer's progress counter is monotonically
increasing (spec §9); a command list leaves it alone, a signal raises it to the
signalled value. -/
def gpuExec (c : Command) (completed : Nat) : Nat :=
  match c with
  | .execute _ => completed
  | .signal v => max completed v

/-- Modelled from the spec: the consumer executes the oldest queued command. -/
def gpuStep (s : App) : App :=
  match s.mCommandQueue with
  | [] => s
  | c :: q => { s with mCommandQueue := q, mFence := gpuExec c s.mFence }

/-- The consumer executes up to `n` queued commands. -/
def gpuRun : Nat → App → App
  | 0, s => s
  | n + 1, s => gpuRun n (gpuStep s)

/-- The completed value once the whole queue `q` has been executed. -/
def gpuFinal : List Command → Nat → Nat
  | [], c => c
  | cmd :: q, c => gpuFinal q (gpuExec cmd c)

/-- Modelled from the spec: the blocking wait (spec §4.2, §9).  The producer is
suspended while the consumer executes queued commands, and is released as soon
as the completed value has reached `f`; the result is the rest of the queue and
the completed value at that moment.  With the queue exhausted below `f` the
wait is never released (`none`). -/
def gpuWait (f : Nat) : List Command → Nat → Option (List Command × Nat)
  | [], c => if f ≤ c then some ([], c) else none
  | cmd :: q, c => if f ≤ c then some (cmd :: q, c) else gpuWait f q (gpuExec cmd c)

/-! ## Update -/

/-- The element `v[i]` of a vector for an `int` index; `none` outside the vector. -/
def slotAt (v : List FrameResource) (i : Int) : Option FrameResource :=
  if 0 ≤ i then v[i.toNat]? else none

/-- The slot `mCurrFrameResource` points to, with its index. -/
def currSlot (s : App) : Option (Nat × FrameResource) :=
  match s.mCurrFrameResource with
  | none => none
  | some i => (s.mFrameResources[i]?).map fun fr => (i, fr)

/-- The body of the `if` in `Update`: `SetEventOnCompletion(f, eventHandle)` and
`WaitForSingleObject(eventHandle, INFINITE)`. -/
def waitForFence (f : Nat) (s : App) : Option App :=
  (gpuWait f s.mCommandQueue s.mFence).map fun r =>
    { s with mCommandQueue := r.1, mFence := r.2, trace := s.trace ++ [Event.wait f] }

/-- First half of `Update`: cycle to the next slot of the ring and, if that slot
was retired with a marker the consumer has not reached, wait for it. -/
def UpdateSync (s : App) : Option App :=
  let idx := Int.tmod (s.mCurrFrameResourceIndex + 1) gNumFrameResources
  match slotAt s.mFrameResources idx with
  | none => none
  | some fr =>
    let s1 := { s with mCurrFrameResourceIndex := idx, mCurrFrameResource := some idx.toNat }
    if fr.Fence ≠ 0 ∧ s1.mFence < fr.Fence then waitForFence fr.Fence s1 else some s1

/-- The value `mMaterials[k]` holds, if the key is present. -/
def mapFind (m : List (String × Option Material)) (k : String) : Option (Option Material) :=
  match m with
  | [] => none
  | e :: rest => if e.1 = k then some e.2 else mapFind rest k

/-- Assignment `mMaterials[k] = v`: replaces the entry for `k`, or adds one. -/
def mapAssign (m : List (String × Option Material)) (k : String) (v : Option Material) :
    List (String × Option Material) :=
  match m with
  | [] => [(k, v)]
  | e :: rest => if e.1 = k then (k, v) :: rest else e :: mapAssign rest k v

/-- `AnimateMaterials`: marks the water material dirty for every slot of the ring
(the texture scroll itself is floating point). -/
def AnimateMaterials (s : App) : Option App :=
  match mapFind s.mMaterials "water" with
  | some (some waterMat) =>
    let dirty : Material := { waterMat with NumFramesDirty := gNumFrameResources }
    some { s with mMaterials := mapAssign s.mMaterials "water" (some dirty) }
  | _ => none

/-- The loop of `UpdateObjectCBs` over `mAllRitems`: the items after the loop and
the uploads made. -/
def objectWrites (slot fence completed : Nat) : List RenderItem → List RenderItem × List Event
  | [] => ([], [])
  | e :: rest =>
    let r := objectWrites slot fence completed rest
    if e.NumFramesDirty > 0 then
      ({ e with NumFramesDirty := e.NumFramesDirty - 1 } :: r.1,
        Event.write Region.objectCB (e.ObjCBIndex : Int) slot fence completed :: r.2)
    else (e :: r.1, r.2)

/-- `UpdateObjectCBs`. -/
def UpdateObjectCBs (s : App) : Option App :=
  match currSlot s with
  | none => none
  | some (i, fr) =>
    let r := objectWrites i fr.Fence s.mFence s.mAllRitems
    some { s with mAllRitems := r.1, trace := s.trace ++ r.2 }

/-- The loop of `UpdateMaterialCBs` over `mMaterials`. -/
def materialWrites (slot fence completed : Nat) :
    List (String × Option Material) → Option (List (String × Option Material) × List Event)
  | [] => some ([], [])
  | (_, none) :: _ => none
  | (k, some mat) :: rest =>
    match materialWrites slot fence completed rest with
    | none => none
    | some r =>
      if mat.NumFramesDirty > 0 then
        some ((k, some { mat with NumFramesDirty := mat.NumFramesDirty - 1 }) :: r.1,
          Event.write Region.materialCB mat.MatCBIndex slot fence completed :: r.2)
      else some ((k, some mat) :: r.1, r.2)

/-- `UpdateMaterialCBs`. -/
def UpdateMaterialCBs (s : App) : Option App :=
  match currSlot s with
  | none => none
  | some (i, fr) =>
    match materialWrites i fr.Fence s.mFence s.mMaterials with
    | none => none
    | some r => some { s with mMaterials := r.1, trace := s.trace ++ r.2 }

/-- `UpdateMainPassCB`: `currPassCB->CopyData(0, mMainPassCB)`. -/
def UpdateMainPassCB (s : App) : Option App :=
  match currSlot s with
  | none => none
  | some (i, fr) =>
    some { s with trace := s.trace ++ [Event.write Region.passCB 0 i fr.Fence s.mFence] }

/-- The copy loop of `UpdateWaves`: one `CopyData(i, v)` per vertex. -/
def waveWrites (slot fence completed n : Nat) : List Event :=
  (List.range n).map fun i => Event.write Region.wavesVB (i : Int) slot fence completed

/-- `UpdateWaves`: the wave vertices are copied into the current slot.  The
disturbance timer and the simulation step before the copy are floating point,
and the pointer to the vertex buffer stored in the water geometry afterwards is
outside this state. -/
def UpdateWaves (s : App) : Option App :=
  match s.mWaves, currSlot s with
  | some w, some (i, fr) =>
    some { s with trace := s.trace ++ waveWrites i fr.Fence s.mFence w.VertexCount }
  | _, _ => none

/-- Second half of `Update`: the uploads into the current slot, in source order. -/
def UpdateUpload (s : App) : Option App :=
  (((AnimateMaterials s).bind UpdateObjectCBs).bind UpdateMaterialCBs).bind
    UpdateMainPassCB |>.bind UpdateWaves

/-- `TreeBillboardsApp::Update` (keyboard and camera handling do not touch the
ring). -/
def Update (s : App) : Option App :=
  (UpdateSync s).bind UpdateUpload

/-! ## Draw -/

/-- `TreeBillboardsApp::Draw`: the command allocator of the current slot is reset,
the command list recorded against the slot's buffers is submitted, then the
slot is retired with the next fence value and that value is signalled on the
queue.  The recorded draw calls themselves and the swap chain are outside this
state. -/
def Draw (s : App) : Option App :=
  match currSlot s with
  | none => none
  | some (i, fr) =>
    let f := s.mCurrentFence + 1
    some { s with
      mCommandQueue := s.mCommandQueue ++ [Command.execute i, Command.signal f]
      mCurrentFence := f
      mFrameResources := s.mFrameResources.set i { fr with Fence := f }
      trace := s.trace ++
        [Event.resetAlloc i, Event.execute i, Event.retire i f, Event.signal f] }

/-! ## Start-up -/

/-- The map after the access `mMaterials[k]`: a missing key gets a null entry. -/
def mapIndex (m : List (String × Option Material)) (k : String) :
    List (String × Option Material) :=
  match mapFind m k with
  | some _ => m
  | none => m ++ [(k, none)]

/-- The pointer `mMaterials[k].get()`: the key when the entry holds a material,
null otherwise. -/
def matPtr (m : List (String × Option Material)) (k : String) : Option String :=
  match mapFind m k with
  | some (some _) => some k
  | _ => none

/-- `BuildMaterials`: the eleven materials, assigned to the map in source order. -/
def BuildMaterials (s : App) : App :=
  let grass : Material := { Name := "grass", MatCBIndex := 0, DiffuseSrvHeapIndex := 0 }
  let water : Material := { Name := "water", MatCBIndex := 1, DiffuseSrvHeapIndex := 1 }
  let DrawBridge : Material := { Name := "drawbridge", MatCBIndex := 2, DiffuseSrvHeapIndex := 2 }
  let BlackStone : Material := { Name := "blackstone", MatCBIndex := 3, DiffuseSrvHeapIndex := 3 }
  let BloodStone : Material := { Name := "bloodstone", MatCBIndex := 4, DiffuseSrvHeapIndex := 4 }
  let JadeWood : Material := { Name := "jadewood", MatCBIndex := 5, DiffuseSrvHeapIndex := 5 }
  let Pole : Material := { Name := "pole", MatCBIndex := 6, DiffuseSrvHeapIndex := 6 }
  let Well : Material := { Name := "well", MatCBIndex := 7, DiffuseSrvHeapIndex := 7 }
  let Headge : Material := { Name := "headge", MatCBIndex := 8, DiffuseSrvHeapIndex := 8 }
  let Quebert : Material := { Name := "quebert", MatCBIndex := 9, DiffuseSrvHeapIndex := 9 }
  let treeSprites : Material :=
    { Name := "treeSprites", MatCBIndex := 10, DiffuseSrvHeapIndex := 10 }
  let m := s.mMaterials
  let m := mapAssign m "grass" (some grass)
  let m := mapAssign m "water" (some water)
  let m := mapAssign m "drawbridge" (some DrawBridge)
  let m := mapAssign m "blackstone" (some BlackStone)
  let m := mapAssign m "bloodstone" (some BloodStone)
  let m := mapAssign m "jadewood" (some JadeWood)
  let m := mapAssign m "pole" (some Pole)
  let m := mapAssign m "well" (some Well)
  let m := mapAssign m "headge" (some Headge)
  let m := mapAssign m "quebert" (some Quebert)
  let m := mapAssign m "treeSprites" (some treeSprites)
  { s with mMaterials := m }

/-- `BuildShape`: a new render item whose object-constant index is the current
size of `mAllRitems` (stored in a `UINT`), appended to the list. -/
def BuildShape (shapeName textureName : String) (s : App) : App :=
  let boxRitem : RenderItem :=
    { ObjCBIndex := s.mAllRitems.length % 4294967296
      Mat := matPtr s.mMaterials textureName
      Geo := "shapeGeo"
      DrawArg := shapeName }
  { s with
    mMaterials := mapIndex s.mMaterials textureName
    mAllRitems := s.mAllRitems ++ [boxRitem] }

/-- The shape and material names of the `BuildShape` calls in `BuildRenderItems`,
in source order. -/
def shapeCalls : List (String × String) :=
  [
    ("box", "jadewood"), ("box", "blackstone"), ("box", "blackstone"),
    ("box", "blackstone"), ("box", "blackstone"), ("box", "blackstone"),
    ("box2", "bloodstone"), ("pyramid", "jadewood"), ("cylinder", "bloodstone"),
    ("cylinder", "bloodstone"), ("cylinder", "bloodstone"), ("cylinder", "bloodstone"),
    ("cone", "jadewood"), ("cone", "jadewood"), ("cone", "jadewood"),
    ("cone", "jadewood"), ("box2", "drawbridge"), ("wedge", "pole"),
    ("box2", "drawbridge"), ("box2", "drawbridge"), ("box2", "drawbridge"),
    ("box2", "drawbridge"), ("box2", "drawbridge"), ("box2", "drawbridge"),
    ("box2", "drawbridge"), ("box2", "drawbridge"), ("box2", "drawbridge"),
    ("box2", "drawbridge"), ("box2", "drawbridge"), ("box2", "drawbridge"),
    ("box2", "drawbridge"), ("box2", "drawbridge"), ("box2", "drawbridge"),
    ("box2", "drawbridge"), ("diamond", "bloodstone"), ("diamond", "bloodstone"),
    ("diamond", "bloodstone"), ("diamond", "bloodstone"), ("diamond", "bloodstone"),
    ("diamond", "bloodstone"), ("diamond", "bloodstone"), ("box2", "blackstone"),
    ("pipe", "well"), ("cylinder", "blackstone"), ("cylinder", "pole"),
    ("flag", "jadewood"), ("box", "quebert"), ("cylinder", "blackstone"),
    ("cylinder", "blackstone"), ("box", "headge"), ("box", "headge"),
    ("box", "headge"), ("box", "headge"), ("box", "headge"),
    ("box", "headge"), ("box", "headge"), ("box", "headge"),
    ("box", "headge"), ("box", "headge"), ("box", "headge"),
    ("box", "headge"), ("box", "headge"), ("box", "headge"),
    ("box", "headge"), ("box", "headge"), ("box", "headge"),
    ("box", "headge"), ("box", "headge"), ("box", "headge"),
    ("box", "headge"), ("box", "headge"), ("box", "headge"),
    ("box", "headge"), ("box", "headge"), ("box", "headge"),
    ("box", "headge"), ("box", "headge"), ("box", "headge"),
    ("box", "headge"), ("box", "headge"), ("box", "headge"),
    ("box", "headge"), ("box", "headge"), ("box", "headge"),
    ("box", "headge"), ("box", "headge"), ("box", "headge"),
    ("box", "headge"), ("box", "headge"), ("box", "headge"),
    ("box", "headge")
  ]

/-- `BuildRenderItems`: the four hand-built items, pushed in the order waves, land,
second waves, tree sprites, and then one item per `BuildShape` call. -/
def BuildRenderItems (s : App) : App :=
  let wavesRitem : RenderItem :=
    { ObjCBIndex := 0, Mat := matPtr s.mMaterials "water", Geo := "waterGeo", DrawArg := "grid" }
  let m := mapIndex s.mMaterials "water"
  let gridRitem : RenderItem :=
    { ObjCBIndex := 1, Mat := matPtr m "grass", Geo := "landGeo", DrawArg := "grid" }
  let m := mapIndex m "grass"
  let wavesRitem2 : RenderItem :=
    { ObjCBIndex := 2, Mat := matPtr m "water", Geo := "waterGeo", DrawArg := "grid" }
  let m := mapIndex m "water"
  let treeSpritesRitem : RenderItem :=
    { ObjCBIndex := 3, Mat := matPtr m "treeSprites", Geo := "treeSpritesGeo", DrawArg := "points" }
  let m := mapIndex m "treeSprites"
  let s1 : App :=
    { s with
      mMaterials := m
      mAllRitems := s.mAllRitems ++ [wavesRitem, gridRitem, wavesRitem2, treeSpritesRitem] }
  shapeCalls.foldl (fun acc c => BuildShape c.1 c.2 acc) s1

/-- `BuildFrameResources`: one `push_back` per pass of the loop
`for(int i = 0; i < gNumFrameResources; ++i)`; the sizes are cast to `UINT`. -/
def BuildFrameResources (s : App) : Option App :=
  match s.mWaves with
  | none => none
  | some w =>
    let fr : FrameResource :=
      { passCount := 1
        objectCount := s.mAllRitems.length % 4294967296
        materialCount := s.mMaterials.length % 4294967296
        waveVertCount := w.VertexCount }
    some { s with
      mFrameResources := s.mFrameResources ++ List.replicate gNumFrameResources.toNat fr }

/-- `TreeBillboardsApp::Initialize`, as far as the fields of `App` go: the wave grid
is created, then materials, render items and frame resources are built in this
order.  The base-class initialisation, the texture, shader, geometry and
pipeline-state builders and the final flush of the queue are outside this
state. -/
def Initialize (s : App) : Option App :=
  let s1 : App := { s with mWaves := some { mNumRows := 128, mNumCols := 128 } }
  BuildFrameResources (BuildRenderItems (BuildMaterials s1))

/-! ## Runs -/

/-- One step of a run: a call of `Update`, a call of `Draw`, or the consumer
executing up to `n` queued commands. -/
inductive Op where
  | update
  | draw
  | gpu (n : Nat)
  deriving DecidableEq, Repr

/-- Effect of one step. -/
def step : Op → App → Option App
  | Op.update, s => Update s
  | Op.draw, s => Draw s
  | Op.gpu n, s => some (gpuRun n s)

/-- Effect of a sequence of steps. -/
def run : List Op → App → Option App
  | [], s => some s
  | o :: os, s => (step o s).bind (run os)

/-- The steps of the frame loop: per frame `Update` then `Draw`, with the consumer
free to execute `g.1` commands before `Update` and `g.2` before `Draw`. -/
def frameOps : List (Nat × Nat) → List Op
  | [] => []
  | g :: gs => Op.gpu g.1 :: Op.update :: Op.gpu g.2 :: Op.draw :: frameOps gs

/-- The values waited on in a trace, in order. -/
def waits : List Event → List Nat
  | [] => []
  | Event.wait v :: t => v :: waits t
  | _ :: t => waits t

/-- The marker of slot `i` (0 when there is no such slot). -/
def fenceOf (s : App) (i : Nat) : Nat :=
  match s.mFrameResources[i]? with
  | some fr => fr.Fence
  | none => 0

/-- Every material pointer is non-null, the water material is registered and the
wave grid exists: what the uploads of `Update` dereference. -/
def Loaded (s : App) : Prop :=
  (∀ e ∈ s.mMaterials, e.2 ≠ none) ∧ mapFind s.mMaterials "water" ≠ none ∧
  s.mWaves ≠ none

instance (s : App) : Decidable (Loaded s) := by
  unfold Loaded; infer_instance

/-- The state in which the frame loop starts: three slots with marker 0, index 0
and no current slot yet, an empty queue and the consumer caught up with
`mCurrentFence`. -/
def Ready (s : App) : Prop :=
  s.mFrameResources.length = 3 ∧ (∀ fr ∈ s.mFrameResources, fr.Fence = 0) ∧
  s.mCurrFrameResourceIndex = 0 ∧ s.mCurrFrameResource = none ∧
  s.mFence = s.mCurrentFence ∧ s.mCommandQueue = [] ∧ Loaded s

instance (s : App) : Decidable (Ready s) := by
  unfold Ready; infer_instance

/-- What every state of a run satisfies: three slots, an index inside the ring, a
current-slot pointer into the ring, and markers that are at most `mCurrentFence`
and are reached once the queue has been executed. -/
def Sound (s : App) : Prop :=
  s.mFrameResources.length = 3 ∧
  (0 ≤ s.mCurrFrameResourceIndex ∧ s.mCurrFrameResourceIndex < 3) ∧
  s.mCurrFrameResource.getD 0 < 3 ∧
  Loaded s ∧
  (∀ fr ∈ s.mFrameResources, fr.Fence ≤ gpuFinal s.mCommandQueue s.mFence) ∧
  gpuFinal s.mCommandQueue s.mFence ≤ s.mCurrentFence

instance (s : App) : Decidable (Sound s) := by
  unfold Sound; infer_instance

/-- Every nonzero marker has been signalled on the queue. -/
def Enqueued (s : App) : Prop :=
  ∀ fr ∈ s.mFrameResources, fr.Fence ≠ 0 → Event.signal fr.Fence ∈ s.trace

instance (s : App) : Decidable (Enqueued s) := by
  unfold Enqueued; infer_instance

/-- No nonzero marker is held by two slots. -/
def DistinctMarkers (s : App) : Prop :=
  ∀ i, i < s.mFrameResources.length → ∀ j, j < s.mFrameResources.length →
    fenceOf s i ≠ 0 → fenceOf s i = fenceOf s j → i = j

instance (s : App) : Decidable (DistinctMarkers s) := by
  unfold DistinctMarkers; infer_instance

/-- The states `s` and `t` agree on the ring, the wave grid, the fence counters and
the queue. -/
def SameRing (s t : App) : Prop :=
  t.mFrameResources = s.mFrameResources ∧ t.mCurrFrameResource = s.mCurrFrameResource ∧
  t.mCurrFrameResourceIndex = s.mCurrFrameResourceIndex ∧ t.mWaves = s.mWaves ∧
  t.mCurrentFence = s.mCurrentFence ∧ t.mFence = s.mFence ∧
  t.mCommandQueue = s.mCommandQueue

/-- Every event of `evs` is an upload into slot `i`, made while the slot's marker
was `fence` and the completed value was `completed`. -/
def WritesTo (i fence completed : Nat) (evs : List Event) : Prop :=
  ∀ e ∈ evs, ∃ r el, e = Event.write r el i fence completed

/-- From `s` to `t` nothing happened but uploads into the current slot of `s`, made
under that slot's marker and the completed value of `s`. -/
def Uploaded (s t : App) : Prop :=
  ∃ i fr evs, currSlot s = some (i, fr) ∧ SameRing s t ∧ t.trace = s.trace ++ evs ∧
    WritesTo i fr.Fence s.mFence evs

/-- The ring in the frame loop that started with `mCurrentFence = c0`, after `u`
calls of `Update` and `k` calls of `Draw`: the index is `u mod 3`, the fence
counter is `c0 + k`, the consumer is between `c0` and `c0 + k`, and the slot
retired `j` frames ago (`j < 3`) holds marker `c0 + k - j`, or 0 if there was no
such frame. -/
def Cycle (c0 u k : Nat) (s : App) : Prop :=
  Sound s ∧ s.mCurrFrameResourceIndex = ((u % 3 : Nat) : Int) ∧
  (1 ≤ u → s.mCurrFrameResource = some (u % 3)) ∧
  s.mCurrentFence = c0 + k ∧ c0 ≤ s.mFence ∧
  gpuFinal s.mCommandQueue s.mFence = c0 + k ∧
  ∀ j, j < 3 → fenceOf s ((k + 3 - j) % 3) = if j < k then c0 + k - j else 0

instance (c0 u k : Nat) (s : App) : Decidable (Cycle c0 u k s) := by
  unfold Cycle; infer_instance

/-- A small loaded state at the start of the frame loop, used to run the
definitions: two render items, the water material, a 2 x 2 wave grid, and the
fence at 5. -/
def demo : App where
  mFrameResources := List.replicate 3
    { passCount := 1, objectCount := 2, materialCount := 1, waveVertCount := 4 }
  mAllRitems := [({ ObjCBIndex := 0 } : RenderItem), ({ ObjCBIndex := 1 } : RenderItem)]
  mMaterials := [("water", some { Name := "water", MatCBIndex := 0, DiffuseSrvHeapIndex := 1 })]
  mWaves := some { mNumRows := 2, mNumCols := 2 }
  mCurrentFence := 5
  mFence := 5

/-- Three frames of the loop without any consumer step in between. -/
def demoOps : List Op :=
  [Op.update, Op.draw, Op.update, Op.draw, Op.update, Op.draw]

/-- The state `demo` is in after the three frames of `demoOps`: all three slots
are retired, with markers 8, 6 and 7, and the consumer is still at 5. -/
def demoLater : App := (run demoOps demo).getD demo

/-- Consumer progress for three frames of the loop: none in the first frame, one
command before the second `Update`, two before the third `Draw`. -/
def demoFrames : List (Nat × Nat) := [(0, 0), (1, 0), (0, 2)]

/-! ## The wave field and its vertex upload

In this part `float` values are rationals.  The two operations on the timer
`t_base` are rounded to single precision; the other arithmetic is exact. -/

/-- Round to the nearest integer, a tie to the even one. -/
def roundHalfEven (t : ℚ) : Int :=
  if t - ⌊t⌋ < 1 / 2 then ⌊t⌋
  else if 1 / 2 < t - ⌊t⌋ then ⌊t⌋ + 1
  else if ⌊t⌋ % 2 = 0 then ⌊t⌋ else ⌊t⌋ + 1

/-- The binary32 exponent used to represent a value near `q`: `floor(log2 |q|)`,
but at least -126 (below `2^-126` the values are subnormal and share the
exponent -126) and at most 127 (the largest exponent). -/
def exponentF32 (q : ℚ) : Int := min (max (Int.log 2 |q|) (-126)) 127

/-- The result of a `float` operation whose exact result is `q`: the nearest
binary32 value, a tie going to the value with even significand (IEEE 754
round-to-nearest-even, the default mode).  A significand has 24 bits, so the
values with exponent `e` are the multiples of `2^(e - 23)`.  A result of
magnitude `2^128` or more stands for an infinity. -/
def roundF32 (q : ℚ) : ℚ :=
  roundHalfEven (q / 2 ^ (exponentF32 q - 23)) * 2 ^ (exponentF32 q - 23)

/-- The rational `q` is a finite `float` value: an integer `m` of less than 24 bits
times a power `2^c` with `-149 ≤ c ≤ 104`. -/
def IsF32 (q : ℚ) : Prop :=
  ∃ m c : Int, |m| < 16777216 ∧ -149 ≤ c ∧ c ≤ 104 ∧ q = m * 2 ^ c

/-- `XMFLOAT3`. -/
structure XMFLOAT3 where
  x : ℚ
  y : ℚ
  z : ℚ
  deriving DecidableEq, Repr

/-- `XMFLOAT2`. -/
structure XMFLOAT2 where
  x : ℚ
  y : ℚ
  deriving DecidableEq, Repr

/-- The `Vertex` record `UpdateWaves` fills in (declared in `FrameResource.h`, which
is outside the sources): the three members the source assigns. -/
structure Vertex where
  Pos : XMFLOAT3
  Normal : XMFLOAT3
  TexC : XMFLOAT2
  deriving DecidableEq, Repr

/-- The two readings of `GameTimer` used by `UpdateWaves`. -/
structure GameTimer where
  TotalTime : ℚ
  DeltaTime : ℚ
  deriving DecidableEq, Repr

/-- The member functions of class `Waves` that this file calls (`Waves.h` is
outside the sources), taken as parameters over an arbitrary type `W` of wave
fields. -/
structure WavesOps (W : Type) where
  RowCount : W → Int
  ColumnCount : W → Int
  VertexCount : W → Int
  TriangleCount : W → Int
  Width : W → ℚ
  Depth : W → ℚ
  Position : W → Int → XMFLOAT3
  Normal : W → Int → XMFLOAT3
  Disturb : W → Int → Int → ℚ → W
  Update : W → ℚ → W

/-- The values `MathHelper::Rand` and `MathHelper::RandF` return in one call of
`UpdateWaves` (`MathHelper.h` is outside the sources), taken as parameters: the
results of the first and of the second `Rand` call and of the `RandF` call, each
as a function of the call's arguments. -/
structure RandomSource where
  RandRow : Int → Int → Int
  RandCol : Int → Int → Int
  RandF : ℚ → ℚ → ℚ

/-- What the claims assume of the random source: a result lies between the two
arguments of the call. -/
def RandomSource.InRange (rnd : RandomSource) : Prop :=
  (∀ a b : Int, a ≤ b → a ≤ rnd.RandRow a b ∧ rnd.RandRow a b ≤ b) ∧
  (∀ a b : Int, a ≤ b → a ≤ rnd.RandCol a b ∧ rnd.RandCol a b ≤ b) ∧
  (∀ a b : ℚ, a ≤ b → a ≤ rnd.RandF a b ∧ rnd.RandF a b ≤ b)

/-- A call of a member function of the wave field that changes it. -/
inductive WaveCall where
  | Disturb (i j : Int) (magnitude : ℚ)
  | Update (dt : ℚ)
  deriving DecidableEq, Repr

/-- What `UpdateWaves` works on: the function's `static float t_base`, the wave
field `*mWaves`, the current-slot pointer (a slot index, `none` for `nullptr`),
the memory of the wave vertex buffer `WavesVB` of every slot (`none` for an
element never written), and the slot whose buffer
`mWavesRitem->Geo->VertexBufferGPU` refers to.  `calls` and `copies` are
histories: the calls made on the wave field, and the slot and element of every
`CopyData` on a wave vertex buffer. -/
structure WaveState (W : Type) where
  t_base : ℚ := 0
  mWaves : W
  mCurrFrameResource : Option Nat := none
  WavesVB : List (List (Option Vertex)) := []
  VertexBufferGPU : Option Nat := none
  calls : List WaveCall := []
  copies : List (Nat × Int) := []

/-- Modelled from the spec: `UploadBuffer::CopyData(elementIndex, data)`
(`UploadBuffer.h` is outside the sources) on a buffer of fixed capacity (spec §3:
the per-vertex buffer is sized to the vertex count); writing outside the buffer
is undefined (`none`). -/
def CopyData (b : List (Option Vertex)) (elementIndex : Int) (data : Vertex) :
    Option (List (Option Vertex)) :=
  if 0 ≤ elementIndex ∧ elementIndex.toNat < b.length then
    some (b.set elementIndex.toNat (some data))
  else none

/-- The vertex `v` one pass of the copy loop of `UpdateWaves` builds for index `i`. -/
def waveVertex {W : Type} (ops : WavesOps W) (w : W) (i : Int) : Vertex :=
  let Pos := ops.Position w i
  { Pos := Pos
    Normal := ops.Normal w i
    TexC := { x := 1 / 2 + Pos.x / ops.Width w, y := 1 / 2 - Pos.z / ops.Depth w } }

/-- The copy loop of `UpdateWaves` over the indices `idxs`, in this order. -/
def copyWaves {W : Type} (ops : WavesOps W) (w : W) :
    List Nat → List (Option Vertex) → Option (List (Option Vertex))
  | [], b => some b
  | i :: rest, b =>
    match CopyData b (i : Int) (waveVertex ops w (i : Int)) with
    | none => none
    | some b1 => copyWaves ops w rest b1

/-- The first statement of `UpdateWaves`: every quarter second a random wave.  The
difference `mTimer.TotalTime() - t_base` of two `float` values and the sum
`t_base += 0.25f` are single-precision results. -/
def scheduleDisturbance {W : Type} (ops : WavesOps W) (rnd : RandomSource) (mTimer : GameTimer)
    (d : WaveState W) : WaveState W :=
  if roundF32 (mTimer.TotalTime - d.t_base) ≥ 1 / 4 then
    let i := rnd.RandRow 4 (ops.RowCount d.mWaves - 5)
    let j := rnd.RandCol 4 (ops.ColumnCount d.mWaves - 5)
    let r := rnd.RandF (1 / 5) (1 / 2)
    { d with
      t_base := roundF32 (d.t_base + 1 / 4)
      mWaves := ops.Disturb d.mWaves i j r
      calls := d.calls ++ [WaveCall.Disturb i j r] }
  else d

/-- The second statement of `UpdateWaves`: `mWaves->Update(gt.DeltaTime())`. -/
def stepWaves {W : Type} (ops : WavesOps W) (gt : GameTimer) (d : WaveState W) : WaveState W :=
  { d with
    mWaves := ops.Update d.mWaves gt.DeltaTime
    calls := d.calls ++ [WaveCall.Update gt.DeltaTime] }

/-- `UpdateWaves` with the data it moves (the function `UpdateWaves` above is the
same code seen from the ring): the disturbance, the simulation step, the copy
of every vertex of the wave field into the current slot's buffer, and the
pointer to that buffer stored in the water geometry. -/
def UpdateWavesData {W : Type} (ops : WavesOps W) (rnd : RandomSource) (mTimer gt : GameTimer)
    (d : WaveState W) : Option (WaveState W) :=
  let d2 := stepWaves ops gt (scheduleDisturbance ops rnd mTimer d)
  match d2.mCurrFrameResource with
  | none => none
  | some c =>
    match d2.WavesVB[c]? with
    | none => none
    | some b =>
      let idxs := List.range (ops.VertexCount d2.mWaves).toNat
      match copyWaves ops d2.mWaves idxs b with
      | none => none
      | some b1 =>
        some { d2 with
          WavesVB := d2.WavesVB.set c b1
          VertexBufferGPU := some c
          copies := d2.copies ++ idxs.map fun (i : Nat) => (c, (i : Int)) }

/-! ## The wave field of the spec -/

/-- Modelled from the spec: the failures a wave field reports (spec §7). -/
inductive WaveError where
  | InvalidParameters
  | OutOfRange
  deriving DecidableEq, Repr

/-- Modelled from the spec: the simulation grid of spec §3 (class `Waves` is
outside the sources): `m` rows and `n` columns of cells, each with a height in
the three time layers `prev`, `curr` and `next`; cell `(i, j)` is element
`k = i*n + j` of a layer (spec §4.1). -/
structure WaveField where
  m : Nat
  n : Nat
  prev : List ℚ
  curr : List ℚ
  next : List ℚ
  deriving DecidableEq, Repr

/-- Modelled from the spec: `rowCount()`. -/
def WaveField.rowCount (w : WaveField) : Int := w.m

/-- Modelled from the spec: `columnCount()`. -/
def WaveField.columnCount (w : WaveField) : Int := w.n

/-- Modelled from the spec: `vertexCount() = m*n`. -/
def WaveField.vertexCount (w : WaveField) : Int := (w.m : Int) * w.n

/-- Modelled from the spec: `triangleCount() = 2*(m-1)*(n-1)`. -/
def WaveField.triangleCount (w : WaveField) : Int := 2 * ((w.m : Int) - 1) * ((w.n : Int) - 1)

/-- Modelled from the spec: the linear index `k = i*n + j` of cell `(i, j)`. -/
def WaveField.cell (w : WaveField) (i j : Int) : Nat := (i * w.n + j).toNat

/-- Modelled from the spec: the current height of the cell with linear index `k`. -/
def WaveField.heightAt (w : WaveField) (k : Nat) : ℚ := w.curr.getD k 0

/-- Modelled from the spec: the current height of cell `(i, j)`. -/
def WaveField.height (w : WaveField) (i j : Int) : ℚ := w.heightAt (w.cell i j)

/-- Modelled from the spec: `x` is added to the current height of cell `(i, j)`. -/
def WaveField.raise (w : WaveField) (i j : Int) (x : ℚ) : WaveField :=
  { w with curr := w.curr.set (w.cell i j) (w.height i j + x) }

/-- Modelled from the spec: `disturb(i, j, magnitude)` (spec §4.1): requires
`1 ≤ i ≤ m-2` and `1 ≤ j ≤ n-2`, adds `magnitude/2` to the current height of the
cell and `magnitude/4` to that of each of its four neighbours, and fails with
`OutOfRange` outside this interior. -/
def WaveField.disturb (w : WaveField) (i j : Int) (magnitude : ℚ) :
    Except WaveError WaveField :=
  if 1 ≤ i ∧ i ≤ (w.m : Int) - 2 ∧ 1 ≤ j ∧ j ≤ (w.n : Int) - 2 then
    let w0 := w.raise i j (magnitude / 2)
    let w1 := w0.raise (i + 1) j (magnitude / 4)
    let w2 := w1.raise (i - 1) j (magnitude / 4)
    let w3 := w2.raise i (j + 1) (magnitude / 4)
    Except.ok (w3.raise i (j - 1) (magnitude / 4))
  else Except.error WaveError.OutOfRange

/-- A stand-in for class `Waves`, used to run the definitions: the spec's wave
field with unit spacing, vertex `k` at column `k mod n` and row `k / n` of a
grid centred at the origin, all normals pointing up, and a simulation step that
leaves the field as it is. -/
def flatWaves : WavesOps WaveField where
  RowCount := fun w => w.rowCount
  ColumnCount := fun w => w.columnCount
  VertexCount := fun w => w.vertexCount
  TriangleCount := fun w => w.triangleCount
  Width := fun w => (w.n : ℚ) - 1
  Depth := fun w => (w.m : ℚ) - 1
  Position := fun w k =>
    { x := ((k.toNat % w.n : Nat) : ℚ) - ((w.n : ℚ) - 1) / 2
      y := w.heightAt k.toNat
      z := ((w.m : ℚ) - 1) / 2 - ((k.toNat / w.n : Nat) : ℚ) }
  Normal := fun _ _ => { x := 0, y := 1, z := 0 }
  Disturb := fun w i j r =>
    match w.disturb i j r with
    | Except.ok w1 => w1
    | Except.error _ => w
  Update := fun w _ => w

/-- The 9 x 9 grid at rest of the scenario in spec §8. -/
def demoField : WaveField where
  m := 9
  n := 9
  prev := List.replicate 81 0
  curr := List.replicate 81 0
  next := List.replicate 81 0

/-- A random source that returns the lower bound for the row, the upper bound for
the column and the lower bound for the magnitude. -/
def demoRandom : RandomSource where
  RandRow := fun a _ => a
  RandCol := fun _ b => b
  RandF := fun a _ => a

/-- A wave state for `demoField`: three slots with empty buffers of 81 vertices,
slot 1 current. -/
def demoWaves : WaveState WaveField where
  mWaves := demoField
  mCurrFrameResource := some 1
  WavesVB := List.replicate 3 (List.replicate 81 none)

/-- A frame half a second after the start, 0.03 seconds after the previous one. -/
def demoTimer : GameTimer where
  TotalTime := 1 / 2
  DeltaTime := 3 / 100

/-! ## The index buffer of the water grid -/

/-- The loop `for(int i = lo; i < lo + count; ++i) body(i)` on a state, where a pass
may fail. -/
def forLoop {σ : Type} (body : Nat → σ → Option σ) : Nat → Nat → σ → Option σ
  | _, 0, st => some st
  | lo, count + 1, st => (body lo st).bind (forLoop body (lo + 1) count)

/-- The locals of `BuildWavesGeometry` while the index vector is filled: the vector
`indices` of 16-bit values, the counter `k`, and (as a history) the positions of
`indices` assigned so far, in order. -/
structure IndexFill where
  indices : List Nat
  k : Nat
  written : List Nat
  deriving DecidableEq, Repr

/-- The assignment `indices[pos] = v`: the value `v` is computed in `int`, which is
undefined (`none`) when the result is outside the 32-bit range, and is then
converted to `std::uint16_t`; a position outside the vector is undefined
(`none`). -/
def IndexFill.store (st : IndexFill) (pos : Nat) (v : Int) : Option IndexFill :=
  if (-2147483648 ≤ v ∧ v < 2147483648) ∧ pos < st.indices.length then
    some { st with
      indices := st.indices.set pos (v % 65536).toNat
      written := st.written ++ [pos] }
  else none

/-- The body of the inner loop of `BuildWavesGeometry`: the two triangles of the
quad `(i, j)`, then `k += 6`.  In the loop `i ≥ 0`, `j ≥ 0` and `n ≥ 2`, so the
intermediate products `i*n` and `(i+1)*n` lie between 0 and the value stored,
and the range check of `store` covers them; `k + 6` is at most the size of the
vector when the six assignments are inside it. -/
def quad (n : Int) (i j : Nat) (st : IndexFill) : Option IndexFill :=
  (st.store st.k ((i : Int) * n + j)).bind fun s1 =>
  (s1.store (s1.k + 1) ((i : Int) * n + j + 1)).bind fun s2 =>
  (s2.store (s2.k + 2) (((i : Int) + 1) * n + j)).bind fun s3 =>
  (s3.store (s3.k + 3) (((i : Int) + 1) * n + j)).bind fun s4 =>
  (s4.store (s4.k + 4) ((i : Int) * n + j + 1)).bind fun s5 =>
  (s5.store (s5.k + 5) (((i : Int) + 1) * n + j + 1)).bind fun s6 =>
  some { s6 with k := s6.k + 6 }

/-- `BuildWavesGeometry`, as far as the index vector goes: a vector of
`3 * TriangleCount()` zeros is allocated, the vertex count is asserted to be
below `0x0000ffff`, and the vector is filled quad by quad, row by row.  The
result is `none` when the `int` product `3 * TriangleCount()` overflows
(undefined) or is negative (converted to the unsigned size it exceeds the
largest vector and the constructor throws), when the assertion fails (the
program aborts; assertions are taken as compiled in), when `m - 1` or `n - 1`
overflows, and when an assignment is undefined.  (The creation of the geometry
record is not part of this.) -/
def BuildWavesGeometry {W : Type} (ops : WavesOps W) (w : W) : Option IndexFill :=
  let size := 3 * ops.TriangleCount w
  if ¬ (0 ≤ size ∧ size < 2147483648) then none
  else if ¬ ops.VertexCount w < 65535 then none
  else
    let indices := List.replicate size.toNat 0
    let m := ops.RowCount w
    let n := ops.ColumnCount w
    if ¬ (-2147483648 ≤ m - 1 ∧ -2147483648 ≤ n - 1) then none
    else
      forLoop (fun i st => forLoop (fun j st1 => quad n i j st1) 0 (n - 1).toNat st)
        0 (m - 1).toNat { indices := indices, k := 0, written := [] }

/-! ## The dirty countdown -/

/-- The slot and the element an upload into region `r` goes to; `none` for every
other event. -/
def Event.upload (r : Region) : Event → Option (Nat × Int)
  | Event.write r1 el slot _ _ => if r1 = r then some (slot, el) else none
  | _ => none

/-- The uploads into region `r` recorded in a trace, in order, each as the slot
and the element it went to. -/
def uploads (r : Region) (t : List Event) : List (Nat × Int) :=
  t.filterMap (Event.upload r)

/-- Number of `Update` calls among the steps. -/
def updates (ops : List Op) : Nat := ops.count Op.update

/-- The render items whose object constants are element `x` of the object
buffers. -/
def itemsAt (x : Nat) (s : App) : List RenderItem :=
  s.mAllRitems.filter fun e => e.ObjCBIndex = x

/-- The entries of the material map whose constants are element `y` of the
material buffers. -/
def materialsAt (y : Int) (s : App) : List (String × Option Material) :=
  s.mMaterials.filter fun p => p.2.map (fun mat => mat.MatCBIndex) = some y

/-- Number of uploads into slot `j` that a record with countdown `d` is due during
`u` calls of `Update` starting at ring index `c`: call number `k` goes to slot
`(c + k) mod 3` and uploads the record while `k ≤ d` (for `d ≤ 3`). -/
def dueUploads (c : Int) (d u j : Nat) : Nat :=
  (if 1 ≤ u ∧ 1 ≤ d ∧ (c + 1) % 3 = (j : Int) then 1 else 0) +
  (if 2 ≤ u ∧ 2 ≤ d ∧ (c + 2) % 3 = (j : Int) then 1 else 0) +
  (if 3 ≤ u ∧ 3 ≤ d ∧ (c + 3) % 3 = (j : Int) then 1 else 0)

/-- The state `demo` with a second material, which is never animated. -/
def demoScene : App :=
  { demo with
    mMaterials := demo.mMaterials ++
      [("grass", some { Name := "grass", MatCBIndex := 1, DiffuseSrvHeapIndex := 0 })] }

/-! ## The disturbance scheduler over many calls -/

/-- Number of `Disturb` calls in a call log. -/
def disturbances : List WaveCall → Nat
  | [] => 0
  | WaveCall.Disturb _ _ _ :: rest => disturbances rest + 1
  | WaveCall.Update _ :: rest => disturbances rest

/-- The first two statements of `UpdateWaves`, the scheduler and the simulation
step, call after call; a frame is the pair of `mTimer` and `gt` at the call. -/
def scheduleFrames {W : Type} (ops : WavesOps W) (rnd : RandomSource) :
    List (GameTimer × GameTimer) → WaveState W → WaveState W
  | [], d => d
  | f :: rest, d =>
    scheduleFrames ops rnd rest (stepWaves ops f.2 (scheduleDisturbance ops rnd f.1 d))

/-- `UpdateWaves`, call after call. -/
def UpdateWavesFrames {W : Type} (ops : WavesOps W) (rnd : RandomSource) :
    List (GameTimer × GameTimer) → WaveState W → Option (WaveState W)
  | [], d => some d
  | f :: rest, d => (UpdateWavesData ops rnd f.1 f.2 d).bind (UpdateWavesFrames ops rnd rest)

/-- Four calls of `UpdateWaves`, at the times 0.125, 0.5, 0.5 and 0.625. -/
def demoTimes : List (GameTimer × GameTimer) :=
  [({ TotalTime := 1 / 8, DeltaTime := 1 / 8 }, { TotalTime := 1 / 8, DeltaTime := 1 / 8 }),
   ({ TotalTime := 1 / 2, DeltaTime := 3 / 8 }, { TotalTime := 1 / 2, DeltaTime := 3 / 8 }),
   ({ TotalTime := 1 / 2, DeltaTime := 0 }, { TotalTime := 1 / 2, DeltaTime := 0 }),
   ({ TotalTime := 5 / 8, DeltaTime := 1 / 8 }, { TotalTime := 5 / 8, DeltaTime := 1 / 8 })]

/-- A call of `UpdateWaves` at `TotalTime = 2^23 = 8388608` seconds. -/
def lateFrame : GameTimer × GameTimer :=
  ({ TotalTime := 8388608, DeltaTime := 0 }, { TotalTime := 8388608, DeltaTime := 0 })

/-! ## The values of the water index buffer -/

/-- The six values the body of the quad loop of `BuildWavesGeometry` stores for
quad `(i, j)`, each converted to `uint16_t`. -/
def quadIndices (n : Int) (i j : Nat) : List Nat :=
  [(((i : Int) * n + j) % 65536).toNat, (((i : Int) * n + j + 1) % 65536).toNat,
   ((((i : Int) + 1) * n + j) % 65536).toNat, ((((i : Int) + 1) * n + j) % 65536).toNat,
   (((i : Int) * n + j + 1) % 65536).toNat, ((((i : Int) + 1) * n + j + 1) % 65536).toNat]

/-- A wave grid of 2 rows and 32769 columns, at rest. -/
def wideField : WaveField where
  m := 2
  n := 32769
  prev := List.replicate 65538 0
  curr := List.replicate 65538 0
  next := List.replicate 65538 0

/-- A wave grid of 20000 rows and 20000 columns, at rest. -/
def hugeField : WaveField where
  m := 20000
  n := 20000
  prev := List.replicate 400000000 0
  curr := List.replicate 400000000 0
  next := List.replicate 400000000 0

/-- The four values a quad stores are inside the range of `int`. -/
def quadInRange (n : Int) (i j : Nat) : Prop :=
  (-2147483648 ≤ (i : Int) * n + j ∧ (i : Int) * n + j < 2147483648) ∧
  (-2147483648 ≤ (i : Int) * n + j + 1 ∧ (i : Int) * n + j + 1 < 2147483648) ∧
  (-2147483648 ≤ ((i : Int) + 1) * n + j ∧ ((i : Int) + 1) * n + j < 2147483648) ∧
  (-2147483648 ≤ ((i : Int) + 1) * n + j + 1 ∧ ((i : Int) + 1) * n + j + 1 < 2147483648)

/-! ## The water texture scroll -/

/-- The part of the water material `AnimateMaterials` reads and writes: the
entries `(3, 0)` and `(3, 1)` of `MatTransform`, and the dirty countdown. -/
structure WaterMaterial where
  MatTransform30 : ℚ
  MatTransform31 : ℚ
  NumFramesDirty : Int := gNumFrameResources
  deriving DecidableEq, Repr

/-- `AnimateMaterials` with the data it moves (the function `AnimateMaterials`
above is the same code seen from the ring): both texture offsets are advanced
by the frame time, wrapped by one subtraction each, and the material is marked
dirty. -/
def AnimateMaterialsData (gt : GameTimer) (waterMat : WaterMaterial) : WaterMaterial :=
  let tu := waterMat.MatTransform30
  let tv := waterMat.MatTransform31
  let tu := tu + 1 / 10 * gt.DeltaTime
  let tv := tv + 1 / 50 * gt.DeltaTime
  let tu := if tu ≥ 1 then tu - 1 else tu
  let tv := if tv ≥ 1 then tv - 1 else tv
  { MatTransform30 := tu, MatTransform31 := tv, NumFramesDirty := gNumFrameResources }

/-! ## The tree sprites -/

/-- The local struct `TreeSpriteVertex` of `BuildTreeSpritesGeometry`. -/
structure TreeSpriteVertex where
  Pos : XMFLOAT3
  Size : XMFLOAT2
  deriving DecidableEq, Repr

/-- The geometry `BuildTreeSpritesGeometry` builds, as far as this file goes: the
array of 24 vertices (`none` for an element that was never assigned, the array
being uninitialised), the indices, the submesh registered as `"points"`, and
the vertex positions the placement loop assigned, in order. -/
structure TreeSpritesGeo where
  vertices : List (Option TreeSpriteVertex)
  assigned : List Nat
  indices : List Nat
  IndexCount : Nat
  StartIndexLocation : Nat
  BaseVertexLocation : Int
  deriving DecidableEq, Repr

/-- The assignment `vertices[i] = v` into the array; `none` outside the array. -/
def setTreeVertex (i : Nat) (v : TreeSpriteVertex)
    (st : List (Option TreeSpriteVertex) × List Nat) :
    Option (List (Option TreeSpriteVertex) × List Nat) :=
  if i < st.1.length then some (st.1.set i (some v), st.2 ++ [i]) else none

/-- The body of the placement loop of `BuildTreeSpritesGeometry` for tree `i`:
`continue` at `i == 18`, otherwise the tree is put on the ring of radius 75 at
angle `i * dTheta` and height 26, with size 20 x 60.  `cosf` and `sinf` are
parameters. -/
def placeTree (cosf sinf : ℚ → ℚ) (dTheta TreeRadius : ℚ) (i : Nat)
    (st : List (Option TreeSpriteVertex) × List Nat) :
    Option (List (Option TreeSpriteVertex) × List Nat) :=
  if i = 18 then some st
  else
    let x := TreeRadius * cosf (i * dTheta)
    let z := TreeRadius * sinf (i * dTheta)
    let y : ℚ := 1
    let y := y + 25
    setTreeVertex i { Pos := { x := x, y := y, z := z }, Size := { x := 20, y := 60 } } st

/-- `BuildTreeSpritesGeometry`: the placement loop over `i = 0, ..., treeCount - 1`,
the index array and the submesh.  `XM_PI`, `cosf` and `sinf` are parameters. -/
def BuildTreeSpritesGeometry (XM_PI : ℚ) (cosf sinf : ℚ → ℚ) : Option TreeSpritesGeo :=
  let treeCount : Nat := 24
  let vertices : List (Option TreeSpriteVertex) := List.replicate 24 none
  let dTheta : ℚ := 2 * XM_PI / treeCount
  let TreeRadius : ℚ := 75
  match forLoop (placeTree cosf sinf dTheta TreeRadius) 0 treeCount (vertices, []) with
  | none => none
  | some st =>
    let indices : List Nat :=
      [0, 1, 2, 3, 4, 5, 6, 7, 8, 9, 10, 11, 12, 13, 14, 15, 16, 17, 18, 19, 20, 21, 22, 23]
    some
      { vertices := st.1
        assigned := st.2
        indices := indices
        IndexCount := indices.length % 4294967296
        StartIndexLocation := 0
        BaseVertexLocation := 0 }

/-! ## Textures and the descriptor heap -/

/-- The value `m[k]` holds in a map with string keys, if the key is present. -/
def assocFind {α : Type} (m : List (String × α)) (k : String) : Option α :=
  match m with
  | [] => none
  | e :: rest => if e.1 = k then some e.2 else assocFind rest k

/-- Assignment `m[k] = v` in a map with string keys: replaces the entry for `k`, or
adds one. -/
def assocAssign {α : Type} (m : List (String × α)) (k : String) (v : α) : List (String × α) :=
  match m with
  | [] => [(k, v)]
  | e :: rest => if e.1 = k then (k, v) :: rest else e :: assocAssign rest k v

/-- The `Texture` struct (`d3dUtil.h` is outside the sources), as far as
`LoadTextures` fills it; the resource loaded from the file stands for itself. -/
structure Texture where
  Name : String
  Filename : String
  deriving DecidableEq, Repr

/-- `LoadTextures`: eleven textures are created and then assigned to `mTextures`
under their names, in source order (a null entry is `none`). -/
def LoadTextures (mTextures : List (String × Option Texture)) :
    List (String × Option Texture) :=
  let grassTex : Texture := { Name := "grassTex", Filename := "../../Textures/grass.dds" }
  let waterTex : Texture := { Name := "waterTex", Filename := "../../Textures/water1.dds" }
  let drawBrigeTex : Texture :=
    { Name := "drawBrigeTex", Filename := "../../Textures/DrawBridge.dds" }
  let blackStoneTex : Texture :=
    { Name := "blackStoneTex", Filename := "../../Textures/BlackStone.dds" }
  let bloodStoneTex : Texture :=
    { Name := "bloodStoneTex", Filename := "../../Textures/BloodStone.dds" }
  let jadeWoodTex : Texture :=
    { Name := "jadeWoodTex", Filename := "../../Textures/JadeWood.dds" }
  let poleTex : Texture := { Name := "poleTex", Filename := "../../Textures/Pole.dds" }
  let wellTex : Texture := { Name := "wellTex", Filename := "../../Textures/Well.dds" }
  let headgeTex : Texture := { Name := "headgeTex", Filename := "../../Textures/Headge.dds" }
  let treeArrayTex : Texture :=
    { Name := "treeArrayTex", Filename := "../../Textures/treeArr.dds" }
  let qubeTex : Texture := { Name := "quebertTex", Filename := "../../Textures/QBert_Icon.dds" }
  let m := mTextures
  let m := assocAssign m grassTex.Name (some grassTex)
  let m := assocAssign m waterTex.Name (some waterTex)
  let m := assocAssign m drawBrigeTex.Name (some drawBrigeTex)
  let m := assocAssign m blackStoneTex.Name (some blackStoneTex)
  let m := assocAssign m bloodStoneTex.Name (some bloodStoneTex)
  let m := assocAssign m jadeWoodTex.Name (some jadeWoodTex)
  let m := assocAssign m poleTex.Name (some poleTex)
  let m := assocAssign m wellTex.Name (some wellTex)
  let m := assocAssign m headgeTex.Name (some headgeTex)
  let m := assocAssign m treeArrayTex.Name (some treeArrayTex)
  assocAssign m qubeTex.Name (some qubeTex)

/-- The dimension of a shader resource view. -/
inductive ViewDimension where
  | TEXTURE2D
  | TEXTURE2DARRAY
  deriving DecidableEq, Repr

/-- A descriptor of the SRV heap: the texture whose resource it views, and the view
dimension. -/
structure ShaderResourceView where
  Resource : Texture
  Dimension : ViewDimension
  deriving DecidableEq, Repr

/-- The resource `mTextures[k]->Resource`; `none` where the entry is missing or
null (the pointer dereferenced is null then). -/
def textureResource (mTextures : List (String × Option Texture)) (k : String) :
    Option Texture :=
  match assocFind mTextures k with
  | some (some tex) => some tex
  | _ => none

/-- `CreateShaderResourceView(resource, &srvDesc, hDescriptor)`: the descriptor at
offset `hDescriptor` of the heap is written; `none` outside the heap. -/
def CreateShaderResourceView (resource : Texture) (dimension : ViewDimension)
    (hDescriptor : Nat) (heap : List (Option ShaderResourceView)) :
    Option (List (Option ShaderResourceView)) :=
  if hDescriptor < heap.length then
    some (heap.set hDescriptor (some { Resource := resource, Dimension := dimension }))
  else none

/-- The textures `BuildDescriptorHeaps` looks up and views, in source order, each
with the dimension of its view. -/
def srvTextures : List (String × ViewDimension) :=
  [("grassTex", ViewDimension.TEXTURE2D), ("waterTex", ViewDimension.TEXTURE2D),
   ("drawBrigeTex", ViewDimension.TEXTURE2D), ("blackStoneTex", ViewDimension.TEXTURE2D),
   ("bloodStoneTex", ViewDimension.TEXTURE2D), ("jadeWoodTex", ViewDimension.TEXTURE2D),
   ("poleTex", ViewDimension.TEXTURE2D), ("wellTex", ViewDimension.TEXTURE2D),
   ("headgeTex", ViewDimension.TEXTURE2D), ("quebertTex", ViewDimension.TEXTURE2D),
   ("treeArrayTex", ViewDimension.TEXTURE2DARRAY)]

/-- The statements `auto xTex = mTextures["xTex"]->Resource;`, in order. -/
def lookupTextures (mTextures : List (String × Option Texture)) :
    List (String × ViewDimension) → Option (List (Texture × ViewDimension))
  | [] => some []
  | v :: rest =>
    (textureResource mTextures v.1).bind fun tex =>
      (lookupTextures mTextures rest).map fun texs => (tex, v.2) :: texs

/-- The statements `CreateShaderResourceView(xTex.Get(), &srvDesc, hDescriptor)`, in
order, with `hDescriptor.Offset(1, mCbvSrvDescriptorSize)` between two of
them. -/
def createViews : List (Texture × ViewDimension) → Nat → List (Option ShaderResourceView) →
    Option (List (Option ShaderResourceView))
  | [], _, heap => some heap
  | v :: rest, hDescriptor, heap =>
    (CreateShaderResourceView v.1 v.2 hDescriptor heap).bind
      (createViews rest (hDescriptor + 1))

/-- `BuildDescriptorHeaps`: a heap of 11 descriptors is created, the eleven
textures are looked up, and one view per texture is created, starting at the
first descriptor of the heap.  The result is the heap. -/
def BuildDescriptorHeaps (mTextures : List (String × Option Texture)) :
    Option (List (Option ShaderResourceView)) :=
  let heap : List (Option ShaderResourceView) := List.replicate 11 none
  (lookupTextures mTextures srvTextures).bind fun texs => createViews texs 0 heap

/-- The descriptor `DrawRenderItems` binds for a render item with material `mat`:
the one at offset `mat.DiffuseSrvHeapIndex` of the heap. -/
def boundTexture (heap : List (Option ShaderResourceView)) (mat : Material) :
    Option ShaderResourceView :=
  if 0 ≤ mat.DiffuseSrvHeapIndex then (heap[mat.DiffuseSrvHeapIndex.toNat]?).join else none

/-! ## The shape geometry -/

/-- `GeometryGenerator::Vertex`, as far as `BuildShapeGeometry` reads it
(`GeometryGenerator.h` is outside the sources). -/
structure GeoVertex where
  Position : XMFLOAT3
  Normal : XMFLOAT3
  TexC : XMFLOAT2
  deriving DecidableEq, Repr

/-- `GeometryGenerator::MeshData` (`GeometryGenerator.h` is outside the sources):
the vertices, the 32-bit indices, and the 16-bit indices `GetIndices16()`
returns. -/
structure MeshData where
  Vertices : List GeoVertex
  Indices32 : List Nat
  GetIndices16 : List Nat
  deriving DecidableEq, Repr

/-- `SubmeshGeometry` (`d3dUtil.h` is outside the sources): two `UINT` fields and
one `INT` field, all 0 by default. -/
structure SubmeshGeometry where
  IndexCount : Nat := 0
  StartIndexLocation : Nat := 0
  BaseVertexLocation : Int := 0
  deriving DecidableEq, Repr

/-- The geometry `BuildShapeGeometry` registers as `"shapeGeo"`, as far as this
file goes: the concatenated vertex and index vectors and the submesh table. -/
structure ShapeGeo where
  vertices : List Vertex
  indices : List Nat
  DrawArgs : List (String × SubmeshGeometry)
  deriving DecidableEq, Repr

/-- Conversion of a `UINT` to `INT`. -/
def toINT (u : Nat) : Int := if u < 2147483648 then (u : Int) else (u : Int) - 4294967296

/-- The three assignments `vertices[k].Pos = ...`, `.Normal = ...`, `.TexC = ...`. -/
def shapeVertex (v : GeoVertex) : Vertex :=
  { Pos := v.Position, Normal := v.Normal, TexC := v.TexC }

/-- One copy loop of `BuildShapeGeometry`,
`for (size_t i = 0; i < mesh.Vertices.size(); ++i, ++k)`, on the vector
`vertices` and the `UINT` counter `k`. -/
def copyMesh (mesh : MeshData) (st : List Vertex × Nat) : Option (List Vertex × Nat) :=
  forLoop (fun i st1 =>
    match mesh.Vertices[i]? with
    | none => none
    | some v =>
      if st1.2 < st1.1.length then
        some (st1.1.set st1.2 (shapeVertex v), (st1.2 + 1) % 4294967296)
      else none) 0 mesh.Vertices.length st

/-- The copy loops of `BuildShapeGeometry` for the given meshes, one after the
other. -/
def copyMeshes : List MeshData → List Vertex × Nat → Option (List Vertex × Nat)
  | [], st => some st
  | mesh :: rest, st => (copyMesh mesh st).bind (copyMeshes rest)

/-- The nine meshes of `BuildShapeGeometry` with the names their submeshes are
registered under, in the order in which the function lays them out. -/
def shapeList (box cylinder cone pyramid box2 wedge diamond flag pipe : MeshData) :
    List (String × MeshData) :=
  [("box", box), ("cylinder", cylinder), ("cone", cone), ("pyramid", pyramid),
   ("box2", box2), ("wedge", wedge), ("diamond", diamond), ("flag", flag), ("pipe", pipe)]

/-- `BuildShapeGeometry`, from the nine meshes the geometry generator returns: the
vertex and index offsets (steps 2 and 3), the submeshes (step 4), the vertex
vector filled by nine copy loops (steps 5 and 6), the index vector (step 7)
and the submesh table (step 8).  Sizes cast to `UINT` are taken modulo `2^32`. -/
def BuildShapeGeometry (box cylinder cone pyramid box2 wedge diamond flag pipe : MeshData) :
    Option ShapeGeo :=
  let boxVertexOffset : Nat := 0
  let cylinderVertexOffset := box.Vertices.length % 4294967296
  let coneVertexOffset :=
    (cylinderVertexOffset + cylinder.Vertices.length % 4294967296) % 4294967296
  let pyramidVertexOffset := (coneVertexOffset + cone.Vertices.length % 4294967296) % 4294967296
  let box2VertexOffset :=
    (pyramidVertexOffset + pyramid.Vertices.length % 4294967296) % 4294967296
  let wedgeVertexOffset := (box2VertexOffset + box2.Vertices.length % 4294967296) % 4294967296
  let diamondVertexOffset :=
    (wedgeVertexOffset + wedge.Vertices.length % 4294967296) % 4294967296
  let flagVertexOffset :=
    (diamondVertexOffset + diamond.Vertices.length % 4294967296) % 4294967296
  let pipeVertexOffset := (flagVertexOffset + flag.Vertices.length % 4294967296) % 4294967296
  let boxIndexOffset : Nat := 0
  let cylinderIndexOffset := box.Indices32.length % 4294967296
  let coneIndexOffset :=
    (cylinderIndexOffset + cylinder.Indices32.length % 4294967296) % 4294967296
  let pyramidIndexOffset := (coneIndexOffset + cone.Indices32.length % 4294967296) % 4294967296
  let box2IndexOffset :=
    (pyramidIndexOffset + pyramid.Indices32.length % 4294967296) % 4294967296
  let wedgeIndexOffset := (box2IndexOffset + box2.Indices32.length % 4294967296) % 4294967296
  let diamondIndexOffset :=
    (wedgeIndexOffset + wedge.Indices32.length % 4294967296) % 4294967296
  let flagIndexOffset :=
    (diamondIndexOffset + diamond.Indices32.length % 4294967296) % 4294967296
  let pipeIndexOffset := (flagIndexOffset + flag.Indices32.length % 4294967296) % 4294967296
  let boxSubmesh : SubmeshGeometry :=
    { IndexCount := box.Indices32.length % 4294967296
      StartIndexLocation := boxIndexOffset
      BaseVertexLocation := toINT boxVertexOffset }
  let cylinderSubmesh : SubmeshGeometry :=
    { IndexCount := cylinder.Indices32.length % 4294967296
      StartIndexLocation := cylinderIndexOffset
      BaseVertexLocation := toINT cylinderVertexOffset }
  let coneSubmesh : SubmeshGeometry :=
    { IndexCount := cone.Indices32.length % 4294967296
      StartIndexLocation := coneIndexOffset
      BaseVertexLocation := toINT coneVertexOffset }
  let pyramidSubmesh : SubmeshGeometry :=
    { IndexCount := pyramid.Indices32.length % 4294967296
      StartIndexLocation := pyramidIndexOffset
      BaseVertexLocation := toINT pyramidVertexOffset }
  let box2Submesh : SubmeshGeometry :=
    { IndexCount := box2.Indices32.length % 4294967296
      StartIndexLocation := box2IndexOffset
      BaseVertexLocation := toINT box2VertexOffset }
  let wedgeSubmesh : SubmeshGeometry :=
    { IndexCount := wedge.Indices32.length % 4294967296
      StartIndexLocation := wedgeIndexOffset
      BaseVertexLocation := toINT wedgeVertexOffset }
  let diamondSubmesh : SubmeshGeometry :=
    { IndexCount := diamond.Indices32.length % 4294967296
      StartIndexLocation := diamondIndexOffset
      BaseVertexLocation := toINT diamondVertexOffset }
  let flagSubmesh : SubmeshGeometry :=
    { IndexCount := flag.Indices32.length % 4294967296
      StartIndexLocation := flagIndexOffset
      BaseVertexLocation := toINT flagVertexOffset }
  let pipeSubmesh : SubmeshGeometry :=
    { IndexCount := pipe.Indices32.length % 4294967296
      StartIndexLocation := pipeIndexOffset
      BaseVertexLocation := toINT pipeVertexOffset }
  let totalVertexCount :=
    box.Vertices.length + cylinder.Vertices.length + cone.Vertices.length +
    pyramid.Vertices.length + box2.Vertices.length + wedge.Vertices.length +
    diamond.Vertices.length + flag.Vertices.length + pipe.Vertices.length
  let zero : Vertex :=
    { Pos := { x := 0, y := 0, z := 0 }, Normal := { x := 0, y := 0, z := 0 },
      TexC := { x := 0, y := 0 } }
  let vertices : List Vertex := List.replicate totalVertexCount zero
  let meshes := [box, cylinder, cone, pyramid, box2, wedge, diamond, flag, pipe]
  match copyMeshes meshes (vertices, 0) with
  | none => none
  | some st =>
    let indices : List Nat :=
      box.GetIndices16 ++ cylinder.GetIndices16 ++ cone.GetIndices16 ++ pyramid.GetIndices16 ++
      box2.GetIndices16 ++ wedge.GetIndices16 ++ diamond.GetIndices16 ++ flag.GetIndices16 ++
      pipe.GetIndices16
    let DrawArgs : List (String × SubmeshGeometry) := []
    let DrawArgs := assocAssign DrawArgs "box" boxSubmesh
    let DrawArgs := assocAssign DrawArgs "cylinder" cylinderSubmesh
    let DrawArgs := assocAssign DrawArgs "cone" coneSubmesh
    let DrawArgs := assocAssign DrawArgs "pyramid" pyramidSubmesh
    let DrawArgs := assocAssign DrawArgs "box2" box2Submesh
    let DrawArgs := assocAssign DrawArgs "wedge" wedgeSubmesh
    let DrawArgs := assocAssign DrawArgs "diamond" diamondSubmesh
    let DrawArgs := assocAssign DrawArgs "flag" flagSubmesh
    let DrawArgs := assocAssign DrawArgs "pipe" pipeSubmesh
    some { vertices := st.1, indices := indices, DrawArgs := DrawArgs }

/-- A mesh of one triangle, used to run the definitions. -/
def demoTriangle : MeshData where
  Vertices :=
    [{ Position := { x := 0, y := 0, z := 0 }, Normal := { x := 0, y := 1, z := 0 },
       TexC := { x := 0, y := 0 } },
     { Position := { x := 1, y := 0, z := 0 }, Normal := { x := 0, y := 1, z := 0 },
       TexC := { x := 1, y := 0 } },
     { Position := { x := 0, y := 0, z := 1 }, Normal := { x := 0, y := 1, z := 0 },
       TexC := { x := 0, y := 1 } }]
  Indices32 := [0, 1, 2]
  GetIndices16 := [0, 1, 2]

/-- A mesh of one square made of two triangles, used to run the definitions. -/
def demoSquare : MeshData where
  Vertices :=
    [{ Position := { x := 0, y := 0, z := 0 }, Normal := { x := 0, y := 1, z := 0 },
       TexC := { x := 0, y := 0 } },
     { Position := { x := 1, y := 0, z := 0 }, Normal := { x := 0, y := 1, z := 0 },
       TexC := { x := 1, y := 0 } },
     { Position := { x := 0, y := 0, z := 1 }, Normal := { x := 0, y := 1, z := 0 },
       TexC := { x := 0, y := 1 } },
     { Position := { x := 1, y := 0, z := 1 }, Normal := { x := 0, y := 1, z := 0 },
       TexC := { x := 1, y := 1 } }]
  Indices32 := [0, 1, 2, 2, 1, 3]
  GetIndices16 := [0, 1, 2, 2, 1, 3]

/-! ## The consumer: basic facts -/

theorem gpuExec_ge (cmd : Command) (c : Nat) : c ≤ gpuExec cmd c := by
  cases cmd <;> simp [gpuExec]

theorem gpuFinal_ge (q : List Command) (c : Nat) : c ≤ gpuFinal q c := by
  induction q generalizing c with
  | nil => simp [gpuFinal]
  | cons cmd q ih => exact le_trans (gpuExec_ge cmd c) (ih _)

theorem gpuFinal_append (q r : List Command) (c : Nat) :
    gpuFinal (q ++ r) c = gpuFinal r (gpuFinal q c) := by
  induction q generalizing c with
  | nil => rfl
  | cons cmd q ih => simpa [gpuFinal] using ih _

theorem gpuFinal_submit (q : List Command) (c i f : Nat) :
    gpuFinal (q ++ [Command.execute i, Command.signal f]) c = max (gpuFinal q c) f := by
  rw [gpuFinal_append]; simp [gpuFinal, gpuExec]

theorem gpuStep_final (s : App) :
    gpuFinal (gpuStep s).mCommandQueue (gpuStep s).mFence = gpuFinal s.mCommandQueue s.mFence := by
  unfold gpuStep
  cases h : s.mCommandQueue with
  | nil => simp [h]
  | cons c q => simp [gpuFinal]

theorem gpuStep_fence_ge (s : App) : s.mFence ≤ (gpuStep s).mFence := by
  unfold gpuStep
  cases h : s.mCommandQueue with
  | nil => simp
  | cons c q => simpa using gpuExec_ge c s.mFence

/-- The consumer changes nothing but the queue and the completed value. -/
theorem gpuStep_frame (s : App) :
    (gpuStep s).mFrameResources = s.mFrameResources ∧
    (gpuStep s).mCurrFrameResource = s.mCurrFrameResource ∧
    (gpuStep s).mCurrFrameResourceIndex = s.mCurrFrameResourceIndex ∧
    (gpuStep s).mAllRitems = s.mAllRitems ∧ (gpuStep s).mMaterials = s.mMaterials ∧
    (gpuStep s).mWaves = s.mWaves ∧ (gpuStep s).mCurrentFence = s.mCurrentFence ∧
    (gpuStep s).trace = s.trace := by
  unfold gpuStep
  cases h : s.mCommandQueue <;> simp

theorem gpuRun_final (n : Nat) (s : App) :
    gpuFinal (gpuRun n s).mCommandQueue (gpuRun n s).mFence
      = gpuFinal s.mCommandQueue s.mFence := by
  induction n generalizing s with
  | zero => rfl
  | succ n ih => rw [gpuRun, ih, gpuStep_final]

theorem gpuRun_fence_ge (n : Nat) (s : App) : s.mFence ≤ (gpuRun n s).mFence := by
  induction n generalizing s with
  | zero => exact le_refl _
  | succ n ih => exact le_trans (gpuStep_fence_ge s) (ih _)

theorem gpuRun_frame (n : Nat) (s : App) :
    (gpuRun n s).mFrameResources = s.mFrameResources ∧
    (gpuRun n s).mCurrFrameResource = s.mCurrFrameResource ∧
    (gpuRun n s).mCurrFrameResourceIndex = s.mCurrFrameResourceIndex ∧
    (gpuRun n s).mAllRitems = s.mAllRitems ∧ (gpuRun n s).mMaterials = s.mMaterials ∧
    (gpuRun n s).mWaves = s.mWaves ∧ (gpuRun n s).mCurrentFence = s.mCurrentFence ∧
    (gpuRun n s).trace = s.trace := by
  induction n generalizing s with
  | zero => simp [gpuRun]
  | succ n ih =>
    obtain ⟨h1, h2, h3, h4, h5, h6, h7, h8⟩ := ih (gpuStep s)
    obtain ⟨g1, g2, g3, g4, g5, g6, g7, g8⟩ := gpuStep_frame s
    rw [gpuRun]
    exact ⟨h1.trans g1, h2.trans g2, h3.trans g3, h4.trans g4, h5.trans g5, h6.trans g6,
      h7.trans g7, h8.trans g8⟩

/-- A wait on a value already reached returns at once, leaving the queue alone. -/
theorem gpuWait_reached (f : Nat) (q : List Command) (c : Nat) (h : f ≤ c) :
    gpuWait f q c = some (q, c) := by
  cases q <;> simp [gpuWait, h]

/-- The wait returns exactly when executing the queue reaches the value. -/
theorem gpuWait_isSome (f : Nat) (q : List Command) (c : Nat) :
    (∃ r, gpuWait f q c = some r) ↔ f ≤ gpuFinal q c := by
  induction q generalizing c with
  | nil => by_cases h : f ≤ c <;> simp [gpuWait, gpuFinal, h]
  | cons cmd q ih =>
    by_cases h : f ≤ c
    · have := le_trans h (gpuFinal_ge (cmd :: q) c)
      simp [gpuWait, h, this]
    · simp only [gpuWait, h, if_false, gpuFinal]
      exact ih _

/-- What a released wait leaves behind: the consumer has executed a prefix `pre` of
the queue, the completed value has reached `f`, and it had not reached `f`
after any shorter prefix. -/
theorem gpuWait_spec (f : Nat) (q : List Command) (c : Nat) (q1 : List Command) (c1 : Nat)
    (h : gpuWait f q c = some (q1, c1)) :
    f ≤ c1 ∧ c ≤ c1 ∧ gpuFinal q1 c1 = gpuFinal q c ∧
    ∃ pre, q = pre ++ q1 ∧ c1 = gpuFinal pre c ∧
      ∀ k, k < pre.length → gpuFinal (pre.take k) c < f := by
  induction q generalizing c with
  | nil =>
    by_cases hc : f ≤ c
    · simp [gpuWait, hc] at h
      obtain ⟨rfl, rfl⟩ := h
      exact ⟨hc, le_refl _, rfl, [], rfl, rfl, by simp⟩
    · simp [gpuWait, hc] at h
  | cons cmd q ih =>
    by_cases hc : f ≤ c
    · simp [gpuWait, hc] at h
      obtain ⟨rfl, rfl⟩ := h
      exact ⟨hc, le_refl _, rfl, [], rfl, rfl, by simp⟩
    · simp only [gpuWait, hc, if_false] at h
      obtain ⟨h1, h2, h3, pre, h4, h5, h6⟩ := ih _ h
      refine ⟨h1, le_trans (gpuExec_ge cmd c) h2, by simpa [gpuFinal] using h3,
        cmd :: pre, by simp [h4], by simpa [gpuFinal] using h5, ?_⟩
      intro k hk
      cases k with
      | zero => simpa [gpuFinal] using hc
      | succ k =>
        have := h6 k (by simpa using hk)
        simpa [gpuFinal] using this

/-! ## The uploads of `Update` -/

theorem sameRing_refl (s : App) : SameRing s s := by simp [SameRing]

theorem sameRing_trans {s t u : App} (h1 : SameRing s t) (h2 : SameRing t u) : SameRing s u := by
  obtain ⟨a1, a2, a3, a4, a5, a6, a7⟩ := h1
  obtain ⟨b1, b2, b3, b4, b5, b6, b7⟩ := h2
  exact ⟨b1.trans a1, b2.trans a2, b3.trans a3, b4.trans a4, b5.trans a5, b6.trans a6,
    b7.trans a7⟩

theorem sameRing_currSlot {s t : App} (h : SameRing s t) : currSlot t = currSlot s := by
  obtain ⟨a1, a2, _⟩ := h
  simp [currSlot, a1, a2]

theorem writesTo_append {i f c : Nat} {a b : List Event} (ha : WritesTo i f c a)
    (hb : WritesTo i f c b) : WritesTo i f c (a ++ b) := by
  intro e he
  rcases List.mem_append.mp he with h | h
  · exact ha e h
  · exact hb e h

theorem mapFind_ne_none (m : List (String × Option Material)) (k : String) :
    mapFind m k ≠ none ↔ k ∈ m.map Prod.fst := by
  induction m with
  | nil => simp [mapFind]
  | cons e rest ih =>
    by_cases h : e.1 = k
    · simp [mapFind, h]
    · have h' : ¬ k = e.1 := fun x => h x.symm
      simp [mapFind, h, h', ih]

theorem mapAssign_keys (m : List (String × Option Material)) (k : String) (v : Option Material)
    (h : k ∈ m.map Prod.fst) : (mapAssign m k v).map Prod.fst = m.map Prod.fst := by
  induction m with
  | nil => simp at h
  | cons e rest ih =>
    by_cases hk : e.1 = k
    · simp [mapAssign, hk]
    · have h' : ¬ k = e.1 := fun x => hk x.symm
      have : k ∈ rest.map Prod.fst := by simpa [h'] using h
      simp [mapAssign, hk, ih this]

theorem mapAssign_nonnull (m : List (String × Option Material)) (k : String)
    (v : Option Material) (hv : v ≠ none) (h : ∀ e ∈ m, e.2 ≠ none) :
    ∀ e ∈ mapAssign m k v, e.2 ≠ none := by
  induction m with
  | nil => simpa [mapAssign] using hv
  | cons e rest ih =>
    have hrest : ∀ x ∈ rest, x.2 ≠ none := fun x hx => h x (List.mem_cons_of_mem _ hx)
    by_cases hk : e.1 = k
    · intro x hx
      simp only [mapAssign, hk, if_true, List.mem_cons] at hx
      rcases hx with rfl | hx
      · exact hv
      · exact hrest x hx
    · intro x hx
      simp only [mapAssign, hk, if_false, List.mem_cons] at hx
      rcases hx with rfl | hx
      · exact h _ (List.mem_cons_self _ _)
      · exact ih hrest x hx

theorem objectWrites_writes (i f c : Nat) (l : List RenderItem) :
    WritesTo i f c (objectWrites i f c l).2 := by
  induction l with
  | nil => simp [objectWrites, WritesTo]
  | cons e rest ih =>
    intro x hx
    by_cases hd : e.NumFramesDirty > 0
    · simp only [objectWrites, hd, if_true, List.mem_cons] at hx
      rcases hx with rfl | hx
      · exact ⟨_, _, rfl⟩
      · exact ih x hx
    · simp only [objectWrites, hd, if_false] at hx
      exact ih x hx

theorem materialWrites_total (i f c : Nat) (m : List (String × Option Material))
    (h : ∀ e ∈ m, e.2 ≠ none) :
    ∃ r, materialWrites i f c m = some r ∧ r.1.map Prod.fst = m.map Prod.fst ∧
      (∀ e ∈ r.1, e.2 ≠ none) := by
  induction m with
  | nil => exact ⟨([], []), rfl, rfl, by simp⟩
  | cons e rest ih =>
    obtain ⟨k, v⟩ := e
    have hrest : ∀ x ∈ rest, x.2 ≠ none := fun x hx => h x (List.mem_cons_of_mem _ hx)
    obtain ⟨r, hr, hk, hn⟩ := ih hrest
    cases v with
    | none => exact absurd rfl (h (k, none) (List.mem_cons_self _ _))
    | some mat =>
      by_cases hd : mat.NumFramesDirty > 0
      · refine ⟨((k, some { mat with NumFramesDirty := mat.NumFramesDirty - 1 }) :: r.1,
          Event.write Region.materialCB mat.MatCBIndex i f c :: r.2),
          by simp only [materialWrites, hr, hd, if_true], by simp [hk], ?_⟩
        intro x hx
        simp only [List.mem_cons] at hx
        rcases hx with rfl | hx
        · simp
        · exact hn x hx
      · refine ⟨((k, some mat) :: r.1, r.2),
          by simp only [materialWrites, hr, hd, if_false], by simp [hk], ?_⟩
        intro x hx
        simp only [List.mem_cons] at hx
        rcases hx with rfl | hx
        · simp
        · exact hn x hx

theorem materialWrites_writes (i f c : Nat) (m : List (String × Option Material))
    (r : List (String × Option Material) × List Event) (h : materialWrites i f c m = some r) :
    WritesTo i f c r.2 := by
  induction m generalizing r with
  | nil =>
    simp only [materialWrites, Option.some.injEq] at h
    subst h
    simp [WritesTo]
  | cons e rest ih =>
    obtain ⟨k, v⟩ := e
    cases v with
    | none => simp [materialWrites] at h
    | some mat =>
      cases hr : materialWrites i f c rest with
      | none => simp [materialWrites, hr] at h
      | some r0 =>
        have h0 := ih r0 hr
        by_cases hd : mat.NumFramesDirty > 0
        · simp only [materialWrites, hr, hd, if_true, Option.some.injEq] at h
          subst h
          intro x hx
          simp only [List.mem_cons] at hx
          rcases hx with rfl | hx
          · exact ⟨_, _, rfl⟩
          · exact h0 x hx
        · simp only [materialWrites, hr, hd, if_false, Option.some.injEq] at h
          subst h
          exact h0

theorem waveWrites_writes (i f c n : Nat) : WritesTo i f c (waveWrites i f c n) := by
  intro e he
  simp only [waveWrites, List.mem_map] at he
  obtain ⟨k, _, rfl⟩ := he
  exact ⟨_, _, rfl⟩

theorem uploaded_trans {s t u : App} (h1 : Uploaded s t) (h2 : Uploaded t u) : Uploaded s u := by
  obtain ⟨i, fr, evs, hc, hr, ht, hw⟩ := h1
  obtain ⟨i2, fr2, evs2, hc2, hr2, ht2, hw2⟩ := h2
  have hcs : currSlot t = currSlot s := sameRing_currSlot hr
  rw [hcs, hc] at hc2
  simp only [Option.some.injEq, Prod.mk.injEq] at hc2
  obtain ⟨rfl, rfl⟩ := hc2
  have hf : t.mFence = s.mFence := hr.2.2.2.2.2.1
  rw [hf] at hw2
  exact ⟨i, fr, evs ++ evs2, hc, sameRing_trans hr hr2, by rw [ht2, ht, List.append_assoc],
    writesTo_append hw hw2⟩

theorem AnimateMaterials_spec (s t : App) (h : AnimateMaterials s = some t) :
    SameRing s t ∧ t.trace = s.trace ∧ t.mAllRitems = s.mAllRitems := by
  unfold AnimateMaterials at h
  split at h
  · simp only [Option.some.injEq] at h
    subst h
    simp [SameRing]
  · simp at h

theorem AnimateMaterials_total (s : App) (h : Loaded s) :
    ∃ t, AnimateMaterials s = some t ∧ Loaded t := by
  obtain ⟨hn, hw, hv⟩ := h
  have hkey : "water" ∈ s.mMaterials.map Prod.fst := (mapFind_ne_none _ _).mp hw
  cases hf : mapFind s.mMaterials "water" with
  | none => exact absurd hf hw
  | some v =>
    cases v with
    | none =>
      exfalso
      have : ∀ m : List (String × Option Material), mapFind m "water" = some none →
          ∃ e ∈ m, e.2 = none := by
        intro m
        induction m with
        | nil => simp [mapFind]
        | cons e rest ih =>
          by_cases hk : e.1 = "water"
          · intro hm
            simp only [mapFind, hk, if_true, Option.some.injEq] at hm
            exact ⟨e, List.mem_cons_self _ _, hm⟩
          · intro hm
            simp only [mapFind, hk, if_false] at hm
            obtain ⟨x, hx, hx2⟩ := ih hm
            exact ⟨x, List.mem_cons_of_mem _ hx, hx2⟩
      obtain ⟨e, he, he2⟩ := this _ hf
      exact hn e he he2
    | some waterMat =>
      have hdef : ∃ t, AnimateMaterials s = some t ∧ t.mWaves = s.mWaves ∧
          ∃ v, v ≠ none ∧ t.mMaterials = mapAssign s.mMaterials "water" v := by
        simp only [AnimateMaterials, hf]
        exact ⟨_, rfl, rfl, _, by simp, rfl⟩
      obtain ⟨t, hdef, htw, v, hv0, htm⟩ := hdef
      refine ⟨t, hdef, ?_, ?_, by rw [htw]; exact hv⟩
      · rw [htm]
        exact mapAssign_nonnull _ _ _ hv0 hn
      · rw [mapFind_ne_none, htm, mapAssign_keys _ _ _ hkey]
        exact hkey

theorem UpdateObjectCBs_spec (s t : App) (h : UpdateObjectCBs s = some t) :
    Uploaded s t ∧ t.mMaterials = s.mMaterials := by
  unfold UpdateObjectCBs at h
  cases hc : currSlot s with
  | none => simp [hc] at h
  | some p =>
    obtain ⟨i, fr⟩ := p
    simp only [hc, Option.some.injEq] at h
    subst h
    exact ⟨⟨i, fr, _, hc, by simp [SameRing], rfl, objectWrites_writes _ _ _ _⟩, rfl⟩

theorem UpdateMaterialCBs_spec (s t : App) (h : UpdateMaterialCBs s = some t) :
    Uploaded s t := by
  unfold UpdateMaterialCBs at h
  cases hc : currSlot s with
  | none => simp [hc] at h
  | some p =>
    obtain ⟨i, fr⟩ := p
    simp only [hc] at h
    cases hm : materialWrites i fr.Fence s.mFence s.mMaterials with
    | none => simp [hm] at h
    | some r =>
      simp only [hm, Option.some.injEq] at h
      subst h
      exact ⟨i, fr, _, hc, by simp [SameRing], rfl, materialWrites_writes _ _ _ _ _ hm⟩

theorem UpdateMainPassCB_spec (s t : App) (h : UpdateMainPassCB s = some t) :
    Uploaded s t ∧ t.mMaterials = s.mMaterials := by
  unfold UpdateMainPassCB at h
  cases hc : currSlot s with
  | none => simp [hc] at h
  | some p =>
    obtain ⟨i, fr⟩ := p
    simp only [hc, Option.some.injEq] at h
    subst h
    refine ⟨⟨i, fr, _, hc, by simp [SameRing], rfl, ?_⟩, rfl⟩
    intro e he
    simp only [List.mem_singleton] at he
    exact ⟨_, _, he⟩

theorem UpdateWaves_spec (s t : App) (h : UpdateWaves s = some t) :
    Uploaded s t ∧ t.mMaterials = s.mMaterials := by
  unfold UpdateWaves at h
  cases hw : s.mWaves with
  | none => simp [hw] at h
  | some w =>
    cases hc : currSlot s with
    | none => simp [hw, hc] at h
    | some p =>
      obtain ⟨i, fr⟩ := p
      simp only [hw, hc, Option.some.injEq] at h
      subst h
      exact ⟨⟨i, fr, _, hc, by simp [SameRing, hw], rfl, waveWrites_writes _ _ _ _⟩, rfl⟩

/-- Whatever `UpdateUpload` does, it only uploads into the current slot. -/
theorem UpdateUpload_spec (s t : App) (h : UpdateUpload s = some t) : Uploaded s t := by
  unfold UpdateUpload at h
  obtain ⟨s4, h4, hW⟩ := Option.bind_eq_some.mp h
  obtain ⟨s3, h3, hP⟩ := Option.bind_eq_some.mp h4
  obtain ⟨s2, h2, hM⟩ := Option.bind_eq_some.mp h3
  obtain ⟨s1, h1, hO⟩ := Option.bind_eq_some.mp h2
  obtain ⟨a1, a2, _⟩ := AnimateMaterials_spec s s1 h1
  have u := uploaded_trans
    (uploaded_trans (UpdateObjectCBs_spec s1 s2 hO).1 (UpdateMaterialCBs_spec s2 s3 hM))
    (uploaded_trans (UpdateMainPassCB_spec s3 s4 hP).1 (UpdateWaves_spec s4 t hW).1)
  obtain ⟨i, fr, evs, hc, hr, ht, hw⟩ := u
  refine ⟨i, fr, evs, by rw [← sameRing_currSlot a1, hc], sameRing_trans a1 hr,
    by rw [ht, a2], ?_⟩
  rw [← a1.2.2.2.2.2.1]
  exact hw

theorem Loaded_of_same {s t : App} (h : Loaded s) (hm : t.mMaterials = s.mMaterials)
    (hw : t.mWaves = s.mWaves) : Loaded t := by
  unfold Loaded at *
  rw [hm, hw]
  exact h

theorem UpdateObjectCBs_total (s : App) (i : Nat) (fr : FrameResource)
    (hc : currSlot s = some (i, fr)) : ∃ t, UpdateObjectCBs s = some t := by
  simp [UpdateObjectCBs, hc]

theorem UpdateMaterialCBs_total (s : App) (hl : Loaded s) (i : Nat) (fr : FrameResource)
    (hc : currSlot s = some (i, fr)) : ∃ t, UpdateMaterialCBs s = some t ∧ Loaded t := by
  obtain ⟨r, hr, hk, hn⟩ := materialWrites_total i fr.Fence s.mFence s.mMaterials hl.1
  refine ⟨{ s with mMaterials := r.1, trace := s.trace ++ r.2 },
    by simp [UpdateMaterialCBs, hc, hr], hn, ?_, hl.2.2⟩
  rw [mapFind_ne_none]
  show "water" ∈ r.1.map Prod.fst
  rw [hk]
  exact (mapFind_ne_none _ _).mp hl.2.1

theorem UpdateMainPassCB_total (s : App) (i : Nat) (fr : FrameResource)
    (hc : currSlot s = some (i, fr)) : ∃ t, UpdateMainPassCB s = some t := by
  simp [UpdateMainPassCB, hc]

theorem UpdateWaves_total (s : App) (hl : Loaded s) (i : Nat) (fr : FrameResource)
    (hc : currSlot s = some (i, fr)) : ∃ t, UpdateWaves s = some t := by
  cases hw : s.mWaves with
  | none => exact absurd hw hl.2.2
  | some w => simp [UpdateWaves, hw, hc]

/-- With the materials and the wave grid in place and a current slot selected,
`UpdateUpload` returns. -/
theorem UpdateUpload_total (s : App) (hl : Loaded s) (i : Nat) (fr : FrameResource)
    (hc : currSlot s = some (i, fr)) : ∃ t, UpdateUpload s = some t ∧ Loaded t := by
  obtain ⟨s1, h1, l1⟩ := AnimateMaterials_total s hl
  have c1 : currSlot s1 = some (i, fr) := by
    rw [sameRing_currSlot (AnimateMaterials_spec s s1 h1).1, hc]
  obtain ⟨s2, h2⟩ := UpdateObjectCBs_total s1 i fr c1
  obtain ⟨u2, m2⟩ := UpdateObjectCBs_spec _ _ h2
  obtain ⟨_, _, _, _, r2, _, _⟩ := u2
  have l2 : Loaded s2 := Loaded_of_same l1 m2 r2.2.2.2.1
  have c2 : currSlot s2 = some (i, fr) := (sameRing_currSlot r2).trans c1
  obtain ⟨s3, h3, l3⟩ := UpdateMaterialCBs_total s2 l2 i fr c2
  obtain ⟨_, _, _, _, r3, _, _⟩ := UpdateMaterialCBs_spec _ _ h3
  have c3 : currSlot s3 = some (i, fr) := (sameRing_currSlot r3).trans c2
  obtain ⟨s4, h4⟩ := UpdateMainPassCB_total s3 i fr c3
  obtain ⟨u4, m4⟩ := UpdateMainPassCB_spec _ _ h4
  obtain ⟨_, _, _, _, r4, _, _⟩ := u4
  have l4 : Loaded s4 := Loaded_of_same l3 m4 r4.2.2.2.1
  have c4 : currSlot s4 = some (i, fr) := (sameRing_currSlot r4).trans c3
  obtain ⟨s5, h5⟩ := UpdateWaves_total s4 l4 i fr c4
  obtain ⟨u5, m5⟩ := UpdateWaves_spec _ _ h5
  obtain ⟨_, _, _, _, r5, _, _⟩ := u5
  exact ⟨s5, by simp [UpdateUpload, h1, h2, h3, h4, h5], Loaded_of_same l4 m5 r5.2.2.2.1⟩

/-! ## The synchronisation half of `Update` -/

/-- The index `Update` moves to. -/
theorem nextIndex_eq (c : Int) (h0 : 0 ≤ c) :
    Int.tmod (c + 1) gNumFrameResources = (c + 1) % 3 := by
  unfold gNumFrameResources
  exact Int.tmod_eq_emod (by omega) (by omega)

theorem waitForFence_spec (f : Nat) (s t : App) (h : waitForFence f s = some t) :
    gpuWait f s.mCommandQueue s.mFence = some (t.mCommandQueue, t.mFence) ∧
    t.trace = s.trace ++ [Event.wait f] ∧
    t.mFrameResources = s.mFrameResources ∧ t.mCurrFrameResource = s.mCurrFrameResource ∧
    t.mCurrFrameResourceIndex = s.mCurrFrameResourceIndex ∧ t.mAllRitems = s.mAllRitems ∧
    t.mMaterials = s.mMaterials ∧ t.mWaves = s.mWaves ∧ t.mCurrentFence = s.mCurrentFence := by
  unfold waitForFence at h
  cases hg : gpuWait f s.mCommandQueue s.mFence with
  | none => simp [hg] at h
  | some r =>
    simp only [hg, Option.map_some', Option.some.injEq] at h
    subst h
    simp

/-- What `UpdateSync` does when it returns: it moves to the next slot `fr`, and
either waits once on that slot's marker or does not touch the queue at all. -/
theorem UpdateSync_spec (s t : App) (h : UpdateSync s = some t) :
    ∃ fr, slotAt s.mFrameResources (Int.tmod (s.mCurrFrameResourceIndex + 1) gNumFrameResources)
        = some fr ∧
      t.mCurrFrameResourceIndex = Int.tmod (s.mCurrFrameResourceIndex + 1) gNumFrameResources ∧
      t.mCurrFrameResource =
        some (Int.tmod (s.mCurrFrameResourceIndex + 1) gNumFrameResources).toNat ∧
      t.mFrameResources = s.mFrameResources ∧ t.mAllRitems = s.mAllRitems ∧
      t.mMaterials = s.mMaterials ∧ t.mWaves = s.mWaves ∧ t.mCurrentFence = s.mCurrentFence ∧
      (((fr.Fence ≠ 0 ∧ s.mFence < fr.Fence) ∧ t.trace = s.trace ++ [Event.wait fr.Fence] ∧
          gpuWait fr.Fence s.mCommandQueue s.mFence = some (t.mCommandQueue, t.mFence)) ∨
        (¬ (fr.Fence ≠ 0 ∧ s.mFence < fr.Fence) ∧ t.trace = s.trace ∧
          t.mCommandQueue = s.mCommandQueue ∧ t.mFence = s.mFence)) := by
  unfold UpdateSync at h
  cases hs : slotAt s.mFrameResources
      (Int.tmod (s.mCurrFrameResourceIndex + 1) gNumFrameResources) with
  | none => simp [hs] at h
  | some fr =>
    simp only [hs] at h
    refine ⟨fr, rfl, ?_⟩
    by_cases hc : fr.Fence ≠ 0 ∧ s.mFence < fr.Fence
    · rw [if_pos hc] at h
      obtain ⟨g1, g2, g3, g4, g5, g6, g7, g8, g9⟩ := waitForFence_spec _ _ _ h
      exact ⟨g5, g4, g3, g6, g7, g8, g9, Or.inl ⟨hc, g2, g1⟩⟩
    · rw [if_neg hc] at h
      simp only [Option.some.injEq] at h
      subst h
      exact ⟨rfl, rfl, rfl, rfl, rfl, rfl, rfl, Or.inr ⟨hc, rfl, rfl, rfl⟩⟩

/-- After `UpdateSync` the current slot is free: its marker is 0 or has been
reached by the consumer. -/
theorem UpdateSync_free (s t : App) (h : UpdateSync s = some t) :
    ∃ i fr, currSlot t = some (i, fr) ∧ (fr.Fence = 0 ∨ fr.Fence ≤ t.mFence) := by
  obtain ⟨fr, h1, _, h3, h4, _, _, _, _, h9⟩ := UpdateSync_spec s t h
  have hslot : currSlot t
      = some ((Int.tmod (s.mCurrFrameResourceIndex + 1) gNumFrameResources).toNat, fr) := by
    unfold slotAt at h1
    split at h1
    · simp [currSlot, h3, h4, h1]
    · simp at h1
  refine ⟨_, fr, hslot, ?_⟩
  rcases h9 with ⟨_, _, hw⟩ | ⟨hn, _, _, hf⟩
  · exact Or.inr (gpuWait_spec _ _ _ _ _ hw).1
  · by_cases h0 : fr.Fence = 0
    · exact Or.inl h0
    · right
      rw [hf]
      have : ¬ s.mFence < fr.Fence := fun hlt => hn ⟨h0, hlt⟩
      omega

/-! ## Soundness of the ring is kept by every step -/

theorem Sound_of_sameRing {s t : App} (hs : Sound s) (hr : SameRing s t) (hl : Loaded t) :
    Sound t := by
  obtain ⟨a1, a2, a3, _, a5, a6⟩ := hs
  obtain ⟨r1, r2, r3, _, r5, r6, r7⟩ := hr
  unfold Sound
  rw [r1, r2, r3, r5, r6, r7]
  exact ⟨a1, a2, a3, hl, a5, a6⟩

theorem gpuRun_sound (n : Nat) (s : App) (hs : Sound s) : Sound (gpuRun n s) := by
  obtain ⟨a1, a2, a3, a4, a5, a6⟩ := hs
  obtain ⟨g1, g2, g3, _, g5, g6, g7, _⟩ := gpuRun_frame n s
  unfold Sound
  rw [g1, g2, g3, g7, gpuRun_final]
  exact ⟨a1, a2, a3, Loaded_of_same a4 g5 g6, a5, a6⟩

theorem slotAt_next (s : App) (hs : Sound s) :
    ∃ fr, slotAt s.mFrameResources (Int.tmod (s.mCurrFrameResourceIndex + 1) gNumFrameResources)
        = some fr ∧ fr ∈ s.mFrameResources := by
  obtain ⟨a1, a2, _⟩ := hs
  rw [nextIndex_eq _ a2.1]
  have hlt : ((s.mCurrFrameResourceIndex + 1) % 3).toNat < s.mFrameResources.length := by
    rw [a1]; omega
  refine ⟨s.mFrameResources[((s.mCurrFrameResourceIndex + 1) % 3).toNat], ?_,
    List.getElem_mem _⟩
  unfold slotAt
  rw [if_pos (by omega)]
  exact List.getElem?_eq_getElem hlt

/-- In a sound state `UpdateSync` returns, and the state it returns is sound. -/
theorem UpdateSync_total (s : App) (hs : Sound s) : ∃ t, UpdateSync s = some t ∧ Sound t := by
  obtain ⟨fr, hfr, hmem⟩ := slotAt_next s hs
  have hret : ∃ t, UpdateSync s = some t := by
    unfold UpdateSync
    simp only [hfr]
    by_cases hc : fr.Fence ≠ 0 ∧ s.mFence < fr.Fence
    · rw [if_pos hc]
      obtain ⟨r, hr⟩ := (gpuWait_isSome fr.Fence s.mCommandQueue s.mFence).mpr
        (hs.2.2.2.2.1 fr hmem)
      simp only [waitForFence, hr, Option.map_some']
      exact ⟨_, rfl⟩
    · rw [if_neg hc]
      exact ⟨_, rfl⟩
  obtain ⟨t, ht⟩ := hret
  refine ⟨t, ht, ?_⟩
  obtain ⟨fr2, _, h2, h3, h4, _, h6, h7, h8, h9⟩ := UpdateSync_spec s t ht
  obtain ⟨a1, a2, _, a4, a5, a6⟩ := hs
  have hfin : gpuFinal t.mCommandQueue t.mFence = gpuFinal s.mCommandQueue s.mFence := by
    rcases h9 with ⟨_, _, hw⟩ | ⟨_, _, hq, hf⟩
    · exact (gpuWait_spec _ _ _ _ _ hw).2.2.1
    · rw [hq, hf]
  have hidx := nextIndex_eq _ a2.1
  unfold Sound
  rw [h2, h3, h4, h8, hfin, hidx]
  refine ⟨a1, by omega, ?_, Loaded_of_same a4 h6 h7, a5, a6⟩
  simp only [Option.getD_some]
  omega

/-- In a sound state `Update` returns, and the state it returns is sound. -/
theorem Update_total (s : App) (hs : Sound s) : ∃ t, Update s = some t ∧ Sound t := by
  obtain ⟨m, hm, sm⟩ := UpdateSync_total s hs
  obtain ⟨i, fr, hc, _⟩ := UpdateSync_free s m hm
  obtain ⟨t, ht, lt⟩ := UpdateUpload_total m sm.2.2.2.1 i fr hc
  obtain ⟨_, _, _, _, hr, _, _⟩ := UpdateUpload_spec m t ht
  exact ⟨t, by simp [Update, hm, ht], Sound_of_sameRing sm hr lt⟩

theorem currSlot_of_ptr (s : App) (hs : Sound s) (i : Nat) (hp : s.mCurrFrameResource = some i) :
    ∃ fr, currSlot s = some (i, fr) ∧ s.mFrameResources[i]? = some fr ∧ i < 3 := by
  have hi : i < 3 := by
    have := hs.2.2.1
    rw [hp] at this
    simpa using this
  have hlt : i < s.mFrameResources.length := by rw [hs.1]; exact hi
  exact ⟨s.mFrameResources[i], by simp [currSlot, hp, List.getElem?_eq_getElem hlt],
    List.getElem?_eq_getElem hlt, hi⟩

/-- What `Draw` does to the state. -/
theorem Draw_spec (s t : App) (h : Draw s = some t) :
    ∃ i fr, currSlot s = some (i, fr) ∧
      t.mCurrentFence = s.mCurrentFence + 1 ∧
      t.mFrameResources = s.mFrameResources.set i { fr with Fence := s.mCurrentFence + 1 } ∧
      t.mCommandQueue = s.mCommandQueue ++
        [Command.execute i, Command.signal (s.mCurrentFence + 1)] ∧
      t.trace = s.trace ++ [Event.resetAlloc i, Event.execute i,
        Event.retire i (s.mCurrentFence + 1), Event.signal (s.mCurrentFence + 1)] ∧
      t.mFence = s.mFence ∧ t.mCurrFrameResource = s.mCurrFrameResource ∧
      t.mCurrFrameResourceIndex = s.mCurrFrameResourceIndex ∧ t.mAllRitems = s.mAllRitems ∧
      t.mMaterials = s.mMaterials ∧ t.mWaves = s.mWaves := by
  unfold Draw at h
  cases hc : currSlot s with
  | none => simp [hc] at h
  | some p =>
    obtain ⟨i, fr⟩ := p
    simp only [hc, Option.some.injEq] at h
    subst h
    exact ⟨i, fr, rfl, rfl, rfl, rfl, rfl, rfl, rfl, rfl, rfl, rfl, rfl⟩

/-- In a sound state with a current slot `Draw` returns, and the state it returns
is sound. -/
theorem Draw_total (s : App) (hs : Sound s) (i : Nat) (hp : s.mCurrFrameResource = some i) :
    ∃ t, Draw s = some t ∧ Sound t := by
  obtain ⟨fr, hc, hget, hi⟩ := currSlot_of_ptr s hs i hp
  have hret : ∃ t, Draw s = some t := by simp [Draw, hc]
  obtain ⟨t, ht⟩ := hret
  refine ⟨t, ht, ?_⟩
  obtain ⟨i2, fr2, hc2, d1, d2, d3, _, d5, d6, d7, _, d9, d10⟩ := Draw_spec s t ht
  rw [hc] at hc2
  simp only [Option.some.injEq, Prod.mk.injEq] at hc2
  obtain ⟨rfl, rfl⟩ := hc2
  obtain ⟨a1, a2, a3, a4, a5, a6⟩ := hs
  unfold Sound
  rw [d1, d2, d3, d5, d6, d7, gpuFinal_submit]
  refine ⟨by simpa using a1, a2, a3, Loaded_of_same a4 d9 d10, ?_, by omega⟩
  intro x hx
  rcases List.mem_or_eq_of_mem_set hx with h | h
  · exact le_trans (a5 x h) (le_max_left _ _)
  · subst h
    exact le_max_right _ _

/-! ## Runs stay sound -/

theorem ready_sound {s : App} (h : Ready s) : Sound s := by
  obtain ⟨h1, h2, h3, h4, h5, h6, h7⟩ := h
  unfold Sound
  rw [h3, h4, h6]
  refine ⟨h1, by omega, by simp, h7, ?_, by simp [gpuFinal, h5]⟩
  intro fr hfr
  rw [h2 fr hfr]
  exact Nat.zero_le _

theorem Draw_ptr (s t : App) (h : Draw s = some t) : ∃ i, s.mCurrFrameResource = some i := by
  obtain ⟨i, fr, hc, _⟩ := Draw_spec s t h
  unfold currSlot at hc
  cases hp : s.mCurrFrameResource with
  | none => simp [hp] at hc
  | some j => exact ⟨j, rfl⟩

theorem step_sound (o : Op) (s t : App) (hs : Sound s) (h : step o s = some t) : Sound t := by
  cases o with
  | update =>
    obtain ⟨t2, h2, s2⟩ := Update_total s hs
    have : t = t2 := by
      have h' : Update s = some t := h
      rw [h2] at h'
      exact (Option.some.inj h').symm
    rw [this]; exact s2
  | draw =>
    have h' : Draw s = some t := h
    obtain ⟨i, hp⟩ := Draw_ptr s t h'
    obtain ⟨t2, h2, s2⟩ := Draw_total s hs i hp
    rw [h2] at h'
    rw [← Option.some.inj h']; exact s2
  | gpu n =>
    have h' : some (gpuRun n s) = some t := h
    rw [← Option.some.inj h']
    exact gpuRun_sound n s hs

/-- Every state of a run that starts in a sound state is sound. -/
theorem run_sound (ops : List Op) (s t : App) (hs : Sound s) (h : run ops s = some t) :
    Sound t := by
  induction ops generalizing s with
  | nil =>
    have h' : some s = some t := h
    rw [← Option.some.inj h']; exact hs
  | cons o os ih =>
    have hb : (step o s).bind (run os) = some t := h
    obtain ⟨m, hm, hrest⟩ := Option.bind_eq_some.mp hb
    exact ih m (step_sound o s m hs hm) hrest

theorem waits_append (a b : List Event) : waits (a ++ b) = waits a ++ waits b := by
  induction a with
  | nil => rfl
  | cons e rest ih => cases e <;> simp [waits, ih]

theorem waits_writes {i f c : Nat} {evs : List Event} (h : WritesTo i f c evs) :
    waits evs = [] := by
  induction evs with
  | nil => rfl
  | cons e rest ih =>
    obtain ⟨r, el, he⟩ := h e (List.mem_cons_self _ _)
    subst he
    simpa [waits] using ih (fun x hx => h x (List.mem_cons_of_mem _ hx))

/-! ## Claims C1 to C3: what one `Update` does to the ring -/

theorem slotAt_eq (s : App) (hs : Sound s) (fr : FrameResource)
    (h : slotAt s.mFrameResources (Int.tmod (s.mCurrFrameResourceIndex + 1) gNumFrameResources)
      = some fr) :
    s.mFrameResources[((s.mCurrFrameResourceIndex + 1) % 3).toNat]? = some fr := by
  rw [nextIndex_eq _ hs.2.1.1] at h
  unfold slotAt at h
  rw [if_pos (by omega)] at h
  exact h

/-- The two halves of `Update` in a sound state, with everything the claims below
use. -/
theorem Update_parts (s : App) (hs : Sound s) :
    ∃ fr m t evs,
      s.mFrameResources[((s.mCurrFrameResourceIndex + 1) % 3).toNat]? = some fr ∧
      UpdateSync s = some m ∧ UpdateUpload m = some t ∧ Update s = some t ∧
      Sound m ∧ Sound t ∧
      currSlot m = some (((s.mCurrFrameResourceIndex + 1) % 3).toNat, fr) ∧
      m.mCurrFrameResourceIndex = (s.mCurrFrameResourceIndex + 1) % 3 ∧
      m.mFrameResources = s.mFrameResources ∧ m.mCurrentFence = s.mCurrentFence ∧
      (((fr.Fence ≠ 0 ∧ s.mFence < fr.Fence) ∧ m.trace = s.trace ++ [Event.wait fr.Fence] ∧
          gpuWait fr.Fence s.mCommandQueue s.mFence = some (m.mCommandQueue, m.mFence)) ∨
        (¬ (fr.Fence ≠ 0 ∧ s.mFence < fr.Fence) ∧ m.trace = s.trace ∧
          m.mCommandQueue = s.mCommandQueue ∧ m.mFence = s.mFence)) ∧
      SameRing m t ∧ t.trace = m.trace ++ evs ∧
      WritesTo ((s.mCurrFrameResourceIndex + 1) % 3).toNat fr.Fence m.mFence evs := by
  obtain ⟨m, hm, sm⟩ := UpdateSync_total s hs
  obtain ⟨fr, h1, h2, h3, h4, _, _, _, h8, h9⟩ := UpdateSync_spec s m hm
  have hidx := nextIndex_eq _ hs.2.1.1
  have hget := slotAt_eq s hs fr h1
  have hc : currSlot m = some (((s.mCurrFrameResourceIndex + 1) % 3).toNat, fr) := by
    simp [currSlot, h3, h4, hidx, hget]
  obtain ⟨t, ht, lt⟩ := UpdateUpload_total m sm.2.2.2.1 _ fr hc
  obtain ⟨i, fr2, evs, hc2, hr, htr, hw⟩ := UpdateUpload_spec m t ht
  rw [hc] at hc2
  simp only [Option.some.injEq, Prod.mk.injEq] at hc2
  obtain ⟨rfl, rfl⟩ := hc2
  exact ⟨fr, m, t, evs, hget, hm, ht, by simp [Update, hm, ht], sm, Sound_of_sameRing sm hr lt,
    hc, by rw [h2, hidx], h4, h8, h9, hr, htr, hw⟩

/-- C1: in every state of a run of `Update`, `Draw` and consumer steps from a start
state, `Update` returns; before its uploads it does nothing but wait at most
once, and every upload it makes goes to the current slot in a state where that
slot's marker is 0 or the completed value has reached the marker, which stays
so however far the consumer progresses in the meantime. -/
theorem Update_writes_only_free_slot (s0 : App) (ops : List Op) (s : App) (h0 : Ready s0)
    (hrun : run ops s0 = some s) :
    ∃ m t i fr evs, UpdateSync s = some m ∧ UpdateUpload m = some t ∧ Update s = some t ∧
      currSlot m = some (i, fr) ∧
      (m.trace = s.trace ∨ m.trace = s.trace ++ [Event.wait fr.Fence]) ∧
      t.trace = m.trace ++ evs ∧
      (∀ e ∈ evs, ∃ r el, e = Event.write r el i fr.Fence m.mFence) ∧
      (fr.Fence = 0 ∨ fr.Fence ≤ m.mFence) ∧
      ∀ n, fr.Fence = 0 ∨ fr.Fence ≤ (gpuRun n m).mFence := by
  have hs : Sound s := run_sound ops s0 s (ready_sound h0) hrun
  obtain ⟨fr, m, t, evs, _, hm, ht, hu, _, _, hc, _, _, _, h9, _, htr, hw⟩ := Update_parts s hs
  obtain ⟨i2, fr2, hc2, hfree⟩ := UpdateSync_free s m hm
  rw [hc] at hc2
  simp only [Option.some.injEq, Prod.mk.injEq] at hc2
  obtain ⟨rfl, rfl⟩ := hc2
  refine ⟨m, t, _, fr, evs, hm, ht, hu, hc, ?_, htr, hw, hfree, ?_⟩
  · rcases h9 with ⟨_, h, _⟩ | ⟨_, h, _⟩
    · exact Or.inr h
    · exact Or.inl h
  · intro n
    rcases hfree with h | h
    · exact Or.inl h
    · exact Or.inr (le_trans h (gpuRun_fence_ge n m))

/-- C2: for a current index `c` with `0 ≤ c < gNumFrameResources`, `Update` returns
with the index set to `(c + 1) mod 3`, which is again in `[0, 3)`, and with
`mCurrFrameResource` pointing to the slot stored at that index of the
(unchanged) ring. -/
theorem Update_cycles_index (s : App) (c : Int) (hs : Sound s)
    (hc : s.mCurrFrameResourceIndex = c) (hlo : 0 ≤ c) (hhi : c < gNumFrameResources) :
    ∃ t fr, Update s = some t ∧ t.mCurrFrameResourceIndex = (c + 1) % 3 ∧
      t.mFrameResources = s.mFrameResources ∧
      s.mFrameResources[((c + 1) % 3).toNat]? = some fr ∧
      t.mCurrFrameResource = some ((c + 1) % 3).toNat ∧
      currSlot t = some (((c + 1) % 3).toNat, fr) ∧
      0 ≤ t.mCurrFrameResourceIndex ∧ t.mCurrFrameResourceIndex < gNumFrameResources := by
  obtain ⟨fr, m, t, evs, hget, _, _, hu, _, _, hcm, hidx, hfr, _, _, hr, _, _⟩ :=
    Update_parts s hs
  subst hc
  have hct : currSlot t = currSlot m := sameRing_currSlot hr
  have hptr : t.mCurrFrameResource
      = some ((s.mCurrFrameResourceIndex + 1) % 3).toNat := by
    rw [hr.2.1]
    unfold currSlot at hcm
    cases hp : m.mCurrFrameResource with
    | none => simp [hp] at hcm
    | some j =>
      simp only [hp, Option.map_eq_some'] at hcm
      obtain ⟨_, _, h⟩ := hcm
      simp only [Prod.mk.injEq] at h
      rw [h.1]
  have hti : t.mCurrFrameResourceIndex = (s.mCurrFrameResourceIndex + 1) % 3 := by
    rw [hr.2.2.1, hidx]
  refine ⟨t, fr, hu, hti, by rw [hr.1, hfr], hget, hptr, by rw [hct, hcm], ?_, ?_⟩
  · rw [hti]; omega
  · rw [hti]; unfold gNumFrameResources; omega

/-- C3: `Update` returns, and it waits exactly when the slot it moves to has a
nonzero marker that the completed value is strictly below: then the trace gains
one wait, on that marker, and `Update` returns with the marker reached;
otherwise the trace gains no wait and the queue and the completed value are
left alone. -/
theorem Update_waits_iff (s : App) (hs : Sound s) :
    ∃ fr t, s.mFrameResources[((s.mCurrFrameResourceIndex + 1) % 3).toNat]? = some fr ∧
      Update s = some t ∧
      waits t.trace = waits s.trace ++
        (if fr.Fence ≠ 0 ∧ s.mFence < fr.Fence then [fr.Fence] else []) ∧
      (fr.Fence ≠ 0 ∧ s.mFence < fr.Fence → fr.Fence ≤ t.mFence) ∧
      (¬ (fr.Fence ≠ 0 ∧ s.mFence < fr.Fence) →
        t.mFence = s.mFence ∧ t.mCommandQueue = s.mCommandQueue) := by
  obtain ⟨fr, m, t, evs, hget, _, _, hu, _, _, _, _, _, _, h9, hr, htr, hw⟩ := Update_parts s hs
  refine ⟨fr, t, hget, hu, ?_, ?_, ?_⟩
  · rw [htr, waits_append, waits_writes hw, List.append_nil]
    rcases h9 with ⟨hc, h, _⟩ | ⟨hc, h, _⟩
    · rw [h, waits_append, if_pos hc]; rfl
    · rw [h, if_neg hc, List.append_nil]
  · intro hc
    rcases h9 with ⟨_, _, hwt⟩ | ⟨hn, _⟩
    · rw [hr.2.2.2.2.2.1]
      exact (gpuWait_spec _ _ _ _ _ hwt).1
    · exact absurd hc hn
  · intro hn
    rcases h9 with ⟨hc, _⟩ | ⟨_, _, hq, hf⟩
    · exact absurd hc hn
    · exact ⟨by rw [hr.2.2.2.2.2.1, hf], by rw [hr.2.2.2.2.2.2, hq]⟩

theorem Update_writes_only_free_slot_witness :
    Ready demo ∧ run demoOps demo = some demoLater ∧
    ∃ m t i fr evs, UpdateSync demoLater = some m ∧ UpdateUpload m = some t ∧
      Update demoLater = some t ∧ currSlot m = some (i, fr) ∧
      (m.trace = demoLater.trace ∨ m.trace = demoLater.trace ++ [Event.wait fr.Fence]) ∧
      t.trace = m.trace ++ evs ∧
      (∀ e ∈ evs, ∃ r el, e = Event.write r el i fr.Fence m.mFence) ∧
      (fr.Fence = 0 ∨ fr.Fence ≤ m.mFence) ∧
      ∀ n, fr.Fence = 0 ∨ fr.Fence ≤ (gpuRun n m).mFence :=
  ⟨by decide, by decide,
    Update_writes_only_free_slot demo demoOps demoLater (by decide) (by decide)⟩

theorem Update_cycles_index_witness :
    Sound demoLater ∧ demoLater.mCurrFrameResourceIndex = 0 ∧ (0 : Int) ≤ 0 ∧
    (0 : Int) < gNumFrameResources ∧
    ∃ t fr, Update demoLater = some t ∧ t.mCurrFrameResourceIndex = ((0 : Int) + 1) % 3 ∧
      t.mFrameResources = demoLater.mFrameResources ∧
      demoLater.mFrameResources[(((0 : Int) + 1) % 3).toNat]? = some fr ∧
      t.mCurrFrameResource = some (((0 : Int) + 1) % 3).toNat ∧
      currSlot t = some ((((0 : Int) + 1) % 3).toNat, fr) ∧
      0 ≤ t.mCurrFrameResourceIndex ∧ t.mCurrFrameResourceIndex < gNumFrameResources :=
  ⟨by decide, by decide, by decide, by decide,
    Update_cycles_index demoLater 0 (by decide) (by decide) (by decide) (by decide)⟩

theorem Update_waits_iff_witness :
    Sound demoLater ∧
    ∃ fr t, demoLater.mFrameResources[((demoLater.mCurrFrameResourceIndex + 1) % 3).toNat]?
        = some fr ∧
      Update demoLater = some t ∧
      waits t.trace = waits demoLater.trace ++
        (if fr.Fence ≠ 0 ∧ demoLater.mFence < fr.Fence then [fr.Fence] else []) ∧
      (fr.Fence ≠ 0 ∧ demoLater.mFence < fr.Fence → fr.Fence ≤ t.mFence) ∧
      (¬ (fr.Fence ≠ 0 ∧ demoLater.mFence < fr.Fence) →
        t.mFence = demoLater.mFence ∧ t.mCommandQueue = demoLater.mCommandQueue) :=
  ⟨by decide, Update_waits_iff demoLater (by decide)⟩

/-! ## The frame loop -/

theorem fenceOf_same {s t : App} (h : t.mFrameResources = s.mFrameResources) (i : Nat) :
    fenceOf t i = fenceOf s i := by
  unfold fenceOf; rw [h]

theorem fenceOf_set (s t : App) (i : Nat) (fr : FrameResource) (f : Nat)
    (hi : i < s.mFrameResources.length)
    (h : t.mFrameResources = s.mFrameResources.set i { fr with Fence := f }) (j : Nat) :
    fenceOf t j = if j = i then f else fenceOf s j := by
  unfold fenceOf
  rw [h, List.getElem?_set]
  by_cases hij : i = j
  · subst hij
    simp [hi]
  · have hji : ¬ j = i := fun x => hij x.symm
    simp [hij, hji]

theorem fenceOf_of_get (s : App) (i : Nat) (fr : FrameResource)
    (h : s.mFrameResources[i]? = some fr) : fenceOf s i = fr.Fence := by
  unfold fenceOf; rw [h]

theorem UpdateSync_ptr (s m : App) (hs : Sound s) (h : UpdateSync s = some m) :
    m.mCurrFrameResource = some ((s.mCurrFrameResourceIndex + 1) % 3).toNat := by
  obtain ⟨_, _, _, h3, _⟩ := UpdateSync_spec s m h
  rw [h3, nextIndex_eq _ hs.2.1.1]

theorem ready_cycle (s : App) (h : Ready s) : Cycle s.mCurrentFence 0 0 s := by
  have hs := ready_sound h
  obtain ⟨h1, h2, h3, h4, h5, h6, _⟩ := h
  refine ⟨hs, by simpa using h3, by omega, by omega, by omega, by simp [h6, gpuFinal, h5], ?_⟩
  intro j _
  simp only [Nat.not_lt_zero, if_false]
  unfold fenceOf
  cases hg : s.mFrameResources[(0 + 3 - j) % 3]? with
  | none => rfl
  | some fr =>
    obtain ⟨hlt, hfr⟩ := List.getElem?_eq_some.mp hg
    exact h2 fr (hfr ▸ List.getElem_mem hlt)

theorem gpuRun_cycle (n c0 u k : Nat) (s : App) (h : Cycle c0 u k s) :
    Cycle c0 u k (gpuRun n s) := by
  obtain ⟨a1, a2, a3, a4, a5, a6, a7⟩ := h
  obtain ⟨g1, g2, g3, _, _, _, g7, _⟩ := gpuRun_frame n s
  refine ⟨gpuRun_sound n s a1, by rw [g3, a2], by rw [g2]; exact a3, by rw [g7, a4],
    le_trans a5 (gpuRun_fence_ge n s), by rw [gpuRun_final, a6], ?_⟩
  intro j hj
  rw [fenceOf_same g1]
  exact a7 j hj

/-- One `Update` of the frame loop: it returns, and once past its wait at most two
submitted frames are unfinished. -/
theorem Update_cycle (c0 k : Nat) (s : App) (h : Cycle c0 k k s) :
    ∃ m t, UpdateSync s = some m ∧ UpdateUpload m = some t ∧ Update s = some t ∧
      Cycle c0 (k + 1) k t ∧ m.mFence ≤ m.mCurrentFence ∧ m.mCurrentFence - m.mFence ≤ 2 ∧
      t.mFence = m.mFence ∧ t.mCurrentFence = m.mCurrentFence ∧
      fenceOf s ((k + 1) % 3) = (if 2 < k then c0 + k - 2 else 0) ∧
      waits t.trace = waits s.trace ++
        (if fenceOf s ((k + 1) % 3) ≠ 0 ∧ s.mFence < fenceOf s ((k + 1) % 3)
          then [fenceOf s ((k + 1) % 3)] else []) ∧
      (¬ (fenceOf s ((k + 1) % 3) ≠ 0 ∧ s.mFence < fenceOf s ((k + 1) % 3)) →
        t.mFence = s.mFence ∧ t.mCommandQueue = s.mCommandQueue) ∧
      (fenceOf s ((k + 1) % 3) ≠ 0 ∧ s.mFence < fenceOf s ((k + 1) % 3) →
        fenceOf s ((k + 1) % 3) ≤ t.mFence) := by
  obtain ⟨a1, a2, a3, a4, a5, a6, a7⟩ := h
  obtain ⟨fr, m, t, evs, hget, hm, ht, hu, sm, st, hcm, hidx, hfr, hcf, h9, hr, htr, hw⟩ :=
    Update_parts s a1
  have hnext : ((s.mCurrFrameResourceIndex + 1) % 3).toNat = (k + 1) % 3 := by
    rw [a2]; omega
  rw [hnext] at hget
  have hmark : fenceOf s ((k + 1) % 3) = fr.Fence := fenceOf_of_get s _ fr hget
  have hval : fenceOf s ((k + 1) % 3) = (if 2 < k then c0 + k - 2 else 0) := by
    have := a7 2 (by omega)
    have e : (k + 3 - 2) % 3 = (k + 1) % 3 := by omega
    rw [e] at this
    exact this
  have hptr := UpdateSync_ptr s m a1 hm
  rw [hnext] at hptr
  obtain ⟨r1, r2, r3, _, r5, r6, r7⟩ := hr
  have hfin : gpuFinal m.mCommandQueue m.mFence = c0 + k := by
    rcases h9 with ⟨_, _, hwt⟩ | ⟨_, _, hq, hf⟩
    · rw [(gpuWait_spec _ _ _ _ _ hwt).2.2.1, a6]
    · rw [hq, hf, a6]
  have hge : s.mFence ≤ m.mFence := by
    rcases h9 with ⟨_, _, hwt⟩ | ⟨_, _, _, hf⟩
    · exact (gpuWait_spec _ _ _ _ _ hwt).2.1
    · rw [hf]
  have hle : m.mFence ≤ c0 + k := by
    rw [← hfin]; exact gpuFinal_ge _ _
  have hreach : fr.Fence = 0 ∨ fr.Fence ≤ m.mFence := by
    obtain ⟨i2, fr2, hc2, hfree⟩ := UpdateSync_free s m hm
    rw [hcm] at hc2
    simp only [Option.some.injEq, Prod.mk.injEq] at hc2
    obtain ⟨_, rfl⟩ := hc2
    exact hfree
  have hbound : m.mCurrentFence - m.mFence ≤ 2 := by
    rw [hcf, a4]
    rw [← hmark, hval] at hreach
    by_cases h2 : 2 < k
    · rw [if_pos h2] at hreach
      omega
    · omega
  refine ⟨m, t, hm, ht, hu, ?_, by rw [hcf, a4]; exact hle, hbound, r6, r5, hval, ?_, ?_, ?_⟩
  · refine ⟨st, ?_, ?_, by rw [r5, hcf, a4], by rw [r6]; omega, by rw [r7, r6, hfin], ?_⟩
    · rw [r3, hidx, a2]; omega
    · intro _
      rw [r2, hptr]
    · intro j hj
      rw [fenceOf_same (r1.trans hfr)]
      exact a7 j hj
  · rw [htr, waits_append, waits_writes hw, List.append_nil, hmark]
    rcases h9 with ⟨hc, h, _⟩ | ⟨hc, h, _⟩
    · rw [h, waits_append, if_pos hc]; rfl
    · rw [h, if_neg hc, List.append_nil]
  · rw [hmark]
    intro hn
    rcases h9 with ⟨hc, _⟩ | ⟨_, _, hq, hf⟩
    · exact absurd hc hn
    · exact ⟨by rw [r6, hf], by rw [r7, hq]⟩
  · rw [hmark]
    intro hc
    rcases h9 with ⟨_, _, hwt⟩ | ⟨hn, _⟩
    · rw [r6]
      exact (gpuWait_spec _ _ _ _ _ hwt).1
    · exact absurd hc hn

/-- One `Draw` of the frame loop. -/
theorem Draw_cycle (c0 k : Nat) (s : App) (h : Cycle c0 (k + 1) k s) :
    ∃ t, Draw s = some t ∧ Cycle c0 (k + 1) (k + 1) t ∧ t.mFence = s.mFence ∧
      waits t.trace = waits s.trace ∧
      t.mCommandQueue = s.mCommandQueue ++
        [Command.execute ((k + 1) % 3), Command.signal (c0 + k + 1)] := by
  obtain ⟨a1, a2, a3, a4, a5, a6, a7⟩ := h
  have hp := a3 (by omega)
  obtain ⟨t, ht, st⟩ := Draw_total s a1 _ hp
  obtain ⟨fr, hc, hget, hi⟩ := currSlot_of_ptr s a1 _ hp
  obtain ⟨i2, fr2, hc2, d1, d2, d3, d4, d5, d6, d7, _, _, _⟩ := Draw_spec s t ht
  rw [hc] at hc2
  simp only [Option.some.injEq, Prod.mk.injEq] at hc2
  obtain ⟨rfl, rfl⟩ := hc2
  have hlen : (k + 1) % 3 < s.mFrameResources.length := by rw [a1.1]; omega
  refine ⟨t, ht, ⟨st, by rw [d7, a2], fun _ => by rw [d6, hp], by rw [d1, a4]; omega,
    by rw [d5]; exact a5, ?_, ?_⟩, d5, ?_, by rw [d3, a4]⟩
  · rw [d3, d5, gpuFinal_submit, a6, a4]; omega
  · intro j hj
    rw [fenceOf_set s t _ fr _ hlen d2, a4]
    by_cases hj0 : j = 0
    · subst hj0
      have e : (k + 1 + 3 - 0) % 3 = (k + 1) % 3 := by omega
      rw [e, if_pos rfl, if_pos (by omega)]; omega
    · have hne : ¬ (k + 1 + 3 - j) % 3 = (k + 1) % 3 := by omega
      rw [if_neg hne]
      have e : (k + 1 + 3 - j) % 3 = (k + 3 - (j - 1)) % 3 := by omega
      rw [e, a7 (j - 1) (by omega)]
      by_cases hjk : j < k + 1
      · rw [if_pos hjk, if_pos (by omega)]; omega
      · rw [if_neg hjk, if_neg (by omega)]
  · rw [d4, waits_append]; simp [waits]

/-- The frame loop never gets stuck: any number of frames, with any consumer
progress in between, runs to a state of the cycle. -/
theorem frameOps_cycle (gs : List (Nat × Nat)) (c0 k : Nat) (s : App) (h : Cycle c0 k k s) :
    ∃ t, run (frameOps gs) s = some t ∧ Cycle c0 (k + gs.length) (k + gs.length) t := by
  induction gs generalizing k s with
  | nil => exact ⟨s, rfl, h⟩
  | cons g gs ih =>
    obtain ⟨_, t1, _, _, hu, c1, _⟩ := Update_cycle c0 k _ (gpuRun_cycle g.1 c0 k k s h)
    obtain ⟨t2, hd, c2, _⟩ := Draw_cycle c0 k _ (gpuRun_cycle g.2 c0 (k + 1) k t1 c1)
    obtain ⟨t, hr, ct⟩ := ih (k + 1) t2 c2
    refine ⟨t, ?_, ?_⟩
    · simp only [frameOps, run, step, Option.some_bind, hu, hd]
      exact hr
    · have e : k + (g :: gs).length = k + 1 + gs.length := by simp; omega
      rw [e]; exact ct

/-! ## Claims C4, C5 and C7: the frame loop -/

/-- A frame whose `Update` finds a slot that was never retired: nothing is waited
for and the consumer is not needed. -/
theorem quiet_frame (c0 k : Nat) (s : App) (h : Cycle c0 k k s) (hk : k ≤ 2) :
    ∃ t, run [Op.update, Op.draw] s = some t ∧ Cycle c0 (k + 1) (k + 1) t ∧
      t.mFence = s.mFence ∧ waits t.trace = waits s.trace ∧
      t.mCommandQueue = s.mCommandQueue ++
        [Command.execute ((k + 1) % 3), Command.signal (c0 + k + 1)] := by
  obtain ⟨_, t1, _, _, hu, c1, _, _, _, _, hval, hw, hq, _⟩ := Update_cycle c0 k s h
  rw [if_neg (by omega)] at hval
  have hno : ¬ (fenceOf s ((k + 1) % 3) ≠ 0 ∧ s.mFence < fenceOf s ((k + 1) % 3)) := by
    rw [hval]; simp
  rw [if_neg hno, List.append_nil] at hw
  obtain ⟨hf, hqq⟩ := hq hno
  obtain ⟨t2, hd, c2, d1, d2, d3⟩ := Draw_cycle c0 k t1 c1
  exact ⟨t2, by simp only [run, step, hu, hd, Option.some_bind], c2, by rw [d1, hf],
    by rw [d2, hw], by rw [d3, hqq]⟩

/-- C4: in the frame loop started with all markers 0 and the consumer caught up,
whatever the consumer does in between, every `Update` gets past its wait, and
at that moment (and through its uploads) at most `N - 1 = 2` submitted frames
are unfinished: `mCurrentFence - completed ≤ 2`. -/
theorem runahead_at_most_two (s0 : App) (h0 : Ready s0) (gs : List (Nat × Nat)) (g : Nat) :
    ∃ s m t, run (frameOps gs) s0 = some s ∧ UpdateSync (gpuRun g s) = some m ∧
      UpdateUpload m = some t ∧ Update (gpuRun g s) = some t ∧
      m.mCurrentFence = s0.mCurrentFence + gs.length ∧
      m.mFence ≤ m.mCurrentFence ∧ m.mCurrentFence - m.mFence ≤ 2 ∧
      t.mFence = m.mFence ∧ t.mCurrentFence = m.mCurrentFence := by
  obtain ⟨s, hs, cs⟩ := frameOps_cycle gs s0.mCurrentFence 0 s0 (ready_cycle s0 h0)
  simp only [Nat.zero_add] at cs
  obtain ⟨m, t, hm, ht, hu, ct, h1, h2, h3, h4, _⟩ :=
    Update_cycle _ _ _ (gpuRun_cycle g _ _ _ s cs)
  refine ⟨s, m, t, hs, hm, ht, hu, ?_, h1, h2, h3, h4⟩
  rw [← h4]
  exact ct.2.2.2.1

/-- C5: starting from index 0, the `Update` of frame `k = n + 1` selects slot
`k mod 3`; hence the slots of frames `k` and `k + 3` coincide, and the slot of
frame `k` differs from those of frames `k + 1` and `k + 2`. -/
theorem slots_round_robin (s0 : App) (h0 : Ready s0) (gs gs' : List (Nat × Nat)) (g g' : Nat) :
    ∃ s t s' t', run (frameOps gs) s0 = some s ∧ Update (gpuRun g s) = some t ∧
      run (frameOps gs') s0 = some s' ∧ Update (gpuRun g' s') = some t' ∧
      t.mCurrFrameResourceIndex = (((gs.length + 1) % 3 : Nat) : Int) ∧
      t.mCurrFrameResource = some ((gs.length + 1) % 3) ∧
      (gs'.length = gs.length + 3 → t'.mCurrFrameResource = t.mCurrFrameResource) ∧
      (gs'.length = gs.length + 1 ∨ gs'.length = gs.length + 2 →
        t'.mCurrFrameResource ≠ t.mCurrFrameResource) := by
  obtain ⟨s, hs, cs⟩ := frameOps_cycle gs s0.mCurrentFence 0 s0 (ready_cycle s0 h0)
  obtain ⟨s', hs', cs'⟩ := frameOps_cycle gs' s0.mCurrentFence 0 s0 (ready_cycle s0 h0)
  simp only [Nat.zero_add] at cs cs'
  obtain ⟨_, t, _, _, hu, ct, _⟩ := Update_cycle _ _ _ (gpuRun_cycle g _ _ _ s cs)
  obtain ⟨_, t', _, _, hu', ct', _⟩ := Update_cycle _ _ _ (gpuRun_cycle g' _ _ _ s' cs')
  have hp := ct.2.2.1 (by omega)
  have hp' := ct'.2.2.1 (by omega)
  refine ⟨s, t, s', t', hs, hu, hs', hu', ct.2.1, hp, ?_, ?_⟩
  · intro e
    rw [hp, hp', e]
    congr 1
    omega
  · intro e
    rw [hp, hp']
    intro hEq
    have := Option.some.inj hEq
    omega

/-- A marker is recorded only by `Draw`: at `demo`, four calls of `Update` with no
`Draw` in between leave the three markers at 0, and none of the calls waits. -/
theorem four_updates_without_retiring_never_wait :
    (run [Op.update, Op.update, Op.update, Op.update] demo).map
      (fun t => (waits t.trace, t.mFence, t.mFrameResources.map (fun fr => fr.Fence)))
      = some ([], 5, [0, 0, 0]) := by
  decide

/-- C7: with the ring of three slots, let each of the first three `Update` calls be
followed by the `Draw` of its frame, which records the slot's marker, and let
the consumer retire none of the slots (it makes no progress, the completed
value stays where it was).  The three frames pass without a wait.  The fourth
`Update` moves back to the slot of the first frame (slot 1), whose recorded
marker `mCurrentFence + 1` the completed value has not reached; it waits once,
on that marker, and returns with the completed value raised to exactly that
marker. -/
theorem fourth_update_waits_for_first_marker (s0 : App) (h0 : Ready s0) :
    ∃ s3 t, run [Op.update, Op.draw, Op.update, Op.draw, Op.update, Op.draw] s0 = some s3 ∧
      waits s3.trace = waits s0.trace ∧ s3.mFence = s0.mFence ∧
      fenceOf s3 1 = s0.mCurrentFence + 1 ∧ s3.mFence < fenceOf s3 1 ∧
      Update s3 = some t ∧ t.mCurrFrameResource = some 1 ∧
      waits t.trace = waits s0.trace ++ [s0.mCurrentFence + 1] ∧
      t.mFence = s0.mCurrentFence + 1 := by
  have hc0 := ready_cycle s0 h0
  have hfence : s0.mFence = s0.mCurrentFence := h0.2.2.2.2.1
  have hq0 : s0.mCommandQueue = [] := h0.2.2.2.2.2.1
  obtain ⟨s1, r1, c1, f1, w1, q1⟩ := quiet_frame _ 0 s0 hc0 (by omega)
  obtain ⟨s2, r2, c2, f2, w2, q2⟩ := quiet_frame _ 1 s1 c1 (by omega)
  obtain ⟨s3, r3, c3, f3, w3, q3⟩ := quiet_frame _ 2 s2 c2 (by omega)
  have hrun : run [Op.update, Op.draw, Op.update, Op.draw, Op.update, Op.draw] s0 = some s3 := by
    simp only [run, step, Option.bind_eq_bind] at r1 r2 r3 ⊢
    obtain ⟨u1, hu1, hd1⟩ := Option.bind_eq_some.mp r1
    obtain ⟨u2, hu2, hd2⟩ := Option.bind_eq_some.mp r2
    obtain ⟨u3, hu3, hd3⟩ := Option.bind_eq_some.mp r3
    obtain ⟨v1, hv1, e1⟩ := Option.bind_eq_some.mp hd1
    obtain ⟨v2, hv2, e2⟩ := Option.bind_eq_some.mp hd2
    obtain ⟨v3, hv3, e3⟩ := Option.bind_eq_some.mp hd3
    simp only [Option.some.injEq] at e1 e2 e3
    subst e1 e2 e3
    simp only [hu1, hv1, hu2, hv2, hu3, hv3, Option.some_bind]
  have hf3 : s3.mFence = s0.mCurrentFence := by rw [f3, f2, f1, hfence]
  have hq : s3.mCommandQueue =
      [Command.execute 1, Command.signal (s0.mCurrentFence + 1),
       Command.execute 2, Command.signal (s0.mCurrentFence + 2),
       Command.execute 0, Command.signal (s0.mCurrentFence + 3)] := by
    rw [q3, q2, q1, hq0]; rfl
  obtain ⟨m, t, hm, _, hu, ct, _, _, htm, _, hval, hw, _, _⟩ := Update_cycle _ 3 s3 c3
  simp only [show (3 + 1) % 3 = 1 from rfl] at hval hw ct
  rw [if_pos (by omega)] at hval
  have hmark : fenceOf s3 1 = s0.mCurrentFence + 1 := by rw [hval]; omega
  have hyes : fenceOf s3 1 ≠ 0 ∧ s3.mFence < fenceOf s3 1 := by
    rw [hmark, hf3]; omega
  rw [if_pos hyes, hmark, w3, w2, w1] at hw
  refine ⟨s3, t, hrun, by rw [w3, w2, w1], by rw [f3, f2, f1], hmark, hyes.2, hu,
    ct.2.2.1 (by omega), hw, ?_⟩
  obtain ⟨fr, m2, _, _, hget, hm2, _, _, _, _, _, _, _, _, h9, _⟩ := Update_parts s3 c3.1
  rw [hm] at hm2
  have hmm : m = m2 := Option.some.inj hm2
  subst hmm
  have hidx : ((s3.mCurrFrameResourceIndex + 1) % 3).toNat = 1 := by
    rw [c3.2.1]; omega
  rw [hidx] at hget
  have hfr : fr.Fence = s0.mCurrentFence + 1 := by
    rw [← fenceOf_of_get s3 1 fr hget, hmark]
  rw [htm]
  rcases h9 with ⟨_, _, hwt⟩ | ⟨hn, _⟩
  · rw [hfr, hq, hf3] at hwt
    simp [gpuWait, gpuExec] at hwt
    exact hwt.2.symm
  · rw [hfr, hf3] at hn
    omega

/-! ## Markers along arbitrary runs -/

theorem Update_keeps (s t : App) (hs : Sound s) (h : Update s = some t) :
    t.mFrameResources = s.mFrameResources ∧ t.mCurrentFence = s.mCurrentFence ∧
    ∀ e ∈ s.trace, e ∈ t.trace := by
  obtain ⟨fr, m, t2, evs, _, _, _, hu, _, _, _, _, hfr, hcf, h9, hr, htr, _⟩ :=
    Update_parts s hs
  rw [hu] at h
  have e : t2 = t := Option.some.inj h
  subst e
  refine ⟨hr.1.trans hfr, hr.2.2.2.2.1.trans hcf, ?_⟩
  intro e he
  rw [htr]
  apply List.mem_append_left
  rcases h9 with ⟨_, hm, _⟩ | ⟨_, hm, _⟩
  · rw [hm]; exact List.mem_append_left _ he
  · rw [hm]; exact he

theorem distinct_of_same {s t : App} (h : t.mFrameResources = s.mFrameResources)
    (hd : DistinctMarkers s) : DistinctMarkers t := by
  intro i hi j hj h0 he
  rw [h] at hi hj
  rw [fenceOf_same h] at h0 he
  rw [fenceOf_same h] at he
  exact hd i hi j hj h0 he

theorem enqueued_of_same {s t : App} (h : t.mFrameResources = s.mFrameResources)
    (ht : ∀ e ∈ s.trace, e ∈ t.trace) (hd : Enqueued s) : Enqueued t := by
  intro fr hfr h0
  rw [h] at hfr
  exact ht _ (hd fr hfr h0)

theorem fenceOf_le (s : App) (hs : Sound s) (j : Nat) : fenceOf s j ≤ s.mCurrentFence := by
  unfold fenceOf
  cases hg : s.mFrameResources[j]? with
  | none => exact Nat.zero_le _
  | some fr =>
    obtain ⟨hlt, hfr⟩ := List.getElem?_eq_some.mp hg
    exact le_trans (hs.2.2.2.2.1 fr (hfr ▸ List.getElem_mem hlt)) hs.2.2.2.2.2

/-- What `Draw` does in a sound state with current slot `i`. -/
theorem Draw_parts (s : App) (hs : Sound s) (i : Nat) (hp : s.mCurrFrameResource = some i) :
    ∃ t fr, Draw s = some t ∧ Sound t ∧ s.mFrameResources[i]? = some fr ∧ i < 3 ∧
      t.mFrameResources = s.mFrameResources.set i { fr with Fence := s.mCurrentFence + 1 } ∧
      t.mFrameResources[i]? = some { fr with Fence := s.mCurrentFence + 1 } ∧
      (∀ j, fenceOf t j = if j = i then s.mCurrentFence + 1 else fenceOf s j) ∧
      (∀ j, j ≠ i → t.mFrameResources[j]? = s.mFrameResources[j]?) ∧
      t.mCurrentFence = s.mCurrentFence + 1 ∧
      t.mCommandQueue = s.mCommandQueue ++
        [Command.execute i, Command.signal (s.mCurrentFence + 1)] ∧
      t.trace = s.trace ++ [Event.resetAlloc i, Event.execute i,
        Event.retire i (s.mCurrentFence + 1), Event.signal (s.mCurrentFence + 1)] ∧
      t.mFence = s.mFence ∧ t.mCurrFrameResource = some i := by
  obtain ⟨t, ht, st⟩ := Draw_total s hs i hp
  obtain ⟨fr, hc, hget, hi⟩ := currSlot_of_ptr s hs i hp
  obtain ⟨i2, fr2, hc2, d1, d2, d3, d4, d5, d6, _⟩ := Draw_spec s t ht
  rw [hc] at hc2
  simp only [Option.some.injEq, Prod.mk.injEq] at hc2
  obtain ⟨rfl, rfl⟩ := hc2
  have hlen : i < s.mFrameResources.length := by rw [hs.1]; exact hi
  refine ⟨t, fr, ht, st, hget, hi, d2, ?_, fenceOf_set s t i fr _ hlen d2, ?_, d1, d3, d4, d5,
    by rw [d6, hp]⟩
  · rw [d2, List.getElem?_set]
    simp [hlen]
  · intro j hj
    rw [d2, List.getElem?_set]
    have : ¬ i = j := fun x => hj x.symm
    simp [this]

theorem Draw_markers (s t : App) (hs : Sound s) (h : Draw s = some t)
    (hd : DistinctMarkers s) (he : Enqueued s) : DistinctMarkers t ∧ Enqueued t := by
  obtain ⟨i, hp⟩ := Draw_ptr s t h
  obtain ⟨t2, fr, ht, _, hget, hi, hset, _, hf, _, _, _, htr, _, _⟩ := Draw_parts s hs i hp
  rw [ht] at h
  have e : t2 = t := Option.some.inj h
  subst e
  have hlen : t2.mFrameResources.length = s.mFrameResources.length := by
    rw [hset, List.length_set]
  constructor
  · intro a ha b hb h0 hab
    rw [hlen] at ha hb
    rw [hf a, hf b] at hab
    rw [hf a] at h0
    have la := fenceOf_le s hs a
    have lb := fenceOf_le s hs b
    by_cases ea : a = i
    · by_cases eb : b = i
      · rw [ea, eb]
      · rw [if_pos ea, if_neg eb] at hab
        omega
    · by_cases eb : b = i
      · rw [if_neg ea, if_pos eb] at hab
        omega
      · rw [if_neg ea, if_neg eb] at hab
        rw [if_neg ea] at h0
        exact hd a ha b hb h0 hab
  · intro x hx h0
    rw [htr]
    rw [hset] at hx
    rcases List.mem_or_eq_of_mem_set hx with hmem | heq
    · exact List.mem_append_left _ (he x hmem h0)
    · subst heq
      apply List.mem_append_right
      simp

theorem step_markers (o : Op) (s t : App) (hs : Sound s) (h : step o s = some t)
    (hd : DistinctMarkers s) (he : Enqueued s) : DistinctMarkers t ∧ Enqueued t := by
  cases o with
  | update =>
    obtain ⟨k1, _, k3⟩ := Update_keeps s t hs h
    exact ⟨distinct_of_same k1 hd, enqueued_of_same k1 k3 he⟩
  | draw => exact Draw_markers s t hs h hd he
  | gpu n =>
    have h' : some (gpuRun n s) = some t := h
    rw [← Option.some.inj h']
    obtain ⟨g1, _, _, _, _, _, _, g8⟩ := gpuRun_frame n s
    exact ⟨distinct_of_same g1 hd, enqueued_of_same g1 (fun e he => by rw [g8]; exact he) he⟩

theorem run_markers (ops : List Op) (s t : App) (hs : Sound s) (h : run ops s = some t)
    (hd : DistinctMarkers s) (he : Enqueued s) : DistinctMarkers t ∧ Enqueued t := by
  induction ops generalizing s with
  | nil =>
    have h' : some s = some t := h
    rw [← Option.some.inj h']; exact ⟨hd, he⟩
  | cons o os ih =>
    have hb : (step o s).bind (run os) = some t := h
    obtain ⟨m, hm, hrest⟩ := Option.bind_eq_some.mp hb
    obtain ⟨d, e⟩ := step_markers o s m hs hm hd he
    exact ih m (step_sound o s m hs hm) hrest d e

theorem ready_markers (s : App) (h : Ready s) : DistinctMarkers s ∧ Enqueued s := by
  have hz : ∀ fr ∈ s.mFrameResources, fr.Fence = 0 := h.2.1
  constructor
  · intro i hi j _ h0 _
    exfalso
    apply h0
    unfold fenceOf
    rw [List.getElem?_eq_getElem hi]
    exact hz _ (List.getElem_mem hi)
  · intro fr hfr h0
    exact absurd (hz fr hfr) h0

/-! ## Claims C6, C8 and C9: what `Draw` records -/

/-- C6: in every state of a run from a start state, `Draw` returns with
`mCurrentFence` increased by exactly 1; the new value is the marker of the
current slot (the slot is otherwise unchanged), it is the value signalled on
the queue after the submitted command list, and the other slots are untouched.
Hence the new marker is strictly above every marker recorded before, and no
nonzero marker is held by two slots, before or after the call. -/
theorem Draw_retires_current_slot (s0 : App) (ops : List Op) (s : App) (i : Nat)
    (h0 : Ready s0) (hrun : run ops s0 = some s) (hp : s.mCurrFrameResource = some i) :
    ∃ t fr, Draw s = some t ∧ t.mCurrentFence = s.mCurrentFence + 1 ∧
      s.mFrameResources[i]? = some fr ∧
      t.mFrameResources[i]? = some { fr with Fence := s.mCurrentFence + 1 } ∧
      t.mCommandQueue = s.mCommandQueue ++
        [Command.execute i, Command.signal (s.mCurrentFence + 1)] ∧
      (∀ j, j ≠ i → t.mFrameResources[j]? = s.mFrameResources[j]?) ∧
      (∀ j, fenceOf s j < fenceOf t i) ∧
      DistinctMarkers s ∧ DistinctMarkers t := by
  have hs : Sound s := run_sound ops s0 s (ready_sound h0) hrun
  obtain ⟨d0, e0⟩ := ready_markers s0 h0
  obtain ⟨ds, es⟩ := run_markers ops s0 s (ready_sound h0) hrun d0 e0
  obtain ⟨t, fr, ht, _, hget, _, _, hti, hf, hoth, hcf, hq, _, _, _⟩ := Draw_parts s hs i hp
  refine ⟨t, fr, ht, hcf, hget, hti, hq, hoth, ?_, ds, (Draw_markers s t hs ht ds es).1⟩
  intro j
  rw [hf i, if_pos rfl]
  exact Nat.lt_succ_of_le (fenceOf_le s hs j)

/-- C8: in every state of a run from a start state, retiring the current slot
twice in a row (two calls of `Draw`) leaves the slot with the later of the two
markers; every marker is then at most `mCurrentFence` and, if nonzero, has been
signalled on the queue; and the next cycle through the ring (three calls of
`Update`, with any consumer progress in between) returns.  A wait in it ends
with the consumer having executed the shortest part of the queue after which
the completed value has reached the marker waited on. -/
theorem double_retire_no_deadlock (s0 : App) (ops : List Op) (s : App) (i : Nat)
    (h0 : Ready s0) (hrun : run ops s0 = some s) (hp : s.mCurrFrameResource = some i)
    (g1 g2 g3 : Nat) :
    ∃ s1 s2 t, Draw s = some s1 ∧ Draw s1 = some s2 ∧
      fenceOf s1 i = s.mCurrentFence + 1 ∧ fenceOf s2 i = s.mCurrentFence + 2 ∧
      (∀ fr ∈ s2.mFrameResources, fr.Fence ≤ s2.mCurrentFence ∧
        (fr.Fence ≠ 0 → Event.signal fr.Fence ∈ s2.trace)) ∧
      run [Op.gpu g1, Op.update, Op.gpu g2, Op.update, Op.gpu g3, Op.update] s2 = some t ∧
      ∃ fr m, (gpuRun g1 s2).mFrameResources[
          (((gpuRun g1 s2).mCurrFrameResourceIndex + 1) % 3).toNat]? = some fr ∧
        UpdateSync (gpuRun g1 s2) = some m ∧
        (fr.Fence ≠ 0 ∧ (gpuRun g1 s2).mFence < fr.Fence →
          ∃ pre, (gpuRun g1 s2).mCommandQueue = pre ++ m.mCommandQueue ∧
            m.mFence = gpuFinal pre (gpuRun g1 s2).mFence ∧ fr.Fence ≤ m.mFence ∧
            ∀ k, k < pre.length → gpuFinal (pre.take k) (gpuRun g1 s2).mFence < fr.Fence) := by
  have hs : Sound s := run_sound ops s0 s (ready_sound h0) hrun
  obtain ⟨d0, e0⟩ := ready_markers s0 h0
  obtain ⟨ds, es⟩ := run_markers ops s0 s (ready_sound h0) hrun d0 e0
  obtain ⟨s1, _, h1, hs1, _, _, _, _, hf1, _, hc1, _, _, _, hp1⟩ := Draw_parts s hs i hp
  obtain ⟨d1, e1⟩ := Draw_markers s s1 hs h1 ds es
  obtain ⟨s2, _, h2, hs2, _, _, _, _, hf2, _, hc2, _, _, _, _⟩ := Draw_parts s1 hs1 i hp1
  obtain ⟨_, e2⟩ := Draw_markers s1 s2 hs1 h2 d1 e1
  have a1 := gpuRun_sound g1 s2 hs2
  obtain ⟨t1, u1, b1⟩ := Update_total _ a1
  have a2 := gpuRun_sound g2 t1 b1
  obtain ⟨t2, u2, b2⟩ := Update_total _ a2
  have a3 := gpuRun_sound g3 t2 b2
  obtain ⟨t3, u3, _⟩ := Update_total _ a3
  obtain ⟨fr, m, _, _, hget, hm, _, _, _, _, _, _, _, _, h9, _⟩ := Update_parts _ a1
  refine ⟨s1, s2, t3, h1, h2, by rw [hf1 i, if_pos rfl], by rw [hf2 i, if_pos rfl, hc1], ?_, ?_,
    fr, m, hget, hm, ?_⟩
  · intro x hx
    exact ⟨le_trans (hs2.2.2.2.2.1 x hx) hs2.2.2.2.2.2, e2 x hx⟩
  · simp only [run, step, Option.some_bind, u1, u2, u3]
  · intro hc
    rcases h9 with ⟨_, _, hwt⟩ | ⟨hn, _⟩
    · obtain ⟨w1, _, _, pre, w4, w5, w6⟩ := gpuWait_spec _ _ _ _ _ hwt
      exact ⟨pre, w4, w5, w1, w6⟩
    · exact absurd hc hn

/-- C9: in every state of a run from a start state a frame (`Update`, then `Draw`)
returns, and its events are, in this order: at most one wait; the uploads,
all of them into the current slot; the submission of the command list recorded
from that slot; the recording of the slot's new marker; the signal for that
marker.  On the queue the command list precedes the signal. -/
theorem frame_order (s0 : App) (ops : List Op) (s : App) (h0 : Ready s0)
    (hrun : run ops s0 = some s) :
    ∃ t u i fr ws evs, Update s = some t ∧ Draw t = some u ∧ currSlot t = some (i, fr) ∧
      u.trace = s.trace ++ ws ++ evs ++ [Event.resetAlloc i, Event.execute i,
        Event.retire i (s.mCurrentFence + 1), Event.signal (s.mCurrentFence + 1)] ∧
      (ws = [] ∨ ws = [Event.wait fr.Fence]) ∧
      (∀ e ∈ evs, ∃ r el, e = Event.write r el i fr.Fence t.mFence) ∧
      u.mCommandQueue = t.mCommandQueue ++
        [Command.execute i, Command.signal (s.mCurrentFence + 1)] ∧
      fenceOf u i = s.mCurrentFence + 1 := by
  have hs : Sound s := run_sound ops s0 s (ready_sound h0) hrun
  obtain ⟨fr, m, t, evs, _, hm, _, hu, _, st, hcm, _, _, hcf, h9, hr, htr, hw⟩ :=
    Update_parts s hs
  have hct : currSlot t = some (((s.mCurrFrameResourceIndex + 1) % 3).toNat, fr) := by
    rw [sameRing_currSlot hr, hcm]
  have hptr : t.mCurrFrameResource = some ((s.mCurrFrameResourceIndex + 1) % 3).toNat := by
    rw [hr.2.1]; exact UpdateSync_ptr s m hs hm
  obtain ⟨u, _, hd, _, _, _, _, _, hf, _, _, hq, hdt, _, _⟩ := Draw_parts t st _ hptr
  have htc : t.mCurrentFence = s.mCurrentFence := hr.2.2.2.2.1.trans hcf
  rw [htc] at hq hdt hf
  have hwt : ∀ e ∈ evs, ∃ r el,
      e = Event.write r el ((s.mCurrFrameResourceIndex + 1) % 3).toNat fr.Fence t.mFence := by
    rw [hr.2.2.2.2.2.1]; exact hw
  rcases h9 with ⟨_, hmt, _⟩ | ⟨_, hmt, _⟩
  · exact ⟨t, u, _, fr, [Event.wait fr.Fence], evs, hu, hd, hct,
      by rw [hdt, htr, hmt], Or.inr rfl, hwt, hq, by rw [hf, if_pos rfl]⟩
  · exact ⟨t, u, _, fr, [], evs, hu, hd, hct,
      by rw [hdt, htr, hmt, List.append_nil], Or.inl rfl, hwt, hq, by rw [hf, if_pos rfl]⟩

/-! ## Claim C10: the ring built at start-up -/

set_option maxRecDepth 100000 in
/-- The state `Initialize` leaves is one the frame loop can start in. -/
theorem Initialize_ready : ∃ t, Initialize {} = some t ∧ Ready t :=
  ⟨(Initialize {}).getD {}, by decide, by decide⟩

set_option maxRecDepth 100000 in
/-- C10: `BuildFrameResources` returns with exactly `gNumFrameResources = 3 ≥ 2`
slots added, each with pass count 1, object count the number of render items,
material count the number of materials, wave vertex count `VertexCount()` and
marker 0, and leaves the render items and materials alone.  In `Initialize` it
runs after `BuildMaterials` and `BuildRenderItems`, so in the state `Initialize`
returns the ring has 3 slots whose counts are the final numbers of render items
(95: the four hand-built items and one per `BuildShape` call) and of materials
(11) and the vertex count of the wave grid (16384). -/
theorem BuildFrameResources_sizes (s : App) (w : Waves) (hw : s.mWaves = some w)
    (ho : s.mAllRitems.length < 4294967296) (hm : s.mMaterials.length < 4294967296) :
    (∃ t, BuildFrameResources s = some t ∧
      t.mFrameResources = s.mFrameResources ++ List.replicate 3
        { passCount := 1, objectCount := s.mAllRitems.length,
          materialCount := s.mMaterials.length, waveVertCount := w.VertexCount, Fence := 0 } ∧
      t.mAllRitems = s.mAllRitems ∧ t.mMaterials = s.mMaterials ∧ t.mWaves = s.mWaves) ∧
    gNumFrameResources = 3 ∧ 2 ≤ gNumFrameResources ∧
    ∃ t w0, Initialize {} = some t ∧
      Initialize {} = BuildFrameResources (BuildRenderItems (BuildMaterials
        { mWaves := some { mNumRows := 128, mNumCols := 128 } })) ∧
      t.mWaves = some w0 ∧ t.mFrameResources.length = 3 ∧
      t.mAllRitems.length = 95 ∧ t.mMaterials.length = 11 ∧ w0.VertexCount = 16384 ∧
      ∀ fr ∈ t.mFrameResources, fr.passCount = 1 ∧ fr.objectCount = t.mAllRitems.length ∧
        fr.materialCount = t.mMaterials.length ∧ fr.waveVertCount = w0.VertexCount ∧
        fr.Fence = 0 := by
  refine ⟨?_, rfl, by decide, (Initialize {}).getD {}, { mNumRows := 128, mNumCols := 128 },
    by decide, rfl, by decide⟩
  have hb : BuildFrameResources s = some { s with
      mFrameResources := s.mFrameResources ++ List.replicate gNumFrameResources.toNat
        { passCount := 1, objectCount := s.mAllRitems.length % 4294967296,
          materialCount := s.mMaterials.length % 4294967296,
          waveVertCount := w.VertexCount } } := by
    simp only [BuildFrameResources, hw]
  refine ⟨_, hb, ?_, rfl, rfl, rfl⟩
  simp only [Nat.mod_eq_of_lt ho, Nat.mod_eq_of_lt hm]
  rfl

set_option maxRecDepth 100000 in
theorem BuildFrameResources_sizes_witness :
    demo.mWaves = some { mNumRows := 2, mNumCols := 2 } ∧
    demo.mAllRitems.length < 4294967296 ∧ demo.mMaterials.length < 4294967296 ∧
    ((∃ t, BuildFrameResources demo = some t ∧
      t.mFrameResources = demo.mFrameResources ++ List.replicate 3
        { passCount := 1, objectCount := demo.mAllRitems.length,
          materialCount := demo.mMaterials.length,
          waveVertCount := Waves.VertexCount { mNumRows := 2, mNumCols := 2 }, Fence := 0 } ∧
      t.mAllRitems = demo.mAllRitems ∧ t.mMaterials = demo.mMaterials ∧
      t.mWaves = demo.mWaves) ∧
    gNumFrameResources = 3 ∧ 2 ≤ gNumFrameResources ∧
    ∃ t w0, Initialize {} = some t ∧
      Initialize {} = BuildFrameResources (BuildRenderItems (BuildMaterials
        { mWaves := some { mNumRows := 128, mNumCols := 128 } })) ∧
      t.mWaves = some w0 ∧ t.mFrameResources.length = 3 ∧
      t.mAllRitems.length = 95 ∧ t.mMaterials.length = 11 ∧ w0.VertexCount = 16384 ∧
      ∀ fr ∈ t.mFrameResources, fr.passCount = 1 ∧ fr.objectCount = t.mAllRitems.length ∧
        fr.materialCount = t.mMaterials.length ∧ fr.waveVertCount = w0.VertexCount ∧
        fr.Fence = 0) :=
  ⟨by decide, by decide, by decide,
    BuildFrameResources_sizes demo { mNumRows := 2, mNumCols := 2 } (by decide) (by decide)
      (by decide)⟩

/-! ## The claims at the small state `demo` -/

theorem runahead_at_most_two_witness :
    Ready demo ∧
    ∃ s m t, run (frameOps demoFrames) demo = some s ∧ UpdateSync (gpuRun 1 s) = some m ∧
      UpdateUpload m = some t ∧ Update (gpuRun 1 s) = some t ∧
      m.mCurrentFence = demo.mCurrentFence + demoFrames.length ∧
      m.mFence ≤ m.mCurrentFence ∧ m.mCurrentFence - m.mFence ≤ 2 ∧
      t.mFence = m.mFence ∧ t.mCurrentFence = m.mCurrentFence :=
  ⟨by decide, runahead_at_most_two demo (by decide) demoFrames 1⟩

theorem slots_round_robin_witness :
    Ready demo ∧
    ∃ s t s' t', run (frameOps [(0, 0)]) demo = some s ∧ Update (gpuRun 0 s) = some t ∧
      run (frameOps demoFrames) demo = some s' ∧ Update (gpuRun 1 s') = some t' ∧
      t.mCurrFrameResourceIndex
        = (((([(0, 0)] : List (Nat × Nat)).length + 1) % 3 : Nat) : Int) ∧
      t.mCurrFrameResource = some ((([(0, 0)] : List (Nat × Nat)).length + 1) % 3) ∧
      (demoFrames.length = ([(0, 0)] : List (Nat × Nat)).length + 3 →
        t'.mCurrFrameResource = t.mCurrFrameResource) ∧
      (demoFrames.length = ([(0, 0)] : List (Nat × Nat)).length + 1 ∨
        demoFrames.length = ([(0, 0)] : List (Nat × Nat)).length + 2 →
        t'.mCurrFrameResource ≠ t.mCurrFrameResource) :=
  ⟨by decide, slots_round_robin demo (by decide) [(0, 0)] demoFrames 0 1⟩

theorem Draw_retires_current_slot_witness :
    Ready demo ∧ run demoOps demo = some demoLater ∧ demoLater.mCurrFrameResource = some 0 ∧
    ∃ t fr, Draw demoLater = some t ∧ t.mCurrentFence = demoLater.mCurrentFence + 1 ∧
      demoLater.mFrameResources[0]? = some fr ∧
      t.mFrameResources[0]? = some { fr with Fence := demoLater.mCurrentFence + 1 } ∧
      t.mCommandQueue = demoLater.mCommandQueue ++
        [Command.execute 0, Command.signal (demoLater.mCurrentFence + 1)] ∧
      (∀ j, j ≠ 0 → t.mFrameResources[j]? = demoLater.mFrameResources[j]?) ∧
      (∀ j, fenceOf demoLater j < fenceOf t 0) ∧
      DistinctMarkers demoLater ∧ DistinctMarkers t :=
  ⟨by decide, by decide, by decide,
    Draw_retires_current_slot demo demoOps demoLater 0 (by decide) (by decide) (by decide)⟩

theorem fourth_update_waits_for_first_marker_witness :
    Ready demo ∧
    ∃ s3 t, run [Op.update, Op.draw, Op.update, Op.draw, Op.update, Op.draw] demo = some s3 ∧
      waits s3.trace = waits demo.trace ∧ s3.mFence = demo.mFence ∧
      fenceOf s3 1 = demo.mCurrentFence + 1 ∧ s3.mFence < fenceOf s3 1 ∧
      Update s3 = some t ∧ t.mCurrFrameResource = some 1 ∧
      waits t.trace = waits demo.trace ++ [demo.mCurrentFence + 1] ∧
      t.mFence = demo.mCurrentFence + 1 :=
  ⟨by decide, fourth_update_waits_for_first_marker demo (by decide)⟩

theorem double_retire_no_deadlock_witness :
    Ready demo ∧ run demoOps demo = some demoLater ∧ demoLater.mCurrFrameResource = some 0 ∧
    ∃ s1 s2 t, Draw demoLater = some s1 ∧ Draw s1 = some s2 ∧
      fenceOf s1 0 = demoLater.mCurrentFence + 1 ∧ fenceOf s2 0 = demoLater.mCurrentFence + 2 ∧
      (∀ fr ∈ s2.mFrameResources, fr.Fence ≤ s2.mCurrentFence ∧
        (fr.Fence ≠ 0 → Event.signal fr.Fence ∈ s2.trace)) ∧
      run [Op.gpu 0, Op.update, Op.gpu 1, Op.update, Op.gpu 0, Op.update] s2 = some t ∧
      ∃ fr m, (gpuRun 0 s2).mFrameResources[
          (((gpuRun 0 s2).mCurrFrameResourceIndex + 1) % 3).toNat]? = some fr ∧
        UpdateSync (gpuRun 0 s2) = some m ∧
        (fr.Fence ≠ 0 ∧ (gpuRun 0 s2).mFence < fr.Fence →
          ∃ pre, (gpuRun 0 s2).mCommandQueue = pre ++ m.mCommandQueue ∧
            m.mFence = gpuFinal pre (gpuRun 0 s2).mFence ∧ fr.Fence ≤ m.mFence ∧
            ∀ k, k < pre.length → gpuFinal (pre.take k) (gpuRun 0 s2).mFence < fr.Fence) :=
  ⟨by decide, by decide, by decide,
    double_retire_no_deadlock demo demoOps demoLater 0 (by decide) (by decide) (by decide)
      0 1 0⟩

theorem frame_order_witness :
    Ready demo ∧ run demoOps demo = some demoLater ∧
    ∃ t u i fr ws evs, Update demoLater = some t ∧ Draw t = some u ∧
      currSlot t = some (i, fr) ∧
      u.trace = demoLater.trace ++ ws ++ evs ++ [Event.resetAlloc i, Event.execute i,
        Event.retire i (demoLater.mCurrentFence + 1),
        Event.signal (demoLater.mCurrentFence + 1)] ∧
      (ws = [] ∨ ws = [Event.wait fr.Fence]) ∧
      (∀ e ∈ evs, ∃ r el, e = Event.write r el i fr.Fence t.mFence) ∧
      u.mCommandQueue = t.mCommandQueue ++
        [Command.execute i, Command.signal (demoLater.mCurrentFence + 1)] ∧
      fenceOf u i = demoLater.mCurrentFence + 1 :=
  ⟨by decide, by decide, frame_order demo demoOps demoLater (by decide) (by decide)⟩

/-! ## Single-precision rounding -/

theorem roundHalfEven_intCast (z : Int) : roundHalfEven (z : ℚ) = z := by
  unfold roundHalfEven
  rw [Int.floor_intCast, sub_self, if_pos (by norm_num)]

theorem floor_le_roundHalfEven (t : ℚ) : ⌊t⌋ ≤ roundHalfEven t := by
  unfold roundHalfEven
  split_ifs <;> omega

theorem roundHalfEven_nonpos (t : ℚ) (ht : t ≤ 0) : roundHalfEven t ≤ 0 := by
  have hf : (⌊t⌋ : ℚ) ≤ t := Int.floor_le t
  have hf0 : ⌊t⌋ ≤ 0 := by
    have : ((⌊t⌋ : Int) : ℚ) ≤ ((0 : Int) : ℚ) := by push_cast; linarith
    exact_mod_cast this
  unfold roundHalfEven
  split_ifs with h1 h2 h3
  · exact hf0
  · have : ((⌊t⌋ : Int) : ℚ) < ((0 : Int) : ℚ) := by push_cast; linarith
    have h4 : ⌊t⌋ < 0 := by exact_mod_cast this
    omega
  · exact hf0
  · have h5 : (⌊t⌋ : ℚ) ≤ t - 1 / 2 := by linarith [not_lt.mp h1]
    have : ((⌊t⌋ : Int) : ℚ) < ((0 : Int) : ℚ) := by push_cast; linarith
    have h4 : ⌊t⌋ < 0 := by exact_mod_cast this
    omega

theorem two_zpow_pos (s : Int) : (0 : ℚ) < 2 ^ s := zpow_pos (by norm_num) s

/-- A `float` is its own rounding. -/
theorem roundF32_of_isF32 (q : ℚ) (h : IsF32 q) : roundF32 q = q := by
  obtain ⟨m, c, hm, hc1, hc2, rfl⟩ := h
  by_cases hm0 : m = 0
  · subst hm0
    simp [roundF32, roundHalfEven]
  have hs : exponentF32 ((m : ℚ) * 2 ^ c) - 23 ≤ c := by
    have hL : Int.log 2 |(m : ℚ) * 2 ^ c| < 24 + c := by
      rw [← Int.lt_zpow_iff_log_lt (by norm_num)]
      · rw [abs_mul, abs_of_pos (two_zpow_pos c), zpow_add₀ (by norm_num)]
        apply mul_lt_mul_of_pos_right _ (two_zpow_pos c)
        have : ((|m| : Int) : ℚ) < ((16777216 : Int) : ℚ) := by exact_mod_cast hm
        rw [Int.cast_abs] at this
        norm_num at this ⊢
        exact this
      · rw [abs_pos]
        exact mul_ne_zero (by exact_mod_cast hm0) (ne_of_gt (two_zpow_pos c))
    unfold exponentF32
    omega
  obtain ⟨n, hn⟩ : ∃ n : Nat, c = exponentF32 ((m : ℚ) * 2 ^ c) - 23 + n :=
    ⟨(c - (exponentF32 ((m : ℚ) * 2 ^ c) - 23)).toNat, by omega⟩
  unfold roundF32
  generalize exponentF32 ((m : ℚ) * 2 ^ c) - 23 = s at hn hs
  have hdiv : (m : ℚ) * 2 ^ c / 2 ^ s = ((m * 2 ^ n : Int) : ℚ) := by
    rw [hn, zpow_add₀ (by norm_num)]
    field_simp
    ring
  rw [hdiv, roundHalfEven_intCast, hn, zpow_add₀ (by norm_num)]
  push_cast
  rw [zpow_natCast]
  ring

theorem roundF32_nonpos (q : ℚ) (h : q ≤ 0) : roundF32 q ≤ 0 := by
  unfold roundF32
  have h1 : q / 2 ^ (exponentF32 q - 23) ≤ 0 :=
    div_nonpos_of_nonpos_of_nonneg h (le_of_lt (two_zpow_pos _))
  have h2 := roundHalfEven_nonpos _ h1
  have h3 : ((roundHalfEven (q / 2 ^ (exponentF32 q - 23)) : Int) : ℚ) ≤ 0 := by
    exact_mod_cast h2
  exact mul_nonpos_of_nonpos_of_nonneg h3 (le_of_lt (two_zpow_pos _))

/-- Rounding does not go below a quarter. -/
theorem quarter_le_roundF32 (q : ℚ) (h : 1 / 4 ≤ q) : 1 / 4 ≤ roundF32 q := by
  have hq : 0 < q := by linarith
  have hL : -2 ≤ Int.log 2 |q| := by
    rw [← Int.zpow_le_iff_le_log (by norm_num) (by rw [abs_pos]; exact ne_of_gt hq)]
    rw [abs_of_pos hq]
    norm_num
    linarith
  have hE : -2 ≤ exponentF32 q := by unfold exponentF32; omega
  have hEL : exponentF32 q ≤ Int.log 2 |q| := by unfold exponentF32; omega
  have hpow : (2 : ℚ) ^ exponentF32 q ≤ q := by
    have h1 : (2 : ℚ) ^ exponentF32 q ≤ 2 ^ Int.log 2 |q| :=
      zpow_le_zpow_right₀ (by norm_num) hEL
    have h2 : (2 : ℚ) ^ Int.log 2 |q| ≤ |q| :=
      Int.zpow_log_le_self (by norm_num) (abs_pos.mpr (ne_of_gt hq))
    rw [abs_of_pos hq] at h1 h2
    exact le_trans h1 h2
  unfold roundF32
  generalize hs : exponentF32 q - 23 = s
  have hE2 : exponentF32 q = s + 23 := by omega
  rw [hE2] at hpow hE
  have ht : ((8388608 : Int) : ℚ) ≤ q / 2 ^ s := by
    rw [le_div_iff₀ (two_zpow_pos s)]
    rw [zpow_add₀ (by norm_num)] at hpow
    norm_num at hpow ⊢
    linarith
  have hfl : (8388608 : Int) ≤ ⌊q / 2 ^ s⌋ := Int.le_floor.mpr ht
  have hr : (8388608 : Int) ≤ roundHalfEven (q / 2 ^ s) :=
    le_trans hfl (floor_le_roundHalfEven _)
  have hr2 : ((8388608 : Int) : ℚ) ≤ (roundHalfEven (q / 2 ^ s) : ℚ) := by exact_mod_cast hr
  have h4 : (1 / 4 : ℚ) ≤ 8388608 * 2 ^ s := by
    have : (2 : ℚ) ^ (-2 : Int) ≤ 2 ^ (s + 23) := zpow_le_zpow_right₀ (by norm_num) hE
    rw [zpow_add₀ (by norm_num)] at this
    norm_num at this
    linarith
  calc (1 / 4 : ℚ) ≤ 8388608 * 2 ^ s := h4
    _ ≤ (roundHalfEven (q / 2 ^ s) : ℚ) * 2 ^ s := by
      apply mul_le_mul_of_nonneg_right _ (le_of_lt (two_zpow_pos s))
      norm_num at hr2
      exact hr2

/-- The tie at `2^22 + 0.25`: the two neighbours are `2^22` and `2^22 + 0.5`, and
the even one is `2^22`. -/
theorem roundF32_tie : roundF32 (4194304 + 1 / 4) = 4194304 := by
  have hL : Int.log 2 |(4194304 + 1 / 4 : ℚ)| = 22 := by
    apply le_antisymm
    · have : Int.log 2 |(4194304 + 1 / 4 : ℚ)| < 23 := by
        rw [← Int.lt_zpow_iff_log_lt (by norm_num) (by norm_num)]
        norm_num [abs_of_pos]
      omega
    · rw [← Int.zpow_le_iff_le_log (by norm_num) (by norm_num)]
      norm_num [abs_of_pos]
  have hE : exponentF32 (4194304 + 1 / 4 : ℚ) = 22 := by
    unfold exponentF32; rw [hL]; rfl
  unfold roundF32
  rw [hE]
  have hfl : ⌊(4194304 + 1 / 4 : ℚ) / 2 ^ ((22 : Int) - 23)⌋ = 8388608 := by
    rw [Int.floor_eq_iff]
    norm_num
  unfold roundHalfEven
  rw [hfl]
  norm_num

theorem isF32_quarters (k : Nat) (hk : k ≤ 16777216) : IsF32 ((k : ℚ) / 4) := by
  rcases Nat.lt_or_ge k 16777216 with h | h
  · refine ⟨(k : Int), -2, ?_, by norm_num, by norm_num, ?_⟩
    · rw [abs_of_nonneg (by omega)]; omega
    · norm_num
      ring
  · have hk2 : k = 16777216 := by omega
    subst hk2
    exact ⟨8388608, -1, by norm_num, by norm_num, by norm_num, by norm_num⟩

/-- Adding a quarter to a multiple of a quarter below `2^22` is exact. -/
theorem roundF32_add_quarter (k : Nat) (hk : k < 16777216) :
    roundF32 ((k : ℚ) / 4 + 1 / 4) = (k : ℚ) / 4 + 1 / 4 := by
  have h := isF32_quarters (k + 1) (by omega)
  have e : (((k + 1 : Nat) : ℚ)) / 4 = (k : ℚ) / 4 + 1 / 4 := by push_cast; ring
  rw [e] at h
  exact roundF32_of_isF32 _ h

/-- The difference of a `float` and a multiple of a quarter up to `2^22`, when it is
between 0 and a quarter, is a `float`. -/
theorem isF32_sub_quarters (a : ℚ) (k : Nat) (ha : IsF32 a) (hk : k ≤ 16777216)
    (h0 : 0 < a - (k : ℚ) / 4) (h1 : a - (k : ℚ) / 4 < 1 / 4) : IsF32 (a - (k : ℚ) / 4) := by
  rcases Nat.eq_zero_or_pos k with hk0 | hkpos
  · subst hk0
    simpa using ha
  obtain ⟨m, c, hm, hc1, hc2, rfl⟩ := ha
  have hk1 : (1 : ℚ) ≤ (k : ℚ) := by exact_mod_cast hkpos
  have hpos : (0 : ℚ) < (m : ℚ) * 2 ^ c := by linarith
  have hm0 : (0 : ℚ) < (m : ℚ) := by
    by_contra hneg
    have : (m : ℚ) * 2 ^ c ≤ 0 :=
      mul_nonpos_of_nonpos_of_nonneg (not_lt.mp hneg) (le_of_lt (two_zpow_pos c))
    linarith
  have hmlt : (m : ℚ) < 16777216 := by
    have h2 : m < 16777216 := lt_of_le_of_lt (le_abs_self m) hm
    exact_mod_cast h2
  have hc : -25 ≤ c := by
    by_contra hneg
    have hc3 : c ≤ -26 := by omega
    have h4 : (2 : ℚ) ^ c ≤ 2 ^ (-26 : Int) := zpow_le_zpow_right₀ (by norm_num) hc3
    have h5 : (m : ℚ) * 2 ^ c ≤ 16777216 * 2 ^ (-26 : Int) :=
      mul_le_mul (le_of_lt hmlt) h4 (le_of_lt (two_zpow_pos c)) (by norm_num)
    norm_num at h5
    linarith
  obtain ⟨n, hn⟩ : ∃ n : Nat, c = -25 + n := ⟨(c + 25).toNat, by omega⟩
  have hx : (m : ℚ) * 2 ^ c - (k : ℚ) / 4 = ((m * 2 ^ n - k * 8388608 : Int) : ℚ) * 2 ^ (-25 : Int) := by
    rw [hn, zpow_add₀ (by norm_num)]
    push_cast
    rw [zpow_natCast]
    norm_num
    ring
  rw [hx] at h0 h1 ⊢
  refine ⟨m * 2 ^ n - k * 8388608, -25, ?_, by norm_num, by norm_num, rfl⟩
  have hj0 : (0 : ℚ) < ((m * 2 ^ n - k * 8388608 : Int) : ℚ) := by
    by_contra hneg
    have : ((m * 2 ^ n - k * 8388608 : Int) : ℚ) * 2 ^ (-25 : Int) ≤ 0 :=
      mul_nonpos_of_nonpos_of_nonneg (not_lt.mp hneg) (le_of_lt (two_zpow_pos _))
    linarith
  have hj1 : ((m * 2 ^ n - k * 8388608 : Int) : ℚ) < ((8388608 : Int) : ℚ) := by
    norm_num at h1 ⊢
    linarith
  have hj0i : (0 : Int) < m * 2 ^ n - k * 8388608 := by exact_mod_cast hj0
  have hj1i : m * 2 ^ n - k * 8388608 < (8388608 : Int) := by exact_mod_cast hj1
  rw [abs_of_pos hj0i]
  omega

/-- For a `float` time and a time base that is a multiple of a quarter up to
`2^22`, the single-precision difference is at least a quarter exactly when the
exact difference is. -/
theorem roundF32_sub_ge_iff (a : ℚ) (k : Nat) (ha : IsF32 a) (hk : k ≤ 16777216) :
    roundF32 (a - (k : ℚ) / 4) ≥ 1 / 4 ↔ a - (k : ℚ) / 4 ≥ 1 / 4 := by
  constructor
  · intro h
    by_contra hneg
    have hlt : a - (k : ℚ) / 4 < 1 / 4 := not_le.mp hneg
    rcases le_or_lt (a - (k : ℚ) / 4) 0 with h0 | h0
    · have := roundF32_nonpos _ h0
      linarith
    · rw [roundF32_of_isF32 _ (isF32_sub_quarters a k ha hk h0 hlt)] at h
      linarith
  · intro h
    exact quarter_le_roundF32 _ h

/-! ## `UpdateWaves` and the data it moves -/

theorem CopyData_inside (b : List (Option Vertex)) (i : Nat) (v : Vertex) (h : i < b.length) :
    CopyData b (i : Int) v = some (b.set i (some v)) := by
  unfold CopyData
  have h1 : (0 : Int) ≤ (i : Int) := Int.ofNat_nonneg i
  simp [h1, h]

/-- The copy loop over indices inside the buffer returns; an index of the list
then holds the vertex built for it, any other element is as before. -/
theorem copyWaves_get {W : Type} (ops : WavesOps W) (w : W) (idxs : List Nat)
    (b : List (Option Vertex)) (h : ∀ i ∈ idxs, i < b.length) :
    ∃ b1, copyWaves ops w idxs b = some b1 ∧ b1.length = b.length ∧
      ∀ k, k < b.length →
        b1[k]? = if k ∈ idxs then some (some (waveVertex ops w (k : Int))) else b[k]? := by
  induction idxs generalizing b with
  | nil => exact ⟨b, rfl, rfl, fun k _ => by simp⟩
  | cons i rest ih =>
    have hi : i < b.length := h i (List.mem_cons_self _ _)
    have hrest : ∀ j ∈ rest, j < (b.set i (some (waveVertex ops w (i : Int)))).length := by
      intro j hj
      rw [List.length_set]
      exact h j (List.mem_cons_of_mem _ hj)
    obtain ⟨b1, h1, hl, hg⟩ := ih _ hrest
    refine ⟨b1, by simp only [copyWaves, CopyData_inside b i _ hi, h1], by
      rw [hl, List.length_set], ?_⟩
    intro k hk
    rw [hg k (by rw [List.length_set]; exact hk)]
    by_cases hkr : k ∈ rest
    · simp [hkr]
    · by_cases hki : k = i
      · subst hki
        simp [hkr, List.getElem?_set, hi]
      · have hik : ¬ i = k := fun e => hki e.symm
        simp [hkr, hki, List.getElem?_set, hik]

/-- The state after the first two statements of `UpdateWaves`. -/
theorem stepWaves_schedule {W : Type} (ops : WavesOps W) (rnd : RandomSource)
    (mTimer gt : GameTimer) (d : WaveState W) :
    (stepWaves ops gt (scheduleDisturbance ops rnd mTimer d)).mCurrFrameResource
        = d.mCurrFrameResource ∧
    (stepWaves ops gt (scheduleDisturbance ops rnd mTimer d)).WavesVB = d.WavesVB ∧
    (stepWaves ops gt (scheduleDisturbance ops rnd mTimer d)).copies = d.copies ∧
    (stepWaves ops gt (scheduleDisturbance ops rnd mTimer d)).VertexBufferGPU
        = d.VertexBufferGPU := by
  unfold stepWaves scheduleDisturbance
  split <;> exact ⟨rfl, rfl, rfl, rfl⟩

/-- `UpdateWavesData` in full, for a current slot `c` whose buffer `b` has room for
the vertices of the wave field. -/
theorem UpdateWavesData_parts {W : Type} (ops : WavesOps W) (rnd : RandomSource)
    (mTimer gt : GameTimer) (d : WaveState W) (c : Nat) (b : List (Option Vertex))
    (hc : d.mCurrFrameResource = some c) (hb : d.WavesVB[c]? = some b)
    (hcap : (ops.VertexCount
      (stepWaves ops gt (scheduleDisturbance ops rnd mTimer d)).mWaves).toNat ≤ b.length) :
    ∃ d1 b1, UpdateWavesData ops rnd mTimer gt d = some d1 ∧
      d1.mWaves = (stepWaves ops gt (scheduleDisturbance ops rnd mTimer d)).mWaves ∧
      d1.t_base = (scheduleDisturbance ops rnd mTimer d).t_base ∧
      d1.calls = (stepWaves ops gt (scheduleDisturbance ops rnd mTimer d)).calls ∧
      d1.mCurrFrameResource = some c ∧
      d1.WavesVB = d.WavesVB.set c b1 ∧ b1.length = b.length ∧
      (∀ k, k < b.length → b1[k]? =
        if k < (ops.VertexCount d1.mWaves).toNat
          then some (some (waveVertex ops d1.mWaves (k : Int))) else b[k]?) ∧
      d1.VertexBufferGPU = some c ∧
      d1.copies = d.copies ++
        (List.range (ops.VertexCount d1.mWaves).toNat).map fun (i : Nat) => (c, (i : Int)) := by
  obtain ⟨e1, e2, e3, _⟩ := stepWaves_schedule ops rnd mTimer gt d
  have hin : ∀ i ∈ List.range (ops.VertexCount
      (stepWaves ops gt (scheduleDisturbance ops rnd mTimer d)).mWaves).toNat,
      i < b.length := by
    intro i hi
    exact lt_of_lt_of_le (List.mem_range.mp hi) hcap
  obtain ⟨b1, h1, hl, hg⟩ := copyWaves_get ops
    (stepWaves ops gt (scheduleDisturbance ops rnd mTimer d)).mWaves _ b hin
  have hrun : UpdateWavesData ops rnd mTimer gt d = some
      { stepWaves ops gt (scheduleDisturbance ops rnd mTimer d) with
        WavesVB := d.WavesVB.set c b1
        VertexBufferGPU := some c
        copies := d.copies ++ (List.range (ops.VertexCount
          (stepWaves ops gt (scheduleDisturbance ops rnd mTimer d)).mWaves).toNat).map
            fun (i : Nat) => (c, (i : Int)) } := by
    unfold UpdateWavesData
    generalize stepWaves ops gt (scheduleDisturbance ops rnd mTimer d) = d2 at e1 e2 e3 h1 ⊢
    simp only [e1, hc, e2, hb, h1, e3]
  refine ⟨_, b1, hrun, rfl, rfl, rfl, e1.trans hc, rfl, hl, ?_, rfl, rfl⟩
  intro k hk
  rw [hg k hk]
  simp only [List.mem_range]

/-! ## Claims C11 to C15: `UpdateWaves` -/

/-- C11: with a current slot whose wave vertex buffer has room for the vertices of
the wave field, `UpdateWaves` returns; the wave field is then the one left by
this frame's `Update` step, and for every `k` with `0 ≤ k < VertexCount` element
`k` of the current slot's buffer holds `Pos = Position(k)` and
`Normal = Normal(k)` of that field, the elements from `VertexCount` on being as
before.  The copies made are those of the indices `0, 1, ..., VertexCount - 1`
into the current slot, one each. -/
theorem UpdateWaves_copies_every_vertex {W : Type} (ops : WavesOps W) (rnd : RandomSource)
    (mTimer gt : GameTimer) (d : WaveState W) (c : Nat) (b : List (Option Vertex))
    (hc : d.mCurrFrameResource = some c) (hb : d.WavesVB[c]? = some b)
    (hcap : (ops.VertexCount
      (stepWaves ops gt (scheduleDisturbance ops rnd mTimer d)).mWaves).toNat ≤ b.length) :
    ∃ d1 b1, UpdateWavesData ops rnd mTimer gt d = some d1 ∧
      d1.mWaves = ops.Update (scheduleDisturbance ops rnd mTimer d).mWaves gt.DeltaTime ∧
      d1.WavesVB[c]? = some b1 ∧ b1.length = b.length ∧
      (∀ k : Nat, (k : Int) < ops.VertexCount d1.mWaves →
        ∃ v, b1[k]? = some (some v) ∧ v.Pos = ops.Position d1.mWaves (k : Int) ∧
          v.Normal = ops.Normal d1.mWaves (k : Int)) ∧
      (∀ k : Nat, ¬ (k : Int) < ops.VertexCount d1.mWaves → b1[k]? = b[k]?) ∧
      d1.copies = d.copies ++
        (List.range (ops.VertexCount d1.mWaves).toNat).map fun (i : Nat) => (c, (i : Int)) := by
  obtain ⟨d1, b1, h1, h2, _, _, _, h6, h7, h8, _, h10⟩ :=
    UpdateWavesData_parts ops rnd mTimer gt d c b hc hb hcap
  have hclt : c < d.WavesVB.length := (List.getElem?_eq_some.mp hb).1
  refine ⟨d1, b1, h1, h2, by rw [h6, List.getElem?_set]; simp [hclt], h7, ?_, ?_, h10⟩
  · intro k hk
    have hk1 : k < (ops.VertexCount d1.mWaves).toNat := by omega
    have hk2 : k < b.length := by rw [h2] at hk1; exact lt_of_lt_of_le hk1 hcap
    refine ⟨waveVertex ops d1.mWaves (k : Int), ?_, rfl, rfl⟩
    rw [h8 k hk2, if_pos hk1]
  · intro k hk
    have hk1 : ¬ k < (ops.VertexCount d1.mWaves).toNat := by omega
    by_cases hk2 : k < b.length
    · rw [h8 k hk2, if_neg hk1]
    · rw [List.getElem?_eq_none (by omega), List.getElem?_eq_none (by omega)]

/-- C12: under the same conditions `UpdateWaves` writes into the wave vertex buffer
of exactly one slot, the current one: afterwards the buffers are those from
before with the buffer of the current slot `c` replaced by `b1`, where element
`k` of `b1` is the vertex built in this call for every `k` with
`0 ≤ k < VertexCount` and is as before from `VertexCount` on; the buffer
of every other slot is as it was, every copy recorded in this call went to slot
`c`, and the vertex buffer of the water geometry is set to the current slot's
buffer. -/
theorem UpdateWaves_writes_one_slot {W : Type} (ops : WavesOps W) (rnd : RandomSource)
    (mTimer gt : GameTimer) (d : WaveState W) (c : Nat) (b : List (Option Vertex))
    (hc : d.mCurrFrameResource = some c) (hb : d.WavesVB[c]? = some b)
    (hcap : (ops.VertexCount
      (stepWaves ops gt (scheduleDisturbance ops rnd mTimer d)).mWaves).toNat ≤ b.length) :
    ∃ d1 b1, UpdateWavesData ops rnd mTimer gt d = some d1 ∧
      d1.WavesVB = d.WavesVB.set c b1 ∧
      d1.WavesVB.length = d.WavesVB.length ∧
      d1.WavesVB[c]? = some b1 ∧ b1.length = b.length ∧
      (∀ k : Nat, (k : Int) < ops.VertexCount d1.mWaves →
        b1[k]? = some (some (waveVertex ops d1.mWaves (k : Int)))) ∧
      (∀ k : Nat, ¬ (k : Int) < ops.VertexCount d1.mWaves → b1[k]? = b[k]?) ∧
      (∀ j, j ≠ c → d1.WavesVB[j]? = d.WavesVB[j]?) ∧
      (∀ p ∈ d1.copies, p ∈ d.copies ∨ p.1 = c) ∧
      d1.mCurrFrameResource = some c ∧ d1.VertexBufferGPU = some c := by
  obtain ⟨d1, b1, h1, h2, _, _, h5, h6, h7, h8, h9, h10⟩ :=
    UpdateWavesData_parts ops rnd mTimer gt d c b hc hb hcap
  have hclt : c < d.WavesVB.length := (List.getElem?_eq_some.mp hb).1
  refine ⟨d1, b1, h1, h6, by rw [h6, List.length_set],
    by rw [h6, List.getElem?_set]; simp [hclt], h7, ?_, ?_, ?_, ?_, h5, h9⟩
  · intro k hk
    have hk1 : k < (ops.VertexCount d1.mWaves).toNat := by omega
    have hk2 : k < b.length := by rw [h2] at hk1; exact lt_of_lt_of_le hk1 hcap
    rw [h8 k hk2, if_pos hk1]
  · intro k hk
    have hk1 : ¬ k < (ops.VertexCount d1.mWaves).toNat := by omega
    by_cases hk2 : k < b.length
    · rw [h8 k hk2, if_neg hk1]
    · rw [List.getElem?_eq_none (by omega), List.getElem?_eq_none (by omega)]
  · intro j hj
    have hcj : ¬ c = j := fun e => hj e.symm
    rw [h6, List.getElem?_set]
    simp [hcj]
  · intro p hp
    rw [h10] at hp
    rcases List.mem_append.mp hp with h | h
    · exact Or.inl h
    · obtain ⟨i, _, rfl⟩ := List.mem_map.mp h
      exact Or.inr rfl

/-- C13: for a vertex whose position has `-Width/2 ≤ x ≤ Width/2` and
`-Depth/2 ≤ z ≤ Depth/2`, with `Width, Depth > 0`, the texture coordinate the copy
loop of `UpdateWaves` computes is `(1/2 + x/Width, 1/2 - z/Depth)` and lies in
`[0,1] x [0,1]`; `x = -Width/2` gives `u = 0`, `x = Width/2` gives `u = 1`,
`z = Depth/2` gives `v = 0` and `z = -Depth/2` gives `v = 1`.  The `float` values
are rationals here and the arithmetic is exact. -/
theorem waveVertex_texcoord_in_unit_square {W : Type} (ops : WavesOps W) (w : W) (i : Int)
    (hW : 0 < ops.Width w) (hD : 0 < ops.Depth w)
    (hx : -(ops.Width w) / 2 ≤ (ops.Position w i).x ∧ (ops.Position w i).x ≤ ops.Width w / 2)
    (hz : -(ops.Depth w) / 2 ≤ (ops.Position w i).z ∧ (ops.Position w i).z ≤ ops.Depth w / 2) :
    (waveVertex ops w i).TexC.x = 1 / 2 + (ops.Position w i).x / ops.Width w ∧
    (waveVertex ops w i).TexC.y = 1 / 2 - (ops.Position w i).z / ops.Depth w ∧
    0 ≤ (waveVertex ops w i).TexC.x ∧ (waveVertex ops w i).TexC.x ≤ 1 ∧
    0 ≤ (waveVertex ops w i).TexC.y ∧ (waveVertex ops w i).TexC.y ≤ 1 ∧
    ((ops.Position w i).x = -(ops.Width w) / 2 → (waveVertex ops w i).TexC.x = 0) ∧
    ((ops.Position w i).x = ops.Width w / 2 → (waveVertex ops w i).TexC.x = 1) ∧
    ((ops.Position w i).z = ops.Depth w / 2 → (waveVertex ops w i).TexC.y = 0) ∧
    ((ops.Position w i).z = -(ops.Depth w) / 2 → (waveVertex ops w i).TexC.y = 1) := by
  have hu : (waveVertex ops w i).TexC.x = 1 / 2 + (ops.Position w i).x / ops.Width w := rfl
  have hv : (waveVertex ops w i).TexC.y = 1 / 2 - (ops.Position w i).z / ops.Depth w := rfl
  have hx1 : -(1 / 2) ≤ (ops.Position w i).x / ops.Width w := by
    rw [le_div_iff₀ hW]; linarith [hx.1]
  have hx2 : (ops.Position w i).x / ops.Width w ≤ 1 / 2 := by
    rw [div_le_iff₀ hW]; linarith [hx.2]
  have hz1 : -(1 / 2) ≤ (ops.Position w i).z / ops.Depth w := by
    rw [le_div_iff₀ hD]; linarith [hz.1]
  have hz2 : (ops.Position w i).z / ops.Depth w ≤ 1 / 2 := by
    rw [div_le_iff₀ hD]; linarith [hz.2]
  refine ⟨hu, hv, by rw [hu]; linarith, by rw [hu]; linarith, by rw [hv]; linarith,
    by rw [hv]; linarith, ?_, ?_, ?_, ?_⟩
  · intro e
    rw [hu, e]; field_simp
  · intro e
    rw [hu, e]; field_simp; ring
  · intro e
    rw [hv, e]; field_simp
  · intro e
    rw [hv, e]; field_simp; ring

/-- The first statement of `UpdateWaves`, by cases: it fires when the
single-precision difference is at least a quarter, and then `t_base` becomes the
single-precision sum. -/
theorem scheduleDisturbance_cases {W : Type} (ops : WavesOps W) (rnd : RandomSource)
    (mTimer : GameTimer) (d : WaveState W) :
    (roundF32 (mTimer.TotalTime - d.t_base) ≥ 1 / 4 ∧
      scheduleDisturbance ops rnd mTimer d =
        { d with
          t_base := roundF32 (d.t_base + 1 / 4)
          mWaves := ops.Disturb d.mWaves (rnd.RandRow 4 (ops.RowCount d.mWaves - 5))
            (rnd.RandCol 4 (ops.ColumnCount d.mWaves - 5)) (rnd.RandF (1 / 5) (1 / 2))
          calls := d.calls ++ [WaveCall.Disturb (rnd.RandRow 4 (ops.RowCount d.mWaves - 5))
            (rnd.RandCol 4 (ops.ColumnCount d.mWaves - 5)) (rnd.RandF (1 / 5) (1 / 2))] }) ∨
    (¬ roundF32 (mTimer.TotalTime - d.t_base) ≥ 1 / 4 ∧
      scheduleDisturbance ops rnd mTimer d = d) := by
  by_cases hdue : roundF32 (mTimer.TotalTime - d.t_base) ≥ 1 / 4
  · exact Or.inl ⟨hdue, by simp only [scheduleDisturbance, if_pos hdue]⟩
  · exact Or.inr ⟨hdue, by simp only [scheduleDisturbance, if_neg hdue]⟩

/-- C14, amended: let `t_base` be a multiple of 0.25 with `0 ≤ t_base < 2^22` (as it
is through the first `2^24` disturbances after the start) and `TotalTime` a
finite `float`.  With a current slot whose buffer has room, `UpdateWaves`
returns; the single-precision difference the code compares is at least 0.25
exactly when `TotalTime - t_base ≥ 0.25`, and the single-precision sum
`t_base + 0.25` is exact.  If `TotalTime - t_base ≥ 0.25` on entry, `t_base` has
grown by exactly 0.25 and the calls made on the wave field are one `Disturb`
followed by one `Update`; otherwise `t_base` is unchanged and the only call is
one `Update`. -/
theorem UpdateWaves_disturbs_when_due {W : Type} (ops : WavesOps W) (rnd : RandomSource)
    (mTimer gt : GameTimer) (d : WaveState W) (c : Nat) (b : List (Option Vertex))
    (hc : d.mCurrFrameResource = some c) (hb : d.WavesVB[c]? = some b)
    (hcap : (ops.VertexCount
      (stepWaves ops gt (scheduleDisturbance ops rnd mTimer d)).mWaves).toNat ≤ b.length)
    (k : Nat) (hk : k < 16777216) (ht : d.t_base = (k : ℚ) / 4)
    (hT : IsF32 mTimer.TotalTime) :
    ∃ d1, UpdateWavesData ops rnd mTimer gt d = some d1 ∧
      (roundF32 (mTimer.TotalTime - d.t_base) ≥ 1 / 4 ↔ mTimer.TotalTime - d.t_base ≥ 1 / 4) ∧
      roundF32 (d.t_base + 1 / 4) = d.t_base + 1 / 4 ∧
      (mTimer.TotalTime - d.t_base ≥ 1 / 4 →
        d1.t_base = d.t_base + 1 / 4 ∧
        ∃ i j r, d1.calls = d.calls ++ [WaveCall.Disturb i j r, WaveCall.Update gt.DeltaTime] ∧
          d1.mWaves = ops.Update (ops.Disturb d.mWaves i j r) gt.DeltaTime) ∧
      (¬ mTimer.TotalTime - d.t_base ≥ 1 / 4 →
        d1.t_base = d.t_base ∧ d1.calls = d.calls ++ [WaveCall.Update gt.DeltaTime] ∧
        d1.mWaves = ops.Update d.mWaves gt.DeltaTime) := by
  obtain ⟨d1, b1, h1, h2, h3, h4, _⟩ :=
    UpdateWavesData_parts ops rnd mTimer gt d c b hc hb hcap
  have hiff : roundF32 (mTimer.TotalTime - d.t_base) ≥ 1 / 4 ↔
      mTimer.TotalTime - d.t_base ≥ 1 / 4 := by
    rw [ht]
    exact roundF32_sub_ge_iff _ k hT (le_of_lt hk)
  have hadd : roundF32 (d.t_base + 1 / 4) = d.t_base + 1 / 4 := by
    rw [ht]
    exact roundF32_add_quarter k hk
  refine ⟨d1, h1, hiff, hadd, ?_, ?_⟩
  · intro hdue
    rcases scheduleDisturbance_cases ops rnd mTimer d with ⟨_, hs⟩ | ⟨hn, _⟩
    · rw [h2, h3, h4, hs]
      exact ⟨hadd, _, _, _, by simp [stepWaves], rfl⟩
    · exact absurd (hiff.mpr hdue) hn
  · intro hdue
    rcases scheduleDisturbance_cases ops rnd mTimer d with ⟨hy, _⟩ | ⟨_, hs⟩
    · exact absurd (hiff.mp hy) hdue
    · rw [h2, h3, h4, hs]
      exact ⟨rfl, rfl, rfl⟩

/-- C15: on a wave grid with at least 9 rows and 9 columns, and with `Rand` and
`RandF` returning values between their arguments, the first statement of
`UpdateWaves` either makes no call, or makes one call `Disturb(i, j, r)` with
`4 ≤ i ≤ m - 5`, `4 ≤ j ≤ n - 5` and `0.2 ≤ r ≤ 0.5`; then `1 ≤ i ≤ m - 2` and
`1 ≤ j ≤ n - 2`, and `disturb` of the spec's wave field with these dimensions
does not fail.  The bounds 0.2 and 0.5 are the rationals 1/5 and 1/2. -/
theorem scheduler_disturbs_interior {W : Type} (ops : WavesOps W) (rnd : RandomSource)
    (mTimer : GameTimer) (d : WaveState W) (wf : WaveField)
    (hm : 9 ≤ ops.RowCount d.mWaves) (hn : 9 ≤ ops.ColumnCount d.mWaves)
    (hr : rnd.InRange)
    (hwm : wf.rowCount = ops.RowCount d.mWaves)
    (hwn : wf.columnCount = ops.ColumnCount d.mWaves) :
    (¬ roundF32 (mTimer.TotalTime - d.t_base) ≥ 1 / 4 ∧
      (scheduleDisturbance ops rnd mTimer d).calls = d.calls) ∨
    (roundF32 (mTimer.TotalTime - d.t_base) ≥ 1 / 4 ∧
      ∃ i j r, (scheduleDisturbance ops rnd mTimer d).calls
          = d.calls ++ [WaveCall.Disturb i j r] ∧
        (scheduleDisturbance ops rnd mTimer d).mWaves = ops.Disturb d.mWaves i j r ∧
        4 ≤ i ∧ i ≤ ops.RowCount d.mWaves - 5 ∧
        4 ≤ j ∧ j ≤ ops.ColumnCount d.mWaves - 5 ∧ 1 / 5 ≤ r ∧ r ≤ 1 / 2 ∧
        1 ≤ i ∧ i ≤ ops.RowCount d.mWaves - 2 ∧ 1 ≤ j ∧ j ≤ ops.ColumnCount d.mWaves - 2 ∧
        ∃ wf1, wf.disturb i j r = Except.ok wf1) := by
  by_cases hdue : roundF32 (mTimer.TotalTime - d.t_base) ≥ 1 / 4
  · right
    obtain ⟨hrow, hcol, hf⟩ := hr
    obtain ⟨i1, i2⟩ := hrow 4 (ops.RowCount d.mWaves - 5) (by omega)
    obtain ⟨j1, j2⟩ := hcol 4 (ops.ColumnCount d.mWaves - 5) (by omega)
    obtain ⟨r1, r2⟩ := hf (1 / 5) (1 / 2) (by norm_num)
    refine ⟨hdue, rnd.RandRow 4 (ops.RowCount d.mWaves - 5),
      rnd.RandCol 4 (ops.ColumnCount d.mWaves - 5), rnd.RandF (1 / 5) (1 / 2), ?_, ?_,
      i1, i2, j1, j2, r1, r2, by omega, by omega, by omega, by omega, ?_⟩
    · simp only [scheduleDisturbance, if_pos hdue]
    · simp only [scheduleDisturbance, if_pos hdue]
    · unfold WaveField.rowCount at hwm
      unfold WaveField.columnCount at hwn
      have hcond : 1 ≤ rnd.RandRow 4 (ops.RowCount d.mWaves - 5) ∧
          rnd.RandRow 4 (ops.RowCount d.mWaves - 5) ≤ (wf.m : Int) - 2 ∧
          1 ≤ rnd.RandCol 4 (ops.ColumnCount d.mWaves - 5) ∧
          rnd.RandCol 4 (ops.ColumnCount d.mWaves - 5) ≤ (wf.n : Int) - 2 := by
        rw [hwm, hwn]; omega
      simp only [WaveField.disturb, if_pos hcond]
      exact ⟨_, rfl⟩
  · left
    exact ⟨hdue, by simp only [scheduleDisturbance, if_neg hdue]⟩

/-! ## Claim C18: a disturbance of the spec's wave field -/

theorem raise_dims (w : WaveField) (i j : Int) (x : ℚ) :
    (w.raise i j x).m = w.m ∧ (w.raise i j x).n = w.n ∧ (w.raise i j x).prev = w.prev ∧
    (w.raise i j x).next = w.next ∧ (w.raise i j x).curr.length = w.curr.length := by
  simp [WaveField.raise]

theorem raise_cell (w : WaveField) (i j a b : Int) (x : ℚ) :
    (w.raise i j x).cell a b = w.cell a b := rfl

theorem raise_heightAt (w : WaveField) (i j : Int) (x : ℚ) (k : Nat)
    (h : w.cell i j < w.curr.length) :
    (w.raise i j x).heightAt k
      = if k = w.cell i j then w.heightAt k + x else w.heightAt k := by
  unfold WaveField.heightAt WaveField.raise WaveField.height WaveField.heightAt
  simp only [List.getD_eq_getElem?_getD, List.getElem?_set]
  by_cases hk : k = w.cell i j
  · subst hk
    simp [h]
  · have hk2 : ¬ w.cell i j = k := fun e => hk e.symm
    simp [hk, hk2]

theorem cell_nat (w : WaveField) (I J : Nat) : w.cell (I : Int) (J : Int) = I * w.n + J := by
  unfold WaveField.cell
  have : ((I : Int) * (w.n : Int) + (J : Int)) = ((I * w.n + J : Nat) : Int) := by push_cast; ring
  rw [this]
  exact Int.toNat_natCast _

theorem cell_eq (w : WaveField) (a b : Int) (A B : Nat) (ha : a = (A : Int)) (hb : b = (B : Int)) :
    w.cell a b = A * w.n + B := by
  subst ha hb
  exact cell_nat w A B

/-- The height at linear index `k` after the five additions of a disturbance at an
interior cell. -/
theorem disturb_heightAt (w : WaveField) (I J : Nat) (magnitude : ℚ)
    (hwf : w.curr.length = w.m * w.n) (hI : I + 3 ≤ w.m) (hJ : J + 3 ≤ w.n) (k : Nat) :
    ∃ w1, w.disturb ((I : Int) + 1) ((J : Int) + 1) magnitude = Except.ok w1 ∧
      w1.m = w.m ∧ w1.n = w.n ∧ w1.prev = w.prev ∧ w1.next = w.next ∧
      w1.curr.length = w.curr.length ∧
      w1.heightAt k = w.heightAt k
        + (if k = (I + 1) * w.n + (J + 1) then magnitude / 2 else 0)
        + (if k = (I + 2) * w.n + (J + 1) then magnitude / 4 else 0)
        + (if k = I * w.n + (J + 1) then magnitude / 4 else 0)
        + (if k = (I + 1) * w.n + (J + 2) then magnitude / 4 else 0)
        + (if k = (I + 1) * w.n + J then magnitude / 4 else 0) := by
  have hcond : 1 ≤ (I : Int) + 1 ∧ (I : Int) + 1 ≤ (w.m : Int) - 2 ∧ 1 ≤ (J : Int) + 1 ∧
      (J : Int) + 1 ≤ (w.n : Int) - 2 := by omega
  have c0 : w.cell ((I : Int) + 1) ((J : Int) + 1) = (I + 1) * w.n + (J + 1) :=
    cell_eq w _ _ (I + 1) (J + 1) (by omega) (by omega)
  have c1 : w.cell ((I : Int) + 1 + 1) ((J : Int) + 1) = (I + 2) * w.n + (J + 1) :=
    cell_eq w _ _ (I + 2) (J + 1) (by omega) (by omega)
  have c2 : w.cell ((I : Int) + 1 - 1) ((J : Int) + 1) = I * w.n + (J + 1) :=
    cell_eq w _ _ I (J + 1) (by omega) (by omega)
  have c3 : w.cell ((I : Int) + 1) ((J : Int) + 1 + 1) = (I + 1) * w.n + (J + 2) :=
    cell_eq w _ _ (I + 1) (J + 2) (by omega) (by omega)
  have c4 : w.cell ((I : Int) + 1) ((J : Int) + 1 - 1) = (I + 1) * w.n + J :=
    cell_eq w _ _ (I + 1) J (by omega) (by omega)
  have hbig : (I + 3) * w.n ≤ w.m * w.n := Nat.mul_le_mul_right _ hI
  have e1 : (I + 1) * w.n = I * w.n + w.n := by ring
  have e2 : (I + 2) * w.n = I * w.n + 2 * w.n := by ring
  have e3 : (I + 3) * w.n = I * w.n + 3 * w.n := by ring
  have b0 : (I + 1) * w.n + (J + 1) < w.curr.length := by rw [hwf]; omega
  have b1 : (I + 2) * w.n + (J + 1) < w.curr.length := by rw [hwf]; omega
  have b2 : I * w.n + (J + 1) < w.curr.length := by rw [hwf]; omega
  have b3 : (I + 1) * w.n + (J + 2) < w.curr.length := by rw [hwf]; omega
  have b4 : (I + 1) * w.n + J < w.curr.length := by rw [hwf]; omega
  have hd : w.disturb ((I : Int) + 1) ((J : Int) + 1) magnitude = Except.ok
      (((((w.raise ((I : Int) + 1) ((J : Int) + 1) (magnitude / 2)).raise
        ((I : Int) + 1 + 1) ((J : Int) + 1) (magnitude / 4)).raise
        ((I : Int) + 1 - 1) ((J : Int) + 1) (magnitude / 4)).raise
        ((I : Int) + 1) ((J : Int) + 1 + 1) (magnitude / 4)).raise
        ((I : Int) + 1) ((J : Int) + 1 - 1) (magnitude / 4)) := by
    simp only [WaveField.disturb, if_pos hcond]
  refine ⟨_, hd, ?_, ?_, ?_, ?_, ?_, ?_⟩
  · simp [WaveField.raise]
  · simp [WaveField.raise]
  · simp [WaveField.raise]
  · simp [WaveField.raise]
  · simp [WaveField.raise]
  · rw [raise_heightAt _ _ _ _ _ (by simp only [raise_cell, (raise_dims _ _ _ _).2.2.2.2, c4]; exact b4),
      raise_heightAt _ _ _ _ _ (by simp only [raise_cell, (raise_dims _ _ _ _).2.2.2.2, c3]; exact b3),
      raise_heightAt _ _ _ _ _ (by simp only [raise_cell, (raise_dims _ _ _ _).2.2.2.2, c2]; exact b2),
      raise_heightAt _ _ _ _ _ (by simp only [raise_cell, (raise_dims _ _ _ _).2.2.2.2, c1]; exact b1),
      raise_heightAt _ _ _ _ _ (by rw [c0]; exact b0)]
    simp only [raise_cell, c0, c1, c2, c3, c4]
    split_ifs <;> ring

/-- C18: on a grid whose current layer has one height per cell, `disturb(i, j, mag)`
at an interior cell returns, and right after it the height at `(i, j)` is
larger by exactly `mag/2`, the height at each of the four axis neighbours by
exactly `mag/4`, and every other height, the dimensions and the previous layer
are as before; with `i = 0`, `i = m-1`, `j = 0` or `j = n-1` it fails with
`OutOfRange`. -/
theorem disturb_raises_cell_and_neighbours (w : WaveField) (i j : Int) (magnitude : ℚ)
    (hwf : w.curr.length = w.m * w.n) :
    (1 ≤ i ∧ i ≤ (w.m : Int) - 2 ∧ 1 ≤ j ∧ j ≤ (w.n : Int) - 2 →
      ∃ w1, w.disturb i j magnitude = Except.ok w1 ∧
        w1.height i j = w.height i j + magnitude / 2 ∧
        w1.height (i + 1) j = w.height (i + 1) j + magnitude / 4 ∧
        w1.height (i - 1) j = w.height (i - 1) j + magnitude / 4 ∧
        w1.height i (j + 1) = w.height i (j + 1) + magnitude / 4 ∧
        w1.height i (j - 1) = w.height i (j - 1) + magnitude / 4 ∧
        (∀ k, k ≠ w.cell i j → k ≠ w.cell (i + 1) j → k ≠ w.cell (i - 1) j →
          k ≠ w.cell i (j + 1) → k ≠ w.cell i (j - 1) → w1.heightAt k = w.heightAt k) ∧
        w1.m = w.m ∧ w1.n = w.n ∧ w1.prev = w.prev) ∧
    (i = 0 ∨ i = (w.m : Int) - 1 ∨ j = 0 ∨ j = (w.n : Int) - 1 →
      w.disturb i j magnitude = Except.error WaveError.OutOfRange) := by
  constructor
  · rintro ⟨hi1, hi2, hj1, hj2⟩
    obtain ⟨I, rfl⟩ : ∃ I : Nat, i = (I : Int) + 1 := ⟨(i - 1).toNat, by omega⟩
    obtain ⟨J, rfl⟩ : ∃ J : Nat, j = (J : Int) + 1 := ⟨(j - 1).toNat, by omega⟩
    have hI : I + 3 ≤ w.m := by omega
    have hJ : J + 3 ≤ w.n := by omega
    have c0 : w.cell ((I : Int) + 1) ((J : Int) + 1) = (I + 1) * w.n + (J + 1) :=
      cell_eq w _ _ (I + 1) (J + 1) (by omega) (by omega)
    have c1 : w.cell ((I : Int) + 1 + 1) ((J : Int) + 1) = (I + 2) * w.n + (J + 1) :=
      cell_eq w _ _ (I + 2) (J + 1) (by omega) (by omega)
    have c2 : w.cell ((I : Int) + 1 - 1) ((J : Int) + 1) = I * w.n + (J + 1) :=
      cell_eq w _ _ I (J + 1) (by omega) (by omega)
    have c3 : w.cell ((I : Int) + 1) ((J : Int) + 1 + 1) = (I + 1) * w.n + (J + 2) :=
      cell_eq w _ _ (I + 1) (J + 2) (by omega) (by omega)
    have c4 : w.cell ((I : Int) + 1) ((J : Int) + 1 - 1) = (I + 1) * w.n + J :=
      cell_eq w _ _ (I + 1) J (by omega) (by omega)
    have e1 : (I + 1) * w.n = I * w.n + w.n := by ring
    have e2 : (I + 2) * w.n = I * w.n + 2 * w.n := by ring
    obtain ⟨w1, hd, hm, hn, hp, _, _, _⟩ := disturb_heightAt w I J magnitude hwf hI hJ 0
    have hat : ∀ k, w1.heightAt k = w.heightAt k
        + (if k = (I + 1) * w.n + (J + 1) then magnitude / 2 else 0)
        + (if k = (I + 2) * w.n + (J + 1) then magnitude / 4 else 0)
        + (if k = I * w.n + (J + 1) then magnitude / 4 else 0)
        + (if k = (I + 1) * w.n + (J + 2) then magnitude / 4 else 0)
        + (if k = (I + 1) * w.n + J then magnitude / 4 else 0) := by
      intro k
      obtain ⟨w2, hd2, _, _, _, _, _, h⟩ := disturb_heightAt w I J magnitude hwf hI hJ k
      rw [hd] at hd2
      cases hd2
      exact h
    have hcell : ∀ a b, w1.cell a b = w.cell a b := by
      intro a b
      unfold WaveField.cell
      rw [hn]
    refine ⟨w1, hd, ?_, ?_, ?_, ?_, ?_, ?_, hm, hn, hp⟩
    · unfold WaveField.height
      rw [hcell, hat, c0]
      rw [if_pos rfl, if_neg (by omega), if_neg (by omega), if_neg (by omega), if_neg (by omega)]
      ring
    · unfold WaveField.height
      rw [hcell, hat, c1]
      rw [if_neg (by omega), if_pos rfl, if_neg (by omega), if_neg (by omega), if_neg (by omega)]
      ring
    · unfold WaveField.height
      rw [hcell, hat, c2]
      rw [if_neg (by omega), if_neg (by omega), if_pos rfl, if_neg (by omega), if_neg (by omega)]
      ring
    · unfold WaveField.height
      rw [hcell, hat, c3]
      rw [if_neg (by omega), if_neg (by omega), if_neg (by omega), if_pos rfl, if_neg (by omega)]
      ring
    · unfold WaveField.height
      rw [hcell, hat, c4]
      rw [if_neg (by omega), if_neg (by omega), if_neg (by omega), if_neg (by omega), if_pos rfl]
      ring
    · intro k k0 k1 k2 k3 k4
      rw [c0] at k0
      rw [c1] at k1
      rw [c2] at k2
      rw [c3] at k3
      rw [c4] at k4
      rw [hat, if_neg k0, if_neg k1, if_neg k2, if_neg k3, if_neg k4]
      ring
  · intro h
    have hcond : ¬ (1 ≤ i ∧ i ≤ (w.m : Int) - 2 ∧ 1 ≤ j ∧ j ≤ (w.n : Int) - 2) := by omega
    simp only [WaveField.disturb, if_neg hcond]

/-! ## Claim C20: filling the index vector -/

/-- The six values of a quad are vertex indices of the grid, and the vertices of
each of its two triangles are pairwise distinct. -/
theorem quad_vertices (m n : Int) (i j : Nat) (hi : (i : Int) < m - 1) (hj : (j : Int) < n - 1) :
    (0 ≤ (i : Int) * n + j ∧ ((i : Int) + 1) * n + j + 1 < m * n ∧
      (i : Int) * n + j < (i : Int) * n + j + 1 ∧
      (i : Int) * n + j + 1 < ((i : Int) + 1) * n + j ∧
      ((i : Int) + 1) * n + j < ((i : Int) + 1) * n + j + 1) := by
  have hn : (2 : Int) ≤ n := by omega
  have h0 : (0 : Int) ≤ (i : Int) * n := by positivity
  have e1 : ((i : Int) + 1) * n = (i : Int) * n + n := by ring
  have h2 : ((i : Int) + 2) * n ≤ m * n := by
    apply mul_le_mul_of_nonneg_right (by omega) (by omega)
  have e2 : ((i : Int) + 2) * n = (i : Int) * n + 2 * n := by ring
  refine ⟨by omega, by omega, by omega, by omega, by omega⟩

/-- On a grid that passes the assertion the values of every quad are inside the
range of `int`. -/
theorem quad_inRange (m n : Int) (i j : Nat) (hi : (i : Int) < m - 1) (hj : (j : Int) < n - 1)
    (hsmall : m * n < 65535) : quadInRange n i j := by
  obtain ⟨v0, v1, v2, v3, v4⟩ := quad_vertices m n i j hi hj
  unfold quadInRange
  refine ⟨⟨by omega, by omega⟩, ⟨by omega, by omega⟩, ⟨by omega, by omega⟩,
    ⟨by omega, by omega⟩⟩

/-- The size of the index vector of a grid that passes the assertion. -/
theorem index_count (M N : Nat) (h : ((M : Int) + 1) * ((N : Int) + 1) < 65535) :
    (0 : Int) ≤ 3 * (2 * (M : Int) * (N : Int)) ∧
    3 * (2 * (M : Int) * (N : Int)) < 2147483648 ∧
    (3 * (2 * (M : Int) * (N : Int))).toNat = 6 * N * M := by
  have h0 : (0 : Int) ≤ (M : Int) * (N : Int) := by positivity
  have h1 : (M : Int) * (N : Int) < 65535 := by nlinarith
  have e : (3 * (2 * (M : Int) * (N : Int))) = ((6 * N * M : Nat) : Int) := by push_cast; ring
  refine ⟨by nlinarith, by nlinarith, ?_⟩
  rw [e]
  exact Int.toNat_natCast _

theorem store_inside (st : IndexFill) (pos : Nat) (v : Int)
    (hv : -2147483648 ≤ v ∧ v < 2147483648) (h : pos < st.indices.length) :
    ∃ s1, st.store pos v = some s1 ∧ s1.k = st.k ∧
      s1.indices.length = st.indices.length ∧ s1.written = st.written ++ [pos] := by
  refine ⟨{ st with indices := st.indices.set pos (v % 65536).toNat,
                    written := st.written ++ [pos] }, ?_, rfl, ?_, rfl⟩
  · simp only [IndexFill.store, if_pos (And.intro hv h)]
  · simp

/-- One quad: six consecutive positions from `k` on are assigned, each once. -/
theorem quad_fills (n : Int) (i j : Nat) (st : IndexFill) (hr : quadInRange n i j)
    (hinv : st.written = List.range st.k) (hroom : st.k + 6 ≤ st.indices.length) :
    ∃ s1, quad n i j st = some s1 ∧ s1.written = List.range s1.k ∧ s1.k = st.k + 6 ∧
      s1.indices.length = st.indices.length := by
  obtain ⟨r0, r1, r2, r3⟩ := hr
  obtain ⟨a1, e1, k1, l1, w1⟩ := store_inside st st.k ((i : Int) * n + j) r0 (by omega)
  obtain ⟨a2, e2, k2, l2, w2⟩ :=
    store_inside a1 (a1.k + 1) ((i : Int) * n + j + 1) r1 (by omega)
  obtain ⟨a3, e3, k3, l3, w3⟩ :=
    store_inside a2 (a2.k + 2) (((i : Int) + 1) * n + j) r2 (by omega)
  obtain ⟨a4, e4, k4, l4, w4⟩ :=
    store_inside a3 (a3.k + 3) (((i : Int) + 1) * n + j) r2 (by omega)
  obtain ⟨a5, e5, k5, l5, w5⟩ :=
    store_inside a4 (a4.k + 4) ((i : Int) * n + j + 1) r1 (by omega)
  obtain ⟨a6, e6, k6, l6, w6⟩ :=
    store_inside a5 (a5.k + 5) (((i : Int) + 1) * n + j + 1) r3 (by omega)
  refine ⟨{ a6 with k := a6.k + 6 }, ?_, ?_, by simp only; omega, by simp only; omega⟩
  · simp only [quad, e1, e2, e3, e4, e5, e6, Option.some_bind]
  · have hk : a6.k = st.k := by omega
    simp only [w6, w5, w4, w3, w2, w1, hinv, k5, k4, k3, k2, k1, hk]
    simp only [List.range_succ, List.append_assoc, List.singleton_append]

/-- A loop whose body assigns the next `a` positions in every pass the loop makes
(the passes satisfy `P`) assigns the next `a * count` positions. -/
theorem forLoop_fills (body : Nat → IndexFill → Option IndexFill) (a : Nat) (P : Nat → Prop)
    (hbody : ∀ j st, P j → st.written = List.range st.k → st.k + a ≤ st.indices.length →
      ∃ s1, body j st = some s1 ∧ s1.written = List.range s1.k ∧ s1.k = st.k + a ∧
        s1.indices.length = st.indices.length)
    (count lo : Nat) (hP : ∀ j, lo ≤ j → j < lo + count → P j)
    (st : IndexFill) (hinv : st.written = List.range st.k)
    (hroom : st.k + a * count ≤ st.indices.length) :
    ∃ s1, forLoop body lo count st = some s1 ∧ s1.written = List.range s1.k ∧
      s1.k = st.k + a * count ∧ s1.indices.length = st.indices.length := by
  induction count generalizing lo st with
  | zero => exact ⟨st, rfl, hinv, by simp, rfl⟩
  | succ c ih =>
    have e : a * (c + 1) = a + a * c := by ring
    obtain ⟨s1, h1, i1, k1, l1⟩ := hbody lo st (hP lo (le_refl lo) (by omega)) hinv (by omega)
    obtain ⟨s2, h2, i2, k2, l2⟩ := ih (lo + 1)
      (fun j hj1 hj2 => hP j (by omega) (by omega)) s1 i1 (by omega)
    exact ⟨s2, by simp only [forLoop, h1, Option.some_bind, h2], i2, by omega, by omega⟩

/-- On a grid that passes the assertion `BuildWavesGeometry` is its loop. -/
theorem BuildWavesGeometry_loop {W : Type} (ops : WavesOps W) (w : W) (M N : Nat)
    (hm : ops.RowCount w - 1 = (M : Int)) (hn : ops.ColumnCount w - 1 = (N : Int))
    (htri : ops.TriangleCount w = 2 * (M : Int) * (N : Int))
    (hvc : ops.VertexCount w = ops.RowCount w * ops.ColumnCount w)
    (hassert : ops.VertexCount w < 65535) :
    BuildWavesGeometry ops w =
      forLoop (fun i st => forLoop (fun j st1 => quad (ops.ColumnCount w) i j st1) 0 N st)
        0 M { indices := List.replicate (6 * N * M) 0, k := 0, written := [] } := by
  have hmn : ((M : Int) + 1) * ((N : Int) + 1) < 65535 := by
    have e1 : ops.RowCount w = (M : Int) + 1 := by omega
    have e2 : ops.ColumnCount w = (N : Int) + 1 := by omega
    rw [← e1, ← e2, ← hvc]
    exact hassert
  obtain ⟨s0, s1, s2⟩ := index_count M N hmn
  have hg : (-2147483648 : Int) ≤ ops.RowCount w - 1 ∧
      (-2147483648 : Int) ≤ ops.ColumnCount w - 1 := by
    rw [hm, hn]; omega
  have e1 : (ops.RowCount w - 1).toNat = M := by rw [hm]; simp
  have e2 : (ops.ColumnCount w - 1).toNat = N := by rw [hn]; simp
  unfold BuildWavesGeometry
  simp only [htri, s2, e1, e2]
  rw [if_neg (not_not.mpr ⟨s0, s1⟩), if_neg (not_not.mpr hassert), if_neg (not_not.mpr hg)]

/-- C20, the claim as stated, on a grid of 20000 rows and 20000 columns: `m, n ≥ 1`,
`VertexCount = m*n` and `TriangleCount = 2*(m-1)*(n-1) = 799920002`, but
`3 * TriangleCount()` is `2399760006`, which is not an `int`, and the assertion
`VertexCount < 0x0000ffff` fails as well: the program does not reach the end
of the quad loop with a vector of `3*TriangleCount` entries written once
each. -/
theorem huge_grid_is_not_filled :
    flatWaves.RowCount hugeField = 20000 ∧ flatWaves.ColumnCount hugeField = 20000 ∧
    (1 : Int) ≤ 20000 ∧
    flatWaves.VertexCount hugeField = 20000 * 20000 ∧
    flatWaves.TriangleCount hugeField = 2 * (20000 - 1) * (20000 - 1) ∧
    3 * flatWaves.TriangleCount hugeField = 2399760006 ∧
    ¬ 3 * flatWaves.TriangleCount hugeField < 2147483648 ∧
    ¬ flatWaves.VertexCount hugeField < 65535 ∧
    BuildWavesGeometry flatWaves hugeField = none := by
  refine ⟨rfl, rfl, by decide, rfl, rfl, by decide, by decide, by decide, ?_⟩
  unfold BuildWavesGeometry
  have h1 : ¬ ((0 : Int) ≤ 3 * flatWaves.TriangleCount hugeField ∧
      3 * flatWaves.TriangleCount hugeField < 2147483648) := by decide
  simp only [if_pos h1]

/-- C20, amended: for a wave grid with `m ≥ 1` rows and `n ≥ 1` columns,
`VertexCount = m*n` and `TriangleCount = 2*(m-1)*(n-1)` that passes the
assertion `VertexCount < 0x0000ffff`, `BuildWavesGeometry` returns: the index
vector has `3*TriangleCount = 6*(m-1)*(n-1)` entries, the positions assigned by
the quad loop are `0, 1, ..., size - 1`, each once, and the counter `k` ends at
the size; so no assignment is outside the vector and no entry is left out. -/
theorem BuildWavesGeometry_fills_indices {W : Type} (ops : WavesOps W) (w : W) (m n : Int)
    (hm : ops.RowCount w = m) (hn : ops.ColumnCount w = n) (hm1 : 1 ≤ m) (hn1 : 1 ≤ n)
    (htri : ops.TriangleCount w = 2 * (m - 1) * (n - 1))
    (hvc : ops.VertexCount w = m * n) (hassert : ops.VertexCount w < 65535) :
    ∃ st, BuildWavesGeometry ops w = some st ∧
      st.indices.length = (3 * ops.TriangleCount w).toNat ∧
      (st.indices.length : Int) = 6 * (m - 1) * (n - 1) ∧
      st.written = List.range st.indices.length ∧ st.k = st.indices.length := by
  obtain ⟨M, hM⟩ : ∃ M : Nat, m - 1 = (M : Int) := ⟨(m - 1).toNat, by omega⟩
  obtain ⟨N, hN⟩ : ∃ N : Nat, n - 1 = (N : Int) := ⟨(n - 1).toNat, by omega⟩
  have hmn : m * n < 65535 := by rw [← hvc]; exact hassert
  have hmn2 : ((M : Int) + 1) * ((N : Int) + 1) < 65535 := by
    have e1 : m = (M : Int) + 1 := by omega
    have e2 : n = (N : Int) + 1 := by omega
    rw [← e1, ← e2]
    exact hmn
  have hsize : (3 * ops.TriangleCount w).toNat = 6 * N * M := by
    rw [htri, hM, hN]
    exact (index_count M N hmn2).2.2
  have hinner : ∀ i st, i < M → st.written = List.range st.k →
      st.k + 6 * N ≤ st.indices.length →
      ∃ s1, forLoop (fun j st1 => quad n i j st1) 0 N st = some s1 ∧
        s1.written = List.range s1.k ∧ s1.k = st.k + 6 * N ∧
        s1.indices.length = st.indices.length :=
    fun i st hi hinv hroom => forLoop_fills _ 6 (fun j => j < N)
      (fun j s hj => quad_fills n i j s (quad_inRange m n i j (by omega) (by omega) hmn))
      N 0 (fun j _ hj => by omega) st hinv hroom
  obtain ⟨st, h1, h2, h3, h4⟩ := forLoop_fills
    (fun i st => forLoop (fun j st1 => quad n i j st1) 0 N st) (6 * N) (fun i => i < M)
    hinner M 0 (fun i _ hi => by omega)
    { indices := List.replicate (6 * N * M) 0, k := 0, written := [] } rfl (by simp)
  have hlen : st.indices.length = 6 * N * M := by rw [h4]; simp
  refine ⟨st, ?_, by rw [hlen, hsize], ?_, ?_, ?_⟩
  · rw [BuildWavesGeometry_loop ops w M N (by rw [hm, hM]) (by rw [hn, hN])
      (by rw [htri, hM, hN]) (by rw [hvc, hm, hn]) hassert, hn]
    exact h1
  · rw [hlen, hM, hN]; push_cast; ring
  · rw [h2, h3, hlen]; congr 1; simp
  · rw [h3, hlen]; simp

theorem BuildWavesGeometry_fills_indices_witness :
    flatWaves.RowCount demoField = 9 ∧ flatWaves.ColumnCount demoField = 9 ∧
    (1 : Int) ≤ 9 ∧ (1 : Int) ≤ 9 ∧
    flatWaves.TriangleCount demoField = 2 * ((9 : Int) - 1) * ((9 : Int) - 1) ∧
    flatWaves.VertexCount demoField = 9 * 9 ∧ flatWaves.VertexCount demoField < 65535 ∧
    ∃ st, BuildWavesGeometry flatWaves demoField = some st ∧
      st.indices.length = (3 * flatWaves.TriangleCount demoField).toNat ∧
      (st.indices.length : Int) = 6 * ((9 : Int) - 1) * ((9 : Int) - 1) ∧
      st.written = List.range st.indices.length ∧ st.k = st.indices.length :=
  ⟨rfl, rfl, by decide, by decide, rfl, by decide, by decide,
    BuildWavesGeometry_fills_indices flatWaves demoField 9 9 rfl rfl (by decide) (by decide)
      rfl (by decide) (by decide)⟩

theorem demoWaves_after :
    (stepWaves flatWaves demoTimer
      (scheduleDisturbance flatWaves demoRandom demoTimer demoWaves)).mWaves.m = 9 ∧
    (stepWaves flatWaves demoTimer
      (scheduleDisturbance flatWaves demoRandom demoTimer demoWaves)).mWaves.n = 9 := by
  have hdue : roundF32 (demoTimer.TotalTime - demoWaves.t_base) ≥ 1 / 4 :=
    quarter_le_roundF32 _ (by norm_num [demoTimer, demoWaves])
  simp only [stepWaves, scheduleDisturbance, if_pos hdue]
  simp [flatWaves, demoWaves, demoRandom, demoField, WaveField.disturb, WaveField.rowCount,
    WaveField.columnCount, WaveField.raise]

theorem demoWaves_room :
    (flatWaves.VertexCount (stepWaves flatWaves demoTimer
      (scheduleDisturbance flatWaves demoRandom demoTimer demoWaves)).mWaves).toNat
      ≤ (List.replicate 81 (none : Option Vertex)).length := by
  obtain ⟨h1, h2⟩ := demoWaves_after
  show (WaveField.vertexCount _).toNat ≤ _
  unfold WaveField.vertexCount
  rw [h1, h2]
  decide

theorem demoRandom_inRange : demoRandom.InRange :=
  ⟨fun a _ h => ⟨le_refl a, h⟩, fun _ b h => ⟨h, le_refl b⟩, fun a _ h => ⟨le_refl a, h⟩⟩

theorem UpdateWaves_copies_every_vertex_witness :
    demoWaves.mCurrFrameResource = some 1 ∧
    demoWaves.WavesVB[1]? = some (List.replicate 81 none) ∧
    (flatWaves.VertexCount (stepWaves flatWaves demoTimer
      (scheduleDisturbance flatWaves demoRandom demoTimer demoWaves)).mWaves).toNat
      ≤ (List.replicate 81 (none : Option Vertex)).length ∧
    ∃ d1 b1, UpdateWavesData flatWaves demoRandom demoTimer demoTimer demoWaves = some d1 ∧
      d1.mWaves = flatWaves.Update
        (scheduleDisturbance flatWaves demoRandom demoTimer demoWaves).mWaves
        demoTimer.DeltaTime ∧
      d1.WavesVB[1]? = some b1 ∧
      b1.length = (List.replicate 81 (none : Option Vertex)).length ∧
      (∀ k : Nat, (k : Int) < flatWaves.VertexCount d1.mWaves →
        ∃ v, b1[k]? = some (some v) ∧ v.Pos = flatWaves.Position d1.mWaves (k : Int) ∧
          v.Normal = flatWaves.Normal d1.mWaves (k : Int)) ∧
      (∀ k : Nat, ¬ (k : Int) < flatWaves.VertexCount d1.mWaves →
        b1[k]? = (List.replicate 81 (none : Option Vertex))[k]?) ∧
      d1.copies = demoWaves.copies ++
        (List.range (flatWaves.VertexCount d1.mWaves).toNat).map
          fun (i : Nat) => (1, (i : Int)) :=
  ⟨rfl, rfl, demoWaves_room,
    UpdateWaves_copies_every_vertex flatWaves demoRandom demoTimer demoTimer demoWaves 1
      (List.replicate 81 none) rfl rfl demoWaves_room⟩

theorem UpdateWaves_writes_one_slot_witness :
    demoWaves.mCurrFrameResource = some 1 ∧
    demoWaves.WavesVB[1]? = some (List.replicate 81 none) ∧
    (flatWaves.VertexCount (stepWaves flatWaves demoTimer
      (scheduleDisturbance flatWaves demoRandom demoTimer demoWaves)).mWaves).toNat
      ≤ (List.replicate 81 (none : Option Vertex)).length ∧
    ∃ d1 b1, UpdateWavesData flatWaves demoRandom demoTimer demoTimer demoWaves = some d1 ∧
      d1.WavesVB = demoWaves.WavesVB.set 1 b1 ∧
      d1.WavesVB.length = demoWaves.WavesVB.length ∧
      d1.WavesVB[1]? = some b1 ∧ b1.length = (List.replicate 81 (none : Option Vertex)).length ∧
      (∀ k : Nat, (k : Int) < flatWaves.VertexCount d1.mWaves →
        b1[k]? = some (some (waveVertex flatWaves d1.mWaves (k : Int)))) ∧
      (∀ k : Nat, ¬ (k : Int) < flatWaves.VertexCount d1.mWaves →
        b1[k]? = (List.replicate 81 (none : Option Vertex))[k]?) ∧
      (∀ j, j ≠ 1 → d1.WavesVB[j]? = demoWaves.WavesVB[j]?) ∧
      (∀ p ∈ d1.copies, p ∈ demoWaves.copies ∨ p.1 = 1) ∧
      d1.mCurrFrameResource = some 1 ∧ d1.VertexBufferGPU = some 1 :=
  ⟨rfl, rfl, demoWaves_room,
    UpdateWaves_writes_one_slot flatWaves demoRandom demoTimer demoTimer demoWaves 1
      (List.replicate 81 none) rfl rfl demoWaves_room⟩

theorem demoField_corner :
    0 < flatWaves.Width demoField ∧ 0 < flatWaves.Depth demoField ∧
    (-(flatWaves.Width demoField) / 2 ≤ (flatWaves.Position demoField 0).x ∧
      (flatWaves.Position demoField 0).x ≤ flatWaves.Width demoField / 2) ∧
    (-(flatWaves.Depth demoField) / 2 ≤ (flatWaves.Position demoField 0).z ∧
      (flatWaves.Position demoField 0).z ≤ flatWaves.Depth demoField / 2) := by
  norm_num [flatWaves, demoField]

theorem waveVertex_texcoord_in_unit_square_witness :
    0 < flatWaves.Width demoField ∧ 0 < flatWaves.Depth demoField ∧
    (-(flatWaves.Width demoField) / 2 ≤ (flatWaves.Position demoField 0).x ∧
      (flatWaves.Position demoField 0).x ≤ flatWaves.Width demoField / 2) ∧
    (-(flatWaves.Depth demoField) / 2 ≤ (flatWaves.Position demoField 0).z ∧
      (flatWaves.Position demoField 0).z ≤ flatWaves.Depth demoField / 2) ∧
    ((waveVertex flatWaves demoField 0).TexC.x
        = 1 / 2 + (flatWaves.Position demoField 0).x / flatWaves.Width demoField ∧
      (waveVertex flatWaves demoField 0).TexC.y
        = 1 / 2 - (flatWaves.Position demoField 0).z / flatWaves.Depth demoField ∧
      0 ≤ (waveVertex flatWaves demoField 0).TexC.x ∧
      (waveVertex flatWaves demoField 0).TexC.x ≤ 1 ∧
      0 ≤ (waveVertex flatWaves demoField 0).TexC.y ∧
      (waveVertex flatWaves demoField 0).TexC.y ≤ 1 ∧
      ((flatWaves.Position demoField 0).x = -(flatWaves.Width demoField) / 2 →
        (waveVertex flatWaves demoField 0).TexC.x = 0) ∧
      ((flatWaves.Position demoField 0).x = flatWaves.Width demoField / 2 →
        (waveVertex flatWaves demoField 0).TexC.x = 1) ∧
      ((flatWaves.Position demoField 0).z = flatWaves.Depth demoField / 2 →
        (waveVertex flatWaves demoField 0).TexC.y = 0) ∧
      ((flatWaves.Position demoField 0).z = -(flatWaves.Depth demoField) / 2 →
        (waveVertex flatWaves demoField 0).TexC.y = 1)) :=
  ⟨demoField_corner.1, demoField_corner.2.1, demoField_corner.2.2.1, demoField_corner.2.2.2,
    waveVertex_texcoord_in_unit_square flatWaves demoField 0 demoField_corner.1
      demoField_corner.2.1 demoField_corner.2.2.1 demoField_corner.2.2.2⟩

theorem UpdateWaves_disturbs_when_due_witness :
    demoWaves.mCurrFrameResource = some 1 ∧
    demoWaves.WavesVB[1]? = some (List.replicate 81 none) ∧
    (flatWaves.VertexCount (stepWaves flatWaves demoTimer
      (scheduleDisturbance flatWaves demoRandom demoTimer demoWaves)).mWaves).toNat
      ≤ (List.replicate 81 (none : Option Vertex)).length ∧
    (0 : Nat) < 16777216 ∧ demoWaves.t_base = ((0 : Nat) : ℚ) / 4 ∧
    IsF32 demoTimer.TotalTime ∧
    ∃ d1, UpdateWavesData flatWaves demoRandom demoTimer demoTimer demoWaves = some d1 ∧
      (roundF32 (demoTimer.TotalTime - demoWaves.t_base) ≥ 1 / 4 ↔
        demoTimer.TotalTime - demoWaves.t_base ≥ 1 / 4) ∧
      roundF32 (demoWaves.t_base + 1 / 4) = demoWaves.t_base + 1 / 4 ∧
      (demoTimer.TotalTime - demoWaves.t_base ≥ 1 / 4 →
        d1.t_base = demoWaves.t_base + 1 / 4 ∧
        ∃ i j r, d1.calls = demoWaves.calls ++
            [WaveCall.Disturb i j r, WaveCall.Update demoTimer.DeltaTime] ∧
          d1.mWaves = flatWaves.Update (flatWaves.Disturb demoWaves.mWaves i j r)
            demoTimer.DeltaTime) ∧
      (¬ demoTimer.TotalTime - demoWaves.t_base ≥ 1 / 4 →
        d1.t_base = demoWaves.t_base ∧
        d1.calls = demoWaves.calls ++ [WaveCall.Update demoTimer.DeltaTime] ∧
        d1.mWaves = flatWaves.Update demoWaves.mWaves demoTimer.DeltaTime) :=
  ⟨rfl, rfl, demoWaves_room, by decide, by norm_num [demoWaves],
    ⟨1, -1, by norm_num, by norm_num, by norm_num, by norm_num [demoTimer]⟩,
    UpdateWaves_disturbs_when_due flatWaves demoRandom demoTimer demoTimer demoWaves 1
      (List.replicate 81 none) rfl rfl demoWaves_room 0 (by decide) (by norm_num [demoWaves])
      ⟨1, -1, by norm_num, by norm_num, by norm_num, by norm_num [demoTimer]⟩⟩

theorem scheduler_disturbs_interior_witness :
    9 ≤ flatWaves.RowCount demoWaves.mWaves ∧ 9 ≤ flatWaves.ColumnCount demoWaves.mWaves ∧
    demoRandom.InRange ∧
    demoField.rowCount = flatWaves.RowCount demoWaves.mWaves ∧
    demoField.columnCount = flatWaves.ColumnCount demoWaves.mWaves ∧
    ((¬ roundF32 (demoTimer.TotalTime - demoWaves.t_base) ≥ 1 / 4 ∧
      (scheduleDisturbance flatWaves demoRandom demoTimer demoWaves).calls
        = demoWaves.calls) ∨
    (roundF32 (demoTimer.TotalTime - demoWaves.t_base) ≥ 1 / 4 ∧
      ∃ i j r, (scheduleDisturbance flatWaves demoRandom demoTimer demoWaves).calls
          = demoWaves.calls ++ [WaveCall.Disturb i j r] ∧
        (scheduleDisturbance flatWaves demoRandom demoTimer demoWaves).mWaves
          = flatWaves.Disturb demoWaves.mWaves i j r ∧
        4 ≤ i ∧ i ≤ flatWaves.RowCount demoWaves.mWaves - 5 ∧
        4 ≤ j ∧ j ≤ flatWaves.ColumnCount demoWaves.mWaves - 5 ∧ 1 / 5 ≤ r ∧ r ≤ 1 / 2 ∧
        1 ≤ i ∧ i ≤ flatWaves.RowCount demoWaves.mWaves - 2 ∧
        1 ≤ j ∧ j ≤ flatWaves.ColumnCount demoWaves.mWaves - 2 ∧
        ∃ wf1, demoField.disturb i j r = Except.ok wf1)) :=
  ⟨by decide, by decide, demoRandom_inRange, rfl, rfl,
    scheduler_disturbs_interior flatWaves demoRandom demoTimer demoWaves demoField
      (by decide) (by decide) demoRandom_inRange rfl rfl⟩

theorem disturb_raises_cell_and_neighbours_witness :
    demoField.curr.length = demoField.m * demoField.n ∧
    ((1 ≤ (4 : Int) ∧ (4 : Int) ≤ (demoField.m : Int) - 2 ∧ 1 ≤ (4 : Int) ∧
        (4 : Int) ≤ (demoField.n : Int) - 2 →
      ∃ w1, demoField.disturb 4 4 (2 / 5) = Except.ok w1 ∧
        w1.height 4 4 = demoField.height 4 4 + (2 / 5) / 2 ∧
        w1.height (4 + 1) 4 = demoField.height (4 + 1) 4 + (2 / 5) / 4 ∧
        w1.height (4 - 1) 4 = demoField.height (4 - 1) 4 + (2 / 5) / 4 ∧
        w1.height 4 (4 + 1) = demoField.height 4 (4 + 1) + (2 / 5) / 4 ∧
        w1.height 4 (4 - 1) = demoField.height 4 (4 - 1) + (2 / 5) / 4 ∧
        (∀ k, k ≠ demoField.cell 4 4 → k ≠ demoField.cell (4 + 1) 4 →
          k ≠ demoField.cell (4 - 1) 4 → k ≠ demoField.cell 4 (4 + 1) →
          k ≠ demoField.cell 4 (4 - 1) → w1.heightAt k = demoField.heightAt k) ∧
        w1.m = demoField.m ∧ w1.n = demoField.n ∧ w1.prev = demoField.prev) ∧
    ((4 : Int) = 0 ∨ (4 : Int) = (demoField.m : Int) - 1 ∨ (4 : Int) = 0 ∨
        (4 : Int) = (demoField.n : Int) - 1 →
      demoField.disturb 4 4 (2 / 5) = Except.error WaveError.OutOfRange)) :=
  ⟨by decide, disturb_raises_cell_and_neighbours demoField 4 4 (2 / 5) (by decide)⟩

/-! ## The dirty countdown: one call -/

theorem uploads_append (r : Region) (a b : List Event) :
    uploads r (a ++ b) = uploads r a ++ uploads r b := by
  simp [uploads]

theorem uploads_region (r r1 : Region) (evs : List Event) (hne : r1 ≠ r)
    (h : ∀ e ∈ evs, ∃ el sl f c, e = Event.write r1 el sl f c) : uploads r evs = [] := by
  induction evs with
  | nil => rfl
  | cons e rest ih =>
    obtain ⟨el, sl, f, c, rfl⟩ := h _ (List.mem_cons_self _ _)
    have hr := ih fun e he => h e (List.mem_cons_of_mem _ he)
    simp only [uploads, List.filterMap_cons, Event.upload, if_neg hne] at hr ⊢
    exact hr

/-- The items the loop of `UpdateObjectCBs` leaves: every dirty item has its
counter decremented by one, every other item is untouched. -/
theorem objectWrites_items (i f c : Nat) (l : List RenderItem) :
    (objectWrites i f c l).1 = l.map fun e =>
      if e.NumFramesDirty > 0 then { e with NumFramesDirty := e.NumFramesDirty - 1 } else e := by
  induction l with
  | nil => rfl
  | cons e rest ih =>
    simp only [objectWrites, List.map_cons]
    split
    · simp [ih]
    · simp [ih]

/-- The uploads the loop of `UpdateObjectCBs` makes: one per dirty item, in the
order of the items. -/
theorem objectWrites_events (i f c : Nat) (l : List RenderItem) :
    (objectWrites i f c l).2 = (l.filter fun e => e.NumFramesDirty > 0).map fun e =>
      Event.write Region.objectCB (e.ObjCBIndex : Int) i f c := by
  induction l with
  | nil => rfl
  | cons e rest ih =>
    simp only [objectWrites]
    by_cases hd : e.NumFramesDirty > 0
    · simp [hd, ih]
    · simp [hd, ih]

theorem objectWrites_at (i f c x : Nat) (l : List RenderItem) :
    ((objectWrites i f c l).1.filter fun e => e.ObjCBIndex = x) =
      (l.filter fun e => e.ObjCBIndex = x).map fun e =>
        if e.NumFramesDirty > 0 then { e with NumFramesDirty := e.NumFramesDirty - 1 } else e := by
  rw [objectWrites_items]
  induction l with
  | nil => rfl
  | cons e rest ih =>
    by_cases hx : e.ObjCBIndex = x
    · by_cases hd : e.NumFramesDirty > 0
      · simp [hx, hd, ih]
      · simp [hx, hd, ih]
    · by_cases hd : e.NumFramesDirty > 0
      · simp [hx, hd, ih]
      · simp [hx, hd, ih]

theorem uploads_objectWrites (i f c : Nat) (l : List RenderItem) :
    uploads Region.objectCB (objectWrites i f c l).2 =
      (l.filter fun e => e.NumFramesDirty > 0).map fun e => (i, (e.ObjCBIndex : Int)) := by
  rw [objectWrites_events]
  induction l with
  | nil => rfl
  | cons e rest ih =>
    by_cases hd : e.NumFramesDirty > 0
    · simp only [List.filter_cons, hd, decide_True, if_true, List.map_cons] at ih ⊢
      simp only [uploads, List.filterMap_cons, Event.upload, if_true] at ih ⊢
      rw [ih]
    · simp only [List.filter_cons, hd, decide_False] at ih ⊢
      exact ih

theorem objectWrites_count (i f c x j : Nat) (l : List RenderItem) :
    (uploads Region.objectCB (objectWrites i f c l).2).count (j, (x : Int)) =
      if j = i then
        ((l.filter fun e => e.ObjCBIndex = x).filter fun e => e.NumFramesDirty > 0).length
      else 0 := by
  rw [uploads_objectWrites]
  induction l with
  | nil => simp
  | cons e rest ih =>
    by_cases hd : e.NumFramesDirty > 0
    · by_cases hx : e.ObjCBIndex = x
      · by_cases hj : j = i
        · simp [hd, hx, hj] at ih ⊢
          exact ih
        · have hji : ¬ i = j := fun h => hj h.symm
          simp [List.count_cons, hd, hx, hj, hji] at ih ⊢
          exact ih
      · have hx2 : ¬ (e.ObjCBIndex : Int) = (x : Int) := fun h => hx (by exact_mod_cast h)
        by_cases hj : j = i
        · simp [List.count_cons, hd, hx, hx2, hj] at ih ⊢
          exact ih
        · have hji : ¬ i = j := fun h => hj h.symm
          simp [List.count_cons, hd, hx, hx2, hj, hji] at ih ⊢
          exact ih
    · by_cases hx : e.ObjCBIndex = x
      · simp [hd, hx] at ih ⊢
        exact ih
      · simp [hd, hx] at ih ⊢
        exact ih
theorem materialWrites_at (i f c : Nat) (y : Int) (m : List (String × Option Material))
    (r : List (String × Option Material) × List Event)
    (h : materialWrites i f c m = some r) :
    (r.1.filter fun p => p.2.map (fun mat => mat.MatCBIndex) = some y) =
      (m.filter fun p => p.2.map (fun mat => mat.MatCBIndex) = some y).map fun p =>
        (p.1, p.2.map fun mat =>
          if mat.NumFramesDirty > 0 then { mat with NumFramesDirty := mat.NumFramesDirty - 1 }
          else mat) := by
  induction m generalizing r with
  | nil =>
    simp only [materialWrites, Option.some.injEq] at h
    subst h
    rfl
  | cons p rest ih =>
    obtain ⟨k, o⟩ := p
    cases o with
    | none => simp [materialWrites] at h
    | some mat =>
      simp only [materialWrites] at h
      cases hr : materialWrites i f c rest with
      | none => simp [hr] at h
      | some r0 =>
        have h0 := ih r0 hr
        simp only [hr] at h
        by_cases hd : mat.NumFramesDirty > 0
        · rw [if_pos hd] at h
          simp only [Option.some.injEq] at h
          subst h
          by_cases hy : mat.MatCBIndex = y
          · simp [hd, hy] at h0 ⊢
            exact h0
          · simp [hd, hy] at h0 ⊢
            exact h0
        · rw [if_neg hd] at h
          simp only [Option.some.injEq] at h
          subst h
          by_cases hy : mat.MatCBIndex = y
          · simp [hd, hy] at h0 ⊢
            exact h0
          · simp [hd, hy] at h0 ⊢
            exact h0

theorem materialWrites_count (i f c j : Nat) (y : Int) (m : List (String × Option Material))
    (r : List (String × Option Material) × List Event)
    (h : materialWrites i f c m = some r) :
    (uploads Region.materialCB r.2).count (j, y) =
      if j = i then
        ((m.filter fun p => p.2.map (fun mat => mat.MatCBIndex) = some y).filter fun p =>
          p.2.map (fun mat => decide (mat.NumFramesDirty > 0)) = some true).length
      else 0 := by
  induction m generalizing r with
  | nil =>
    simp only [materialWrites, Option.some.injEq] at h
    subst h
    simp [uploads]
  | cons p rest ih =>
    obtain ⟨k, o⟩ := p
    cases o with
    | none => simp [materialWrites] at h
    | some mat =>
      simp only [materialWrites] at h
      cases hr : materialWrites i f c rest with
      | none => simp [hr] at h
      | some r0 =>
        have h0 := ih r0 hr
        simp only [hr] at h
        by_cases hd : mat.NumFramesDirty > 0
        · rw [if_pos hd] at h
          simp only [Option.some.injEq] at h
          subst h
          have hu : uploads Region.materialCB
              (Event.write Region.materialCB mat.MatCBIndex i f c :: r0.2) =
              (i, mat.MatCBIndex) :: uploads Region.materialCB r0.2 := by
            simp [uploads, Event.upload]
          rw [hu, List.count_cons, h0]
          by_cases hy : mat.MatCBIndex = y
          · by_cases hj : j = i
            · simp [hd, hy, hj]
            · have hji : ¬ i = j := fun h => hj h.symm
              simp [hd, hy, hj, hji]
          · by_cases hj : j = i
            · simp [hd, hy, hj]
            · have hji : ¬ i = j := fun h => hj h.symm
              simp [hd, hy, hj, hji]
        · rw [if_neg hd] at h
          simp only [Option.some.injEq] at h
          subst h
          rw [h0]
          by_cases hy : mat.MatCBIndex = y
          · simp [hd, hy]
          · simp [hd, hy]

theorem materialWrites_region (i f c : Nat) (m : List (String × Option Material))
    (r : List (String × Option Material) × List Event)
    (h : materialWrites i f c m = some r) :
    ∀ e ∈ r.2, ∃ el sl f1 c1, e = Event.write Region.materialCB el sl f1 c1 := by
  induction m generalizing r with
  | nil =>
    simp only [materialWrites, Option.some.injEq] at h
    subst h
    simp
  | cons p rest ih =>
    obtain ⟨k, o⟩ := p
    cases o with
    | none => simp [materialWrites] at h
    | some mat =>
      simp only [materialWrites] at h
      cases hr : materialWrites i f c rest with
      | none => simp [hr] at h
      | some r0 =>
        have h0 := ih r0 hr
        simp only [hr] at h
        by_cases hd : mat.NumFramesDirty > 0
        · rw [if_pos hd] at h
          simp only [Option.some.injEq] at h
          subst h
          intro e he
          rcases List.mem_cons.mp he with rfl | he
          · exact ⟨_, _, _, _, rfl⟩
          · exact h0 e he
        · rw [if_neg hd] at h
          simp only [Option.some.injEq] at h
          subst h
          exact h0

theorem objectWrites_region (i f c : Nat) (l : List RenderItem) :
    ∀ e ∈ (objectWrites i f c l).2, ∃ el sl f1 c1, e = Event.write Region.objectCB el sl f1 c1 := by
  rw [objectWrites_events]
  intro e he
  obtain ⟨a, _, rfl⟩ := List.mem_map.mp he
  exact ⟨_, _, _, _, rfl⟩

theorem waveWrites_region (i f c n : Nat) :
    ∀ e ∈ waveWrites i f c n, ∃ el sl f1 c1, e = Event.write Region.wavesVB el sl f1 c1 := by
  intro e he
  obtain ⟨a, _, rfl⟩ := List.mem_map.mp he
  exact ⟨_, _, _, _, rfl⟩

/-- Assigning the water entry leaves the entries at element `y` alone when the
water material is not at `y`. -/
theorem mapAssign_at (m : List (String × Option Material)) (k : String) (w w1 : Material)
    (y : Int) (hf : mapFind m k = some (some w)) (hw : w.MatCBIndex ≠ y)
    (hw1 : w1.MatCBIndex ≠ y) :
    ((mapAssign m k (some w1)).filter fun p => p.2.map (fun mat => mat.MatCBIndex) = some y) =
      m.filter fun p => p.2.map (fun mat => mat.MatCBIndex) = some y := by
  induction m with
  | nil => simp [mapFind] at hf
  | cons e rest ih =>
    simp only [mapFind] at hf
    simp only [mapAssign]
    by_cases hk : e.1 = k
    · rw [if_pos hk] at hf ⊢
      simp only [Option.some.injEq] at hf
      simp [hf, hw, hw1]
    · rw [if_neg hk] at hf ⊢
      simp only [List.filter_cons, ih hf]
theorem currSlot_parts (s : App) (i : Nat) (fr : FrameResource) (hc : currSlot s = some (i, fr)) :
    s.mCurrFrameResource = some i ∧ s.mFrameResources[i]? = some fr := by
  unfold currSlot at hc
  cases hp : s.mCurrFrameResource with
  | none => simp [hp] at hc
  | some k =>
    simp only [hp] at hc
    cases hg : s.mFrameResources[k]? with
    | none => simp [hg] at hc
    | some fr1 =>
      simp only [hg, Option.map_some', Option.some.injEq, Prod.mk.injEq] at hc
      obtain ⟨rfl, rfl⟩ := hc
      exact ⟨rfl, hg⟩

/-- The uploads of `Update`, exactly: the water material is marked dirty, then the
dirty render items, the dirty materials, the pass constants and the wave
vertices are uploaded into the current slot, in this order. -/
theorem UpdateUpload_exact (m t : App) (i : Nat) (fr : FrameResource)
    (hc : currSlot m = some (i, fr)) (h : UpdateUpload m = some t) :
    ∃ w r wv, mapFind m.mMaterials "water" = some (some w) ∧
      materialWrites i fr.Fence m.mFence
        (mapAssign m.mMaterials "water" (some { w with NumFramesDirty := gNumFrameResources }))
        = some r ∧
      m.mWaves = some wv ∧
      t.mAllRitems = (objectWrites i fr.Fence m.mFence m.mAllRitems).1 ∧
      t.mMaterials = r.1 ∧
      t.trace = m.trace ++ (objectWrites i fr.Fence m.mFence m.mAllRitems).2 ++ r.2 ++
        [Event.write Region.passCB 0 i fr.Fence m.mFence] ++
        waveWrites i fr.Fence m.mFence wv.VertexCount := by
  obtain ⟨hp, hg⟩ := currSlot_parts m i fr hc
  unfold UpdateUpload at h
  cases hf : mapFind m.mMaterials "water" with
  | none => simp [AnimateMaterials, hf] at h
  | some o =>
    cases o with
    | none => simp [AnimateMaterials, hf] at h
    | some w =>
      cases hr : materialWrites i fr.Fence m.mFence
        (mapAssign m.mMaterials "water" (some { w with NumFramesDirty := gNumFrameResources })) with
      | none =>
        simp [AnimateMaterials, hf, UpdateObjectCBs, UpdateMaterialCBs, currSlot, hp, hg, hr] at h
      | some r =>
        cases hw : m.mWaves with
        | none =>
          simp [AnimateMaterials, hf, UpdateObjectCBs, UpdateMaterialCBs, UpdateMainPassCB,
            UpdateWaves, currSlot, hp, hg, hr, hw] at h
        | some wv =>
          simp only [AnimateMaterials, hf, UpdateObjectCBs, UpdateMaterialCBs, UpdateMainPassCB,
            UpdateWaves, currSlot, hp, hg, hr, hw, Option.some_bind, Option.map_some',
            Option.some.injEq] at h
          subst h
          refine ⟨w, r, wv, rfl, hr, rfl, rfl, rfl, ?_⟩
          simp
/-! ## The dirty countdown along runs -/

theorem mapFind_mem (m : List (String × Option Material)) (k : String) (v : Option Material)
    (h : mapFind m k = some v) : (k, v) ∈ m := by
  induction m with
  | nil => simp [mapFind] at h
  | cons e rest ih =>
    simp only [mapFind] at h
    by_cases hk : e.1 = k
    · rw [if_pos hk] at h
      simp only [Option.some.injEq] at h
      have : e = (k, v) := by rw [← hk, ← h]
      rw [this]
      exact List.mem_cons_self _ _
    · rw [if_neg hk] at h
      exact List.mem_cons_of_mem _ (ih h)

/-- What one `Update` does in a sound state, exactly: the ring index is advanced,
the uploads go to the slot at the new index, the dirty items and materials are
counted down, and the trace grows by at most one wait followed by the
uploads. -/
theorem Update_exact (s t : App) (hs : Sound s) (h : Update s = some t) :
    ∃ (fr : FrameResource) (w : Material)
      (r : List (String × Option Material) × List Event) (wv : Waves) (pre : List Event),
      t.mCurrFrameResourceIndex = (s.mCurrFrameResourceIndex + 1) % 3 ∧
      (pre = [] ∨ pre = [Event.wait fr.Fence]) ∧
      mapFind s.mMaterials "water" = some (some w) ∧
      materialWrites ((s.mCurrFrameResourceIndex + 1) % 3).toNat fr.Fence t.mFence
        (mapAssign s.mMaterials "water" (some { w with NumFramesDirty := gNumFrameResources }))
        = some r ∧
      t.mAllRitems =
        (objectWrites ((s.mCurrFrameResourceIndex + 1) % 3).toNat fr.Fence t.mFence
          s.mAllRitems).1 ∧
      t.mMaterials = r.1 ∧
      t.trace = s.trace ++ pre ++
        (objectWrites ((s.mCurrFrameResourceIndex + 1) % 3).toNat fr.Fence t.mFence
          s.mAllRitems).2 ++ r.2 ++
        [Event.write Region.passCB 0 ((s.mCurrFrameResourceIndex + 1) % 3).toNat fr.Fence
          t.mFence] ++
        waveWrites ((s.mCurrFrameResourceIndex + 1) % 3).toNat fr.Fence t.mFence
          wv.VertexCount := by
  obtain ⟨fr, m, t1, evs, _, hm, ht, hu, _, _, hc, hidx, _, _, hw, hr, _, _⟩ := Update_parts s hs
  have ht1 : t1 = t := by
    rw [hu] at h
    exact Option.some.inj h
  subst ht1
  obtain ⟨_, _, _, _, _, hi, hma, _, _, _⟩ := UpdateSync_spec s m hm
  obtain ⟨w, r, wv, e1, e2, _, e4, e5, e6⟩ := UpdateUpload_exact m t1 _ fr hc ht
  obtain ⟨_, _, r3, _, _, r6, _⟩ := hr
  rw [hma] at e1 e2
  rw [hi] at e4 e6
  rw [← r6] at e2 e4 e6
  refine ⟨fr, w, r, wv, m.trace.drop s.trace.length, r3.trans hidx, ?_, e1, e2, e4, e5, ?_⟩
  · rcases hw with ⟨_, hw, _⟩ | ⟨_, hw, _⟩
    · right; simp [hw]
    · left; simp [hw]
  · have hpre : s.trace ++ m.trace.drop s.trace.length = m.trace := by
      rcases hw with ⟨_, hw, _⟩ | ⟨_, hw, _⟩
      · simp [hw]
      · simp [hw]
    rw [hpre, e6]
theorem uploads_wait (r : Region) (pre : List Event) (v : Nat)
    (h : pre = [] ∨ pre = [Event.wait v]) : uploads r pre = [] := by
  rcases h with rfl | rfl <;> rfl

/-- One `Update` and a render item that is alone at its element: the item is
uploaded into the slot at the new index exactly when its countdown is positive,
and the countdown goes down by one, stopping at 0. -/
theorem Update_item (s t : App) (hs : Sound s) (h : Update s = some t) (x : Nat)
    (e0 : RenderItem) (d : Nat)
    (hx : itemsAt x s = [{ e0 with NumFramesDirty := (d : Int) }]) :
    itemsAt x t = [{ e0 with NumFramesDirty := ((d - 1 : Nat) : Int) }] ∧
    ∀ j : Nat, (uploads Region.objectCB t.trace).count (j, (x : Int)) =
      (uploads Region.objectCB s.trace).count (j, (x : Int)) +
        if 1 ≤ d ∧ (s.mCurrFrameResourceIndex + 1) % 3 = (j : Int) then 1 else 0 := by
  obtain ⟨fr, w, r, wv, pre, _, hpre, _, hr, e4, _, e6⟩ := Update_exact s t hs h
  have h0 : 0 ≤ (s.mCurrFrameResourceIndex + 1) % 3 := by
    have := hs.2.1
    omega
  unfold itemsAt at hx ⊢
  constructor
  · rw [e4, objectWrites_at, hx]
    by_cases hd : 1 ≤ d
    · have hd1 : ((d - 1 : Nat) : Int) = (d : Int) - 1 := by omega
      have hd2 : (d : Int) > 0 := by omega
      simp [hd1, hd2]
    · have hd1 : d = 0 := by omega
      subst hd1
      simp
  · intro j
    rw [e6]
    have hm0 : uploads Region.objectCB r.2 = [] :=
      uploads_region Region.objectCB Region.materialCB r.2 (by decide)
        (materialWrites_region _ _ _ _ _ hr)
    have hw0 := uploads_region Region.objectCB Region.wavesVB _ (by decide)
      (waveWrites_region ((s.mCurrFrameResourceIndex + 1) % 3).toNat fr.Fence t.mFence
        wv.VertexCount)
    simp only [uploads_append, uploads_wait _ pre _ hpre, hm0, hw0,
      List.append_nil, List.count_append, objectWrites_count, hx]
    have hp : uploads Region.objectCB
        [Event.write Region.passCB 0 ((s.mCurrFrameResourceIndex + 1) % 3).toNat fr.Fence
          t.mFence] = [] := rfl
    rw [hp]
    by_cases hj : j = ((s.mCurrFrameResourceIndex + 1) % 3).toNat
    · have hj2 : (s.mCurrFrameResourceIndex + 1) % 3 = (j : Int) := by omega
      by_cases hd : 1 ≤ d
      · have hd2 : (0 : Int) < (d : Int) := by omega
        simp [hj, hd, hd2, h0]
      · have hd1 : d = 0 := by omega
        subst hd1
        simp [hj, h0]
    · have hj2 : ¬ (s.mCurrFrameResourceIndex + 1) % 3 = (j : Int) := by omega
      simp [hj, hj2]

/-- One `Update` and a material other than water that is alone at its element:
it is uploaded into the slot at the new index exactly when its countdown is
positive, and the countdown goes down by one, stopping at 0. -/
theorem Update_material (s t : App) (hs : Sound s) (h : Update s = some t) (y : Int)
    (k : String) (mat0 : Material) (d : Nat) (hk : k ≠ "water")
    (hy : materialsAt y s = [(k, some { mat0 with NumFramesDirty := (d : Int) })]) :
    materialsAt y t = [(k, some { mat0 with NumFramesDirty := ((d - 1 : Nat) : Int) })] ∧
    ∀ j : Nat, (uploads Region.materialCB t.trace).count (j, y) =
      (uploads Region.materialCB s.trace).count (j, y) +
        if 1 ≤ d ∧ (s.mCurrFrameResourceIndex + 1) % 3 = (j : Int) then 1 else 0 := by
  obtain ⟨fr, w, r, wv, pre, _, hpre, hf, hr, _, e5, e6⟩ := Update_exact s t hs h
  have h0 : 0 ≤ (s.mCurrFrameResourceIndex + 1) % 3 := by
    have := hs.2.1
    omega
  unfold materialsAt at hy ⊢
  have hw : w.MatCBIndex ≠ y := by
    intro hwy
    have hmem : (("water", some w) : String × Option Material) ∈
        s.mMaterials.filter fun p => p.2.map (fun mat => mat.MatCBIndex) = some y := by
      rw [List.mem_filter]
      exact ⟨mapFind_mem _ _ _ hf, by simp [hwy]⟩
    rw [hy] at hmem
    simp only [List.mem_singleton, Prod.mk.injEq] at hmem
    exact hk hmem.1.symm
  have hat := mapAssign_at s.mMaterials "water" w
    { w with NumFramesDirty := gNumFrameResources } y hf hw hw
  have h1 := materialWrites_at _ _ _ y _ _ hr
  have h2 := fun j => materialWrites_count _ _ _ j y _ _ hr
  rw [hat, hy] at h1
  simp only [hat, hy] at h2
  constructor
  · rw [e5, h1]
    by_cases hd : 1 ≤ d
    · have hd1 : ((d - 1 : Nat) : Int) = (d : Int) - 1 := by omega
      have hd2 : (d : Int) > 0 := by omega
      simp [hd1, hd2]
    · have hd1 : d = 0 := by omega
      subst hd1
      simp
  · intro j
    rw [e6]
    have hm0 := uploads_region Region.materialCB Region.objectCB _ (by decide)
      (objectWrites_region ((s.mCurrFrameResourceIndex + 1) % 3).toNat fr.Fence t.mFence
        s.mAllRitems)
    have hw0 := uploads_region Region.materialCB Region.wavesVB _ (by decide)
      (waveWrites_region ((s.mCurrFrameResourceIndex + 1) % 3).toNat fr.Fence t.mFence
        wv.VertexCount)
    simp only [uploads_append, uploads_wait _ pre _ hpre, hm0, hw0,
      List.append_nil, List.count_append, h2]
    have hp : uploads Region.materialCB
        [Event.write Region.passCB 0 ((s.mCurrFrameResourceIndex + 1) % 3).toNat fr.Fence
          t.mFence] = [] := rfl
    rw [hp]
    by_cases hj : j = ((s.mCurrFrameResourceIndex + 1) % 3).toNat
    · have hj2 : (s.mCurrFrameResourceIndex + 1) % 3 = (j : Int) := by omega
      by_cases hd : 1 ≤ d
      · have hd2 : (0 : Int) < (d : Int) := by omega
        simp [hj, hd, hd2, h0]
      · have hd1 : d = 0 := by omega
        subst hd1
        simp [hj, h0]
    · have hj2 : ¬ (s.mCurrFrameResourceIndex + 1) % 3 = (j : Int) := by omega
      simp [hj, hj2]
theorem dueUploads_succ (c : Int) (d u j : Nat) (hd : d ≤ 3) :
    dueUploads c d (u + 1) j =
      (if 1 ≤ d ∧ (c + 1) % 3 = (j : Int) then 1 else 0) +
        dueUploads ((c + 1) % 3) (d - 1) u j := by
  have e1 : ((c + 1) % 3 + 1) % 3 = (c + 2) % 3 := by omega
  have e2 : ((c + 1) % 3 + 2) % 3 = (c + 3) % 3 := by omega
  have e3 : ¬ (3 ≤ u ∧ 3 ≤ d - 1 ∧ ((c + 1) % 3 + 3) % 3 = (j : Int)) := by omega
  unfold dueUploads
  rw [e1, e2, if_neg e3]
  have a1 : (1 ≤ u + 1 ∧ 1 ≤ d ∧ (c + 1) % 3 = (j : Int)) ↔
      (1 ≤ d ∧ (c + 1) % 3 = (j : Int)) := by omega
  have a2 : (2 ≤ u + 1 ∧ 2 ≤ d ∧ (c + 2) % 3 = (j : Int)) ↔
      (1 ≤ u ∧ 1 ≤ d - 1 ∧ (c + 2) % 3 = (j : Int)) := by omega
  have a3 : (3 ≤ u + 1 ∧ 3 ≤ d ∧ (c + 3) % 3 = (j : Int)) ↔
      (2 ≤ u ∧ 2 ≤ d - 1 ∧ (c + 3) % 3 = (j : Int)) := by omega
  simp only [a1, a2, a3]
  omega

theorem dueUploads_zero (c : Int) (d j : Nat) : dueUploads c d 0 j = 0 := by
  simp [dueUploads]

theorem updates_cons (o : Op) (os : List Op) :
    updates (o :: os) = updates os + if o = Op.update then 1 else 0 := by
  cases o <;> simp [updates]

/-- A countdown `P` with its upload counter `cnt`, followed along a run: if one
`Update` counts it down by one and uploads once while it is positive, and the
other steps leave it alone, then after the run the countdown has gone down by
the number of `Update` calls and the uploads are the due ones. -/
theorem run_countdown (P : App → Nat → Prop) (cnt : App → Nat → Nat)
    (hupd : ∀ s t d, Sound s → Update s = some t → P s d →
      P t (d - 1) ∧ ∀ j : Nat, cnt t j = cnt s j +
        if 1 ≤ d ∧ (s.mCurrFrameResourceIndex + 1) % 3 = (j : Int) then 1 else 0)
    (hkeep : ∀ s t d, t.mAllRitems = s.mAllRitems → t.mMaterials = s.mMaterials →
      (∀ r, uploads r t.trace = uploads r s.trace) → P s d →
      P t d ∧ ∀ j : Nat, cnt t j = cnt s j)
    (ops : List Op) (s t : App) (d : Nat) (hs : Sound s) (hd : d ≤ 3)
    (hrun : run ops s = some t) (hP : P s d) :
    P t (d - updates ops) ∧
    ∀ j : Nat, cnt t j = cnt s j + dueUploads s.mCurrFrameResourceIndex d (updates ops) j := by
  induction ops generalizing s d with
  | nil =>
    have h1 : some s = some t := hrun
    rw [← Option.some.inj h1]
    refine ⟨by simpa [updates] using hP, fun j => ?_⟩
    simp [updates, dueUploads_zero]
  | cons o os ih =>
    have hb : (step o s).bind (run os) = some t := hrun
    obtain ⟨m, hm, hrest⟩ := Option.bind_eq_some.mp hb
    have sm := step_sound o s m hs hm
    cases o with
    | update =>
      have hu : Update s = some m := hm
      obtain ⟨p1, p2⟩ := hupd s m d hs hu hP
      obtain ⟨_, _, _, _, _, hidx, _⟩ := Update_exact s m hs hu
      obtain ⟨q1, q2⟩ := ih m (d - 1) sm (by omega) hrest p1
      have hcount : updates (Op.update :: os) = updates os + 1 := by simp [updates_cons]
      rw [hcount]
      refine ⟨by rw [Nat.sub_sub, Nat.add_comm] at q1; exact q1, fun j => ?_⟩
      rw [q2 j, p2 j, hidx, dueUploads_succ _ _ _ _ hd]
      omega
    | draw =>
      have hdr : Draw s = some m := hm
      obtain ⟨i, fr, _, _, _, _, d4, _, _, d7, d8, d9, _⟩ := Draw_spec s m hdr
      have hup : ∀ r, uploads r m.trace = uploads r s.trace := by
        intro r
        rw [d4, uploads_append]
        simp [uploads, Event.upload]
      obtain ⟨p1, p2⟩ := hkeep s m d d8 d9 hup hP
      obtain ⟨q1, q2⟩ := ih m d sm hd hrest p1
      have hcount : updates (Op.draw :: os) = updates os := by simp [updates_cons]
      rw [hcount]
      refine ⟨q1, fun j => ?_⟩
      rw [q2 j, p2 j, d7]
    | gpu n =>
      have hg : some (gpuRun n s) = some m := hm
      have hme := Option.some.inj hg
      obtain ⟨_, _, g3, g4, g5, _, _, g8⟩ := gpuRun_frame n s
      rw [hme] at g3 g4 g5 g8
      obtain ⟨p1, p2⟩ := hkeep s m d g4 g5 (fun r => by rw [g8]) hP
      obtain ⟨q1, q2⟩ := ih m d sm hd hrest p1
      have hcount : updates (Op.gpu n :: os) = updates os := by simp [updates_cons]
      rw [hcount]
      refine ⟨q1, fun j => ?_⟩
      rw [q2 j, p2 j, g3]

theorem run_updates_total (n : Nat) (s : App) (hs : Sound s) :
    ∃ t, run (List.replicate n Op.update) s = some t := by
  induction n generalizing s with
  | zero => exact ⟨s, rfl⟩
  | succ n ih =>
    obtain ⟨m, hm, sm⟩ := Update_total s hs
    obtain ⟨t, ht⟩ := ih m sm
    refine ⟨t, ?_⟩
    have hstep : step Op.update s = some m := hm
    simp [List.replicate_succ, run, hstep, ht]

theorem dueUploads_three (c : Int) (u j : Nat) :
    dueUploads c 3 u j =
      if (1 ≤ u ∧ (c + 1) % 3 = (j : Int)) ∨ (2 ≤ u ∧ (c + 2) % 3 = (j : Int)) ∨
        (3 ≤ u ∧ (c + 3) % 3 = (j : Int)) then 1 else 0 := by
  unfold dueUploads
  split_ifs <;> omega
/-! ## Claims C16 and C17: the dirty countdown -/

theorem step_items_bounded (o : Op) (s t : App) (hs : Sound s) (h : step o s = some t)
    (hb : ∀ e ∈ s.mAllRitems, 0 ≤ e.NumFramesDirty ∧ e.NumFramesDirty ≤ 3) :
    ∀ e ∈ t.mAllRitems, 0 ≤ e.NumFramesDirty ∧ e.NumFramesDirty ≤ 3 := by
  cases o with
  | update =>
    have hu : Update s = some t := h
    obtain ⟨_, _, _, _, _, _, _, _, _, e4, _, _⟩ := Update_exact s t hs hu
    rw [e4, objectWrites_items]
    intro e he
    obtain ⟨a, ha, rfl⟩ := List.mem_map.mp he
    have := hb a ha
    split
    · constructor <;> simp only <;> omega
    · exact this
  | draw =>
    have hd : Draw s = some t := h
    obtain ⟨_, _, _, _, _, _, _, _, _, _, d8, _, _⟩ := Draw_spec s t hd
    rw [d8]; exact hb
  | gpu n =>
    have hg : some (gpuRun n s) = some t := h
    rw [← Option.some.inj hg, (gpuRun_frame n s).2.2.2.1]
    exact hb

theorem run_items_bounded (ops : List Op) (s t : App) (hs : Sound s) (h : run ops s = some t)
    (hb : ∀ e ∈ s.mAllRitems, 0 ≤ e.NumFramesDirty ∧ e.NumFramesDirty ≤ 3) :
    ∀ e ∈ t.mAllRitems, 0 ≤ e.NumFramesDirty ∧ e.NumFramesDirty ≤ 3 := by
  induction ops generalizing s with
  | nil =>
    have h1 : some s = some t := h
    rw [← Option.some.inj h1]; exact hb
  | cons o os ih =>
    have h1 : (step o s).bind (run os) = some t := h
    obtain ⟨m, hm, hrest⟩ := Option.bind_eq_some.mp h1
    exact ih m (step_sound o s m hs hm) hrest (step_items_bounded o s m hs hm hb)

/-- C16: in a sound state, any number of `Update` calls in a row return.  Take a
render item that is alone at its element `x` of the object buffers, or a
material other than the water material (which `AnimateMaterials` marks dirty
again in every `Update`) that is alone at its element `y` of the material
buffers, with `NumFramesDirty = 3`.  After any run of `Update`, `Draw` and
consumer steps with `u` calls of `Update`, starting at ring index `c`, the
record's countdown is `3 - u` (0 from the third call on), and each slot
`j < 3` has received exactly one more upload of the record if one of the first
three `Update` calls of the run went to it, that is `j = (c + k) mod 3` for
some `1 ≤ k ≤ min u 3`, and none otherwise: the first three `Update` calls
upload it once each into three different slots, and later calls never upload
it. -/
theorem dirty_record_uploaded_once_per_slot (s : App) (hs : Sound s) :
    (∀ n : Nat, ∃ t, run (List.replicate n Op.update) s = some t) ∧
    ∀ (ops : List Op) (t : App), run ops s = some t →
      (∀ (x : Nat) (e : RenderItem), itemsAt x s = [e] → e.NumFramesDirty = 3 →
        itemsAt x t = [{ e with NumFramesDirty := ((3 - updates ops : Nat) : Int) }] ∧
        ∀ j : Nat, j < 3 →
          (uploads Region.objectCB t.trace).count (j, (x : Int)) =
            (uploads Region.objectCB s.trace).count (j, (x : Int)) +
              if (1 ≤ updates ops ∧ (s.mCurrFrameResourceIndex + 1) % 3 = (j : Int)) ∨
                (2 ≤ updates ops ∧ (s.mCurrFrameResourceIndex + 2) % 3 = (j : Int)) ∨
                (3 ≤ updates ops ∧ (s.mCurrFrameResourceIndex + 3) % 3 = (j : Int))
              then 1 else 0) ∧
      (∀ (y : Int) (k : String) (mat : Material), materialsAt y s = [(k, some mat)] →
        k ≠ "water" → mat.NumFramesDirty = 3 →
        materialsAt y t =
          [(k, some { mat with NumFramesDirty := ((3 - updates ops : Nat) : Int) })] ∧
        ∀ j : Nat, j < 3 →
          (uploads Region.materialCB t.trace).count (j, y) =
            (uploads Region.materialCB s.trace).count (j, y) +
              if (1 ≤ updates ops ∧ (s.mCurrFrameResourceIndex + 1) % 3 = (j : Int)) ∨
                (2 ≤ updates ops ∧ (s.mCurrFrameResourceIndex + 2) % 3 = (j : Int)) ∨
                (3 ≤ updates ops ∧ (s.mCurrFrameResourceIndex + 3) % 3 = (j : Int))
              then 1 else 0) := by
  refine ⟨fun n => run_updates_total n s hs, fun ops t hrun => ⟨?_, ?_⟩⟩
  · intro x e hx he
    have he3 : e = { e with NumFramesDirty := ((3 : Nat) : Int) } := by
      cases e
      simp only [RenderItem.mk.injEq, and_true] at he ⊢
      simpa using he
    rw [he3] at hx
    obtain ⟨p1, p2⟩ := run_countdown
      (fun a d => itemsAt x a = [{ e with NumFramesDirty := (d : Int) }])
      (fun a j => (uploads Region.objectCB a.trace).count (j, (x : Int)))
      (fun a b d sa hu hP => Update_item a b sa hu x e d hP)
      (fun a b d h1 _ h3 hP => by
        refine ⟨?_, fun j => by simp only [h3]⟩
        simp only [itemsAt, h1] at hP ⊢
        exact hP)
      ops s t 3 hs (le_refl 3) hrun hx
    refine ⟨p1, fun j _ => ?_⟩
    rw [p2 j, dueUploads_three]
  · intro y k mat hy hk hm
    have hm3 : mat = { mat with NumFramesDirty := ((3 : Nat) : Int) } := by
      cases mat
      simp only [Material.mk.injEq, true_and] at hm ⊢
      simpa using hm
    rw [hm3] at hy
    obtain ⟨p1, p2⟩ := run_countdown
      (fun a d => materialsAt y a = [(k, some { mat with NumFramesDirty := (d : Int) })])
      (fun a j => (uploads Region.materialCB a.trace).count (j, y))
      (fun a b d sa hu hP => Update_material a b sa hu y k mat d hk hP)
      (fun a b d _ h2 h3 hP => by
        refine ⟨?_, fun j => by simp only [h3]⟩
        simp only [materialsAt, h2] at hP ⊢
        exact hP)
      ops s t 3 hs (le_refl 3) hrun hy
    refine ⟨p1, fun j _ => ?_⟩
    rw [p2 j, dueUploads_three]

/-- C17: every render item `BuildRenderItems` creates starts with
`NumFramesDirty = gNumFrameResources = 3`.  With a current slot
`UpdateObjectCBs` returns; it leaves the items in place, decrements the counter
of exactly the items with `NumFramesDirty > 0` by 1 and does not touch the
others, and it appends to the trace one upload into the current slot per item
with `NumFramesDirty > 0`, in the order of the items, and nothing else.  If
every counter is between 0 and 3 before the call, so it is after it, and so it
is in every state of a run of `Update`, `Draw` and consumer steps from a sound
state. -/
theorem UpdateObjectCBs_counts_down (s : App) (i : Nat) (fr : FrameResource)
    (hc : currSlot s = some (i, fr)) :
    ((∀ e ∈ ((Initialize {}).getD {}).mAllRitems, e.NumFramesDirty = gNumFrameResources) ∧
      gNumFrameResources = 3) ∧
    (∃ t, UpdateObjectCBs s = some t ∧
      t.mAllRitems.length = s.mAllRitems.length ∧
      (∀ (p : Nat) (e : RenderItem), s.mAllRitems[p]? = some e →
        (e.NumFramesDirty > 0 →
          t.mAllRitems[p]? = some { e with NumFramesDirty := e.NumFramesDirty - 1 }) ∧
        (¬ e.NumFramesDirty > 0 → t.mAllRitems[p]? = some e)) ∧
      t.trace = s.trace ++ (s.mAllRitems.filter fun e => e.NumFramesDirty > 0).map
        (fun e => Event.write Region.objectCB (e.ObjCBIndex : Int) i fr.Fence s.mFence) ∧
      ((∀ e ∈ s.mAllRitems, 0 ≤ e.NumFramesDirty ∧ e.NumFramesDirty ≤ 3) →
        ∀ e ∈ t.mAllRitems, 0 ≤ e.NumFramesDirty ∧ e.NumFramesDirty ≤ 3)) ∧
    (Sound s → (∀ e ∈ s.mAllRitems, 0 ≤ e.NumFramesDirty ∧ e.NumFramesDirty ≤ 3) →
      ∀ (ops : List Op) (t : App), run ops s = some t →
        ∀ e ∈ t.mAllRitems, 0 ≤ e.NumFramesDirty ∧ e.NumFramesDirty ≤ 3) := by
  refine ⟨⟨by decide, rfl⟩, ?_, fun hs hb ops t hrun => run_items_bounded ops s t hs hrun hb⟩
  have ht : UpdateObjectCBs s = some
      { s with
        mAllRitems := (objectWrites i fr.Fence s.mFence s.mAllRitems).1
        trace := s.trace ++ (objectWrites i fr.Fence s.mFence s.mAllRitems).2 } := by
    simp [UpdateObjectCBs, hc]
  refine ⟨_, ht, ?_, ?_, ?_, ?_⟩
  · simp [objectWrites_items]
  · intro p e hp
    simp only [objectWrites_items, List.getElem?_map, hp, Option.map_some']
    constructor
    · intro hd
      rw [if_pos hd]
    · intro hd
      rw [if_neg hd]
  · simp only [objectWrites_events]
  · intro hb e he
    simp only [objectWrites_items] at he
    obtain ⟨a, ha, rfl⟩ := List.mem_map.mp he
    have := hb a ha
    split
    · constructor <;> simp only <;> omega
    · exact this
/-- Every record of the start state `Initialize` builds is alone at its element:
no two render items share an object-constant index and no two materials share
a material-constant index. -/
theorem Initialize_records_alone :
    (∀ e ∈ ((Initialize {}).getD {}).mAllRitems,
      itemsAt e.ObjCBIndex ((Initialize {}).getD {}) = [e]) ∧
    (∀ p ∈ ((Initialize {}).getD {}).mMaterials, ∃ mat, p.2 = some mat ∧
      materialsAt mat.MatCBIndex ((Initialize {}).getD {}) = [p]) := by
  constructor
  · decide
  · decide
/-! ## The dirty countdown at the small states -/

theorem dirty_record_uploaded_once_per_slot_witness :
    Sound demoScene ∧
    (itemsAt 1 demoScene = [({ ObjCBIndex := 1 } : RenderItem)] ∧
      materialsAt 1 demoScene =
        [("grass", some { Name := "grass", MatCBIndex := 1, DiffuseSrvHeapIndex := 0 })]) ∧
    ((∀ n : Nat, ∃ t, run (List.replicate n Op.update) demoScene = some t) ∧
    ∀ (ops : List Op) (t : App), run ops demoScene = some t →
      (∀ (x : Nat) (e : RenderItem), itemsAt x demoScene = [e] → e.NumFramesDirty = 3 →
        itemsAt x t = [{ e with NumFramesDirty := ((3 - updates ops : Nat) : Int) }] ∧
        ∀ j : Nat, j < 3 →
          (uploads Region.objectCB t.trace).count (j, (x : Int)) =
            (uploads Region.objectCB demoScene.trace).count (j, (x : Int)) +
              if (1 ≤ updates ops ∧ (demoScene.mCurrFrameResourceIndex + 1) % 3 = (j : Int)) ∨
                (2 ≤ updates ops ∧ (demoScene.mCurrFrameResourceIndex + 2) % 3 = (j : Int)) ∨
                (3 ≤ updates ops ∧ (demoScene.mCurrFrameResourceIndex + 3) % 3 = (j : Int))
              then 1 else 0) ∧
      (∀ (y : Int) (k : String) (mat : Material), materialsAt y demoScene = [(k, some mat)] →
        k ≠ "water" → mat.NumFramesDirty = 3 →
        materialsAt y t =
          [(k, some { mat with NumFramesDirty := ((3 - updates ops : Nat) : Int) })] ∧
        ∀ j : Nat, j < 3 →
          (uploads Region.materialCB t.trace).count (j, y) =
            (uploads Region.materialCB demoScene.trace).count (j, y) +
              if (1 ≤ updates ops ∧ (demoScene.mCurrFrameResourceIndex + 1) % 3 = (j : Int)) ∨
                (2 ≤ updates ops ∧ (demoScene.mCurrFrameResourceIndex + 2) % 3 = (j : Int)) ∨
                (3 ≤ updates ops ∧ (demoScene.mCurrFrameResourceIndex + 3) % 3 = (j : Int))
              then 1 else 0)) :=
  ⟨by decide, ⟨by decide, by decide⟩, dirty_record_uploaded_once_per_slot demoScene (by decide)⟩

theorem UpdateObjectCBs_counts_down_witness :
    currSlot ((Update demo).getD demo) = some (1,
      { passCount := 1, objectCount := 2, materialCount := 1, waveVertCount := 4 }) ∧
    (((∀ e ∈ ((Initialize {}).getD {}).mAllRitems, e.NumFramesDirty = gNumFrameResources) ∧
      gNumFrameResources = 3) ∧
    (∃ t, UpdateObjectCBs ((Update demo).getD demo) = some t ∧
      t.mAllRitems.length = ((Update demo).getD demo).mAllRitems.length ∧
      (∀ (p : Nat) (e : RenderItem), ((Update demo).getD demo).mAllRitems[p]? = some e →
        (e.NumFramesDirty > 0 →
          t.mAllRitems[p]? = some { e with NumFramesDirty := e.NumFramesDirty - 1 }) ∧
        (¬ e.NumFramesDirty > 0 → t.mAllRitems[p]? = some e)) ∧
      t.trace = ((Update demo).getD demo).trace ++
        (((Update demo).getD demo).mAllRitems.filter fun e => e.NumFramesDirty > 0).map
          (fun e => Event.write Region.objectCB (e.ObjCBIndex : Int) 1
            ({ passCount := 1, objectCount := 2, materialCount := 1,
               waveVertCount := 4 } : FrameResource).Fence
            ((Update demo).getD demo).mFence) ∧
      ((∀ e ∈ ((Update demo).getD demo).mAllRitems,
          0 ≤ e.NumFramesDirty ∧ e.NumFramesDirty ≤ 3) →
        ∀ e ∈ t.mAllRitems, 0 ≤ e.NumFramesDirty ∧ e.NumFramesDirty ≤ 3)) ∧
    (Sound ((Update demo).getD demo) →
      (∀ e ∈ ((Update demo).getD demo).mAllRitems,
        0 ≤ e.NumFramesDirty ∧ e.NumFramesDirty ≤ 3) →
      ∀ (ops : List Op) (t : App), run ops ((Update demo).getD demo) = some t →
        ∀ e ∈ t.mAllRitems, 0 ≤ e.NumFramesDirty ∧ e.NumFramesDirty ≤ 3)) :=
  ⟨by decide, UpdateObjectCBs_counts_down ((Update demo).getD demo) 1
    { passCount := 1, objectCount := 2, materialCount := 1, waveVertCount := 4 } (by decide)⟩

/-- The countdown at `demoScene`, evaluated: after four frames the second render
item and the grass material have been uploaded once into each slot, and the
water material, marked dirty again by every `Update`, once per frame. -/
theorem demoScene_uploads :
    ∃ t, run [Op.update, Op.draw, Op.update, Op.draw, Op.update, Op.draw, Op.update, Op.draw]
        demoScene = some t ∧
      uploads Region.objectCB t.trace = [(1, 0), (1, 1), (2, 0), (2, 1), (0, 0), (0, 1)] ∧
      uploads Region.materialCB t.trace =
        [(1, 0), (1, 1), (2, 0), (2, 1), (0, 0), (0, 1), (1, 0)] ∧
      t.mAllRitems.map (fun e => e.NumFramesDirty) = [0, 0] :=
  ⟨_, rfl, by decide, by decide, by decide⟩

/-! ## The two views of `UpdateWaves` -/

theorem uploads_waveWrites (i f c n : Nat) :
    uploads Region.wavesVB (waveWrites i f c n) =
      (List.range n).map fun (k : Nat) => (i, (k : Int)) := by
  unfold waveWrites
  generalize List.range n = l
  induction l with
  | nil => rfl
  | cons a rest ih =>
    simp [uploads, Event.upload, List.filterMap_map] at ih ⊢
    exact ih

/-- The two views of `UpdateWaves` agree: when the wave grid of the ring-level
state has as many vertices as the wave field of the data-level state, the
uploads into the wave vertex buffers that the first records are the copies the
second makes, slot by slot and element by element. -/
theorem UpdateWaves_views_agree {W : Type} (ops : WavesOps W) (rnd : RandomSource)
    (mTimer gt : GameTimer) (d : WaveState W) (c : Nat) (b : List (Option Vertex))
    (s : App) (fr : FrameResource) (wv : Waves)
    (hc : d.mCurrFrameResource = some c) (hb : d.WavesVB[c]? = some b)
    (hcap : (ops.VertexCount
      (stepWaves ops gt (scheduleDisturbance ops rnd mTimer d)).mWaves).toNat ≤ b.length)
    (hs : currSlot s = some (c, fr)) (hw : s.mWaves = some wv)
    (hn : (ops.VertexCount
      (stepWaves ops gt (scheduleDisturbance ops rnd mTimer d)).mWaves).toNat = wv.VertexCount) :
    ∃ t d1, UpdateWaves s = some t ∧ UpdateWavesData ops rnd mTimer gt d = some d1 ∧
      uploads Region.wavesVB t.trace =
        uploads Region.wavesVB s.trace ++ d1.copies.drop d.copies.length := by
  obtain ⟨d1, b1, h1, h2, _, _, _, _, _, _, _, h10⟩ :=
    UpdateWavesData_parts ops rnd mTimer gt d c b hc hb hcap
  have ht : UpdateWaves s = some
      { s with trace := s.trace ++ waveWrites c fr.Fence s.mFence wv.VertexCount } := by
    simp [UpdateWaves, hw, hs]
  refine ⟨_, d1, ht, h1, ?_⟩
  rw [h10, h2, hn]
  simp [uploads_append, uploads_waveWrites]

/-! ## Claims C14 and C21: the scheduler over many calls -/

theorem disturbances_append (a b : List WaveCall) :
    disturbances (a ++ b) = disturbances a + disturbances b := by
  induction a with
  | nil => simp [disturbances]
  | cons c rest ih =>
    cases c with
    | Disturb i j r =>
      show disturbances (rest ++ b) + 1 = disturbances rest + 1 + disturbances b
      omega
    | Update dt => exact ih

/-- One call: the time base and the number of disturbances after the scheduler
and the simulation step. -/
theorem schedule_step {W : Type} (ops : WavesOps W) (rnd : RandomSource)
    (mTimer gt : GameTimer) (d : WaveState W) :
    (roundF32 (mTimer.TotalTime - d.t_base) ≥ 1 / 4 ∧
      (stepWaves ops gt (scheduleDisturbance ops rnd mTimer d)).t_base =
        roundF32 (d.t_base + 1 / 4) ∧
      disturbances (stepWaves ops gt (scheduleDisturbance ops rnd mTimer d)).calls =
        disturbances d.calls + 1) ∨
    (¬ roundF32 (mTimer.TotalTime - d.t_base) ≥ 1 / 4 ∧
      (stepWaves ops gt (scheduleDisturbance ops rnd mTimer d)).t_base = d.t_base ∧
      disturbances (stepWaves ops gt (scheduleDisturbance ops rnd mTimer d)).calls =
        disturbances d.calls) := by
  rcases scheduleDisturbance_cases ops rnd mTimer d with ⟨hdue, hs⟩ | ⟨hdue, hs⟩
  · left
    rw [hs]
    refine ⟨hdue, rfl, ?_⟩
    simp only [stepWaves, disturbances_append, disturbances]
  · right
    rw [hs]
    refine ⟨hdue, rfl, ?_⟩
    simp only [stepWaves, disturbances_append, disturbances]
    omega

/-- The number of disturbances does not go down from call to call. -/
theorem disturbances_le_scheduleFrames {W : Type} (ops : WavesOps W) (rnd : RandomSource)
    (frames : List (GameTimer × GameTimer)) (d : WaveState W) :
    disturbances d.calls ≤ disturbances (scheduleFrames ops rnd frames d).calls ∧
    disturbances (scheduleFrames ops rnd frames d).calls ≤ disturbances d.calls + frames.length := by
  induction frames generalizing d with
  | nil => exact ⟨le_refl _, le_refl _⟩
  | cons f rest ih =>
    obtain ⟨i1, i2⟩ := ih (stepWaves ops f.2 (scheduleDisturbance ops rnd f.1 d))
    have hstep : disturbances d.calls ≤
          disturbances (stepWaves ops f.2 (scheduleDisturbance ops rnd f.1 d)).calls ∧
        disturbances (stepWaves ops f.2 (scheduleDisturbance ops rnd f.1 d)).calls ≤
          disturbances d.calls + 1 := by
      rcases schedule_step ops rnd f.1 f.2 d with ⟨_, _, h2⟩ | ⟨_, _, h2⟩ <;> omega
    simp only [scheduleFrames, List.length_cons]
    omega

/-- The invariant of the scheduler, as long as no more than `2^24` disturbances are
made: the time base is a quarter of the number of disturbances, and it is at
most the time of the last call. -/
theorem scheduleFrames_inv {W : Type} (ops : WavesOps W) (rnd : RandomSource)
    (frames : List (GameTimer × GameTimer)) (d : WaveState W)
    (hcnt : d.t_base = 1 / 4 * (disturbances d.calls : ℚ))
    (hT : ∀ f ∈ frames, d.t_base ≤ f.1.TotalTime)
    (hF : ∀ f ∈ frames, IsF32 f.1.TotalTime)
    (hmono : (frames.map fun f => f.1.TotalTime).Pairwise (· ≤ ·))
    (hbound : disturbances (scheduleFrames ops rnd frames d).calls ≤ 16777216) :
    (scheduleFrames ops rnd frames d).t_base =
      1 / 4 * (disturbances (scheduleFrames ops rnd frames d).calls : ℚ) ∧
    ∀ f, frames.getLast? = some f → (scheduleFrames ops rnd frames d).t_base ≤ f.1.TotalTime := by
  induction frames generalizing d with
  | nil => exact ⟨hcnt, fun f hf => by simp at hf⟩
  | cons f rest ih =>
    simp only [List.map_cons, List.pairwise_cons] at hmono
    obtain ⟨hhead, htail⟩ := hmono
    have hf := hT f (List.mem_cons_self _ _)
    have hfF := hF f (List.mem_cons_self _ _)
    have hb2 : disturbances
        (scheduleFrames ops rnd rest (stepWaves ops f.2 (scheduleDisturbance ops rnd f.1 d))).calls
        ≤ 16777216 := hbound
    have hle := (disturbances_le_scheduleFrames ops rnd rest
      (stepWaves ops f.2 (scheduleDisturbance ops rnd f.1 d))).1
    have hq : d.t_base = ((disturbances d.calls : Nat) : ℚ) / 4 := by rw [hcnt]; ring
    have hstep : (stepWaves ops f.2 (scheduleDisturbance ops rnd f.1 d)).t_base =
          1 / 4 * (disturbances
            (stepWaves ops f.2 (scheduleDisturbance ops rnd f.1 d)).calls : ℚ) ∧
        (stepWaves ops f.2 (scheduleDisturbance ops rnd f.1 d)).t_base ≤ f.1.TotalTime := by
      rcases schedule_step ops rnd f.1 f.2 d with ⟨hdue, h1, h2⟩ | ⟨_, h1, h2⟩
      · have hk : disturbances d.calls < 16777216 := by omega
        rw [hq] at hdue
        have hex := (roundF32_sub_ge_iff _ _ hfF (le_of_lt hk)).mp hdue
        rw [h1, h2, hq, roundF32_add_quarter _ hk]
        constructor
        · push_cast; ring
        · linarith
      · rw [h1, h2]
        exact ⟨hcnt, hf⟩
    have hT2 : ∀ g ∈ rest,
        (stepWaves ops f.2 (scheduleDisturbance ops rnd f.1 d)).t_base ≤ g.1.TotalTime := by
      intro g hg
      exact le_trans hstep.2 (hhead _ (List.mem_map.mpr ⟨g, hg, rfl⟩))
    have hF2 : ∀ g ∈ rest, IsF32 g.1.TotalTime := fun g hg => hF g (List.mem_cons_of_mem _ hg)
    obtain ⟨i1, i2⟩ := ih _ hstep.1 hT2 hF2 htail hb2
    refine ⟨i1, fun g hg => ?_⟩
    cases rest with
    | nil =>
      simp only [List.getLast?_singleton, Option.some.injEq] at hg
      subst hg
      exact hstep.2
    | cons a as =>
      rw [List.getLast?_cons_cons] at hg
      exact i2 g hg

/-- When `UpdateWaves` returns, the time base, the call log and the wave field are
those its first two statements left. -/
theorem UpdateWavesData_schedule {W : Type} (ops : WavesOps W) (rnd : RandomSource)
    (mTimer gt : GameTimer) (d d1 : WaveState W)
    (h : UpdateWavesData ops rnd mTimer gt d = some d1) :
    d1.t_base = (stepWaves ops gt (scheduleDisturbance ops rnd mTimer d)).t_base ∧
    d1.calls = (stepWaves ops gt (scheduleDisturbance ops rnd mTimer d)).calls ∧
    d1.mWaves = (stepWaves ops gt (scheduleDisturbance ops rnd mTimer d)).mWaves := by
  unfold UpdateWavesData at h
  simp only at h
  split at h
  · simp at h
  · split at h
    · simp at h
    · split at h
      · simp at h
      · simp only [Option.some.injEq] at h
        subst h
        exact ⟨rfl, rfl, rfl⟩

theorem schedule_congr {W : Type} (ops : WavesOps W) (rnd : RandomSource)
    (mTimer gt : GameTimer) (a b : WaveState W)
    (h1 : a.t_base = b.t_base) (h2 : a.calls = b.calls) (h3 : a.mWaves = b.mWaves) :
    (stepWaves ops gt (scheduleDisturbance ops rnd mTimer a)).t_base =
      (stepWaves ops gt (scheduleDisturbance ops rnd mTimer b)).t_base ∧
    (stepWaves ops gt (scheduleDisturbance ops rnd mTimer a)).calls =
      (stepWaves ops gt (scheduleDisturbance ops rnd mTimer b)).calls ∧
    (stepWaves ops gt (scheduleDisturbance ops rnd mTimer a)).mWaves =
      (stepWaves ops gt (scheduleDisturbance ops rnd mTimer b)).mWaves := by
  by_cases hdue : roundF32 (mTimer.TotalTime - a.t_base) ≥ 1 / 4
  · have hdue2 : roundF32 (mTimer.TotalTime - b.t_base) ≥ 1 / 4 := by rw [← h1]; exact hdue
    simp only [stepWaves, scheduleDisturbance, if_pos hdue, if_pos hdue2, h1, h2, h3]
    exact ⟨trivial, trivial, trivial⟩
  · have hdue2 : ¬ roundF32 (mTimer.TotalTime - b.t_base) ≥ 1 / 4 := by rw [← h1]; exact hdue
    simp only [stepWaves, scheduleDisturbance, if_neg hdue, if_neg hdue2, h1, h2, h3]
    exact ⟨trivial, trivial, trivial⟩

theorem scheduleFrames_congr {W : Type} (ops : WavesOps W) (rnd : RandomSource)
    (frames : List (GameTimer × GameTimer)) (a b : WaveState W)
    (h1 : a.t_base = b.t_base) (h2 : a.calls = b.calls) (h3 : a.mWaves = b.mWaves) :
    (scheduleFrames ops rnd frames a).t_base = (scheduleFrames ops rnd frames b).t_base ∧
    (scheduleFrames ops rnd frames a).calls = (scheduleFrames ops rnd frames b).calls ∧
    (scheduleFrames ops rnd frames a).mWaves = (scheduleFrames ops rnd frames b).mWaves := by
  induction frames generalizing a b with
  | nil => exact ⟨h1, h2, h3⟩
  | cons f rest ih =>
    obtain ⟨g1, g2, g3⟩ := schedule_congr ops rnd f.1 f.2 a b h1 h2 h3
    exact ih _ _ g1 g2 g3

theorem UpdateWavesFrames_schedule {W : Type} (ops : WavesOps W) (rnd : RandomSource)
    (frames : List (GameTimer × GameTimer)) (d d2 : WaveState W)
    (h : UpdateWavesFrames ops rnd frames d = some d2) :
    d2.t_base = (scheduleFrames ops rnd frames d).t_base ∧
    d2.calls = (scheduleFrames ops rnd frames d).calls ∧
    d2.mWaves = (scheduleFrames ops rnd frames d).mWaves := by
  induction frames generalizing d with
  | nil =>
    have h1 : some d = some d2 := h
    rw [← Option.some.inj h1]
    exact ⟨rfl, rfl, rfl⟩
  | cons f rest ih =>
    have hb : (UpdateWavesData ops rnd f.1 f.2 d).bind (UpdateWavesFrames ops rnd rest)
        = some d2 := h
    obtain ⟨d1, hd1, hrest⟩ := Option.bind_eq_some.mp hb
    obtain ⟨a1, a2, a3⟩ := UpdateWavesData_schedule ops rnd f.1 f.2 d d1 hd1
    obtain ⟨b1, b2, b3⟩ := ih d1 hrest
    obtain ⟨c1, c2, c3⟩ := scheduleFrames_congr ops rnd rest d1
      (stepWaves ops f.2 (scheduleDisturbance ops rnd f.1 d)) a1 a2 a3
    exact ⟨b1.trans c1, b2.trans c2, b3.trans c3⟩

/-- The scheduler run on a list of frames followed by another. -/
theorem scheduleFrames_append {W : Type} (ops : WavesOps W) (rnd : RandomSource)
    (f1 f2 : List (GameTimer × GameTimer)) (d : WaveState W) :
    scheduleFrames ops rnd (f1 ++ f2) d = scheduleFrames ops rnd f2 (scheduleFrames ops rnd f1 d) := by
  induction f1 generalizing d with
  | nil => rfl
  | cons f rest ih => exact ih _

/-- The same frame `n` times, at a `float` time that stays ahead of the time base:
every call fires, and while the count stays within `2^24` each adds exactly a
quarter to the time base. -/
theorem scheduleFrames_replicate {W : Type} (ops : WavesOps W) (rnd : RandomSource)
    (f : GameTimer × GameTimer) (n : Nat) (d : WaveState W) (k : Nat)
    (ht : d.t_base = (k : ℚ) / 4) (hkn : k + n ≤ 16777216)
    (hT : ((k + n : Nat) : ℚ) / 4 ≤ f.1.TotalTime) :
    (scheduleFrames ops rnd (List.replicate n f) d).t_base = ((k + n : Nat) : ℚ) / 4 ∧
    disturbances (scheduleFrames ops rnd (List.replicate n f) d).calls =
      disturbances d.calls + n := by
  induction n generalizing d k with
  | zero => exact ⟨ht, rfl⟩
  | succ n ih =>
    have hdue : roundF32 (f.1.TotalTime - d.t_base) ≥ 1 / 4 := by
      apply quarter_le_roundF32
      rw [ht]
      have hn0 : (0 : ℚ) ≤ (n : ℚ) := Nat.cast_nonneg n
      push_cast at hT
      linarith
    have hstep : (stepWaves ops f.2 (scheduleDisturbance ops rnd f.1 d)).t_base =
          ((k + 1 : Nat) : ℚ) / 4 ∧
        disturbances (stepWaves ops f.2 (scheduleDisturbance ops rnd f.1 d)).calls =
          disturbances d.calls + 1 := by
      rcases schedule_step ops rnd f.1 f.2 d with ⟨_, h1, h2⟩ | ⟨hn, _, _⟩
      · rw [h1, h2, ht, roundF32_add_quarter k (by omega)]
        exact ⟨by push_cast; ring, rfl⟩
      · exact absurd hdue hn
    have hT2 : ((k + 1 + n : Nat) : ℚ) / 4 ≤ f.1.TotalTime := by
      have e : k + 1 + n = k + (n + 1) := by omega
      rw [e]
      exact hT
    obtain ⟨i1, i2⟩ := ih (stepWaves ops f.2 (scheduleDisturbance ops rnd f.1 d)) (k + 1)
      hstep.1 (by omega) hT2
    have e2 : k + 1 + n = k + (n + 1) := by omega
    rw [e2] at i1
    rw [hstep.2] at i2
    exact ⟨i1, by rw [List.replicate_succ]; exact i2.trans (by omega)⟩

/-- The calls of `UpdateWaves` all return when the buffer of the current slot has
room for the vertices of every wave field the calls can reach (`Q` holds of
the field at the start and is kept by `Disturb` and `Update`). -/
theorem UpdateWavesFrames_total {W : Type} (ops : WavesOps W) (rnd : RandomSource)
    (Q : W → Prop) (n : Nat)
    (hQD : ∀ w i j r, Q w → Q (ops.Disturb w i j r))
    (hQU : ∀ w dt, Q w → Q (ops.Update w dt))
    (hcap : ∀ w, Q w → (ops.VertexCount w).toNat ≤ n)
    (frames : List (GameTimer × GameTimer)) (d : WaveState W) (c : Nat)
    (b : List (Option Vertex)) (hQ : Q d.mWaves)
    (hc : d.mCurrFrameResource = some c) (hb : d.WavesVB[c]? = some b) (hn : b.length = n) :
    ∃ d2, UpdateWavesFrames ops rnd frames d = some d2 := by
  induction frames generalizing d b with
  | nil => exact ⟨d, rfl⟩
  | cons f rest ih =>
    have hQ1 : Q (stepWaves ops f.2 (scheduleDisturbance ops rnd f.1 d)).mWaves := by
      unfold stepWaves scheduleDisturbance
      split
      · exact hQU _ _ (hQD _ _ _ _ hQ)
      · exact hQU _ _ hQ
    obtain ⟨d1, b1, h1, h2, _, _, h5, h6, h7, _, _, _⟩ :=
      UpdateWavesData_parts ops rnd f.1 f.2 d c b hc hb (by rw [hn]; exact hcap _ hQ1)
    have hb1 : d1.WavesVB[c]? = some b1 := by
      rw [h6, List.getElem?_set]
      have hlt : c < d.WavesVB.length := by
        rcases List.getElem?_eq_some.mp hb with ⟨hlt, _⟩
        exact hlt
      simp [hlt]
    obtain ⟨d2, hd2⟩ := ih d1 b1 (by rw [h2]; exact hQ1) h5 hb1 (h7.trans hn)
    exact ⟨d2, by simp only [UpdateWavesFrames, h1, Option.some_bind, hd2]⟩

/-- The stand-in wave field keeps its 9 x 9 size under `Disturb` and `Update`, and a
field of this size has 81 vertices. -/
theorem flatWaves_keeps_size :
    (∀ (w : WaveField) (i j : Int) (r : ℚ), (w.m = 9 ∧ w.n = 9) →
      ((flatWaves.Disturb w i j r).m = 9 ∧ (flatWaves.Disturb w i j r).n = 9)) ∧
    (∀ (w : WaveField) (dt : ℚ), (w.m = 9 ∧ w.n = 9) →
      ((flatWaves.Update w dt).m = 9 ∧ (flatWaves.Update w dt).n = 9)) ∧
    (∀ w : WaveField, (w.m = 9 ∧ w.n = 9) → (flatWaves.VertexCount w).toNat ≤ 81) := by
  refine ⟨?_, ?_, ?_⟩
  · intro w i j r hw
    simp only [flatWaves]
    cases hd : w.disturb i j r with
    | error e => exact hw
    | ok w1 =>
      simp only
      unfold WaveField.disturb at hd
      split at hd
      · simp only [Except.ok.injEq] at hd
        subst hd
        simpa [WaveField.raise] using hw
      · simp at hd
  · intro w dt hw
    exact hw
  · intro w hw
    simp [flatWaves, WaveField.vertexCount, hw.1, hw.2]

/-- C21, the claim as stated, at `2^24 + 1 = 16777217` calls of `UpdateWaves`, all
at the `float` time `TotalTime = 2^23 = 8388608`, from `t_base = 0`: every call
fires, the first `2^24` of them bring `t_base` to `2^22 = 4194304`, and there
`t_base += 0.25f` leaves `t_base` as it is (the sum is rounded back to `2^22`).
After the last call there are 16777217 disturbances, and `t_base` is
`4194304`, not a quarter of their number. -/
theorem t_base_stalls_after_16777216_disturbances :
    demoWaves.t_base = 0 ∧ demoWaves.calls = [] ∧ IsF32 lateFrame.1.TotalTime ∧
    (∀ f ∈ List.replicate 16777217 lateFrame, IsF32 f.1.TotalTime ∧ 0 ≤ f.1.TotalTime) ∧
    ((List.replicate 16777217 lateFrame).map fun f => f.1.TotalTime).Pairwise (· ≤ ·) ∧
    ∃ d2, UpdateWavesFrames flatWaves demoRandom (List.replicate 16777217 lateFrame) demoWaves
        = some d2 ∧
      d2.t_base = (scheduleFrames flatWaves demoRandom (List.replicate 16777217 lateFrame)
        demoWaves).t_base ∧
      d2.calls = (scheduleFrames flatWaves demoRandom (List.replicate 16777217 lateFrame)
        demoWaves).calls ∧
      disturbances d2.calls = 16777217 ∧ d2.t_base = 4194304 ∧
      d2.t_base ≠ 1 / 4 * (disturbances d2.calls : ℚ) := by
  have hF : IsF32 lateFrame.1.TotalTime :=
    ⟨1, 23, by norm_num, by norm_num, by norm_num, by norm_num [lateFrame]⟩
  have hsplit : List.replicate 16777217 lateFrame =
      List.replicate 16777216 lateFrame ++ [lateFrame] :=
    List.replicate_succ' 16777216 lateFrame
  obtain ⟨p1, p2⟩ := scheduleFrames_replicate flatWaves demoRandom lateFrame 16777216 demoWaves 0
    (by norm_num [demoWaves]) (by norm_num) (by norm_num [lateFrame])
  have hrun : scheduleFrames flatWaves demoRandom (List.replicate 16777217 lateFrame) demoWaves =
      stepWaves flatWaves lateFrame.2 (scheduleDisturbance flatWaves demoRandom lateFrame.1
        (scheduleFrames flatWaves demoRandom (List.replicate 16777216 lateFrame) demoWaves)) := by
    rw [hsplit, scheduleFrames_append]
    rfl
  have hlast : (scheduleFrames flatWaves demoRandom (List.replicate 16777217 lateFrame)
        demoWaves).t_base = 4194304 ∧
      disturbances (scheduleFrames flatWaves demoRandom (List.replicate 16777217 lateFrame)
        demoWaves).calls = 16777217 := by
    rw [hrun]
    generalize scheduleFrames flatWaves demoRandom (List.replicate 16777216 lateFrame)
      demoWaves = e at p1 p2
    have hb : e.t_base = 4194304 := by rw [p1]; norm_num
    have hdue : roundF32 (lateFrame.1.TotalTime - e.t_base) ≥ 1 / 4 := by
      apply quarter_le_roundF32
      rw [hb]
      norm_num [lateFrame]
    rcases schedule_step flatWaves demoRandom lateFrame.1 lateFrame.2 e with
      ⟨_, h1, h2⟩ | ⟨hn, _, _⟩
    · rw [h1, h2, hb, roundF32_tie, p2]
      exact ⟨rfl, rfl⟩
    · exact absurd hdue hn
  obtain ⟨d2, hd2⟩ := UpdateWavesFrames_total flatWaves demoRandom
    (fun w => w.m = 9 ∧ w.n = 9) 81 flatWaves_keeps_size.1 flatWaves_keeps_size.2.1
    flatWaves_keeps_size.2.2 (List.replicate 16777217 lateFrame) demoWaves 1
    (List.replicate 81 none) ⟨rfl, rfl⟩ rfl rfl (List.length_replicate _ _)
  obtain ⟨e1, e2, _⟩ := UpdateWavesFrames_schedule flatWaves demoRandom _ demoWaves d2 hd2
  refine ⟨rfl, rfl, hF, ?_, ?_, d2, hd2, e1, e2, by rw [e2]; exact hlast.2,
    by rw [e1]; exact hlast.1, ?_⟩
  · intro f hf
    rw [List.eq_of_mem_replicate hf]
    exact ⟨hF, by norm_num [lateFrame]⟩
  · rw [List.map_replicate]
    exact List.pairwise_replicate.mpr (Or.inr (le_refl _))
  · rw [e1, e2, hlast.1, hlast.2]
    norm_num

/-- The calls of `UpdateWaves` on a list of frames followed by another. -/
theorem UpdateWavesFrames_append {W : Type} (ops : WavesOps W) (rnd : RandomSource)
    (f1 f2 : List (GameTimer × GameTimer)) (d : WaveState W) :
    UpdateWavesFrames ops rnd (f1 ++ f2) d =
      (UpdateWavesFrames ops rnd f1 d).bind (UpdateWavesFrames ops rnd f2) := by
  induction f1 generalizing d with
  | nil => rfl
  | cons f rest ih =>
    show (UpdateWavesData ops rnd f.1 f.2 d).bind (UpdateWavesFrames ops rnd (rest ++ f2)) =
      ((UpdateWavesData ops rnd f.1 f.2 d).bind (UpdateWavesFrames ops rnd rest)).bind
        (UpdateWavesFrames ops rnd f2)
    cases UpdateWavesData ops rnd f.1 f.2 d with
    | none => rfl
    | some d1 => exact ih d1

/-- C14, the claim as stated, in the state reached from the start (`t_base = 0`) by
`2^24 = 16777216` calls of `UpdateWaves` at the `float` time
`TotalTime = 2^23 = 8388608`: there `t_base = 2^22 = 4194304`.  In the next call
`TotalTime - t_base = 2^22 ≥ 0.25`, so `UpdateWaves` calls `Disturb` (once,
before the one `Update`), but `t_base + 0.25` lies halfway between the
neighbouring `float` values `2^22` and `2^22 + 0.5` and `t_base += 0.25f` stores
`2^22`: `t_base` has not grown by 0.25. -/
theorem t_base_increment_lost :
    demoWaves.t_base = 0 ∧ IsF32 lateFrame.1.TotalTime ∧
    ∃ d d1, UpdateWavesFrames flatWaves demoRandom (List.replicate 16777216 lateFrame)
        demoWaves = some d ∧
      d.t_base = 4194304 ∧ lateFrame.1.TotalTime - d.t_base ≥ 1 / 4 ∧
      UpdateWavesData flatWaves demoRandom lateFrame.1 lateFrame.2 d = some d1 ∧
      (∃ i j r, d1.calls =
        d.calls ++ [WaveCall.Disturb i j r, WaveCall.Update lateFrame.2.DeltaTime]) ∧
      d1.t_base = 4194304 ∧ d1.t_base ≠ d.t_base + 1 / 4 := by
  have hF : IsF32 lateFrame.1.TotalTime :=
    ⟨1, 23, by norm_num, by norm_num, by norm_num, by norm_num [lateFrame]⟩
  obtain ⟨d2, hd2⟩ := UpdateWavesFrames_total flatWaves demoRandom
    (fun w => w.m = 9 ∧ w.n = 9) 81 flatWaves_keeps_size.1 flatWaves_keeps_size.2.1
    flatWaves_keeps_size.2.2 (List.replicate 16777216 lateFrame ++ [lateFrame]) demoWaves 1
    (List.replicate 81 none) ⟨rfl, rfl⟩ rfl rfl (List.length_replicate _ _)
  rw [UpdateWavesFrames_append] at hd2
  obtain ⟨d, hd, hlast⟩ := Option.bind_eq_some.mp hd2
  have hone : UpdateWavesData flatWaves demoRandom lateFrame.1 lateFrame.2 d = some d2 := by
    have h : (UpdateWavesData flatWaves demoRandom lateFrame.1 lateFrame.2 d).bind
        (UpdateWavesFrames flatWaves demoRandom []) = some d2 := hlast
    obtain ⟨x, hx, hx2⟩ := Option.bind_eq_some.mp h
    have hx3 : some x = some d2 := hx2
    rw [hx, hx3]
  obtain ⟨p1, _⟩ := scheduleFrames_replicate flatWaves demoRandom lateFrame 16777216 demoWaves 0
    (by norm_num [demoWaves]) (by norm_num) (by norm_num [lateFrame])
  obtain ⟨e1, _, _⟩ := UpdateWavesFrames_schedule flatWaves demoRandom _ demoWaves d hd
  have hb : d.t_base = 4194304 := by rw [e1, p1]; norm_num
  have hex : lateFrame.1.TotalTime - d.t_base ≥ 1 / 4 := by
    rw [hb]
    norm_num [lateFrame]
  obtain ⟨g1, g2, _⟩ := UpdateWavesData_schedule flatWaves demoRandom lateFrame.1 lateFrame.2
    d d2 hone
  rcases scheduleDisturbance_cases flatWaves demoRandom lateFrame.1 d with ⟨_, hs⟩ | ⟨hn, _⟩
  · rw [hs] at g1 g2
    have ht : d2.t_base = 4194304 := by
      rw [g1]
      show roundF32 (d.t_base + 1 / 4) = 4194304
      rw [hb, roundF32_tie]
    refine ⟨rfl, hF, d, d2, hd, hb, hex, hone,
      ⟨demoRandom.RandRow 4 (flatWaves.RowCount d.mWaves - 5),
        demoRandom.RandCol 4 (flatWaves.ColumnCount d.mWaves - 5),
        demoRandom.RandF (1 / 5) (1 / 2), ?_⟩, ht, ?_⟩
    · rw [g2]
      simp [stepWaves]
    · rw [ht, hb]
      norm_num
  · exact absurd (quarter_le_roundF32 _ hex) hn

/-- C21, amended: start with `t_base = 0` and no call made, and let `UpdateWaves` be
called any number of times with finite `float` values `TotalTime ≥ 0`,
non-decreasing from call to call, as long as no more than `2^24 = 16777216`
disturbances are made.  After the calls `t_base` is 0.25 times the number of
`Disturb` calls made so far, `t_base` is at most the `TotalTime` of the last
call, and so the number of `Disturb` calls is at most
`floor(TotalTime / 0.25)`; this holds for the first two statements of
`UpdateWaves`, which always return, and for every state the calls of
`UpdateWaves` return.  Whether the scheduler fires, and the `t_base` it
leaves, depend on no state but `t_base`, and it changes nothing but `t_base`,
the wave field and the call log. -/
theorem scheduler_t_base_counts_disturbances {W : Type} (ops : WavesOps W) (rnd : RandomSource)
    (frames : List (GameTimer × GameTimer)) (d : WaveState W)
    (h0 : d.t_base = 0) (hcalls : d.calls = [])
    (hpos : ∀ f ∈ frames, 0 ≤ f.1.TotalTime)
    (hF : ∀ f ∈ frames, IsF32 f.1.TotalTime)
    (hmono : (frames.map fun f => f.1.TotalTime).Pairwise (· ≤ ·))
    (hbound : disturbances (scheduleFrames ops rnd frames d).calls ≤ 16777216) :
    ((scheduleFrames ops rnd frames d).t_base =
        1 / 4 * (disturbances (scheduleFrames ops rnd frames d).calls : ℚ) ∧
      ∀ f, frames.getLast? = some f →
        (scheduleFrames ops rnd frames d).t_base ≤ f.1.TotalTime ∧
        (disturbances (scheduleFrames ops rnd frames d).calls : Int) ≤
          ⌊f.1.TotalTime / (1 / 4)⌋) ∧
    (∀ d2, UpdateWavesFrames ops rnd frames d = some d2 →
      d2.t_base = 1 / 4 * (disturbances d2.calls : ℚ) ∧
      ∀ f, frames.getLast? = some f →
        d2.t_base ≤ f.1.TotalTime ∧ (disturbances d2.calls : Int) ≤ ⌊f.1.TotalTime / (1 / 4)⌋) ∧
    (∀ (mTimer : GameTimer) (a b : WaveState W), a.t_base = b.t_base →
      ((roundF32 (mTimer.TotalTime - a.t_base) ≥ 1 / 4) ↔
        (roundF32 (mTimer.TotalTime - b.t_base) ≥ 1 / 4)) ∧
      (scheduleDisturbance ops rnd mTimer a).t_base =
        (scheduleDisturbance ops rnd mTimer b).t_base ∧
      disturbances (scheduleDisturbance ops rnd mTimer a).calls - disturbances a.calls =
        disturbances (scheduleDisturbance ops rnd mTimer b).calls - disturbances b.calls ∧
      (scheduleDisturbance ops rnd mTimer a).mCurrFrameResource = a.mCurrFrameResource ∧
      (scheduleDisturbance ops rnd mTimer a).WavesVB = a.WavesVB ∧
      (scheduleDisturbance ops rnd mTimer a).VertexBufferGPU = a.VertexBufferGPU ∧
      (scheduleDisturbance ops rnd mTimer a).copies = a.copies) := by
  have hcnt : d.t_base = 1 / 4 * (disturbances d.calls : ℚ) := by
    rw [h0, hcalls]; simp [disturbances]
  have hT : ∀ f ∈ frames, d.t_base ≤ f.1.TotalTime := by
    intro f hf; rw [h0]; exact hpos f hf
  obtain ⟨i1, i2⟩ := scheduleFrames_inv ops rnd frames d hcnt hT hF hmono hbound
  have hfloor : ∀ f, frames.getLast? = some f →
      (scheduleFrames ops rnd frames d).t_base ≤ f.1.TotalTime ∧
      (disturbances (scheduleFrames ops rnd frames d).calls : Int) ≤
        ⌊f.1.TotalTime / (1 / 4)⌋ := by
    intro f hf
    have hle := i2 f hf
    refine ⟨hle, ?_⟩
    rw [Int.le_floor]
    rw [i1] at hle
    push_cast
    rw [le_div_iff₀ (by norm_num)]
    linarith
  refine ⟨⟨i1, hfloor⟩, ?_, ?_⟩
  · intro d2 h2
    obtain ⟨e1, e2, _⟩ := UpdateWavesFrames_schedule ops rnd frames d d2 h2
    rw [e1, e2]
    exact ⟨i1, hfloor⟩
  · intro mTimer a b hab
    have hiff : (roundF32 (mTimer.TotalTime - a.t_base) ≥ 1 / 4) ↔
        (roundF32 (mTimer.TotalTime - b.t_base) ≥ 1 / 4) := by
      rw [hab]
    refine ⟨hiff, ?_⟩
    by_cases hdue : roundF32 (mTimer.TotalTime - a.t_base) ≥ 1 / 4
    · have hdue2 := hiff.mp hdue
      simp only [scheduleDisturbance, if_pos hdue, if_pos hdue2, hab, disturbances_append,
        disturbances]
      exact ⟨trivial, by omega, trivial, trivial, trivial, trivial⟩
    · have hdue2 : ¬ roundF32 (mTimer.TotalTime - b.t_base) ≥ 1 / 4 :=
        fun h => hdue (hiff.mpr h)
      simp only [scheduleDisturbance, if_neg hdue, if_neg hdue2, hab]
      exact ⟨trivial, by omega, trivial, trivial, trivial, trivial⟩

theorem demoTimes_ordered :
    (∀ f ∈ demoTimes, 0 ≤ f.1.TotalTime) ∧
    (∀ f ∈ demoTimes, IsF32 f.1.TotalTime) ∧
    (demoTimes.map fun f => f.1.TotalTime).Pairwise (· ≤ ·) := by
  refine ⟨?_, ?_, ?_⟩
  · intro f hf
    simp only [demoTimes, List.mem_cons, List.mem_singleton, List.not_mem_nil, or_false] at hf
    rcases hf with rfl | rfl | rfl | rfl <;> norm_num
  · intro f hf
    simp only [demoTimes, List.mem_cons, List.mem_singleton, List.not_mem_nil, or_false] at hf
    rcases hf with rfl | rfl | rfl | rfl
    · exact ⟨1, -3, by norm_num, by norm_num, by norm_num, by norm_num⟩
    · exact ⟨1, -1, by norm_num, by norm_num, by norm_num, by norm_num⟩
    · exact ⟨1, -1, by norm_num, by norm_num, by norm_num, by norm_num⟩
    · exact ⟨5, -3, by norm_num, by norm_num, by norm_num, by norm_num⟩
  · simp only [demoTimes, List.map_cons, List.map_nil, List.pairwise_cons, List.mem_cons,
      List.mem_singleton, List.not_mem_nil, forall_eq_or_imp, forall_eq, List.Pairwise.nil]
    norm_num

/-- The calls at `demoTimes` make at most four disturbances. -/
theorem demoTimes_bound :
    disturbances (scheduleFrames flatWaves demoRandom demoTimes demoWaves).calls ≤ 16777216 := by
  have h := (disturbances_le_scheduleFrames flatWaves demoRandom demoTimes demoWaves).2
  have h1 : disturbances demoWaves.calls = 0 := rfl
  have h2 : demoTimes.length = 4 := rfl
  omega

/-- One call at a `float` time, from a time base that is a multiple of a quarter
below `2^22`: the time base and the number of disturbances afterwards. -/
theorem schedule_step_quarters {W : Type} (ops : WavesOps W) (rnd : RandomSource)
    (mTimer gt : GameTimer) (d : WaveState W) (k : Nat) (hk : k < 16777216)
    (ht : d.t_base = (k : ℚ) / 4) (hF : IsF32 mTimer.TotalTime) :
    (mTimer.TotalTime - (k : ℚ) / 4 ≥ 1 / 4 →
      (stepWaves ops gt (scheduleDisturbance ops rnd mTimer d)).t_base = ((k + 1 : Nat) : ℚ) / 4 ∧
      disturbances (stepWaves ops gt (scheduleDisturbance ops rnd mTimer d)).calls =
        disturbances d.calls + 1) ∧
    (¬ mTimer.TotalTime - (k : ℚ) / 4 ≥ 1 / 4 →
      (stepWaves ops gt (scheduleDisturbance ops rnd mTimer d)).t_base = (k : ℚ) / 4 ∧
      disturbances (stepWaves ops gt (scheduleDisturbance ops rnd mTimer d)).calls =
        disturbances d.calls) := by
  have hiff := roundF32_sub_ge_iff mTimer.TotalTime k hF (le_of_lt hk)
  rw [← ht] at hiff
  constructor
  · intro hdue
    rcases schedule_step ops rnd mTimer gt d with ⟨_, h1, h2⟩ | ⟨hn, _, _⟩
    · rw [h1, h2, ht, roundF32_add_quarter k hk]
      exact ⟨by push_cast; ring, rfl⟩
    · exact absurd (hiff.mpr (by rw [ht]; exact hdue)) hn
  · intro hdue
    rcases schedule_step ops rnd mTimer gt d with ⟨hy, _, _⟩ | ⟨_, h1, h2⟩
    · exact absurd (by rw [← ht]; exact hiff.mp hy) hdue
    · rw [h1, h2, ht]
      exact ⟨rfl, rfl⟩

/-- The scheduler at `demoTimes`, evaluated: the second and the third call fire, so
`t_base` ends at 0.5 with two disturbances. -/
theorem demoTimes_run :
    (scheduleFrames flatWaves demoRandom demoTimes demoWaves).t_base = 1 / 2 ∧
    disturbances (scheduleFrames flatWaves demoRandom demoTimes demoWaves).calls = 2 ∧
    ∃ d2, UpdateWavesFrames flatWaves demoRandom demoTimes demoWaves = some d2 := by
  obtain ⟨hF0, hF, _⟩ := demoTimes_ordered
  have hrun : scheduleFrames flatWaves demoRandom demoTimes demoWaves =
      stepWaves flatWaves { TotalTime := 5 / 8, DeltaTime := 1 / 8 }
        (scheduleDisturbance flatWaves demoRandom { TotalTime := 5 / 8, DeltaTime := 1 / 8 }
      (stepWaves flatWaves { TotalTime := 1 / 2, DeltaTime := 0 }
        (scheduleDisturbance flatWaves demoRandom { TotalTime := 1 / 2, DeltaTime := 0 }
      (stepWaves flatWaves { TotalTime := 1 / 2, DeltaTime := 3 / 8 }
        (scheduleDisturbance flatWaves demoRandom { TotalTime := 1 / 2, DeltaTime := 3 / 8 }
      (stepWaves flatWaves { TotalTime := 1 / 8, DeltaTime := 1 / 8 }
        (scheduleDisturbance flatWaves demoRandom { TotalTime := 1 / 8, DeltaTime := 1 / 8 }
          demoWaves))))))) := rfl
  have f1 : IsF32 (1 / 8) := ⟨1, -3, by norm_num, by norm_num, by norm_num, by norm_num⟩
  have f2 : IsF32 (1 / 2) := ⟨1, -1, by norm_num, by norm_num, by norm_num, by norm_num⟩
  have f3 : IsF32 (5 / 8) := ⟨5, -3, by norm_num, by norm_num, by norm_num, by norm_num⟩
  obtain ⟨a1, a2⟩ := (schedule_step_quarters flatWaves demoRandom
    { TotalTime := 1 / 8, DeltaTime := 1 / 8 } { TotalTime := 1 / 8, DeltaTime := 1 / 8 }
    demoWaves 0 (by norm_num) (by norm_num [demoWaves]) f1).2 (by norm_num)
  obtain ⟨b1, b2⟩ := (schedule_step_quarters flatWaves demoRandom
    { TotalTime := 1 / 2, DeltaTime := 3 / 8 } { TotalTime := 1 / 2, DeltaTime := 3 / 8 }
    _ 0 (by norm_num) a1 f2).1 (by norm_num)
  obtain ⟨c1, c2⟩ := (schedule_step_quarters flatWaves demoRandom
    { TotalTime := 1 / 2, DeltaTime := 0 } { TotalTime := 1 / 2, DeltaTime := 0 }
    _ 1 (by norm_num) b1 f2).1 (by norm_num)
  obtain ⟨d1, d2⟩ := (schedule_step_quarters flatWaves demoRandom
    { TotalTime := 5 / 8, DeltaTime := 1 / 8 } { TotalTime := 5 / 8, DeltaTime := 1 / 8 }
    _ 2 (by norm_num) c1 f3).2 (by norm_num)
  refine ⟨?_, ?_, ?_⟩
  · rw [hrun, d1]
    norm_num
  · rw [hrun, d2, c2, b2, a2]
    rfl
  · exact UpdateWavesFrames_total flatWaves demoRandom (fun w => w.m = 9 ∧ w.n = 9) 81
      flatWaves_keeps_size.1 flatWaves_keeps_size.2.1 flatWaves_keeps_size.2.2
      demoTimes demoWaves 1 (List.replicate 81 none) ⟨rfl, rfl⟩ rfl rfl (by simp)

theorem scheduler_t_base_counts_disturbances_witness :
    (demoWaves.t_base = 0 ∧ demoWaves.calls = [] ∧
      (∀ f ∈ demoTimes, 0 ≤ f.1.TotalTime) ∧
      (∀ f ∈ demoTimes, IsF32 f.1.TotalTime) ∧
      (demoTimes.map fun f => f.1.TotalTime).Pairwise (· ≤ ·) ∧
      disturbances (scheduleFrames flatWaves demoRandom demoTimes demoWaves).calls ≤ 16777216) ∧
    (((scheduleFrames flatWaves demoRandom demoTimes demoWaves).t_base =
        1 / 4 * (disturbances (scheduleFrames flatWaves demoRandom demoTimes demoWaves).calls : ℚ) ∧
      ∀ f, demoTimes.getLast? = some f →
        (scheduleFrames flatWaves demoRandom demoTimes demoWaves).t_base ≤ f.1.TotalTime ∧
        (disturbances (scheduleFrames flatWaves demoRandom demoTimes demoWaves).calls : Int) ≤
          ⌊f.1.TotalTime / (1 / 4)⌋) ∧
    (∀ d2, UpdateWavesFrames flatWaves demoRandom demoTimes demoWaves = some d2 →
      d2.t_base = 1 / 4 * (disturbances d2.calls : ℚ) ∧
      ∀ f, demoTimes.getLast? = some f →
        d2.t_base ≤ f.1.TotalTime ∧ (disturbances d2.calls : Int) ≤ ⌊f.1.TotalTime / (1 / 4)⌋) ∧
    (∀ (mTimer : GameTimer) (a b : WaveState WaveField), a.t_base = b.t_base →
      ((roundF32 (mTimer.TotalTime - a.t_base) ≥ 1 / 4) ↔
        (roundF32 (mTimer.TotalTime - b.t_base) ≥ 1 / 4)) ∧
      (scheduleDisturbance flatWaves demoRandom mTimer a).t_base =
        (scheduleDisturbance flatWaves demoRandom mTimer b).t_base ∧
      disturbances (scheduleDisturbance flatWaves demoRandom mTimer a).calls -
          disturbances a.calls =
        disturbances (scheduleDisturbance flatWaves demoRandom mTimer b).calls -
          disturbances b.calls ∧
      (scheduleDisturbance flatWaves demoRandom mTimer a).mCurrFrameResource =
        a.mCurrFrameResource ∧
      (scheduleDisturbance flatWaves demoRandom mTimer a).WavesVB = a.WavesVB ∧
      (scheduleDisturbance flatWaves demoRandom mTimer a).VertexBufferGPU = a.VertexBufferGPU ∧
      (scheduleDisturbance flatWaves demoRandom mTimer a).copies = a.copies)) :=
  ⟨⟨rfl, rfl, demoTimes_ordered.1, demoTimes_ordered.2.1, demoTimes_ordered.2.2,
      demoTimes_bound⟩,
    scheduler_t_base_counts_disturbances flatWaves demoRandom demoTimes demoWaves rfl rfl
      demoTimes_ordered.1 demoTimes_ordered.2.1 demoTimes_ordered.2.2 demoTimes_bound⟩

/-! ## Claim C22: the water material -/

theorem mapFind_mapAssign_self (m : List (String × Option Material)) (k : String)
    (v : Option Material) : mapFind (mapAssign m k v) k = some v := by
  induction m with
  | nil => simp [mapAssign, mapFind]
  | cons e rest ih =>
    simp only [mapAssign]
    by_cases hk : e.1 = k
    · simp [hk, mapFind]
    · simp [hk, mapFind, ih]

theorem mapAssign_other (m : List (String × Option Material)) (k : String)
    (v : Option Material) (p : Nat) (e : String × Option Material)
    (hp : m[p]? = some e) (hk : e.1 ≠ k) : (mapAssign m k v)[p]? = some e := by
  induction m generalizing p with
  | nil => simp at hp
  | cons a rest ih =>
    simp only [mapAssign]
    cases p with
    | zero =>
      simp only [List.getElem?_cons_zero, Option.some.injEq] at hp
      subst hp
      simp [hk]
    | succ q =>
      simp only [List.getElem?_cons_succ] at hp
      by_cases ha : a.1 = k
      · simp [ha, hp]
      · simp [ha, ih q hp]

theorem mapFind_map (m : List (String × Option Material)) (k : String)
    (f : Option Material → Option Material) :
    mapFind (m.map fun p => (p.1, f p.2)) k = (mapFind m k).map f := by
  induction m with
  | nil => rfl
  | cons e rest ih =>
    simp only [List.map_cons, mapFind]
    by_cases hk : e.1 = k
    · simp [hk]
    · simp [hk, ih]

/-- The materials the loop of `UpdateMaterialCBs` leaves and the uploads it makes:
every material with a positive counter is uploaded and counted down by one,
in the order of the map, and nothing else happens. -/
theorem materialWrites_exact (i f c : Nat) (m : List (String × Option Material))
    (r : List (String × Option Material) × List Event)
    (h : materialWrites i f c m = some r) :
    r.1 = (m.map fun p => (p.1, p.2.map fun mat =>
      if mat.NumFramesDirty > 0 then { mat with NumFramesDirty := mat.NumFramesDirty - 1 }
      else mat)) ∧
    r.2 = m.filterMap fun p => p.2.bind fun mat =>
      if mat.NumFramesDirty > 0 then
        some (Event.write Region.materialCB mat.MatCBIndex i f c)
      else none := by
  induction m generalizing r with
  | nil =>
    simp only [materialWrites, Option.some.injEq] at h
    subst h
    exact ⟨rfl, rfl⟩
  | cons p rest ih =>
    obtain ⟨k, o⟩ := p
    cases o with
    | none => simp [materialWrites] at h
    | some mat =>
      simp only [materialWrites] at h
      cases hr : materialWrites i f c rest with
      | none => simp [hr] at h
      | some r0 =>
        obtain ⟨h1, h2⟩ := ih r0 hr
        simp only [hr] at h
        by_cases hd : mat.NumFramesDirty > 0
        · rw [if_pos hd] at h
          simp only [Option.some.injEq] at h
          subst h
          simp only [List.map_cons, List.filterMap_cons, Option.map_some', Option.some_bind,
            if_pos hd, ← h1, ← h2]
          exact ⟨trivial, trivial⟩
        · rw [if_neg hd] at h
          simp only [Option.some.injEq] at h
          subst h
          simp only [List.map_cons, List.filterMap_cons, Option.map_some', Option.some_bind,
            if_neg hd, ← h1, ← h2]
          exact ⟨trivial, trivial⟩

/-- After one `Update` in a sound state the counter of the water material is 2. -/
theorem Update_water (s t : App) (hs : Sound s) (h : Update s = some t) :
    ∃ w, mapFind s.mMaterials "water" = some (some w) ∧
      mapFind t.mMaterials "water" = some (some { w with NumFramesDirty := 2 }) := by
  obtain ⟨fr, w, r, wv, pre, _, _, hf, hr, _, e5, _⟩ := Update_exact s t hs h
  refine ⟨w, hf, ?_⟩
  rw [e5, (materialWrites_exact _ _ _ _ _ hr).1, mapFind_map, mapFind_mapAssign_self]
  simp [gNumFrameResources]

theorem run_water (ops : List Op) (s t : App) (hs : Sound s) (h : run ops s = some t)
    (hw : 1 ≤ updates ops ∨
      ∃ w, mapFind s.mMaterials "water" = some (some w) ∧ w.NumFramesDirty = 2) :
    ∃ w, mapFind t.mMaterials "water" = some (some w) ∧ w.NumFramesDirty = 2 := by
  induction ops generalizing s with
  | nil =>
    have h1 : some s = some t := h
    rw [← Option.some.inj h1]
    rcases hw with hu | hw
    · simp [updates] at hu
    · exact hw
  | cons o os ih =>
    have hb : (step o s).bind (run os) = some t := h
    obtain ⟨m, hm, hrest⟩ := Option.bind_eq_some.mp hb
    have sm := step_sound o s m hs hm
    cases o with
    | update =>
      obtain ⟨w, _, h2⟩ := Update_water s m hs hm
      exact ih m sm hrest (Or.inr ⟨_, h2, rfl⟩)
    | draw =>
      have hdr : Draw s = some m := hm
      obtain ⟨_, _, _, _, _, _, _, _, _, _, _, d9, _⟩ := Draw_spec s m hdr
      refine ih m sm hrest ?_
      rcases hw with hu | hw
      · left; simpa [updates_cons] using hu
      · right; rw [d9]; exact hw
    | gpu n =>
      have hg : some (gpuRun n s) = some m := hm
      have hme := Option.some.inj hg
      have g5 := (gpuRun_frame n s).2.2.2.2.1
      rw [hme] at g5
      refine ih m sm hrest ?_
      rcases hw with hu | hw
      · left; simpa [updates_cons] using hu
      · right; rw [g5]; exact hw

/-- C22: in a sound state `Update` returns.  The loop of `UpdateMaterialCBs` runs
on the material map in which `AnimateMaterials` has set the counter of the
water material to `gNumFrameResources = 3`; it uploads, into the current slot,
exactly the materials of that map whose counter is positive, in the order of
the map, so the water material is among them in every `Update`, and a material
other than water, which `AnimateMaterials` leaves as it was, is uploaded only if
its own counter is positive and is counted down by one then.  After the
`Update` the counter of the water material is 2, and it is 2 in every state of
a run of `Update`, `Draw` and consumer steps that contains an `Update`. -/
theorem water_uploaded_every_update (s : App) (hs : Sound s) :
    gNumFrameResources = 3 ∧
    (∃ (t : App) (w : Material) (fr : FrameResource)
        (r : List (String × Option Material) × List Event) (before after : List Event),
      Update s = some t ∧
      mapFind s.mMaterials "water" = some (some w) ∧
      mapFind (mapAssign s.mMaterials "water"
          (some { w with NumFramesDirty := gNumFrameResources })) "water" =
        some (some { w with NumFramesDirty := 3 }) ∧
      materialWrites ((s.mCurrFrameResourceIndex + 1) % 3).toNat fr.Fence t.mFence
        (mapAssign s.mMaterials "water" (some { w with NumFramesDirty := gNumFrameResources }))
        = some r ∧
      t.mCurrFrameResource = some ((s.mCurrFrameResourceIndex + 1) % 3).toNat ∧
      t.mMaterials = r.1 ∧ t.trace = s.trace ++ before ++ r.2 ++ after ∧
      r.2 = (mapAssign s.mMaterials "water"
          (some { w with NumFramesDirty := gNumFrameResources })).filterMap (fun p =>
        p.2.bind fun mat =>
          if mat.NumFramesDirty > 0 then
            some (Event.write Region.materialCB mat.MatCBIndex
              ((s.mCurrFrameResourceIndex + 1) % 3).toNat fr.Fence t.mFence)
          else none) ∧
      Event.write Region.materialCB w.MatCBIndex
        ((s.mCurrFrameResourceIndex + 1) % 3).toNat fr.Fence t.mFence ∈ r.2 ∧
      mapFind t.mMaterials "water" = some (some { w with NumFramesDirty := 2 }) ∧
      ∀ (p : Nat) (k : String) (mat : Material), s.mMaterials[p]? = some (k, some mat) →
        k ≠ "water" →
        (mapAssign s.mMaterials "water"
          (some { w with NumFramesDirty := gNumFrameResources }))[p]? = some (k, some mat) ∧
        t.mMaterials[p]? = some (k, some
          (if mat.NumFramesDirty > 0 then
            { mat with NumFramesDirty := mat.NumFramesDirty - 1 }
          else mat))) ∧
    ∀ (ops : List Op) (t : App), run ops s = some t → 1 ≤ updates ops →
      ∃ w, mapFind t.mMaterials "water" = some (some w) ∧ w.NumFramesDirty = 2 := by
  refine ⟨rfl, ?_, fun ops t hrun hu => run_water ops s t hs hrun (Or.inl hu)⟩
  obtain ⟨t, ht, _⟩ := Update_total s hs
  obtain ⟨fr0, m, t1, evs, _, hm, hup, hu1, _, _, hcm, _, _, _, _, hring, _, _⟩ := Update_parts s hs
  have ht1 : t1 = t := by
    rw [hu1] at ht
    exact Option.some.inj ht
  subst ht1
  obtain ⟨fr, w, r, wv, pre, _, _, hf, hr, _, e5, e6⟩ := Update_exact s t1 hs ht
  obtain ⟨x1, x2⟩ := materialWrites_exact _ _ _ _ _ hr
  obtain ⟨w2, hf2, hw2⟩ := Update_water s t1 hs ht
  have hww : w2 = w := by
    rw [hf] at hf2
    simpa using hf2.symm
  subst hww
  have hself := mapFind_mapAssign_self s.mMaterials "water"
    (some { w2 with NumFramesDirty := gNumFrameResources })
  refine ⟨t1, w2, fr, r, pre ++ (objectWrites ((s.mCurrFrameResourceIndex + 1) % 3).toNat
      fr.Fence t1.mFence s.mAllRitems).2,
    [Event.write Region.passCB 0 ((s.mCurrFrameResourceIndex + 1) % 3).toNat fr.Fence
      t1.mFence] ++ waveWrites ((s.mCurrFrameResourceIndex + 1) % 3).toNat fr.Fence t1.mFence
      wv.VertexCount,
    ht, hf, hself, hr, ?_, e5, ?_, x2, ?_, hw2, ?_⟩
  · rw [hring.2.1]
    exact (currSlot_parts m _ fr0 hcm).1
  · rw [e6]; simp only [List.append_assoc]
  · rw [x2, List.mem_filterMap]
    refine ⟨("water", some { w2 with NumFramesDirty := gNumFrameResources }),
      mapFind_mem _ _ _ hself, ?_⟩
    simp [gNumFrameResources]
  · intro p k mat hp hk
    have ho := mapAssign_other s.mMaterials "water"
      (some { w2 with NumFramesDirty := gNumFrameResources }) p (k, some mat) hp hk
    refine ⟨ho, ?_⟩
    rw [e5, x1, List.getElem?_map, ho]
    rfl

theorem water_uploaded_every_update_witness :
    Sound demoScene ∧
    (gNumFrameResources = 3 ∧
    (∃ (t : App) (w : Material) (fr : FrameResource)
        (r : List (String × Option Material) × List Event) (before after : List Event),
      Update demoScene = some t ∧
      mapFind demoScene.mMaterials "water" = some (some w) ∧
      mapFind (mapAssign demoScene.mMaterials "water"
          (some { w with NumFramesDirty := gNumFrameResources })) "water" =
        some (some { w with NumFramesDirty := 3 }) ∧
      materialWrites ((demoScene.mCurrFrameResourceIndex + 1) % 3).toNat fr.Fence t.mFence
        (mapAssign demoScene.mMaterials "water" (some { w with NumFramesDirty := gNumFrameResources }))
        = some r ∧
      t.mCurrFrameResource = some ((demoScene.mCurrFrameResourceIndex + 1) % 3).toNat ∧
      t.mMaterials = r.1 ∧ t.trace = demoScene.trace ++ before ++ r.2 ++ after ∧
      r.2 = (mapAssign demoScene.mMaterials "water"
          (some { w with NumFramesDirty := gNumFrameResources })).filterMap (fun p =>
        p.2.bind fun mat =>
          if mat.NumFramesDirty > 0 then
            some (Event.write Region.materialCB mat.MatCBIndex
              ((demoScene.mCurrFrameResourceIndex + 1) % 3).toNat fr.Fence t.mFence)
          else none) ∧
      Event.write Region.materialCB w.MatCBIndex
        ((demoScene.mCurrFrameResourceIndex + 1) % 3).toNat fr.Fence t.mFence ∈ r.2 ∧
      mapFind t.mMaterials "water" = some (some { w with NumFramesDirty := 2 }) ∧
      ∀ (p : Nat) (k : String) (mat : Material), demoScene.mMaterials[p]? = some (k, some mat) →
        k ≠ "water" →
        (mapAssign demoScene.mMaterials "water"
          (some { w with NumFramesDirty := gNumFrameResources }))[p]? = some (k, some mat) ∧
        t.mMaterials[p]? = some (k, some
          (if mat.NumFramesDirty > 0 then
            { mat with NumFramesDirty := mat.NumFramesDirty - 1 }
          else mat))) ∧
    ∀ (ops : List Op) (t : App), run ops demoScene = some t → 1 ≤ updates ops →
      ∃ w, mapFind t.mMaterials "water" = some (some w) ∧ w.NumFramesDirty = 2) :=
  ⟨by decide, water_uploaded_every_update demoScene (by decide)⟩

/-! ## Claim C23: object-constant indices -/

theorem BuildShape_items (a b : String) (s : App) :
    ∃ e : RenderItem, e.ObjCBIndex = s.mAllRitems.length % 4294967296 ∧
      (BuildShape a b s).mAllRitems = s.mAllRitems ++ [e] ∧
      (BuildShape a b s).mWaves = s.mWaves ∧
      (BuildShape a b s).mFrameResources = s.mFrameResources :=
  ⟨_, rfl, rfl, rfl, rfl⟩

theorem BuildShape_fold (cs : List (String × String)) (s : App)
    (hinv : ∀ (p : Nat) (e : RenderItem), s.mAllRitems[p]? = some e → e.ObjCBIndex = p)
    (hlen : s.mAllRitems.length + cs.length ≤ 4294967296) :
    (∀ (p : Nat) (e : RenderItem), (cs.foldl (fun acc c => BuildShape c.1 c.2 acc) s).mAllRitems[p]? = some e →
      e.ObjCBIndex = p) ∧
    (cs.foldl (fun acc c => BuildShape c.1 c.2 acc) s).mAllRitems.length =
      s.mAllRitems.length + cs.length ∧
    (cs.foldl (fun acc c => BuildShape c.1 c.2 acc) s).mWaves = s.mWaves ∧
    (cs.foldl (fun acc c => BuildShape c.1 c.2 acc) s).mFrameResources = s.mFrameResources := by
  induction cs generalizing s with
  | nil => exact ⟨hinv, rfl, rfl, rfl⟩
  | cons c rest ih =>
    obtain ⟨e, he, hitems, hw, hf⟩ := BuildShape_items c.1 c.2 s
    simp only [List.length_cons] at hlen
    have hinv1 : ∀ (p : Nat) (x : RenderItem), (BuildShape c.1 c.2 s).mAllRitems[p]? = some x → x.ObjCBIndex = p := by
      intro p x hp
      rw [hitems] at hp
      by_cases hlt : p < s.mAllRitems.length
      · rw [List.getElem?_append_left hlt] at hp
        exact hinv p x hp
      · rw [List.getElem?_append_right (by omega)] at hp
        have hp0 : p - s.mAllRitems.length = 0 := by
          by_contra hne
          obtain ⟨q, hq⟩ := Nat.exists_eq_succ_of_ne_zero hne
          rw [hq] at hp
          simp at hp
        rw [hp0] at hp
        simp only [List.getElem?_cons_zero, Option.some.injEq] at hp
        subst hp
        rw [he]
        omega
    have hlen1 : (BuildShape c.1 c.2 s).mAllRitems.length = s.mAllRitems.length + 1 := by
      rw [hitems]; simp
    obtain ⟨i1, i2, i3, i4⟩ := ih (BuildShape c.1 c.2 s) hinv1 (by omega)
    simp only [List.foldl_cons, List.length_cons]
    exact ⟨i1, by omega, i3.trans hw, i4.trans hf⟩

/-- The items `BuildRenderItems` leaves when it starts with none: 95 of them, the
one at position `p` with `ObjCBIndex = p`. -/
theorem BuildRenderItems_items (s : App) (h : s.mAllRitems = []) :
    (∀ (p : Nat) (e : RenderItem), (BuildRenderItems s).mAllRitems[p]? = some e → e.ObjCBIndex = p) ∧
    (BuildRenderItems s).mAllRitems.length = 95 ∧
    (BuildRenderItems s).mWaves = s.mWaves ∧
    (BuildRenderItems s).mFrameResources = s.mFrameResources := by
  unfold BuildRenderItems
  simp only [h, List.nil_append]
  refine BuildShape_fold shapeCalls _ ?_ (by simp [shapeCalls])
  intro p e hp
  match p, hp with
  | 0, hp => simp at hp; rw [← hp]
  | 1, hp => simp at hp; rw [← hp]
  | 2, hp => simp at hp; rw [← hp]
  | 3, hp => simp at hp; rw [← hp]
  | q + 4, hp => simp at hp

/-- C23: started with no render items, `BuildRenderItems` leaves 95 items, and the
item stored at position `p` of `mAllRitems` has `ObjCBIndex = p`: the four
hand-built items carry 0 to 3 and are pushed in this order, and every
`BuildShape` call appends one item whose index is the size of the list at that
moment.  Hence no two positions hold the same index, and every index is smaller
than the number of items, which is the object-constant capacity
`BuildFrameResources` then gives each of the three slots it adds. -/
theorem BuildRenderItems_index_is_position (s : App) (h : s.mAllRitems = []) :
    (∀ (p : Nat) (e : RenderItem),
      (BuildRenderItems s).mAllRitems[p]? = some e → e.ObjCBIndex = p) ∧
    (BuildRenderItems s).mAllRitems.length = 95 ∧
    (∀ (a b : String) (u : App), ∃ e : RenderItem,
      e.ObjCBIndex = u.mAllRitems.length % 4294967296 ∧
      (BuildShape a b u).mAllRitems = u.mAllRitems ++ [e]) ∧
    (∀ (p q : Nat) (e1 e2 : RenderItem), (BuildRenderItems s).mAllRitems[p]? = some e1 →
      (BuildRenderItems s).mAllRitems[q]? = some e2 → e1.ObjCBIndex = e2.ObjCBIndex → p = q) ∧
    (∀ e ∈ (BuildRenderItems s).mAllRitems,
      e.ObjCBIndex < (BuildRenderItems s).mAllRitems.length) ∧
    ∀ w, s.mWaves = some w →
      ∃ t, BuildFrameResources (BuildRenderItems s) = some t ∧
        t.mAllRitems = (BuildRenderItems s).mAllRitems ∧
        (∃ fr : FrameResource, fr.objectCount = 95 ∧
          t.mFrameResources = s.mFrameResources ++ List.replicate 3 fr) ∧
        ∀ e ∈ t.mAllRitems, ∀ fr ∈ List.replicate 3
            ({ passCount := 1, objectCount := 95,
               materialCount := (BuildRenderItems s).mMaterials.length % 4294967296,
               waveVertCount := w.VertexCount } : FrameResource),
          e.ObjCBIndex < fr.objectCount := by
  obtain ⟨h1, h2, h3, h4⟩ := BuildRenderItems_items s h
  have hlt : ∀ e ∈ (BuildRenderItems s).mAllRitems, e.ObjCBIndex < 95 := by
    intro e he
    obtain ⟨p, hp, hpe⟩ := List.getElem_of_mem he
    have hq : (BuildRenderItems s).mAllRitems[p]? = some e := by
      rw [List.getElem?_eq_getElem hp, hpe]
    rw [h1 p e hq]
    omega
  refine ⟨h1, h2, fun a b u => ?_, ?_, ?_, ?_⟩
  · obtain ⟨e, he, hi, _⟩ := BuildShape_items a b u
    exact ⟨e, he, hi⟩
  · intro p q e1 e2 hp hq he
    rw [h1 p e1 hp, h1 q e2 hq] at he
    exact he
  · intro e he
    rw [h2]
    exact hlt e he
  · intro w hw
    have hw2 : (BuildRenderItems s).mWaves = some w := by rw [h3, hw]
    obtain ⟨t, ht⟩ : ∃ t, BuildFrameResources (BuildRenderItems s) = some t := by
      simp [BuildFrameResources, hw2]
    have ht2 := ht
    simp only [BuildFrameResources, hw2, Option.some.injEq] at ht2
    subst ht2
    refine ⟨_, ht, rfl,
      ⟨⟨1, 95, (BuildRenderItems s).mMaterials.length % 4294967296, w.VertexCount, 0⟩, rfl, ?_⟩,
      ?_⟩
    · simp only [h4, h2]
      rfl
    · intro e he fr hfr
      rw [List.eq_of_mem_replicate hfr]
      exact hlt e he

theorem BuildRenderItems_index_is_position_witness :
    (BuildMaterials { mWaves := some { mNumRows := 128, mNumCols := 128 } }).mAllRitems = [] ∧
    ((∀ (p : Nat) (e : RenderItem),
      (BuildRenderItems
        (BuildMaterials { mWaves := some { mNumRows := 128, mNumCols := 128 } })).mAllRitems[p]?
          = some e → e.ObjCBIndex = p) ∧
    (BuildRenderItems
      (BuildMaterials { mWaves := some { mNumRows := 128, mNumCols := 128 } })).mAllRitems.length
        = 95) :=
  ⟨rfl,
    (BuildRenderItems_index_is_position
      (BuildMaterials { mWaves := some { mNumRows := 128, mNumCols := 128 } }) rfl).1,
    (BuildRenderItems_index_is_position
      (BuildMaterials { mWaves := some { mNumRows := 128, mNumCols := 128 } }) rfl).2.1⟩

/-! ## Claims C25 and C26: the values of the water index buffer -/

theorem set_at_length (vals rest : List Nat) (x y : Nat) :
    (vals ++ x :: rest).set vals.length y = vals ++ y :: rest := by
  induction vals with
  | nil => rfl
  | cons a as ih => simp [ih]

theorem store_next (st : IndexFill) (vals rest : List Nat) (x : Nat) (pos : Nat) (v : Int)
    (hv : -2147483648 ≤ v ∧ v < 2147483648)
    (h : st.indices = vals ++ x :: rest) (hpos : pos = vals.length) :
    ∃ s1, st.store pos v = some s1 ∧ s1.indices = (vals ++ [(v % 65536).toNat]) ++ rest ∧
      s1.k = st.k := by
  have hlt : pos < st.indices.length := by
    rw [h, hpos]; simp
  have hs : st.store pos v = some
      { st with
        indices := st.indices.set pos (v % 65536).toNat
        written := st.written ++ [pos] } := by
    simp only [IndexFill.store, if_pos (And.intro hv hlt)]
  refine ⟨_, hs, ?_, rfl⟩
  simp only [h, hpos, set_at_length, List.append_assoc, List.singleton_append]

/-- The body of the quad loop appends the six values of its quad to the part of
the vector that is already filled. -/
theorem quad_values (n : Int) (i j : Nat) (st : IndexFill) (vals rest : List Nat)
    (hr : quadInRange n i j)
    (h : st.indices = vals ++ rest) (hk : vals.length = st.k) (hroom : 6 ≤ rest.length) :
    ∃ s1, quad n i j st = some s1 ∧ s1.indices = vals ++ quadIndices n i j ++ rest.drop 6 ∧
      s1.k = st.k + 6 := by
  obtain ⟨q0, q1, q2, q3⟩ := hr
  match rest, hroom with
  | r0 :: r1 :: r2 :: r3 :: r4 :: r5 :: tl, _ =>
    obtain ⟨a1, e1, i1, k1⟩ := store_next st vals _ r0 st.k ((i : Int) * n + j) q0 h hk.symm
    obtain ⟨a2, e2, i2, k2⟩ := store_next a1 _ _ r1 (a1.k + 1) ((i : Int) * n + j + 1) q1 i1
      (by simp; omega)
    obtain ⟨a3, e3, i3, k3⟩ := store_next a2 _ _ r2 (a2.k + 2) (((i : Int) + 1) * n + j) q2 i2
      (by simp; omega)
    obtain ⟨a4, e4, i4, k4⟩ := store_next a3 _ _ r3 (a3.k + 3) (((i : Int) + 1) * n + j) q2 i3
      (by simp; omega)
    obtain ⟨a5, e5, i5, k5⟩ := store_next a4 _ _ r4 (a4.k + 4) ((i : Int) * n + j + 1) q1 i4
      (by simp; omega)
    obtain ⟨a6, e6, i6, k6⟩ := store_next a5 _ _ r5 (a5.k + 5) (((i : Int) + 1) * n + j + 1)
      q3 i5 (by simp; omega)
    refine ⟨{ a6 with k := a6.k + 6 }, ?_, ?_, by simp only; omega⟩
    · simp only [quad, e1, e2, e3, e4, e5, e6, Option.some_bind]
    · simp only [i6, quadIndices, List.append_assoc, List.singleton_append, List.cons_append,
        List.nil_append, List.drop_succ_cons, List.drop_zero]

theorem range_succ_flatMap (f : Nat → List Nat) (lo count : Nat) :
    ((List.range (count + 1)).flatMap fun q => f (lo + q)) =
      f lo ++ (List.range count).flatMap fun q => f (lo + 1 + q) := by
  rw [List.range_succ_eq_map, List.flatMap_cons, List.flatMap_map]
  simp only [Nat.add_zero, Function.comp, Nat.succ_eq_add_one]
  congr 1
  congr 1
  funext q
  congr 1
  omega

/-- A loop whose body appends a block of `c` values in every pass the loop makes
(the passes satisfy `P`) appends the blocks of all its passes, in order. -/
theorem forLoop_values (body : Nat → IndexFill → Option IndexFill) (c : Nat)
    (f : Nat → List Nat) (P : Nat → Prop)
    (hbody : ∀ q st vals rest, P q → st.indices = vals ++ rest → vals.length = st.k →
      c ≤ rest.length →
      ∃ s1, body q st = some s1 ∧ s1.indices = vals ++ f q ++ rest.drop c ∧ s1.k = st.k + c)
    (hf : ∀ q, (f q).length = c)
    (count lo : Nat) (hP : ∀ q, lo ≤ q → q < lo + count → P q)
    (st : IndexFill) (vals rest : List Nat)
    (h : st.indices = vals ++ rest) (hk : vals.length = st.k)
    (hroom : c * count ≤ rest.length) :
    ∃ s1, forLoop body lo count st = some s1 ∧
      s1.indices = vals ++ ((List.range count).flatMap fun q => f (lo + q)) ++
        rest.drop (c * count) ∧
      s1.k = st.k + c * count := by
  induction count generalizing lo st vals rest with
  | zero => exact ⟨st, rfl, by simpa using h, by simp⟩
  | succ n ih =>
    have e : c * (n + 1) = c + c * n := by ring
    obtain ⟨s1, h1, i1, k1⟩ := hbody lo st vals rest (hP lo (le_refl lo) (by omega)) h hk
      (by omega)
    obtain ⟨s2, h2, i2, k2⟩ := ih (lo + 1) (fun q hq1 hq2 => hP q (by omega) (by omega))
      s1 (vals ++ f lo) (rest.drop c) i1 (by simp [hk, k1, hf]) (by simp; omega)
    refine ⟨s2, by simp only [forLoop, h1, Option.some_bind, h2], ?_, by omega⟩
    rw [i2, range_succ_flatMap, e, List.drop_drop]
    simp only [List.append_assoc]

theorem flatMap_uniform_length (f : Nat → List Nat) (c : Nat) (hf : ∀ q, (f q).length = c)
    (Q : Nat) : ((List.range Q).flatMap f).length = c * Q := by
  induction Q with
  | zero => simp
  | succ Q ih =>
    rw [List.range_succ, List.flatMap_append, List.length_append, ih]
    simp [hf]
    ring

/-- Element `c * q + a` of a concatenation of blocks of length `c` is element `a`
of block `q`. -/
theorem flatMap_uniform_get (f : Nat → List Nat) (c : Nat) (hf : ∀ q, (f q).length = c)
    (Q q a : Nat) (hq : q < Q) (ha : a < c) :
    ((List.range Q).flatMap f)[c * q + a]? = (f q)[a]? := by
  induction Q with
  | zero => omega
  | succ Q ih =>
    have hlen := flatMap_uniform_length f c hf Q
    rw [List.range_succ, List.flatMap_append]
    by_cases hlt : q < Q
    · have hb : c * q + a < ((List.range Q).flatMap f).length := by
        rw [hlen]
        have : c * (q + 1) ≤ c * Q := Nat.mul_le_mul_left c hlt
        have e : c * (q + 1) = c * q + c := by ring
        omega
      rw [List.getElem?_append_left hb]
      exact ih hlt
    · have hqQ : q = Q := by omega
      subst hqQ
      rw [List.getElem?_append_right (by rw [hlen]; omega), hlen]
      simp

/-- The index vector `BuildWavesGeometry` returns on a grid that passes the
assertion: the six values of every quad, row by row. -/
theorem BuildWavesGeometry_values {W : Type} (ops : WavesOps W) (w : W) (M N : Nat)
    (hm : ops.RowCount w - 1 = (M : Int)) (hn : ops.ColumnCount w - 1 = (N : Int))
    (htri : ops.TriangleCount w = 2 * (M : Int) * (N : Int))
    (hvc : ops.VertexCount w = ops.RowCount w * ops.ColumnCount w)
    (hassert : ops.VertexCount w < 65535) :
    ∃ st, BuildWavesGeometry ops w = some st ∧
      st.indices = (List.range M).flatMap fun i =>
        (List.range N).flatMap fun j => quadIndices (ops.ColumnCount w) i j := by
  have hmn : ops.RowCount w * ops.ColumnCount w < 65535 := by rw [← hvc]; exact hassert
  have hinner : ∀ (i : Nat) (st : IndexFill) (vals rest : List Nat), i < M →
      st.indices = vals ++ rest → vals.length = st.k → 6 * N ≤ rest.length →
      ∃ s1, forLoop (fun j st1 => quad (ops.ColumnCount w) i j st1) 0 N st = some s1 ∧
        s1.indices = vals ++
          ((List.range N).flatMap fun j => quadIndices (ops.ColumnCount w) i j) ++
          rest.drop (6 * N) ∧
        s1.k = st.k + 6 * N := by
    intro i st vals rest hi h hk hroom
    obtain ⟨s1, h1, i1, k1⟩ := forLoop_values
      (fun j st1 => quad (ops.ColumnCount w) i j st1) 6
      (fun j => quadIndices (ops.ColumnCount w) i j) (fun j => j < N)
      (fun q st vals rest hq h hk hr => quad_values _ i q st vals rest
        (quad_inRange (ops.RowCount w) (ops.ColumnCount w) i q (by omega) (by omega) hmn)
        h hk hr)
      (fun q => rfl) N 0 (fun q _ hq => by omega) st vals rest h hk hroom
    refine ⟨s1, h1, ?_, k1⟩
    rw [i1]
    simp only [Nat.zero_add]
  obtain ⟨s1, h1, i1, _⟩ := forLoop_values
    (fun i st => forLoop (fun j st1 => quad (ops.ColumnCount w) i j st1) 0 N st) (6 * N)
    (fun i => (List.range N).flatMap fun j => quadIndices (ops.ColumnCount w) i j)
    (fun i => i < M) hinner
    (fun q => flatMap_uniform_length
      (fun j => quadIndices (ops.ColumnCount w) q j) 6 (fun j => rfl) N) M 0
    (fun i _ hi => by omega)
    { indices := List.replicate (6 * N * M) 0, k := 0, written := [] } []
    (List.replicate (6 * N * M) 0) rfl rfl (by simp)
  refine ⟨s1, ?_, ?_⟩
  · rw [BuildWavesGeometry_loop ops w M N hm hn htri hvc hassert]
    exact h1
  · rw [i1]
    have hd : List.drop (6 * N * M) (List.replicate (6 * N * M) (0 : Nat)) = [] := by
      simp
    simp only [Nat.zero_add, List.nil_append, hd, List.append_nil]

/-- The six stored values of quad `(i, j)`, found at offset `6 * (i * (n-1) + j)`. -/
theorem BuildWavesGeometry_quad {W : Type} (ops : WavesOps W) (w : W) (M N : Nat)
    (hm : ops.RowCount w - 1 = (M : Int)) (hn : ops.ColumnCount w - 1 = (N : Int))
    (htri : ops.TriangleCount w = 2 * (M : Int) * (N : Int))
    (hvc : ops.VertexCount w = ops.RowCount w * ops.ColumnCount w)
    (hassert : ops.VertexCount w < 65535)
    (i j : Nat) (hi : i < M) (hj : j < N) :
    ∃ st, BuildWavesGeometry ops w = some st ∧
      ∀ a, a < 6 → st.indices[6 * (i * N + j) + a]? = (quadIndices (ops.ColumnCount w) i j)[a]? := by
  obtain ⟨st, h1, h2⟩ := BuildWavesGeometry_values ops w M N hm hn htri hvc hassert
  refine ⟨st, h1, fun a ha => ?_⟩
  rw [h2]
  have e : 6 * (i * N + j) + a = 6 * N * i + (6 * j + a) := by ring
  rw [e, flatMap_uniform_get
    (fun i => (List.range N).flatMap fun j => quadIndices (ops.ColumnCount w) i j) (6 * N)
    (fun q => flatMap_uniform_length
      (fun j => quadIndices (ops.ColumnCount w) q j) 6 (fun j => rfl) N)
    M i (6 * j + a) hi (by omega)]
  exact flatMap_uniform_get (fun j => quadIndices (ops.ColumnCount w) i j) 6 (fun q => rfl)
    N j a hj ha

/-- C25, the claim as stated, on a grid of 2 rows and 32769 columns and its quad
`(0, 32767)`: the grid has 65538 vertices, the assertion
`VertexCount < 0x0000ffff` fails and the program stops before the quad loop, so
the vector holds none of the indices of the quad.  (The third index of this
quad, the vertex `(0+1)*32769 + 32767 = 65536`, is not a 16-bit value: the
conversion to `uint16_t` makes it 0.) -/
theorem wide_grid_fails_assertion :
    flatWaves.RowCount wideField = 2 ∧ flatWaves.ColumnCount wideField = 32769 ∧
    ((0 : Nat) : Int) < 2 - 1 ∧ ((32767 : Nat) : Int) < 32769 - 1 ∧
    flatWaves.VertexCount wideField = 65538 ∧ ¬ flatWaves.VertexCount wideField < 65535 ∧
    ((0 : Int) + 1) * 32769 + 32767 = 65536 ∧
    (quadIndices (flatWaves.ColumnCount wideField) 0 32767)[2]? = some 0 ∧
    BuildWavesGeometry flatWaves wideField = none := by
  refine ⟨rfl, rfl, by decide, by decide, rfl, by decide, by decide, by decide, ?_⟩
  unfold BuildWavesGeometry
  have h1 : (0 : Int) ≤ 3 * flatWaves.TriangleCount wideField ∧
      3 * flatWaves.TriangleCount wideField < 2147483648 := by decide
  have h2 : ¬ flatWaves.VertexCount wideField < 65535 := by decide
  simp only [if_neg (not_not.mpr h1), if_pos h2]

/-- The six indices of quad `(i, j)` in the vector `BuildWavesGeometry` returns. -/
theorem BuildWavesGeometry_six {W : Type} (ops : WavesOps W) (w : W) (m n : Int)
    (i j : Nat) (hm : ops.RowCount w = m) (hn : ops.ColumnCount w = n)
    (htri : ops.TriangleCount w = 2 * (m - 1) * (n - 1))
    (hvc : ops.VertexCount w = m * n) (hassert : ops.VertexCount w < 65535)
    (hi : (i : Int) < m - 1) (hj : (j : Int) < n - 1) :
    ∃ st, BuildWavesGeometry ops w = some st ∧
      st.indices[6 * (i * (n - 1).toNat + j)]? = some (((i : Int) * n + j) % 65536).toNat ∧
      st.indices[6 * (i * (n - 1).toNat + j) + 1]? =
        some (((i : Int) * n + j + 1) % 65536).toNat ∧
      st.indices[6 * (i * (n - 1).toNat + j) + 2]? =
        some ((((i : Int) + 1) * n + j) % 65536).toNat ∧
      st.indices[6 * (i * (n - 1).toNat + j) + 3]? =
        some ((((i : Int) + 1) * n + j) % 65536).toNat ∧
      st.indices[6 * (i * (n - 1).toNat + j) + 4]? =
        some (((i : Int) * n + j + 1) % 65536).toNat ∧
      st.indices[6 * (i * (n - 1).toNat + j) + 5]? =
        some ((((i : Int) + 1) * n + j + 1) % 65536).toNat := by
  obtain ⟨M, hM⟩ : ∃ M : Nat, m - 1 = (M : Int) := ⟨(m - 1).toNat, by omega⟩
  obtain ⟨N, hN⟩ : ∃ N : Nat, n - 1 = (N : Int) := ⟨(n - 1).toNat, by omega⟩
  have hNn : (n - 1).toNat = N := by rw [hN]; simp
  obtain ⟨st, h1, h2⟩ := BuildWavesGeometry_quad ops w M N (by rw [hm, hM]) (by rw [hn, hN])
    (by rw [htri, hM, hN]) (by rw [hvc, hm, hn]) hassert i j (by omega) (by omega)
  rw [hn] at h2
  have g0 := h2 0 (by decide)
  have g1 := h2 1 (by decide)
  have g2 := h2 2 (by decide)
  have g3 := h2 3 (by decide)
  have g4 := h2 4 (by decide)
  have g5 := h2 5 (by decide)
  simp only [quadIndices, List.getElem?_cons_zero, List.getElem?_cons_succ, Nat.add_zero]
    at g0 g1 g2 g3 g4 g5
  rw [hNn]
  exact ⟨st, h1, g0, g1, g2, g3, g4, g5⟩

/-- On a grid of at most 65536 vertices the values of a quad fit in 16 bits. -/
theorem quad_fits (m n : Int) (i j : Nat) (hi : (i : Int) < m - 1) (hj : (j : Int) < n - 1)
    (hsmall : m * n ≤ 65536) :
    ((i : Int) * n + j) % 65536 = (i : Int) * n + j ∧
    ((i : Int) * n + j + 1) % 65536 = (i : Int) * n + j + 1 ∧
    (((i : Int) + 1) * n + j) % 65536 = ((i : Int) + 1) * n + j ∧
    (((i : Int) + 1) * n + j + 1) % 65536 = ((i : Int) + 1) * n + j + 1 := by
  obtain ⟨v0, v1, v2, v3, v4⟩ := quad_vertices m n i j hi hj
  exact ⟨Int.emod_eq_of_lt (by omega) (by omega), Int.emod_eq_of_lt (by omega) (by omega),
    Int.emod_eq_of_lt (by omega) (by omega), Int.emod_eq_of_lt (by omega) (by omega)⟩

/-- The six indices of quad `(i, j)` in the vector `BuildWavesGeometry` returns, as
the values assigned. -/
theorem BuildWavesGeometry_six_exact {W : Type} (ops : WavesOps W) (w : W) (m n : Int)
    (i j : Nat) (hm : ops.RowCount w = m) (hn : ops.ColumnCount w = n)
    (htri : ops.TriangleCount w = 2 * (m - 1) * (n - 1))
    (hvc : ops.VertexCount w = m * n) (hassert : ops.VertexCount w < 65535)
    (hi : (i : Int) < m - 1) (hj : (j : Int) < n - 1) :
    ∃ st, BuildWavesGeometry ops w = some st ∧
      st.indices[6 * (i * (n - 1).toNat + j)]? = some ((i : Int) * n + j).toNat ∧
      st.indices[6 * (i * (n - 1).toNat + j) + 1]? = some ((i : Int) * n + j + 1).toNat ∧
      st.indices[6 * (i * (n - 1).toNat + j) + 2]? = some (((i : Int) + 1) * n + j).toNat ∧
      st.indices[6 * (i * (n - 1).toNat + j) + 3]? = some (((i : Int) + 1) * n + j).toNat ∧
      st.indices[6 * (i * (n - 1).toNat + j) + 4]? = some ((i : Int) * n + j + 1).toNat ∧
      st.indices[6 * (i * (n - 1).toNat + j) + 5]? =
        some (((i : Int) + 1) * n + j + 1).toNat := by
  obtain ⟨st, h1, g0, g1, g2, g3, g4, g5⟩ :=
    BuildWavesGeometry_six ops w m n i j hm hn htri hvc hassert hi hj
  have hsmall : m * n ≤ 65536 := by rw [← hvc]; omega
  obtain ⟨t0, t1, t2, t3⟩ := quad_fits m n i j hi hj hsmall
  rw [t0] at g0
  rw [t1] at g1 g4
  rw [t2] at g2 g3
  rw [t3] at g5
  exact ⟨st, h1, g0, g1, g2, g3, g4, g5⟩

/-- C25, amended: for a wave grid with `m` rows, `n` columns, `VertexCount = m*n`
and `TriangleCount = 2*(m-1)*(n-1)` that passes the assertion
`VertexCount < 0x0000ffff`, `BuildWavesGeometry` returns, and for every quad
`(i, j)` with `0 ≤ i < m-1` and `0 ≤ j < n-1` the six entries of the index
vector at offset `6*(i*(n-1) + j)` are `a, b, c` and `c, b, d` with
`a = i*n+j`, `b = i*n+j+1`, `c = (i+1)*n+j` and `d = (i+1)*n+j+1`.  Each of the
stored entries is smaller than `m*n`, so it is a valid vertex index, and the
three entries of each of the two triangles are pairwise distinct. -/
theorem BuildWavesGeometry_quad_triangles {W : Type} (ops : WavesOps W) (w : W) (m n : Int)
    (i j : Nat) (hm : ops.RowCount w = m) (hn : ops.ColumnCount w = n)
    (htri : ops.TriangleCount w = 2 * (m - 1) * (n - 1))
    (hvc : ops.VertexCount w = m * n) (hassert : ops.VertexCount w < 65535)
    (hi : (i : Int) < m - 1) (hj : (j : Int) < n - 1) :
    ∃ (st : IndexFill) (a b c d : Nat), BuildWavesGeometry ops w = some st ∧
      st.indices[6 * (i * (n - 1).toNat + j)]? = some a ∧
      st.indices[6 * (i * (n - 1).toNat + j) + 1]? = some b ∧
      st.indices[6 * (i * (n - 1).toNat + j) + 2]? = some c ∧
      st.indices[6 * (i * (n - 1).toNat + j) + 3]? = some c ∧
      st.indices[6 * (i * (n - 1).toNat + j) + 4]? = some b ∧
      st.indices[6 * (i * (n - 1).toNat + j) + 5]? = some d ∧
      (a : Int) = (i : Int) * n + j ∧ (b : Int) = (i : Int) * n + j + 1 ∧
      (c : Int) = ((i : Int) + 1) * n + j ∧ (d : Int) = ((i : Int) + 1) * n + j + 1 ∧
      (a : Int) < m * n ∧ (b : Int) < m * n ∧ (c : Int) < m * n ∧ (d : Int) < m * n ∧
      (a ≠ b ∧ b ≠ c ∧ a ≠ c) ∧ (c ≠ b ∧ b ≠ d ∧ c ≠ d) := by
  obtain ⟨v0, v1, v2, v3, v4⟩ := quad_vertices m n i j hi hj
  obtain ⟨st, h1, g0, g1, g2, g3, g4, g5⟩ :=
    BuildWavesGeometry_six_exact ops w m n i j hm hn htri hvc hassert hi hj
  have ea : ((((i : Int) * n + j).toNat : Nat) : Int) = (i : Int) * n + j :=
    Int.toNat_of_nonneg (by omega)
  have eb : ((((i : Int) * n + j + 1).toNat : Nat) : Int) = (i : Int) * n + j + 1 :=
    Int.toNat_of_nonneg (by omega)
  have ec : (((((i : Int) + 1) * n + j).toNat : Nat) : Int) = ((i : Int) + 1) * n + j :=
    Int.toNat_of_nonneg (by omega)
  have ed : (((((i : Int) + 1) * n + j + 1).toNat : Nat) : Int) = ((i : Int) + 1) * n + j + 1 :=
    Int.toNat_of_nonneg (by omega)
  refine ⟨st, _, _, _, _, h1, g0, g1, g2, g3, g4, g5, ea, eb, ec, ed,
    by rw [ea]; omega, by rw [eb]; omega, by rw [ec]; omega, by rw [ed]; omega,
    ⟨?_, ?_, ?_⟩, ⟨?_, ?_, ?_⟩⟩
  all_goals
    intro hEq
    have h := congrArg (fun x : Nat => (x : Int)) hEq
    simp only [ea, eb, ec, ed] at h
    omega

/-- C26: for a wave grid with `m ≥ 1` rows, `n ≥ 1` columns, `VertexCount = m*n`
and `TriangleCount = 2*(m-1)*(n-1)` that passes the assertion
`VertexCount < 0x0000ffff`, `BuildWavesGeometry` returns, every index in the
vector is at most `m*n - 1`, and the indices of every quad are stored as the
values assigned, none changed by the conversion to 16 bits.  On a 128 x 128
grid `VertexCount` is 16384, the assertion holds and the largest index in the
vector is 16383; this is the grid `Initialize` constructs. -/
theorem BuildWavesGeometry_indices_fit {W : Type} (ops : WavesOps W) (w : W) (m n : Int)
    (hm : ops.RowCount w = m) (hn : ops.ColumnCount w = n) (hm1 : 1 ≤ m) (hn1 : 1 ≤ n)
    (htri : ops.TriangleCount w = 2 * (m - 1) * (n - 1))
    (hvc : ops.VertexCount w = m * n) (hassert : ops.VertexCount w < 65535) :
    (∃ st, BuildWavesGeometry ops w = some st ∧
      (∀ x ∈ st.indices, (x : Int) ≤ m * n - 1) ∧
      ∀ (i j : Nat), (i : Int) < m - 1 → (j : Int) < n - 1 →
        st.indices[6 * (i * (n - 1).toNat + j)]? = some ((i : Int) * n + j).toNat ∧
        st.indices[6 * (i * (n - 1).toNat + j) + 1]? = some ((i : Int) * n + j + 1).toNat ∧
        st.indices[6 * (i * (n - 1).toNat + j) + 2]? = some (((i : Int) + 1) * n + j).toNat ∧
        st.indices[6 * (i * (n - 1).toNat + j) + 3]? = some (((i : Int) + 1) * n + j).toNat ∧
        st.indices[6 * (i * (n - 1).toNat + j) + 4]? = some ((i : Int) * n + j + 1).toNat ∧
        st.indices[6 * (i * (n - 1).toNat + j) + 5]? =
          some (((i : Int) + 1) * n + j + 1).toNat ∧
        0 ≤ (i : Int) * n + j ∧ ((i : Int) + 1) * n + j + 1 ≤ 65535 ∧
        ((i : Int) + 1) * n + j + 1 ≤ m * n - 1) ∧
    (m = 128 → n = 128 →
      ops.VertexCount w = 16384 ∧
      ∃ st, BuildWavesGeometry ops w = some st ∧ (∀ x ∈ st.indices, x ≤ 16383) ∧
        16383 ∈ st.indices) ∧
    ∃ t wv, Initialize {} = some t ∧ t.mWaves = some wv ∧ wv.mNumRows = 128 ∧
      wv.mNumCols = 128 ∧ wv.VertexCount = 16384 ∧ wv.VertexCount < 65535 := by
  obtain ⟨M, hM⟩ : ∃ M : Nat, m - 1 = (M : Int) := ⟨(m - 1).toNat, by omega⟩
  obtain ⟨N, hN⟩ : ∃ N : Nat, n - 1 = (N : Int) := ⟨(n - 1).toNat, by omega⟩
  obtain ⟨st, h1, h2⟩ := BuildWavesGeometry_values ops w M N (by rw [hm, hM]) (by rw [hn, hN])
    (by rw [htri, hM, hN]) (by rw [hvc, hm, hn]) hassert
  have hsmall : m * n ≤ 65536 := by rw [← hvc]; omega
  have hbound : ∀ x ∈ st.indices, (x : Int) ≤ m * n - 1 := by
    intro x hx
    rw [h2, List.mem_flatMap] at hx
    obtain ⟨i, hi, hx⟩ := hx
    rw [List.mem_flatMap] at hx
    obtain ⟨j, hj, hx⟩ := hx
    rw [List.mem_range] at hi hj
    have hi2 : (i : Int) < m - 1 := by omega
    have hj2 : (j : Int) < n - 1 := by omega
    obtain ⟨v0, v1, v2, v3, v4⟩ := quad_vertices m n i j hi2 hj2
    obtain ⟨t0, t1, t2, t3⟩ := quad_fits m n i j hi2 hj2 hsmall
    rw [hn] at hx
    simp only [quadIndices, List.mem_cons, List.mem_singleton, List.not_mem_nil, or_false,
      t0, t1, t2, t3] at hx
    rcases hx with rfl | rfl | rfl | rfl | rfl | rfl <;> omega
  have hquads : ∀ (i j : Nat), (i : Int) < m - 1 → (j : Int) < n - 1 →
      st.indices[6 * (i * (n - 1).toNat + j)]? = some ((i : Int) * n + j).toNat ∧
      st.indices[6 * (i * (n - 1).toNat + j) + 1]? = some ((i : Int) * n + j + 1).toNat ∧
      st.indices[6 * (i * (n - 1).toNat + j) + 2]? = some (((i : Int) + 1) * n + j).toNat ∧
      st.indices[6 * (i * (n - 1).toNat + j) + 3]? = some (((i : Int) + 1) * n + j).toNat ∧
      st.indices[6 * (i * (n - 1).toNat + j) + 4]? = some ((i : Int) * n + j + 1).toNat ∧
      st.indices[6 * (i * (n - 1).toNat + j) + 5]? =
        some (((i : Int) + 1) * n + j + 1).toNat ∧
      0 ≤ (i : Int) * n + j ∧ ((i : Int) + 1) * n + j + 1 ≤ 65535 ∧
      ((i : Int) + 1) * n + j + 1 ≤ m * n - 1 := by
    intro i j hi hj
    obtain ⟨st2, k1, g0, g1, g2, g3, g4, g5⟩ :=
      BuildWavesGeometry_six_exact ops w m n i j hm hn htri hvc hassert hi hj
    have hst : st2 = st := by
      rw [h1] at k1
      exact (Option.some.inj k1).symm
    subst hst
    obtain ⟨v0, v1, v2, v3, v4⟩ := quad_vertices m n i j hi hj
    exact ⟨g0, g1, g2, g3, g4, g5, v0, by omega, by omega⟩
  refine ⟨⟨st, h1, hbound, hquads⟩, ?_, ?_⟩
  · intro hm128 hn128
    subst hm128 hn128
    refine ⟨by rw [hvc]; norm_num, st, h1, ?_, ?_⟩
    · intro x hx
      have := hbound x hx
      omega
    · have h5 := (hquads 126 126 (by norm_num) (by norm_num)).2.2.2.2.2.1
      have hv : (((126 : Nat) : Int) + 1) * 128 + ((126 : Nat) : Int) + 1 = 16383 := by norm_num
      rw [hv] at h5
      obtain ⟨hlt, heq⟩ := List.getElem?_eq_some.mp h5
      have h16 : Int.toNat 16383 = 16383 := by decide
      rw [h16] at heq
      rw [← heq]
      exact List.getElem_mem hlt
  · exact ⟨_, _, rfl, rfl, rfl, rfl, rfl, by decide⟩

theorem BuildWavesGeometry_quad_triangles_witness :
    (flatWaves.RowCount demoField = 9 ∧ flatWaves.ColumnCount demoField = 9 ∧
      flatWaves.TriangleCount demoField = 2 * (9 - 1) * (9 - 1) ∧
      flatWaves.VertexCount demoField = 9 * 9 ∧ flatWaves.VertexCount demoField < 65535 ∧
      ((3 : Nat) : Int) < 9 - 1 ∧ ((4 : Nat) : Int) < 9 - 1) ∧
    ∃ (st : IndexFill) (a b c d : Nat), BuildWavesGeometry flatWaves demoField = some st ∧
      st.indices[6 * (3 * ((9 : Int) - 1).toNat + 4)]? = some a ∧
      st.indices[6 * (3 * ((9 : Int) - 1).toNat + 4) + 1]? = some b ∧
      st.indices[6 * (3 * ((9 : Int) - 1).toNat + 4) + 2]? = some c ∧
      st.indices[6 * (3 * ((9 : Int) - 1).toNat + 4) + 3]? = some c ∧
      st.indices[6 * (3 * ((9 : Int) - 1).toNat + 4) + 4]? = some b ∧
      st.indices[6 * (3 * ((9 : Int) - 1).toNat + 4) + 5]? = some d ∧
      (a : Int) = ((3 : Nat) : Int) * 9 + ((4 : Nat) : Int) ∧
      (b : Int) = ((3 : Nat) : Int) * 9 + ((4 : Nat) : Int) + 1 ∧
      (c : Int) = (((3 : Nat) : Int) + 1) * 9 + ((4 : Nat) : Int) ∧
      (d : Int) = (((3 : Nat) : Int) + 1) * 9 + ((4 : Nat) : Int) + 1 ∧
      (a : Int) < 9 * 9 ∧ (b : Int) < 9 * 9 ∧ (c : Int) < 9 * 9 ∧ (d : Int) < 9 * 9 ∧
      (a ≠ b ∧ b ≠ c ∧ a ≠ c) ∧ (c ≠ b ∧ b ≠ d ∧ c ≠ d) :=
  ⟨⟨rfl, rfl, by decide, by decide, by decide, by decide, by decide⟩,
    BuildWavesGeometry_quad_triangles flatWaves demoField 9 9 3 4 rfl rfl (by decide)
      (by decide) (by decide) (by decide) (by decide)⟩

theorem BuildWavesGeometry_indices_fit_witness :
    (flatWaves.RowCount demoField = 9 ∧ flatWaves.ColumnCount demoField = 9 ∧
      (1 : Int) ≤ 9 ∧
      flatWaves.TriangleCount demoField = 2 * (9 - 1) * (9 - 1) ∧
      flatWaves.VertexCount demoField = 9 * 9 ∧ flatWaves.VertexCount demoField < 65535) ∧
    ∃ st, BuildWavesGeometry flatWaves demoField = some st ∧
      ∀ x ∈ st.indices, (x : Int) ≤ 9 * 9 - 1 :=
  ⟨⟨rfl, rfl, by decide, by decide, by decide, by decide⟩,
    (by
      obtain ⟨⟨st, h1, hb, _⟩, _⟩ :=
        BuildWavesGeometry_indices_fit flatWaves demoField 9 9 rfl rfl (by decide) (by decide)
          (by decide) (by decide) (by decide)
      exact ⟨st, h1, hb⟩)⟩

/-! ## Claim C27: the water texture scroll -/

/-- C27: for a frame time `dt` with `0 ≤ dt < 10` and water texture offsets `tu`,
`tv` in `[0, 1)` on entry, `AnimateMaterials` leaves `tu + 0.1*dt`, minus 1 when
that sum is at least 1, and `tv + 0.02*dt`, minus 1 when that sum is at least
1, and both are in `[0, 1)` again; the material is marked dirty.  The `float`
values are rationals here and the arithmetic is exact. -/
theorem AnimateMaterials_offsets_stay_in_unit_interval (gt : GameTimer)
    (waterMat : WaterMaterial) (hdt : 0 ≤ gt.DeltaTime ∧ gt.DeltaTime < 10)
    (htu : 0 ≤ waterMat.MatTransform30 ∧ waterMat.MatTransform30 < 1)
    (htv : 0 ≤ waterMat.MatTransform31 ∧ waterMat.MatTransform31 < 1) :
    (AnimateMaterialsData gt waterMat).MatTransform30 =
      (if waterMat.MatTransform30 + 1 / 10 * gt.DeltaTime ≥ 1
        then waterMat.MatTransform30 + 1 / 10 * gt.DeltaTime - 1
        else waterMat.MatTransform30 + 1 / 10 * gt.DeltaTime) ∧
    (AnimateMaterialsData gt waterMat).MatTransform31 =
      (if waterMat.MatTransform31 + 1 / 50 * gt.DeltaTime ≥ 1
        then waterMat.MatTransform31 + 1 / 50 * gt.DeltaTime - 1
        else waterMat.MatTransform31 + 1 / 50 * gt.DeltaTime) ∧
    (0 ≤ (AnimateMaterialsData gt waterMat).MatTransform30 ∧
      (AnimateMaterialsData gt waterMat).MatTransform30 < 1) ∧
    (0 ≤ (AnimateMaterialsData gt waterMat).MatTransform31 ∧
      (AnimateMaterialsData gt waterMat).MatTransform31 < 1) ∧
    (AnimateMaterialsData gt waterMat).NumFramesDirty = gNumFrameResources := by
  obtain ⟨d0, d1⟩ := hdt
  obtain ⟨u0, u1⟩ := htu
  obtain ⟨v0, v1⟩ := htv
  refine ⟨rfl, rfl, ?_, ?_, rfl⟩
  · simp only [AnimateMaterialsData]
    split
    · constructor <;> linarith
    · constructor <;> linarith
  · simp only [AnimateMaterialsData]
    split
    · constructor <;> linarith
    · constructor <;> linarith

theorem AnimateMaterials_offsets_stay_in_unit_interval_witness :
    (((0 : ℚ) ≤ 9 ∧ (9 : ℚ) < 10) ∧ ((0 : ℚ) ≤ 1 / 2 ∧ (1 / 2 : ℚ) < 1) ∧
      ((0 : ℚ) ≤ 9 / 10 ∧ (9 / 10 : ℚ) < 1)) ∧
    ((0 ≤ (AnimateMaterialsData { TotalTime := 20, DeltaTime := 9 }
        { MatTransform30 := 1 / 2, MatTransform31 := 9 / 10 }).MatTransform30 ∧
      (AnimateMaterialsData { TotalTime := 20, DeltaTime := 9 }
        { MatTransform30 := 1 / 2, MatTransform31 := 9 / 10 }).MatTransform30 < 1) ∧
    (0 ≤ (AnimateMaterialsData { TotalTime := 20, DeltaTime := 9 }
        { MatTransform30 := 1 / 2, MatTransform31 := 9 / 10 }).MatTransform31 ∧
      (AnimateMaterialsData { TotalTime := 20, DeltaTime := 9 }
        { MatTransform30 := 1 / 2, MatTransform31 := 9 / 10 }).MatTransform31 < 1)) :=
  ⟨⟨by norm_num, by norm_num, by norm_num⟩,
    (AnimateMaterials_offsets_stay_in_unit_interval { TotalTime := 20, DeltaTime := 9 }
      { MatTransform30 := 1 / 2, MatTransform31 := 9 / 10 } (by norm_num) (by norm_num)
      (by norm_num)).2.2.1,
    (AnimateMaterials_offsets_stay_in_unit_interval { TotalTime := 20, DeltaTime := 9 }
      { MatTransform30 := 1 / 2, MatTransform31 := 9 / 10 } (by norm_num) (by norm_num)
      (by norm_num)).2.2.2.1⟩

/-- The scroll evaluated: from `(0.5, 0.9)` a frame of 9 seconds leaves
`(0.4, 0.08)`, both offsets having wrapped. -/
theorem AnimateMaterialsData_demo :
    AnimateMaterialsData { TotalTime := 20, DeltaTime := 9 }
      { MatTransform30 := 1 / 2, MatTransform31 := 9 / 10 } =
    { MatTransform30 := 2 / 5, MatTransform31 := 2 / 25, NumFramesDirty := 3 } := by
  norm_num [AnimateMaterialsData, gNumFrameResources]

/-! ## Claim C28: the tree sprites -/

/-- The placement loop from tree `lo` on, `count` passes: every position it
visits except 18 is assigned, nothing else changes. -/
theorem forLoop_placeTree (cosf sinf : ℚ → ℚ) (dTheta TreeRadius : ℚ) (count lo : Nat)
    (vs : List (Option TreeSpriteVertex)) (acc : List Nat) (h : lo + count ≤ vs.length) :
    ∃ vs1, forLoop (placeTree cosf sinf dTheta TreeRadius) lo count (vs, acc) =
        some (vs1, acc ++ ((List.range count).map fun q => lo + q).filter fun i => i ≠ 18) ∧
      vs1.length = vs.length ∧
      ∀ k, vs1[k]? =
        if lo ≤ k ∧ k < lo + count ∧ k ≠ 18 then
          some (some
            { Pos := { x := TreeRadius * cosf (k * dTheta), y := 1 + 25,
                       z := TreeRadius * sinf (k * dTheta) },
              Size := { x := 20, y := 60 } })
        else vs[k]? := by
  induction count generalizing lo vs acc with
  | zero =>
    refine ⟨vs, by simp [forLoop], rfl, fun k => ?_⟩
    rw [if_neg (by omega)]
  | succ n ih =>
    have hr : ((List.range (n + 1)).map fun q => lo + q) =
        lo :: (List.range n).map fun q => lo + 1 + q := by
      rw [List.range_succ_eq_map, List.map_cons, List.map_map]
      simp only [Nat.add_zero, List.cons.injEq, true_and]
      apply List.map_congr_left
      intro q _
      simp only [Function.comp, Nat.succ_eq_add_one]
      omega
    by_cases h18 : lo = 18
    · obtain ⟨vs1, e1, l1, g1⟩ := ih (lo + 1) vs acc (by omega)
      refine ⟨vs1, ?_, l1, fun k => ?_⟩
      · simp only [forLoop, placeTree, if_pos h18, Option.some_bind, e1, hr]
        simp [h18]
      · rw [g1 k]
        by_cases hk : k = 18
        · rw [if_neg (by omega), if_neg (by omega)]
        · by_cases hc : lo + 1 ≤ k ∧ k < lo + 1 + n ∧ k ≠ 18
          · rw [if_pos hc, if_pos (by omega)]
          · rw [if_neg hc, if_neg (by omega)]
    · have hlt : lo < vs.length := by omega
      obtain ⟨vs1, e1, l1, g1⟩ := ih (lo + 1)
        (vs.set lo (some
          { Pos := { x := TreeRadius * cosf (lo * dTheta), y := 1 + 25,
                     z := TreeRadius * sinf (lo * dTheta) },
            Size := { x := 20, y := 60 } })) (acc ++ [lo]) (by simp; omega)
      refine ⟨vs1, ?_, by simpa using l1, fun k => ?_⟩
      · simp only [forLoop, placeTree, if_neg h18, setTreeVertex, if_pos hlt, Option.some_bind,
          e1, hr]
        simp [h18]
      · rw [g1 k]
        by_cases hk : k = lo
        · subst hk
          rw [if_neg (by omega), if_pos (by omega)]
          simp [hlt]
        · by_cases hc : lo + 1 ≤ k ∧ k < lo + 1 + n ∧ k ≠ 18
          · rw [if_pos hc, if_pos (by omega)]
          · rw [if_neg hc, if_neg (by omega), List.getElem?_set]
            simp [Ne.symm hk]

/-- C28: `BuildTreeSpritesGeometry` returns.  Its placement loop assigns a
position on the ring and the size 20 x 60 to every vertex `0, ..., 23` except
vertex 18, which it skips and which is therefore never assigned; the index
array lists `0, ..., 23` and the submesh `"points"` has `IndexCount = 24` from
`StartIndexLocation = 0`.  So among the drawn indices exactly one, 18, refers
to a vertex the loop never assigns. -/
theorem tree_sprite_18_never_assigned (XM_PI : ℚ) (cosf sinf : ℚ → ℚ) :
    ∃ g, BuildTreeSpritesGeometry XM_PI cosf sinf = some g ∧
      g.vertices.length = 24 ∧
      (∀ i, i < 24 → i ≠ 18 → g.vertices[i]? = some (some
        { Pos := { x := 75 * cosf (i * (2 * XM_PI / (24 : Nat))), y := 1 + 25,
                   z := 75 * sinf (i * (2 * XM_PI / (24 : Nat))) },
          Size := { x := 20, y := 60 } })) ∧
      g.vertices[18]? = some none ∧
      g.assigned =
        [0, 1, 2, 3, 4, 5, 6, 7, 8, 9, 10, 11, 12, 13, 14, 15, 16, 17, 19, 20, 21, 22, 23] ∧
      g.indices = List.range 24 ∧ g.IndexCount = 24 ∧ g.StartIndexLocation = 0 ∧
      g.BaseVertexLocation = 0 ∧
      (∀ k ∈ (g.indices.drop g.StartIndexLocation).take g.IndexCount,
        (k ∉ g.assigned ↔ k = 18) ∧ (g.vertices[k]? = some none ↔ k = 18)) := by
  obtain ⟨vs1, e1, l1, g1⟩ := forLoop_placeTree cosf sinf (2 * XM_PI / (24 : Nat)) 75 24 0
    (List.replicate 24 none) [] (by simp)
  have hg : BuildTreeSpritesGeometry XM_PI cosf sinf = some
      { vertices := vs1
        assigned := ((List.range 24).map fun q => 0 + q).filter fun i => i ≠ 18
        indices :=
          [0, 1, 2, 3, 4, 5, 6, 7, 8, 9, 10, 11, 12, 13, 14, 15, 16, 17, 18, 19, 20, 21, 22, 23]
        IndexCount := 24
        StartIndexLocation := 0
        BaseVertexLocation := 0 } := by
    simp only [BuildTreeSpritesGeometry, e1, List.nil_append]
    rfl
  have hv : ∀ i, i < 24 → i ≠ 18 → vs1[i]? = some (some
        { Pos := { x := 75 * cosf (i * (2 * XM_PI / (24 : Nat))), y := 1 + 25,
                   z := 75 * sinf (i * (2 * XM_PI / (24 : Nat))) },
          Size := { x := 20, y := 60 } }) := by
    intro i hi hne
    rw [g1 i, if_pos ⟨by omega, by omega, hne⟩]
  have h18 : vs1[18]? = some none := by
    rw [g1 18, if_neg (by omega)]
    simp
  have hassigned : (((List.range 24).map fun q => 0 + q).filter fun i => i ≠ 18) =
      [0, 1, 2, 3, 4, 5, 6, 7, 8, 9, 10, 11, 12, 13, 14, 15, 16, 17, 19, 20, 21, 22, 23] := by
    decide
  have hidx : [0, 1, 2, 3, 4, 5, 6, 7, 8, 9, 10, 11, 12, 13, 14, 15, 16, 17, 18, 19, 20, 21,
      22, 23] = List.range 24 := by decide
  have haux : ∀ k ∈ (List.drop 0 (List.range 24)).take 24, k < 24 ∧
      (k ∉ [0, 1, 2, 3, 4, 5, 6, 7, 8, 9, 10, 11, 12, 13, 14, 15, 16, 17, 19, 20, 21, 22, 23]
        ↔ k = 18) := by decide
  rw [hassigned, hidx] at hg
  refine ⟨_, hg, by simpa using l1, hv, h18, rfl, rfl, rfl, rfl, rfl, ?_⟩
  intro k hk
  obtain ⟨hk24, hk18⟩ := haux k hk
  refine ⟨hk18, ?_, ?_⟩
  · intro hnone
    by_contra hne
    have hnone2 : vs1[k]? = some none := hnone
    rw [hv k hk24 hne] at hnone2
    simp at hnone2
  · intro h
    rw [h]
    exact h18

/-! ## Claim C30: materials, constant indices and descriptors -/

set_option maxRecDepth 100000 in
/-- C30: the map `BuildMaterials` fills holds 11 materials, whose `MatCBIndex` values
are `0, ..., 10` and whose `DiffuseSrvHeapIndex` values are `0, ..., 10`, each
once; so every `MatCBIndex` is smaller than the material count 11 that
`Initialize` sizes every slot with, and every `DiffuseSrvHeapIndex` is smaller
than the 11 descriptors of the heap.  `BuildDescriptorHeaps`, run on the
textures `LoadTextures` registers, returns a heap of 11 descriptors, and the
descriptor at a material's `DiffuseSrvHeapIndex`, which is the one
`DrawRenderItems` binds for it, views the material's own texture: grass 0,
water 1, drawbridge 2, blackstone 3, bloodstone 4, jadewood 5, pole 6, well 7,
headge 8, quebert 9 and the tree array 10. -/
theorem material_indices_match_descriptors :
    (BuildMaterials {}).mMaterials.length = 11 ∧
    (BuildMaterials {}).mMaterials.map (fun p => p.2.map fun mat => mat.MatCBIndex) =
      [some 0, some 1, some 2, some 3, some 4, some 5, some 6, some 7, some 8, some 9,
        some 10] ∧
    (BuildMaterials {}).mMaterials.map (fun p => p.2.map fun mat => mat.DiffuseSrvHeapIndex) =
      [some 0, some 1, some 2, some 3, some 4, some 5, some 6, some 7, some 8, some 9,
        some 10] ∧
    (∃ t, Initialize {} = some t ∧ t.mMaterials = (BuildMaterials {}).mMaterials ∧
      t.mFrameResources.length = 3 ∧ ∀ fr ∈ t.mFrameResources, fr.materialCount = 11) ∧
    ∃ heap, BuildDescriptorHeaps (LoadTextures []) = some heap ∧ heap.length = 11 ∧
      heap.map (fun d => d.map fun view => view.Resource.Name) =
        [some "grassTex", some "waterTex", some "drawBrigeTex", some "blackStoneTex",
          some "bloodStoneTex", some "jadeWoodTex", some "poleTex", some "wellTex",
          some "headgeTex", some "quebertTex", some "treeArrayTex"] ∧
      ∀ p ∈ [("grass", "grassTex"), ("water", "waterTex"), ("drawbridge", "drawBrigeTex"),
          ("blackstone", "blackStoneTex"), ("bloodstone", "bloodStoneTex"),
          ("jadewood", "jadeWoodTex"), ("pole", "poleTex"), ("well", "wellTex"),
          ("headge", "headgeTex"), ("quebert", "quebertTex"),
          ("treeSprites", "treeArrayTex")],
        (mapFind (BuildMaterials {}).mMaterials p.1).join.map (fun mat => mat.Name) =
          some p.1 ∧
        (assocFind (LoadTextures []) p.2).join.map (fun tex => tex.Name) = some p.2 ∧
        (mapFind (BuildMaterials {}).mMaterials p.1).join.map
          (fun mat => decide (0 ≤ mat.MatCBIndex ∧ mat.MatCBIndex < 11 ∧
            0 ≤ mat.DiffuseSrvHeapIndex ∧ mat.DiffuseSrvHeapIndex < 11)) = some true ∧
        (mapFind (BuildMaterials {}).mMaterials p.1).join.map
          (fun mat => (boundTexture heap mat).map fun view => view.Resource) =
          some (assocFind (LoadTextures []) p.2).join ∧
        (mapFind (BuildMaterials {}).mMaterials p.1).join.map
          (fun mat => heap[mat.DiffuseSrvHeapIndex.toNat]?.join) =
          (mapFind (BuildMaterials {}).mMaterials p.1).join.map
            (fun mat => boundTexture heap mat) :=
  ⟨by decide, by decide, by decide,
    ⟨(Initialize {}).getD {}, by decide, by decide, by decide, by decide⟩,
    ⟨(BuildDescriptorHeaps (LoadTextures [])).getD [], by decide, by decide, by decide,
      by decide⟩⟩

/-! ## Claim C24: the shape geometry -/

theorem set_at_end {α : Type} (done rest : List α) (x y : α) :
    (done ++ x :: rest).set done.length y = done ++ y :: rest := by
  induction done with
  | nil => rfl
  | cons a as ih => simp [ih]

/-- The copy loop from vertex `lo` of the mesh on, `count` passes: the vertices
are appended to the part of the vector that is already filled. -/
theorem forLoop_copy (mesh : MeshData) (count lo : Nat) (done rest : List Vertex) (k : Nat)
    (h : lo + count ≤ mesh.Vertices.length) (hk : done.length = k)
    (hroom : count ≤ rest.length) (hwrap : k + count < 4294967296) :
    forLoop (fun i st1 =>
      match mesh.Vertices[i]? with
      | none => none
      | some v =>
        if st1.2 < st1.1.length then
          some (st1.1.set st1.2 (shapeVertex v), (st1.2 + 1) % 4294967296)
        else none) lo count (done ++ rest, k) =
      some (done ++ ((mesh.Vertices.drop lo).take count).map shapeVertex ++ rest.drop count,
        k + count) := by
  induction count generalizing lo done rest k with
  | zero => simp [forLoop]
  | succ n ih =>
    have hlo : lo < mesh.Vertices.length := by omega
    cases rest with
    | nil => simp at hroom
    | cons r rs =>
      have hget : mesh.Vertices[lo]? = some (mesh.Vertices[lo]) := List.getElem?_eq_getElem hlo
      have hdrop : mesh.Vertices.drop lo = mesh.Vertices[lo] :: mesh.Vertices.drop (lo + 1) :=
        List.drop_eq_getElem_cons hlo
      have hk2 : k < (done ++ r :: rs).length := by simp; omega
      have hmod : (k + 1) % 4294967296 = k + 1 := Nat.mod_eq_of_lt (by omega)
      have hset : (done ++ r :: rs).set k (shapeVertex mesh.Vertices[lo]) =
          (done ++ [shapeVertex mesh.Vertices[lo]]) ++ rs := by
        rw [← hk, set_at_end]; simp
      simp only [forLoop, hget, if_pos hk2, Option.some_bind, hmod, hset]
      rw [ih (lo + 1) (done ++ [shapeVertex mesh.Vertices[lo]]) rs (k + 1) (by omega)
        (by simp; omega) (by simpa using hroom) (by omega)]
      simp only [hdrop, List.take_succ_cons, List.map_cons, List.append_assoc,
        List.singleton_append, List.drop_succ_cons, Option.some.injEq, Prod.mk.injEq]
      exact ⟨trivial, by omega⟩

theorem copyMesh_spec (mesh : MeshData) (done rest : List Vertex) (k : Nat)
    (hk : done.length = k) (hroom : mesh.Vertices.length ≤ rest.length)
    (hwrap : k + mesh.Vertices.length < 4294967296) :
    copyMesh mesh (done ++ rest, k) =
      some (done ++ mesh.Vertices.map shapeVertex ++ rest.drop mesh.Vertices.length,
        k + mesh.Vertices.length) := by
  unfold copyMesh
  rw [forLoop_copy mesh mesh.Vertices.length 0 done rest k (by omega) hk hroom hwrap]
  simp

/-- The copy loops of several meshes leave their vertices one mesh after the
other. -/
theorem copyMeshes_spec (meshes : List MeshData) (done rest : List Vertex) (k : Nat)
    (hk : done.length = k)
    (hroom : (meshes.map fun mesh => mesh.Vertices.length).sum ≤ rest.length)
    (hwrap : k + (meshes.map fun mesh => mesh.Vertices.length).sum < 4294967296) :
    copyMeshes meshes (done ++ rest, k) =
      some (done ++ (meshes.map fun mesh => mesh.Vertices.map shapeVertex).flatten ++
          rest.drop (meshes.map fun mesh => mesh.Vertices.length).sum,
        k + (meshes.map fun mesh => mesh.Vertices.length).sum) := by
  induction meshes generalizing done rest k with
  | nil => simp [copyMeshes]
  | cons mesh ms ih =>
    simp only [List.map_cons, List.sum_cons] at hroom hwrap
    simp only [copyMeshes, copyMesh_spec mesh done rest k hk (by omega) (by omega),
      Option.some_bind]
    rw [ih (done ++ mesh.Vertices.map shapeVertex) (rest.drop mesh.Vertices.length)
      (k + mesh.Vertices.length) (by simp [hk]) (by simp; omega) (by omega)]
    simp only [List.map_cons, List.sum_cons, List.flatten_cons, List.append_assoc,
      List.drop_drop, Option.some.injEq, Prod.mk.injEq]
    exact ⟨trivial, by omega⟩

/-- Element `i` of block `p` of a concatenation is found after the blocks before
it. -/
theorem flatten_get {α : Type} (ls : List (List α)) (p i : Nat) (block : List α) (x : α)
    (hp : ls[p]? = some block) (hi : block[i]? = some x) :
    ls.flatten[((ls.take p).map List.length).sum + i]? = some x := by
  induction ls generalizing p with
  | nil => simp at hp
  | cons l rest ih =>
    cases p with
    | zero =>
      simp only [List.getElem?_cons_zero, Option.some.injEq] at hp
      subst hp
      have hlt : i < l.length := (List.getElem?_eq_some.mp hi).1
      simp only [List.take_zero, List.map_nil, List.sum_nil, Nat.zero_add, List.flatten_cons]
      rw [List.getElem?_append_left hlt]
      exact hi
    | succ q =>
      simp only [List.getElem?_cons_succ] at hp
      simp only [List.take_succ_cons, List.map_cons, List.sum_cons, List.flatten_cons]
      rw [List.getElem?_append_right (by omega)]
      have e : l.length + ((rest.take q).map List.length).sum + i - l.length =
          ((rest.take q).map List.length).sum + i := by omega
      rw [e]
      exact ih q hp

theorem take_sum_le (ls : List Nat) (p q : Nat) (h : p ≤ q) :
    (ls.take p).sum ≤ (ls.take q).sum := by
  induction ls generalizing p q with
  | nil => simp
  | cons a rest ih =>
    cases p with
    | zero => simp
    | succ p1 =>
      cases q with
      | zero => omega
      | succ q1 =>
        simp only [List.take_succ_cons, List.sum_cons]
        have := ih p1 q1 (by omega)
        omega

/-- The geometry `BuildShapeGeometry` returns when the vertex count fits an `INT`
and the index count a `UINT`: the meshes' vertices and indices one mesh after
the other, and nine submeshes whose offsets are the running sums. -/
theorem BuildShapeGeometry_eq (box cylinder cone pyramid box2 wedge diamond flag pipe : MeshData)
    (hv : box.Vertices.length + cylinder.Vertices.length + cone.Vertices.length +
      pyramid.Vertices.length + box2.Vertices.length + wedge.Vertices.length +
      diamond.Vertices.length + flag.Vertices.length + pipe.Vertices.length < 2147483648)
    (hi : box.Indices32.length + cylinder.Indices32.length + cone.Indices32.length +
      pyramid.Indices32.length + box2.Indices32.length + wedge.Indices32.length +
      diamond.Indices32.length + flag.Indices32.length + pipe.Indices32.length < 4294967296) :
    ∃ geo, BuildShapeGeometry box cylinder cone pyramid box2 wedge diamond flag pipe = some geo ∧
      geo.vertices = ([box, cylinder, cone, pyramid, box2, wedge, diamond, flag, pipe].map
        fun mesh => mesh.Vertices.map shapeVertex).flatten ∧
      geo.indices = ([box, cylinder, cone, pyramid, box2, wedge, diamond, flag, pipe].map
        fun mesh => mesh.GetIndices16).flatten ∧
      geo.DrawArgs =
        [("box", ⟨box.Indices32.length, 0, 0⟩),
         ("cylinder", ⟨cylinder.Indices32.length, box.Indices32.length,
            ((box.Vertices.length : Nat) : Int)⟩),
         ("cone", ⟨cone.Indices32.length, box.Indices32.length + cylinder.Indices32.length,
            ((box.Vertices.length + cylinder.Vertices.length : Nat) : Int)⟩),
         ("pyramid", ⟨pyramid.Indices32.length,
            box.Indices32.length + cylinder.Indices32.length + cone.Indices32.length,
            ((box.Vertices.length + cylinder.Vertices.length + cone.Vertices.length : Nat)
              : Int)⟩),
         ("box2", ⟨box2.Indices32.length,
            box.Indices32.length + cylinder.Indices32.length + cone.Indices32.length +
              pyramid.Indices32.length,
            ((box.Vertices.length + cylinder.Vertices.length + cone.Vertices.length +
              pyramid.Vertices.length : Nat) : Int)⟩),
         ("wedge", ⟨wedge.Indices32.length,
            box.Indices32.length + cylinder.Indices32.length + cone.Indices32.length +
              pyramid.Indices32.length + box2.Indices32.length,
            ((box.Vertices.length + cylinder.Vertices.length + cone.Vertices.length +
              pyramid.Vertices.length + box2.Vertices.length : Nat) : Int)⟩),
         ("diamond", ⟨diamond.Indices32.length,
            box.Indices32.length + cylinder.Indices32.length + cone.Indices32.length +
              pyramid.Indices32.length + box2.Indices32.length + wedge.Indices32.length,
            ((box.Vertices.length + cylinder.Vertices.length + cone.Vertices.length +
              pyramid.Vertices.length + box2.Vertices.length + wedge.Vertices.length : Nat)
              : Int)⟩),
         ("flag", ⟨flag.Indices32.length,
            box.Indices32.length + cylinder.Indices32.length + cone.Indices32.length +
              pyramid.Indices32.length + box2.Indices32.length + wedge.Indices32.length +
              diamond.Indices32.length,
            ((box.Vertices.length + cylinder.Vertices.length + cone.Vertices.length +
              pyramid.Vertices.length + box2.Vertices.length + wedge.Vertices.length +
              diamond.Vertices.length : Nat) : Int)⟩),
         ("pipe", ⟨pipe.Indices32.length,
            box.Indices32.length + cylinder.Indices32.length + cone.Indices32.length +
              pyramid.Indices32.length + box2.Indices32.length + wedge.Indices32.length +
              diamond.Indices32.length + flag.Indices32.length,
            ((box.Vertices.length + cylinder.Vertices.length + cone.Vertices.length +
              pyramid.Vertices.length + box2.Vertices.length + wedge.Vertices.length +
              diamond.Vertices.length + flag.Vertices.length : Nat) : Int)⟩)] := by
  have hcopy := copyMeshes_spec [box, cylinder, cone, pyramid, box2, wedge, diamond, flag, pipe]
    [] (List.replicate (box.Vertices.length + cylinder.Vertices.length + cone.Vertices.length +
      pyramid.Vertices.length + box2.Vertices.length + wedge.Vertices.length +
      diamond.Vertices.length + flag.Vertices.length + pipe.Vertices.length)
      { Pos := { x := 0, y := 0, z := 0 }, Normal := { x := 0, y := 0, z := 0 },
        TexC := { x := 0, y := 0 } }) 0 rfl
    (by simp only [List.map_cons, List.map_nil, List.sum_cons, List.sum_nil,
          List.length_replicate]; omega)
    (by simp only [List.map_cons, List.map_nil, List.sum_cons, List.sum_nil]; omega)
  simp only [List.nil_append] at hcopy
  unfold BuildShapeGeometry
  simp only [hcopy]
  refine ⟨_, rfl, ?_, ?_, ?_⟩
  · have hsum : (List.map (fun mesh : MeshData => mesh.Vertices.length)
        [box, cylinder, cone, pyramid, box2, wedge, diamond, flag, pipe]).sum =
        box.Vertices.length + cylinder.Vertices.length + cone.Vertices.length +
        pyramid.Vertices.length + box2.Vertices.length + wedge.Vertices.length +
        diamond.Vertices.length + flag.Vertices.length + pipe.Vertices.length := by
      simp only [List.map_cons, List.map_nil, List.sum_cons, List.sum_nil]
      omega
    rw [hsum]
    simp
  · simp only [List.map_cons, List.map_nil, List.flatten_cons, List.flatten_nil,
      List.append_nil, List.append_assoc]
  · simp +decide only [assocAssign, if_false, if_true]
    simp only [List.cons.injEq, Prod.mk.injEq, SubmeshGeometry.mk.injEq, true_and, and_true,
      toINT]
    repeat' constructor
    all_goals (try split_ifs)
    all_goals omega

theorem take_succ_sum {α : Type} (ls : List α) (f : α → Nat) (p : Nat) (x : α)
    (h : ls[p]? = some x) :
    ((ls.take (p + 1)).map f).sum = ((ls.take p).map f).sum + f x := by
  induction ls generalizing p with
  | nil => simp at h
  | cons a rest ih =>
    cases p with
    | zero =>
      simp only [List.getElem?_cons_zero, Option.some.injEq] at h
      subst h
      simp
    | succ q =>
      simp only [List.getElem?_cons_succ] at h
      simp only [List.take_succ_cons, List.map_cons, List.sum_cons, ih q h]
      omega

/-- The submesh `BuildShapeGeometry` registers for the shape at position `p`. -/
theorem BuildShapeGeometry_drawArgs
    (box cylinder cone pyramid box2 wedge diamond flag pipe : MeshData) (geo : ShapeGeo)
    (hd : geo.DrawArgs =
        [("box", ⟨box.Indices32.length, 0, 0⟩),
         ("cylinder", ⟨cylinder.Indices32.length, box.Indices32.length,
            ((box.Vertices.length : Nat) : Int)⟩),
         ("cone", ⟨cone.Indices32.length, box.Indices32.length + cylinder.Indices32.length,
            ((box.Vertices.length + cylinder.Vertices.length : Nat) : Int)⟩),
         ("pyramid", ⟨pyramid.Indices32.length,
            box.Indices32.length + cylinder.Indices32.length + cone.Indices32.length,
            ((box.Vertices.length + cylinder.Vertices.length + cone.Vertices.length : Nat)
              : Int)⟩),
         ("box2", ⟨box2.Indices32.length,
            box.Indices32.length + cylinder.Indices32.length + cone.Indices32.length +
              pyramid.Indices32.length,
            ((box.Vertices.length + cylinder.Vertices.length + cone.Vertices.length +
              pyramid.Vertices.length : Nat) : Int)⟩),
         ("wedge", ⟨wedge.Indices32.length,
            box.Indices32.length + cylinder.Indices32.length + cone.Indices32.length +
              pyramid.Indices32.length + box2.Indices32.length,
            ((box.Vertices.length + cylinder.Vertices.length + cone.Vertices.length +
              pyramid.Vertices.length + box2.Vertices.length : Nat) : Int)⟩),
         ("diamond", ⟨diamond.Indices32.length,
            box.Indices32.length + cylinder.Indices32.length + cone.Indices32.length +
              pyramid.Indices32.length + box2.Indices32.length + wedge.Indices32.length,
            ((box.Vertices.length + cylinder.Vertices.length + cone.Vertices.length +
              pyramid.Vertices.length + box2.Vertices.length + wedge.Vertices.length : Nat)
              : Int)⟩),
         ("flag", ⟨flag.Indices32.length,
            box.Indices32.length + cylinder.Indices32.length + cone.Indices32.length +
              pyramid.Indices32.length + box2.Indices32.length + wedge.Indices32.length +
              diamond.Indices32.length,
            ((box.Vertices.length + cylinder.Vertices.length + cone.Vertices.length +
              pyramid.Vertices.length + box2.Vertices.length + wedge.Vertices.length +
              diamond.Vertices.length : Nat) : Int)⟩),
         ("pipe", ⟨pipe.Indices32.length,
            box.Indices32.length + cylinder.Indices32.length + cone.Indices32.length +
              pyramid.Indices32.length + box2.Indices32.length + wedge.Indices32.length +
              diamond.Indices32.length + flag.Indices32.length,
            ((box.Vertices.length + cylinder.Vertices.length + cone.Vertices.length +
              pyramid.Vertices.length + box2.Vertices.length + wedge.Vertices.length +
              diamond.Vertices.length + flag.Vertices.length : Nat) : Int)⟩)])
    (p : Nat) (name : String) (mesh : MeshData)
    (hp : (shapeList box cylinder cone pyramid box2 wedge diamond flag pipe)[p]? =
      some (name, mesh)) :
    assocFind geo.DrawArgs name = some
      { IndexCount := mesh.Indices32.length
        StartIndexLocation :=
          (((shapeList box cylinder cone pyramid box2 wedge diamond flag pipe).take p).map
            fun s => s.2.Indices32.length).sum
        BaseVertexLocation :=
          (((((shapeList box cylinder cone pyramid box2 wedge diamond flag pipe).take p).map
            fun s => s.2.Vertices.length).sum : Nat) : Int) } := by
  rw [hd]
  match p, hp with
  | 0, hp =>
    simp only [shapeList, List.getElem?_cons_zero, Option.some.injEq, Prod.mk.injEq] at hp
    obtain ⟨rfl, rfl⟩ := hp
    simp +decide [assocFind, shapeList]
  | 1, hp =>
    simp only [shapeList, List.getElem?_cons_succ, List.getElem?_cons_zero, Option.some.injEq,
      Prod.mk.injEq] at hp
    obtain ⟨rfl, rfl⟩ := hp
    simp +decide [assocFind, shapeList]
  | 2, hp =>
    simp only [shapeList, List.getElem?_cons_succ, List.getElem?_cons_zero, Option.some.injEq,
      Prod.mk.injEq] at hp
    obtain ⟨rfl, rfl⟩ := hp
    simp +decide [assocFind, shapeList]
  | 3, hp =>
    simp only [shapeList, List.getElem?_cons_succ, List.getElem?_cons_zero, Option.some.injEq,
      Prod.mk.injEq] at hp
    obtain ⟨rfl, rfl⟩ := hp
    simp +decide [assocFind, shapeList]
    refine ⟨by omega, by omega⟩
  | 4, hp =>
    simp only [shapeList, List.getElem?_cons_succ, List.getElem?_cons_zero, Option.some.injEq,
      Prod.mk.injEq] at hp
    obtain ⟨rfl, rfl⟩ := hp
    simp +decide [assocFind, shapeList]
    refine ⟨by omega, by omega⟩
  | 5, hp =>
    simp only [shapeList, List.getElem?_cons_succ, List.getElem?_cons_zero, Option.some.injEq,
      Prod.mk.injEq] at hp
    obtain ⟨rfl, rfl⟩ := hp
    simp +decide [assocFind, shapeList]
    refine ⟨by omega, by omega⟩
  | 6, hp =>
    simp only [shapeList, List.getElem?_cons_succ, List.getElem?_cons_zero, Option.some.injEq,
      Prod.mk.injEq] at hp
    obtain ⟨rfl, rfl⟩ := hp
    simp +decide [assocFind, shapeList]
    refine ⟨by omega, by omega⟩
  | 7, hp =>
    simp only [shapeList, List.getElem?_cons_succ, List.getElem?_cons_zero, Option.some.injEq,
      Prod.mk.injEq] at hp
    obtain ⟨rfl, rfl⟩ := hp
    simp +decide [assocFind, shapeList]
    refine ⟨by omega, by omega⟩
  | 8, hp =>
    simp only [shapeList, List.getElem?_cons_succ, List.getElem?_cons_zero, Option.some.injEq,
      Prod.mk.injEq] at hp
    obtain ⟨rfl, rfl⟩ := hp
    simp +decide [assocFind, shapeList]
    refine ⟨by omega, by omega⟩
  | q + 9, hp =>
    simp [shapeList] at hp

/-- C24: let the vertex count of the nine meshes fit an `INT`, their index count a
`UINT`, and let `GetIndices16()` return as many indices as `Indices32` holds.
Then `BuildShapeGeometry` returns, the submesh table holds the names box,
cylinder, cone, pyramid, box2, wedge, diamond, flag, pipe, and for the shape at
position `p` of this order the registered submesh has `BaseVertexLocation` and
`StartIndexLocation` equal to the sums of the vertex counts and of the index
counts of the shapes before it, and `IndexCount` equal to its own index count;
`vertices[Base + i]` is the shape's `i`-th vertex and `indices[Start + i]` is
its `i`-th index.  The region of a shape ends where the region of the next
shape starts, the first region starts at 0, and the last one ends at the end
of the vector: the nine regions are pairwise disjoint and together cover the
vertex vector and the index vector exactly. -/
theorem BuildShapeGeometry_regions
    (box cylinder cone pyramid box2 wedge diamond flag pipe : MeshData)
    (h16 : ∀ s ∈ shapeList box cylinder cone pyramid box2 wedge diamond flag pipe,
      s.2.GetIndices16.length = s.2.Indices32.length)
    (hv : box.Vertices.length + cylinder.Vertices.length + cone.Vertices.length +
      pyramid.Vertices.length + box2.Vertices.length + wedge.Vertices.length +
      diamond.Vertices.length + flag.Vertices.length + pipe.Vertices.length < 2147483648)
    (hi : box.Indices32.length + cylinder.Indices32.length + cone.Indices32.length +
      pyramid.Indices32.length + box2.Indices32.length + wedge.Indices32.length +
      diamond.Indices32.length + flag.Indices32.length + pipe.Indices32.length < 4294967296) :
    ∃ geo, BuildShapeGeometry box cylinder cone pyramid box2 wedge diamond flag pipe = some geo ∧
      geo.DrawArgs.map Prod.fst =
        ["box", "cylinder", "cone", "pyramid", "box2", "wedge", "diamond", "flag", "pipe"] ∧
      (shapeList box cylinder cone pyramid box2 wedge diamond flag pipe).map Prod.fst =
        ["box", "cylinder", "cone", "pyramid", "box2", "wedge", "diamond", "flag", "pipe"] ∧
      geo.vertices.length =
        (((shapeList box cylinder cone pyramid box2 wedge diamond flag pipe).take 9).map
          fun s => s.2.Vertices.length).sum ∧
      geo.indices.length =
        (((shapeList box cylinder cone pyramid box2 wedge diamond flag pipe).take 9).map
          fun s => s.2.Indices32.length).sum ∧
      ∀ (p : Nat) (name : String) (mesh : MeshData),
        (shapeList box cylinder cone pyramid box2 wedge diamond flag pipe)[p]? =
          some (name, mesh) →
        (∃ sub, assocFind geo.DrawArgs name = some sub ∧
          sub.BaseVertexLocation =
            (((((shapeList box cylinder cone pyramid box2 wedge diamond flag pipe).take p).map
              fun s => s.2.Vertices.length).sum : Nat) : Int) ∧
          sub.StartIndexLocation =
            (((shapeList box cylinder cone pyramid box2 wedge diamond flag pipe).take p).map
              fun s => s.2.Indices32.length).sum ∧
          sub.IndexCount = mesh.Indices32.length) ∧
        (∀ (i : Nat) (v : GeoVertex), mesh.Vertices[i]? = some v →
          geo.vertices[(((shapeList box cylinder cone pyramid box2 wedge diamond flag pipe).take
              p).map fun s => s.2.Vertices.length).sum + i]? =
            some { Pos := v.Position, Normal := v.Normal, TexC := v.TexC }) ∧
        (∀ (i x : Nat), mesh.GetIndices16[i]? = some x →
          geo.indices[(((shapeList box cylinder cone pyramid box2 wedge diamond flag pipe).take
              p).map fun s => s.2.Indices32.length).sum + i]? = some x) ∧
        (((shapeList box cylinder cone pyramid box2 wedge diamond flag pipe).take (p + 1)).map
            fun s => s.2.Vertices.length).sum =
          (((shapeList box cylinder cone pyramid box2 wedge diamond flag pipe).take p).map
            fun s => s.2.Vertices.length).sum + mesh.Vertices.length ∧
        (((shapeList box cylinder cone pyramid box2 wedge diamond flag pipe).take (p + 1)).map
            fun s => s.2.Indices32.length).sum =
          (((shapeList box cylinder cone pyramid box2 wedge diamond flag pipe).take p).map
            fun s => s.2.Indices32.length).sum + mesh.Indices32.length := by
  obtain ⟨geo, hg, gv, gi, gd⟩ :=
    BuildShapeGeometry_eq box cylinder cone pyramid box2 wedge diamond flag pipe hv hi
  have gv2 : geo.vertices =
      ((shapeList box cylinder cone pyramid box2 wedge diamond flag pipe).map
        fun s => s.2.Vertices.map shapeVertex).flatten := by
    rw [gv]; rfl
  have gi2 : geo.indices =
      ((shapeList box cylinder cone pyramid box2 wedge diamond flag pipe).map
        fun s => s.2.GetIndices16).flatten := by
    rw [gi]; rfl
  have hlenV : ∀ p, ((((shapeList box cylinder cone pyramid box2 wedge diamond flag pipe).map
        fun s => s.2.Vertices.map shapeVertex).take p).map List.length).sum =
      (((shapeList box cylinder cone pyramid box2 wedge diamond flag pipe).take p).map
        fun s => s.2.Vertices.length).sum := by
    intro p
    rw [← List.map_take, List.map_map]
    congr 1
    apply List.map_congr_left
    intro s _
    simp
  have hlenI : ∀ p, ((((shapeList box cylinder cone pyramid box2 wedge diamond flag pipe).map
        fun s => s.2.GetIndices16).take p).map List.length).sum =
      (((shapeList box cylinder cone pyramid box2 wedge diamond flag pipe).take p).map
        fun s => s.2.Indices32.length).sum := by
    intro p
    rw [← List.map_take, List.map_map]
    congr 1
    apply List.map_congr_left
    intro s hs
    simp only [Function.comp]
    exact h16 s (List.mem_of_mem_take hs)
  refine ⟨geo, hg, by rw [gd]; rfl, rfl, ?_, ?_, ?_⟩
  · rw [gv2, List.length_flatten, ← hlenV 9]
    simp [shapeList]
  · rw [gi2, List.length_flatten, ← hlenI 9]
    simp [shapeList]
  · intro p name mesh hp
    refine ⟨⟨_, BuildShapeGeometry_drawArgs box cylinder cone pyramid box2 wedge diamond flag
      pipe geo gd p name mesh hp, rfl, rfl, rfl⟩, ?_, ?_,
      take_succ_sum _ (fun s => s.2.Vertices.length) p (name, mesh) hp,
      take_succ_sum _ (fun s => s.2.Indices32.length) p (name, mesh) hp⟩
    · intro i v hiv
      rw [gv2, ← hlenV p]
      refine flatten_get _ p i (mesh.Vertices.map shapeVertex) _ ?_ ?_
      · rw [List.getElem?_map, hp]; rfl
      · rw [List.getElem?_map, hiv]; rfl
    · intro i x hix
      rw [gi2, ← hlenI p]
      refine flatten_get _ p i mesh.GetIndices16 _ ?_ hix
      rw [List.getElem?_map, hp]; rfl

theorem demoMeshes_sizes :
    (∀ s ∈ shapeList demoSquare demoTriangle demoTriangle demoSquare demoSquare demoTriangle
        demoSquare demoTriangle demoSquare,
      s.2.GetIndices16.length = s.2.Indices32.length) ∧
    demoSquare.Vertices.length + demoTriangle.Vertices.length + demoTriangle.Vertices.length +
      demoSquare.Vertices.length + demoSquare.Vertices.length + demoTriangle.Vertices.length +
      demoSquare.Vertices.length + demoTriangle.Vertices.length + demoSquare.Vertices.length
      < 2147483648 ∧
    demoSquare.Indices32.length + demoTriangle.Indices32.length + demoTriangle.Indices32.length +
      demoSquare.Indices32.length + demoSquare.Indices32.length + demoTriangle.Indices32.length +
      demoSquare.Indices32.length + demoTriangle.Indices32.length + demoSquare.Indices32.length
      < 4294967296 := by
  refine ⟨?_, by decide, by decide⟩
  intro s hs
  simp only [shapeList, List.mem_cons, List.mem_singleton, List.not_mem_nil, or_false] at hs
  rcases hs with rfl | rfl | rfl | rfl | rfl | rfl | rfl | rfl | rfl <;> rfl

theorem BuildShapeGeometry_regions_witness :
    ((∀ s ∈ shapeList demoSquare demoTriangle demoTriangle demoSquare demoSquare demoTriangle
        demoSquare demoTriangle demoSquare,
      s.2.GetIndices16.length = s.2.Indices32.length) ∧
    demoSquare.Vertices.length + demoTriangle.Vertices.length + demoTriangle.Vertices.length +
      demoSquare.Vertices.length + demoSquare.Vertices.length + demoTriangle.Vertices.length +
      demoSquare.Vertices.length + demoTriangle.Vertices.length + demoSquare.Vertices.length
      < 2147483648 ∧
    demoSquare.Indices32.length + demoTriangle.Indices32.length + demoTriangle.Indices32.length +
      demoSquare.Indices32.length + demoSquare.Indices32.length + demoTriangle.Indices32.length +
      demoSquare.Indices32.length + demoTriangle.Indices32.length + demoSquare.Indices32.length
      < 4294967296) ∧
    ∃ geo, BuildShapeGeometry demoSquare demoTriangle demoTriangle demoSquare demoSquare
        demoTriangle demoSquare demoTriangle demoSquare = some geo ∧
      geo.DrawArgs.map Prod.fst =
        ["box", "cylinder", "cone", "pyramid", "box2", "wedge", "diamond", "flag", "pipe"] :=
  ⟨demoMeshes_sizes,
    (by
      obtain ⟨geo, h1, h2, _⟩ := BuildShapeGeometry_regions demoSquare demoTriangle demoTriangle
        demoSquare demoSquare demoTriangle demoSquare demoTriangle demoSquare
        demoMeshes_sizes.1 demoMeshes_sizes.2.1 demoMeshes_sizes.2.2
      exact ⟨geo, h1, h2⟩)⟩

/-- The shape geometry of the demo meshes, evaluated: 32 vertices and 42 indices,
the cone (third shape) starting at vertex 7 and index 9. -/
theorem BuildShapeGeometry_demo :
    ∃ geo, BuildShapeGeometry demoSquare demoTriangle demoTriangle demoSquare demoSquare
        demoTriangle demoSquare demoTriangle demoSquare = some geo ∧
      geo.vertices.length = 32 ∧ geo.indices.length = 42 ∧
      assocFind geo.DrawArgs "cone" =
        some { IndexCount := 3, StartIndexLocation := 9, BaseVertexLocation := 7 } := by
  obtain ⟨geo, h1, _, _, h4, h5, h6⟩ := BuildShapeGeometry_regions demoSquare demoTriangle
    demoTriangle demoSquare demoSquare demoTriangle demoSquare demoTriangle demoSquare
    demoMeshes_sizes.1 demoMeshes_sizes.2.1 demoMeshes_sizes.2.2
  obtain ⟨⟨sub, s1, s2, s3, s4⟩, _⟩ := h6 2 "cone" demoTriangle rfl
  refine ⟨geo, h1, by rw [h4]; rfl, by rw [h5]; rfl, ?_⟩
  rw [s1]
  cases sub
  simp only at s2 s3 s4
  subst s2 s3 s4
  rfl

/-! ## Claim C29: the names the `BuildShape` calls use -/

theorem mapFind_mapAssign (m : List (String × Option Material)) (k k1 : String)
    (v : Option Material) :
    mapFind (mapAssign m k v) k1 = if k = k1 then some v else mapFind m k1 := by
  induction m with
  | nil =>
    by_cases h : k = k1
    · simp [mapAssign, mapFind, h]
    · simp [mapAssign, mapFind, h]
  | cons e rest ih =>
    simp only [mapAssign]
    by_cases he : e.1 = k
    · by_cases h : k = k1
      · simp [he, h, mapFind]
      · have h2 : ¬ e.1 = k1 := by rw [he]; exact h
        simp [he, h, h2, mapFind]
    · by_cases h : k = k1
      · subst h
        simp [he, mapFind, ih]
      · by_cases h3 : e.1 = k1
        · have h4 : ¬ k1 = k := fun x => h x.symm
          simp [he, h, h3, h4, mapFind]
        · simp [he, h, h3, mapFind, ih]

/-- Whatever the map held before, after `BuildMaterials` each of the eleven names
holds a material of that name. -/
theorem BuildMaterials_registered (s : App) :
    ∀ k ∈ ["grass", "water", "drawbridge", "blackstone", "bloodstone", "jadewood", "pole",
        "well", "headge", "quebert", "treeSprites"],
      ∃ mat, mapFind (BuildMaterials s).mMaterials k = some (some mat) ∧ mat.Name = k := by
  have hjoin : ∀ (o : Option (Option Material)) (k : String),
      o.join.map (fun mat => mat.Name) = some k → ∃ mat, o = some (some mat) ∧ mat.Name = k := by
    intro o k h
    cases o with
    | none => simp at h
    | some o1 =>
      cases o1 with
      | none => simp at h
      | some mat => exact ⟨mat, rfl, by simpa using h⟩
  intro k hk
  apply hjoin
  simp only [List.mem_cons, List.mem_singleton, List.not_mem_nil, or_false] at hk
  rcases hk with rfl | rfl | rfl | rfl | rfl | rfl | rfl | rfl | rfl | rfl | rfl <;>
    simp +decide only [BuildMaterials, mapFind_mapAssign, if_true, if_false]

set_option maxRecDepth 100000 in
/-- C29: every `BuildShape` call of `BuildRenderItems` names one of the nine
submeshes box, cylinder, cone, pyramid, box2, wedge, diamond, flag, pipe, which
`BuildShapeGeometry` registers in the submesh table of `"shapeGeo"`, so the
lookup `DrawArgs[shapeName]` finds a registered submesh; and it names a
material that holds a material of that name after `BuildMaterials`, whatever
the map held before.  In the state `Initialize` returns no render item has a
null material, every item of `"shapeGeo"` carries one of the nine submesh
names, and the material map holds the eleven entries of `BuildMaterials` and
no default-inserted one. -/
theorem BuildShape_calls_use_registered_names
    (box cylinder cone pyramid box2 wedge diamond flag pipe : MeshData)
    (hv : box.Vertices.length + cylinder.Vertices.length + cone.Vertices.length +
      pyramid.Vertices.length + box2.Vertices.length + wedge.Vertices.length +
      diamond.Vertices.length + flag.Vertices.length + pipe.Vertices.length < 2147483648)
    (hi : box.Indices32.length + cylinder.Indices32.length + cone.Indices32.length +
      pyramid.Indices32.length + box2.Indices32.length + wedge.Indices32.length +
      diamond.Indices32.length + flag.Indices32.length + pipe.Indices32.length < 4294967296) :
    shapeCalls.length = 91 ∧
    (∃ geo, BuildShapeGeometry box cylinder cone pyramid box2 wedge diamond flag pipe = some geo ∧
      geo.DrawArgs.map Prod.fst =
        ["box", "cylinder", "cone", "pyramid", "box2", "wedge", "diamond", "flag", "pipe"] ∧
      ∀ c ∈ shapeCalls, c.1 ∈ geo.DrawArgs.map Prod.fst ∧
        ∃ sub, assocFind geo.DrawArgs c.1 = some sub) ∧
    (∀ (s : App), ∀ c ∈ shapeCalls,
      ∃ mat, mapFind (BuildMaterials s).mMaterials c.2 = some (some mat) ∧ mat.Name = c.2) ∧
    ∃ t, Initialize {} = some t ∧
      (∀ e ∈ t.mAllRitems, e.Mat ≠ none) ∧
      (∀ e ∈ t.mAllRitems, e.Geo = "shapeGeo" →
        e.DrawArg ∈ ["box", "cylinder", "cone", "pyramid", "box2", "wedge", "diamond", "flag",
          "pipe"]) ∧
      (t.mAllRitems.filter fun e => e.Geo = "shapeGeo").map (fun e => (e.DrawArg, e.Mat)) =
        shapeCalls.map (fun c => (c.1, some c.2)) ∧
      t.mMaterials = (BuildMaterials {}).mMaterials ∧ t.mMaterials.length = 11 := by
  obtain ⟨geo, hg, _, _, gd⟩ :=
    BuildShapeGeometry_eq box cylinder cone pyramid box2 wedge diamond flag pipe hv hi
  have hnames : geo.DrawArgs.map Prod.fst =
      ["box", "cylinder", "cone", "pyramid", "box2", "wedge", "diamond", "flag", "pipe"] := by
    rw [gd]; rfl
  have hshape : ∀ c ∈ shapeCalls,
      c.1 ∈ ["box", "cylinder", "cone", "pyramid", "box2", "wedge", "diamond", "flag",
        "pipe"] := by decide
  have hmat : ∀ c ∈ shapeCalls,
      c.2 ∈ ["grass", "water", "drawbridge", "blackstone", "bloodstone", "jadewood", "pole",
        "well", "headge", "quebert", "treeSprites"] := by decide
  have hfind : ∀ (m : List (String × SubmeshGeometry)) (k : String),
      k ∈ m.map Prod.fst → ∃ sub, assocFind m k = some sub := by
    intro m k hk
    induction m with
    | nil => simp at hk
    | cons e rest ih =>
      by_cases he : e.1 = k
      · exact ⟨e.2, by simp [assocFind, he]⟩
      · simp only [List.map_cons, List.mem_cons] at hk
        rcases hk with hk | hk
        · exact absurd hk.symm he
        · obtain ⟨sub, hs⟩ := ih hk
          exact ⟨sub, by simp [assocFind, he, hs]⟩
  refine ⟨by decide, ⟨geo, hg, hnames, fun c hc => ?_⟩,
    fun s c hc => BuildMaterials_registered s c.2 (hmat c hc),
    ⟨(Initialize {}).getD {}, by decide, by decide, by decide, by decide, by decide,
      by decide⟩⟩
  have hin : c.1 ∈ geo.DrawArgs.map Prod.fst := by rw [hnames]; exact hshape c hc
  exact ⟨hin, hfind _ _ hin⟩

theorem BuildShape_calls_use_registered_names_witness :
    (demoSquare.Vertices.length + demoTriangle.Vertices.length + demoTriangle.Vertices.length +
      demoSquare.Vertices.length + demoSquare.Vertices.length + demoTriangle.Vertices.length +
      demoSquare.Vertices.length + demoTriangle.Vertices.length + demoSquare.Vertices.length
      < 2147483648 ∧
    demoSquare.Indices32.length + demoTriangle.Indices32.length + demoTriangle.Indices32.length +
      demoSquare.Indices32.length + demoSquare.Indices32.length + demoTriangle.Indices32.length +
      demoSquare.Indices32.length + demoTriangle.Indices32.length + demoSquare.Indices32.length
      < 4294967296) ∧
    ∃ geo, BuildShapeGeometry demoSquare demoTriangle demoTriangle demoSquare demoSquare
        demoTriangle demoSquare demoTriangle demoSquare = some geo ∧
      ∀ c ∈ shapeCalls, c.1 ∈ geo.DrawArgs.map Prod.fst ∧
        ∃ sub, assocFind geo.DrawArgs c.1 = some sub :=
  ⟨⟨by decide, by decide⟩,
    (by
      obtain ⟨_, ⟨geo, h1, _, h3⟩, _⟩ := BuildShape_calls_use_registered_names demoSquare
        demoTriangle demoTriangle demoSquare demoSquare demoTriangle demoSquare demoTriangle
        demoSquare (by decide) (by decide)
      exact ⟨geo, h1, h3⟩)⟩

end TreeBillboards
